import Mathlib

/-!
# gitlab-orchestrator: the scheduler and the job-ordering helpers

A shallow embedding of `internal/scheduler/scheduler.go`, `internal/internal.go`
and the store operations of `internal/database/operations.go` they use.

* Go `uint` is a natural number below `2 ^ 64`, Go `int` an integer in the
  64-bit two's-complement range; the conversion `int(x)` is `toInt64`.
* The store is five tables, each a list of rows in table order.  A query
  filters a table and returns the rows in table order (in the order of the
  `ORDER BY` column where the query has one, rows with equal keys in table
  order); an `UPDATE ... WHERE id = ?` rewrites every row carrying that
  primary key.  No operation of the scheduler deletes a row, so the
  soft-delete column and the created/updated timestamps are left out.
* `tx.Model(&row).Update(...)` also stores the new value in the caller's copy
  of the row; the executors read only the `ID` of that copy afterwards, so the
  copy is not threaded through.
* Every store operation and every provider call may fail.  The environment
  `Env` answers the `n`-th store operation and the `n`-th provider call of
  each lane; the world records the histories (`log`, `calls`,
  `provisioning`).
* The polling loop of `monitorJobStatus` never ends on its own, so the
  functions that reach it take a bound on the number of polls per job and
  return `none` when the bound is used up.
* The store is Postgres (database/db.go:22) with the schema GORM derives from
  `models/models.go`.  A transaction writes the tables in place and a rollback
  restores them; a statement Postgres rejects leaves its transaction failed,
  and a failed transaction is rolled back when it ends, whatever the client
  sends.  An inserted row gets the key one above every key of its table.
* With one slot in each semaphore the tasks of `CheckCreatedStands` run one
  after the other, in the order of the stands found.
* Where the order of the actions of the goroutines matters, a lane is a
  transition system (`Lane`): a move is one action of the goroutine of the
  lane or of a task on the active set, the semaphore or the wait group, and a
  schedule is a list of moves.  The sequential reading is one of its
  schedules.
* `json.Marshal` and `json.Unmarshal` of a `[]string` are functions on
  Unicode text; the bodies of the two variable requests are the strings
  `fmt.Sprintf` builds.
-/

namespace Orchestrator

/-! ## Status vocabulary (scheduler.go:16-24) -/

def StatusPending : String := "pending"
def StatusManual : String := "manual"
def StatusRunning : String := "running"
def StatusError : String := "error"
def StatusFailed : String := "failed"
def StatusSuccess : String := "success"
def StatusCanceled : String := "canceled"

/-! ## Rows (models/models.go) -/

structure Stand where
  ID : Nat := 0
  Name : String := ""
  UserID : Nat := 0
  Products : String := ""
  CurrentPipelineID : Nat := 0
  Status : String := ""
  Ref : String := ""
deriving DecidableEq, Repr, Inhabited

structure Pipeline where
  ID : Nat := 0
  Name : String := ""
  StandID : Nat := 0
  Status : String := ""
  GitlabPipelineID : Int := 0
deriving DecidableEq, Repr, Inhabited

structure Step where
  ID : Nat := 0
  Name : String := ""
  Description : String := ""
  Order : Int := 0
  PipelineID : Nat := 0
  Status : String := ""
deriving DecidableEq, Repr, Inhabited

structure Job where
  ID : Nat := 0
  Name : String := ""
  Description : String := ""
  StepID : Nat := 0
  GitlabJobID : Int := 0
  Stage : String := ""
  Status : String := ""
  Order : Int := 0
  StartedAt : Option Nat := none
  FinishedAt : Option Nat := none
deriving DecidableEq, Repr, Inhabited

structure StepState where
  ID : Nat := 0
  StandName : String := ""
  StepName : String := ""
  UserID : Nat := 0
  Status : String := ""
  Send : Bool := false
  Order : Int := 0
deriving DecidableEq, Repr, Inhabited

/-! ## Histories and environment -/

/-- A call the pending lane makes to the CI provider (the job methods of the
`gitlab.Gitlab` interface, client.go:37-49). -/
inductive Call where
  | runJob (jobID : Int)
  | getJobStatus (jobID : Int)
deriving DecidableEq, Repr

/-- A call the created lane makes to the CI provider (the other methods of
the `gitlab.Gitlab` interface, client.go:37-49). -/
inductive Provision where
  | checkBranchExist (branchName : String)
  | cloneBranch (branchName refBranch : String)
  | checkEnvironmentExist (branchName : String)
  | createEnvironmentIntoRepository (branchName : String)
  | checkVariablesIntoEnvironment (branchName : String)
  | createVariablesIntoEnvironment (branchName : String) (products : List String)
  | updateVariablesIntoEnvironment (branchName : String) (products : List String)
  | runPipeline (branchName : String)
  | getJobsFromPipeline (pipelineID : Int)
deriving DecidableEq, Repr

/-- A store operation: the queries and single-row writes of the pending lane,
the statements of the recovery pass, the operations of the created lane and
the insert of a stand. -/
inductive DbOp where
  | findPipelines (standID : Nat)
  | findSteps (pipelineID : Nat)
  | findJobs (stepID : Nat)
  | firstStep (stepID : Nat)
  | updateStand (id : Nat) (status : String)
  | updatePipeline (id : Nat) (status : String)
  | updateStep (id : Nat) (status : String)
  | updateJobStatus (id : Nat) (status : String)
  | updateJobStartedAt (id : Nat)
  | updateJobFinishedAt (id : Nat)
  | createStepState (row : StepState)
  | findStands (status : String)
  | execStands (standID : Nat)
  | execPipelines (standID : Nat)
  | execJobs (standID : Nat)
  | execSteps (standID : Nat)
  | commit
  | rollback
  | firstStandByName (name : String)
  | firstPipelineByName (name : String)
  | createPipeline (row : Pipeline)
  | savePipeline (row : Pipeline)
  | createStep (row : Step)
  | findStepsByStandName (name : String)
  | createJobs (rows : List Job)
  | createStand (row : Stand)
deriving DecidableEq, Repr

/-- The outside world: which store operations fail and what the provider
answers.  `dbFails n` is the outcome of the store operation issued when `n`
operations were issued before it; `runJob n id` and `getJobStatus n id` are
the provider's answers to a call made after `n` earlier calls of the pending
lane, the fields from `checkBranchExist` to `getJobsFromPipeline` its answers
to a call made after `n` earlier calls of the created lane (an `Option` is the
error of a call without a result).  `unmarshal` is `json.Unmarshal` of a
`products` column into a `[]string`. -/
structure Env where
  dbFails : Nat → Bool
  runJob : Nat → Int → Option String
  getJobStatus : Nat → Int → Except String String
  checkBranchExist : Nat → String → Except String Bool := fun _ _ => .ok true
  cloneBranch : Nat → String → String → Option String := fun _ _ _ => none
  checkEnvironmentExist : Nat → String → Except String Bool := fun _ _ => .ok true
  createEnvironmentIntoRepository : Nat → String → Option String := fun _ _ => none
  checkVariablesIntoEnvironment : Nat → String → Except String Bool := fun _ _ => .ok true
  createVariablesIntoEnvironment : Nat → String → List String → Option String :=
    fun _ _ _ => none
  updateVariablesIntoEnvironment : Nat → String → List String → Option String :=
    fun _ _ _ => none
  runPipeline : Nat → String → Except String Int := fun _ _ => .ok 0
  getJobsFromPipeline : Nat → Int → Except String (List Job) := fun _ _ => .ok []
  unmarshal : String → Except String (List String) := fun _ => .ok []

/-- The scheduler's state: the five tables, the `jobStatuses` cache and the
`activeStands` set of the `Runner`, the histories of provider calls and store
operations and the clock read by `time.Now()`.  `txFailed` is the state of the
open transaction of the created lane: a statement of it was rejected. -/
structure World where
  stands : List Stand := []
  pipelines : List Pipeline := []
  steps : List Step := []
  jobs : List Job := []
  stepStates : List StepState := []
  jobStatuses : List (String × String) := []
  calls : List Call := []
  log : List DbOp := []
  clock : Nat := 0
  activeStands : List String := []
  provisioning : List Provision := []
  txFailed : Bool := false
deriving DecidableEq, Repr, Inhabited

/-- Record a store operation in the history. -/
def World.issue (w : World) (op : DbOp) : World :=
  { w with log := w.log ++ [op] }

/-- Record a provider call in the history. -/
def World.called (w : World) (c : Call) : World :=
  { w with calls := w.calls ++ [c] }

/-! ## The `jobStatuses` cache (`sync.Map`) -/

def cacheLoad (m : List (String × String)) (k : String) : Option String :=
  m.lookup k

def cacheDelete (m : List (String × String)) (k : String) : List (String × String) :=
  m.filter (fun e => e.1 != k)

def cacheStore (m : List (String × String)) (k v : String) : List (String × String) :=
  (k, v) :: cacheDelete m k

/-- The cache key of a job, `fmt.Sprintf("job_%d", job.GitlabJobID)`. -/
def jobKey (job : Job) : String :=
  "job_" ++ toString job.GitlabJobID

/-! ## Store operations (database/operations.go)

`tx.Model(&row).Update(column, value)` is `UPDATE ... SET column = value WHERE
id = row.ID`: it rewrites the rows carrying that primary key. -/

def setStandStatus (id : Nat) (status : String) (rows : List Stand) : List Stand :=
  rows.map (fun s => if s.ID = id then { s with Status := status } else s)

def setPipelineStatus (id : Nat) (status : String) (rows : List Pipeline) : List Pipeline :=
  rows.map (fun p => if p.ID = id then { p with Status := status } else p)

def setStepStatus (id : Nat) (status : String) (rows : List Step) : List Step :=
  rows.map (fun s => if s.ID = id then { s with Status := status } else s)

def setJobStatus (id : Nat) (status : String) (rows : List Job) : List Job :=
  rows.map (fun j => if j.ID = id then { j with Status := status } else j)

def setJobStartedAt (id : Nat) (t : Nat) (rows : List Job) : List Job :=
  rows.map (fun j => if j.ID = id then { j with StartedAt := some t } else j)

def setJobFinishedAt (id : Nat) (t : Nat) (rows : List Job) : List Job :=
  rows.map (fun j => if j.ID = id then { j with FinishedAt := some t } else j)

/-- `UpdateJobStatus` (operations.go:88-93). -/
def UpdateJobStatus (env : Env) (w : World) (status : String) (job : Job) :
    World × Option String :=
  let w1 := w.issue (.updateJobStatus job.ID status)
  if env.dbFails w.log.length then (w1, some "job status update failed")
  else
    ({ w1 with jobs := setJobStatus job.ID status w1.jobs }, none)

/-- `UpdatePipelineStatus` (operations.go:96-101). -/
def UpdatePipelineStatus (env : Env) (w : World) (status : String) (pipeline : Pipeline) :
    World × Option String :=
  let w1 := w.issue (.updatePipeline pipeline.ID status)
  if env.dbFails w.log.length then (w1, some "pipeline status update failed")
  else
    ({ w1 with pipelines := setPipelineStatus pipeline.ID status w1.pipelines }, none)

/-- `UpdateStepStatus` (operations.go:103-108). -/
def UpdateStepStatus (env : Env) (w : World) (status : String) (step : Step) :
    World × Option String :=
  let w1 := w.issue (.updateStep step.ID status)
  if env.dbFails w.log.length then (w1, some "step status update failed")
  else
    ({ w1 with steps := setStepStatus step.ID status w1.steps }, none)

/-- `UpdateStandStatus` (operations.go:110-115). -/
def UpdateStandStatus (env : Env) (w : World) (status : String) (stand : Stand) :
    World × Option String :=
  let w1 := w.issue (.updateStand stand.ID status)
  if env.dbFails w.log.length then (w1, some "stand status update failed")
  else
    ({ w1 with stands := setStandStatus stand.ID status w1.stands }, none)

/-- The identifier the store gives a new `StepState` row. -/
def nextStepStateID (rows : List StepState) : Nat :=
  (rows.map (·.ID)).foldl max 0 + 1

/-- `CreateStepNotify` (operations.go:59-86): re-read the step by primary key
with its pipeline and stand preloaded (a missing pipeline or stand leaves the
zero value), then append one `StepState` row. -/
def CreateStepNotify (env : Env) (w : World) (step : Step) (status : String) :
    World × Option String :=
  let w1 := w.issue (.firstStep step.ID)
  if env.dbFails w.log.length then (w1, some "step lookup failed")
  else
    match w1.steps.find? (fun s => s.ID == step.ID) with
    | none => (w1, some "record not found")
    | some row =>
      let pipeline := (w1.pipelines.find? (fun p => p.ID == row.PipelineID)).getD {}
      let stand := (w1.stands.find? (fun s => s.ID == pipeline.StandID)).getD {}
      let stepState : StepState :=
        { StandName := stand.Name, StepName := row.Name, UserID := stand.UserID,
          Status := status, Order := row.Order }
      let w2 := w1.issue (.createStepState stepState)
      if env.dbFails w1.log.length then (w2, some "step state insert failed")
      else
        ({ w2 with stepStates := w2.stepStates ++
            [{ stepState with ID := nextStepStateID w2.stepStates }] }, none)

/-! ## Queries of the pending lane -/

/-- Rows of `Where("step_id = ? AND status != ?", step.ID, StatusSuccess)`. -/
def pendingJobs (w : World) (stepID : Nat) : List Job :=
  w.jobs.filter (fun j => j.StepID == stepID && j.Status != StatusSuccess)

/-- Rows of `Where("pipeline_id = ? AND status = ?", ...).Order("order asc")`. -/
def pendingSteps (w : World) (pipelineID : Nat) : List Step :=
  (w.steps.filter (fun s => s.PipelineID == pipelineID && s.Status == StatusPending)).insertionSort
    (fun a b => a.Order ≤ b.Order)

/-- Rows of `Where("stand_id = ? AND status = ?", stand.ID, StatusPending)`. -/
def pendingPipelines (w : World) (standID : Nat) : List Pipeline :=
  w.pipelines.filter (fun p => p.StandID == standID && p.Status == StatusPending)

/-! ## Job monitoring (scheduler.go:509-597) -/

/-- `Runner.checkAndUpdateStatus` (scheduler.go:566-597); the result is the
new world, `finished` and `err`. -/
def checkAndUpdateStatus (env : Env) (w : World) (job : Job) (key : String) :
    World × Bool × Option String :=
  let w1 := w.called (.getJobStatus job.GitlabJobID)
  match env.getJobStatus w.calls.length job.GitlabJobID with
  | .error e => ({ w1 with jobStatuses := cacheDelete w1.jobStatuses key }, true, some e)
  | .ok status =>
    if cacheLoad w1.jobStatuses key = some status then (w1, false, none)
    else
      match UpdateJobStatus env w1 status job with
      | (w2, some e) => (w2, false, some e)
      | (w2, none) =>
        let w3 := { w2 with jobStatuses := cacheStore w2.jobStatuses key status }
        if status = StatusFailed ∨ status = StatusCanceled then
          ({ w3 with jobStatuses := cacheDelete w3.jobStatuses key }, true,
            some "stand have a failed job")
        else if status = StatusSuccess then
          ({ w3 with jobStatuses := cacheDelete w3.jobStatuses key }, true, none)
        else (w3, false, none)

/-- `Runner.monitorJobStatus` (scheduler.go:536-564): one check at once, then
one per tick, until a check reports `finished` or an error.  The first
argument bounds the number of checks. -/
def monitorJobStatus : Nat → Env → World → Job → Option (World × Option String)
  | 0, _, _, _ => none
  | polls + 1, env, w, job =>
    match checkAndUpdateStatus env w job (jobKey job) with
    | (w1, _, some e) => some (w1, some e)
    | (w1, true, none) => some (w1, none)
    | (w1, false, none) => monitorJobStatus polls env w1 job

/-- The `started_at` write of `processJob` (scheduler.go:518). -/
def updateStartedAt (env : Env) (w : World) (job : Job) : World × Option String :=
  let w1 := w.issue (.updateJobStartedAt job.ID)
  if env.dbFails w.log.length then (w1, some "started_at update failed")
  else
    ({ w1 with jobs := setJobStartedAt job.ID w1.clock w1.jobs, clock := w1.clock + 1 }, none)

/-- The `finished_at` write of `processJob` (scheduler.go:529). -/
def updateFinishedAt (env : Env) (w : World) (job : Job) : World × Option String :=
  let w1 := w.issue (.updateJobFinishedAt job.ID)
  if env.dbFails w.log.length then (w1, some "finished_at update failed")
  else
    ({ w1 with jobs := setJobFinishedAt job.ID w1.clock w1.jobs, clock := w1.clock + 1 }, none)

/-- The trigger branch of `processJob` (scheduler.go:513-523): a job without
a start time is run on the provider and its start time recorded. -/
def triggerJob (env : Env) (w : World) (job : Job) : World × Option String :=
  if job.StartedAt = none then
    let w1 := w.called (.runJob job.GitlabJobID)
    match env.runJob w.calls.length job.GitlabJobID with
    | some e => (w1, some e)
    | none => updateStartedAt env w1 job
  else (w, none)

/-- `Runner.processJob` (scheduler.go:509-534). -/
def processJob (polls : Nat) (env : Env) (w : World) (job : Job) :
    Option (World × Option String) :=
  match triggerJob env w job with
  | (w1, some e) => some (w1, some e)
  | (w1, none) =>
    match monitorJobStatus polls env w1 job with
    | none => none
    | some (w2, some e) => some (w2, some e)
    | some (w2, none) => some (updateFinishedAt env w2 job)

/-- How far `monitorJobStatus` has come after at most `polls` checks: the
world it returned with, or, while it is still polling, the world after the
`polls`-th check. -/
def monitorProgress : Nat → Env → World → Job → World
  | 0, _, w, _ => w
  | polls + 1, env, w, job =>
    match checkAndUpdateStatus env w job (jobKey job) with
    | (w1, _, some _) => w1
    | (w1, true, none) => w1
    | (w1, false, none) => monitorProgress polls env w1 job

/-- How far `processJob` has come after at most `polls` checks of the job's
status: the world it returned with, or the world in which it is still
polling. -/
def processJobProgress (polls : Nat) (env : Env) (w : World) (job : Job) : World :=
  match triggerJob env w job with
  | (w1, some _) => w1
  | (w1, none) =>
    match monitorJobStatus polls env w1 job with
    | none => monitorProgress polls env w1 job
    | some (w2, some _) => w2
    | some (w2, none) => (updateFinishedAt env w2 job).1

/-! ## Step, pipeline and stand executors (scheduler.go:382-507) -/

/-- The trigger loop of `processStep` (scheduler.go:490-500) over the loaded
jobs: each `manual` job is processed; the first error sets the step to `error`
and ends the loop. -/
def processManualJobs (polls : Nat) (env : Env) (step : Step) :
    World → List Job → Option (World × Option String)
  | w, [] => some (w, none)
  | w, job :: rest =>
    if job.Status = StatusManual then
      match processJob polls env w job with
      | none => none
      | some (w1, some _) =>
        match UpdateStepStatus env w1 StatusError step with
        | (w2, some e) => some (w2, some e)
        | (w2, none) => some (w2, some "job failed")
      | some (w1, none) => processManualJobs polls env step w1 rest
    else processManualJobs polls env step w rest

/-- `Runner.processStep` (scheduler.go:456-507). -/
def processStep (polls : Nat) (env : Env) (w : World) (step : Step) :
    Option (World × Option String) :=
  let w1 := w.issue (.findJobs step.ID)
  if env.dbFails w.log.length then some (w1, some "job query failed")
  else
    let jobs := pendingJobs w1 step.ID
    if jobs.any (fun j => j.Status == StatusFailed || j.Status == StatusCanceled) then
      match UpdateStepStatus env w1 StatusError step with
      | (w2, some e) => some (w2, some e)
      | (w2, none) => some (w2, some "step failed due to job")
    else
      match UpdateStepStatus env w1 StatusRunning step with
      | (w2, some e) => some (w2, some e)
      | (w2, none) =>
        let hasManualJobs := jobs.any (fun j => j.Status == StatusManual)
        let hasRunningJobs := jobs.any (fun j => j.Status == StatusRunning)
        let r :=
          if hasManualJobs && !hasRunningJobs then processManualJobs polls env step w2 jobs
          else some (w2, none)
        match r with
        | none => none
        | some (w3, some e) => some (w3, some e)
        | some (w3, none) => some (UpdateStepStatus env w3 StatusSuccess step)

/-- The step loop of `processPendingPipeline` (scheduler.go:428-446). -/
def processSteps (polls : Nat) (env : Env) (pipeline : Pipeline) :
    World → List Step → Option (World × Option String)
  | w, [] => some (w, none)
  | w, step :: rest =>
    match processStep polls env w step with
    | none => none
    | some (w1, some _) =>
      match UpdatePipelineStatus env w1 StatusError pipeline with
      | (w2, some e) => some (w2, some e)
      | (w2, none) =>
        match CreateStepNotify env w2 step StatusError with
        | (w3, some e) => some (w3, some e)
        | (w3, none) => some (w3, some "step failed")
    | some (w1, none) =>
      match CreateStepNotify env w1 step StatusSuccess with
      | (w2, some e) => some (w2, some e)
      | (w2, none) => processSteps polls env pipeline w2 rest

/-- `Runner.processPendingPipeline` (scheduler.go:412-454). -/
def processPendingPipeline (polls : Nat) (env : Env) (w : World) (pipeline : Pipeline) :
    Option (World × Option String) :=
  let w1 := w.issue (.findSteps pipeline.ID)
  if env.dbFails w.log.length then some (w1, some "step query failed")
  else
    let steps := pendingSteps w1 pipeline.ID
    if steps.length = 0 then some (w1, none)
    else
      match UpdatePipelineStatus env w1 StatusRunning pipeline with
      | (w2, some e) => some (w2, some e)
      | (w2, none) =>
        match processSteps polls env pipeline w2 steps with
        | none => none
        | some (w3, some e) => some (w3, some e)
        | some (w3, none) => some (UpdatePipelineStatus env w3 StatusSuccess pipeline)

/-- The pipeline loop of `processPendingStand` (scheduler.go:397-405). -/
def processPipelines (polls : Nat) (env : Env) (stand : Stand) :
    World → List Pipeline → Option (World × Option String)
  | w, [] => some (w, none)
  | w, pipeline :: rest =>
    match processPendingPipeline polls env w pipeline with
    | none => none
    | some (w1, some _) =>
      match UpdateStandStatus env w1 StatusError stand with
      | (w2, some e) => some (w2, some e)
      | (w2, none) => some (w2, some "pipeline failed")
    | some (w1, none) => processPipelines polls env stand w1 rest

/-- `Runner.processPendingStand` (scheduler.go:382-410). -/
def processPendingStand (polls : Nat) (env : Env) (w : World) (stand : Stand) :
    Option (World × Option String) :=
  let w1 := w.issue (.findPipelines stand.ID)
  if env.dbFails w.log.length then some (w1, some "pipeline query failed")
  else
    let pipelines := pendingPipelines w1 stand.ID
    if pipelines.length = 0 then some (w1, none)
    else
      match UpdateStandStatus env w1 StatusRunning stand with
      | (w2, some e) => some (w2, some e)
      | (w2, none) =>
        match processPipelines polls env stand w2 pipelines with
        | none => none
        | some (w3, some e) => some (w3, some e)
        | some (w3, none) => some (UpdateStandStatus env w3 StatusSuccess stand)

/-! ## The recovery pass (scheduler.go:96-174)

A transaction writes the tables in place; nothing else reads them before it
ends.  `Begin` is not an operation of its own: when it fails, the first
statement of the transaction reports the failure. -/

/-- The end of a transaction that is not committed: the tables are again
`snapshot`, what they were without its writes. -/
def World.restore (w snapshot : World) : World :=
  { w with stands := snapshot.stands, pipelines := snapshot.pipelines, steps := snapshot.steps,
           jobs := snapshot.jobs, stepStates := snapshot.stepStates, txFailed := false }

/-- `r.db.Begin()`: a new transaction, no statement of which has failed. -/
def World.begun (w : World) : World :=
  { w with txFailed := false }

/-- `tx.Rollback()`. -/
def World.rolledBack (w snapshot : World) : World :=
  (w.issue .rollback).restore snapshot

/-- The value of a text column of a `pipelines` row (models.go:39-52: `name`
and `status`); `none` for a name that is no text column of the table. -/
def Pipeline.text (p : Pipeline) (column : String) : Option String :=
  if column = "name" then some p.Name
  else if column = "status" then some p.Status
  else none

/-- `UPDATE pipelines SET status = 'pending', updated_at = NOW() WHERE
stand_id = ? AND <column> = 'running'`.  Postgres checks the statement against
the table before it reads a row and rejects it (`none`) when `column` is no
text column of `pipelines`. -/
def recoverPipelines (column : String) (standID : Nat) (rows : List Pipeline) :
    Option (List Pipeline) :=
  if (({} : Pipeline).text column).isSome then
    some (rows.map (fun p =>
      if p.StandID = standID ∧ p.text column = some StatusRunning then
        { p with Status := StatusPending }
      else p))
  else none

/-- The sub-query of the `jobs` and `steps` statements (scheduler.go:138-141,
154-157): the identifiers of the `running` steps of the stand's pipelines. -/
def runningStepIDs (w : World) (standID : Nat) : List Nat :=
  (w.steps.filter (fun s => s.Status == StatusRunning &&
    w.pipelines.any (fun p => p.ID == s.PipelineID && p.StandID == standID))).map (·.ID)

/-- The `jobs` statement (scheduler.go:134-143). -/
def recoverJobs (w : World) (standID : Nat) : List Job :=
  w.jobs.map (fun j =>
    if j.StepID ∈ runningStepIDs w standID ∧ j.Status ≠ StatusSuccess then
      { j with Status := StatusManual }
    else j)

/-- The `steps` statement (scheduler.go:150-158). -/
def recoverSteps (w : World) (standID : Nat) : List Step :=
  w.steps.map (fun s =>
    if s.ID ∈ runningStepIDs w standID then { s with Status := StatusPending } else s)

/-- The body of the loop of `recoverStaleStands` for one stand
(scheduler.go:104-171).  The `pipelines` statement is the one of the source,
with the column it names. -/
def recoverStand (env : Env) (w : World) (stand : Stand) : World :=
  if stand.Name ∈ w.activeStands then w
  else
    let w1 := w.issue (.execStands stand.ID)
    if env.dbFails w.log.length then w1.rolledBack w
    else
      let w2 := { w1 with stands := setStandStatus stand.ID StatusPending w1.stands }
      let w3 := w2.issue (.execPipelines stand.ID)
      match (if env.dbFails w2.log.length then none
             else recoverPipelines "статус" stand.ID w3.pipelines) with
      | none => w3.rolledBack w
      | some pipelines =>
        let w4 := { w3 with pipelines := pipelines }
        let w5 := w4.issue (.execJobs stand.ID)
        if env.dbFails w4.log.length then w5.rolledBack w
        else
          let w6 := { w5 with jobs := recoverJobs w5 stand.ID }
          let w7 := w6.issue (.execSteps stand.ID)
          if env.dbFails w6.log.length then w7.rolledBack w
          else
            let w8 := { w7 with steps := recoverSteps w7 stand.ID }
            let w9 := w8.issue .commit
            if env.dbFails w8.log.length then w9.rolledBack w
            else w9

/-- `Runner.recoverStaleStands` (scheduler.go:96-174). -/
def recoverStaleStands (env : Env) (w : World) : World × Option String :=
  let w1 := w.issue (.findStands StatusRunning)
  if env.dbFails w.log.length then (w1, some "stale stand query failed")
  else
    ((w1.stands.filter (fun s => s.Status == StatusRunning)).foldl (recoverStand env) w1, none)

/-! ## Job ordering helpers (internal/internal.go) -/

/-- The conversion `int(x)` of a `uint` on a 64-bit platform. -/
def toInt64 (n : Nat) : Int :=
  if n % 2 ^ 64 < 2 ^ 63 then ((n % 2 ^ 64 : Nat) : Int) else ((n % 2 ^ 64 : Nat) : Int) - 2 ^ 64

/-- `stageOrderMap` (internal.go:11-17); a stage that is not a key reads as 0. -/
def stageOrderMap (stage : String) : Int :=
  if stage = "terraform" then 1
  else if stage = "ansible" then 2
  else if stage = "helm" then 3
  else 0

/-- `strings.Trim(s, "[]")`: drop every leading and trailing bracket. -/
def trimBrackets (s : List Char) : List Char :=
  ((s.dropWhile (fun c => c == '[' || c == ']')).reverse.dropWhile
    (fun c => c == '[' || c == ']')).reverse

/-- `strings.Split(s, sep)` for a one-character separator. -/
def splitOnChar (sep : Char) : List Char → List (List Char)
  | [] => [[]]
  | c :: cs =>
    if c = sep then [] :: splitOnChar sep cs
    else
      match splitOnChar sep cs with
      | [] => [[c]]
      | p :: ps => (c :: p) :: ps

/-- White space as `fmt` scanning sees it (the `space` table of fmt/scan.go). -/
def isSpace (c : Char) : Bool :=
  let n := c.toNat
  (0x9 ≤ n && n ≤ 0xd) || n == 0x20 || n == 0x85 || n == 0xa0 || n == 0x1680 ||
    (0x2000 ≤ n && n ≤ 0x200a) || n == 0x2028 || n == 0x2029 || n == 0x202f ||
    n == 0x205f || n == 0x3000

/-- `SkipSpace` of `fmt.Sscanf`: leading white space is dropped, a newline in
it is an error (`none`). -/
def skipSpace : List Char → Option (List Char)
  | [] => some []
  | c :: cs =>
    if c = '\n' then none
    else if isSpace c then skipSpace cs
    else some (c :: cs)

/-- The value of a run of decimal digits. -/
def digitsValue (ds : List Char) : Nat :=
  ds.foldl (fun acc d => 10 * acc + (d.toNat - 48)) 0

/-- `fmt.Sscanf(s, "%d", &num)`: skip white space, accept one sign, read the
longest run of decimal digits and parse it as a 64-bit integer; what follows
the digits is ignored.  `none` is a scan error. -/
def sscanfInt (s : List Char) : Option Int :=
  match skipSpace s with
  | none => none
  | some [] => none
  | some (c :: cs) =>
    let neg := c == '-'
    let rest := if c == '+' || c == '-' then cs else c :: cs
    let digits := rest.takeWhile Char.isDigit
    if digits = [] then none
    else
      let v : Int := if neg then -(digitsValue digits : Int) else (digitsValue digits : Int)
      if -(2 ^ 63 : Int) ≤ v ∧ v < 2 ^ 63 then some v else none

/-- `extractNumber` (internal.go:78-92). -/
def extractNumber (s : String) : Int :=
  match splitOnChar '-' (trimBrackets s.toList) with
  | [] => 0
  | part :: _ =>
    match sscanfInt part with
    | none => 0
    | some num => num

/-- `SortNumericalPrefixStrings` (internal.go:69-76): `sort.Slice` with
`less i j := extractNumber items[i] < extractNumber items[j]`, here the
insertion sort Go runs on short slices; an element is placed before the first
one that is not less than it. -/
def SortNumericalPrefixStrings (items : List String) : List String :=
  items.insertionSort (fun a b => ¬ extractNumber b < extractNumber a)

/-- A Go `map[string]V`: one binding per key.  The order of the list is the
order in which `range` visits the map, which Go leaves unspecified. -/
abbrev GoMap (V : Type) := List (String × V)

/-- The assignment `m[k] = v`. -/
def GoMap.set {V : Type} (m : GoMap V) (k : String) (v : V) : GoMap V :=
  if m.any (fun e => e.1 == k) then m.map (fun e => if e.1 = k then (k, v) else e)
  else m ++ [(k, v)]

/-- `JobsToMap` (internal.go:57-67). -/
def JobsToMap (pipeline : List Job) : GoMap (GoMap Job) :=
  pipeline.foldl
    (fun jobMap job => jobMap.set job.Stage (((jobMap.lookup job.Stage).getD []).set job.Name job))
    []

/-- The inner loop of `ProcessJobs` over the steps (internal.go:29-33): the
last step whose order is the stage's ordinal replaces `stepID`. -/
def selectStepID (steps : List Step) (stageOrder : Int) (stepID : Nat) : Nat :=
  steps.foldl (fun id e => if e.Order = stageOrder then e.ID else id) stepID

/-- The record `ProcessJobs` builds for the job at position `jobOrder` of the
sorted names (internal.go:44-49). -/
def stampJob (stepID : Nat) (jobOrder : Nat) (job : Job) : Job :=
  { job with StepID := stepID, Order := (jobOrder : Int) + 1, GitlabJobID := toInt64 job.ID, ID := 0 }

/-- The body of the stage loop of `ProcessJobs` for one recognised stage
(internal.go:35-52): the records appended for it. -/
def stageJobs (jobs : GoMap Job) (stepID : Nat) : List Job :=
  (SortNumericalPrefixStrings (jobs.map Prod.fst)).enum.map
    (fun e => stampJob stepID e.1 ((jobs.lookup e.2).getD {}))

/-- The stage loop of `ProcessJobs` (internal.go:23-53) with its two
variables, `stepID` and `jobResult`. -/
def processStages (steps : List Step) :
    GoMap (GoMap Job) → Nat × List Job → Nat × List Job
  | [], acc => acc
  | (stageName, jobs) :: rest, (stepID, jobResult) =>
    if stageOrderMap stageName = 0 then processStages steps rest (stepID, jobResult)
    else
      let stepID1 := selectStepID steps (stageOrderMap stageName) stepID
      processStages steps rest (stepID1, jobResult ++ stageJobs jobs stepID1)

/-- `ProcessJobs` (internal.go:19-55); its error result is always `nil`. -/
def ProcessJobs (jobMap : GoMap (GoMap Job)) (steps : List Step) : List Job :=
  (processStages steps jobMap (0, [])).2

/-- `PopulateSteps` (internal.go:94-119). -/
def PopulateSteps (pipelineID : Nat) : List Step :=
  [ { Name := "Creating vm", Description := "Initial creation step", Order := 1,
      PipelineID := pipelineID, Status := "pending" },
    { Name := "Executing automation", Description := "Kubernetes installation", Order := 2,
      PipelineID := pipelineID, Status := "pending" },
    { Name := "Executing helm", Description := "Running helm", Order := 3,
      PipelineID := pipelineID, Status := "pending" } ]

/-! ## The created lane (scheduler.go:176-229, 274-380)

Every row the created lane inserts carries the zero primary key, so the store
assigns the key.  `ProcessCreatingStand` runs its store operations in one
transaction; the stand's status is written in the transaction of
`CheckCreatedStands`. -/

/-- How a call of the created lane ends: it returns, with or without an
error, or `logger.FatalfWithCaller` ends the process. -/
inductive Ending where
  | returned (err : Option String)
  | exited
deriving DecidableEq, Repr

/-- Record a provider call of the created lane in its history. -/
def World.provisioned (w : World) (c : Provision) : World :=
  { w with provisioning := w.provisioning ++ [c] }

/-- `First`: of the rows a query matches, the one with the least primary key. -/
def firstByID {α : Type} (id : α → Nat) : List α → Option α
  | [] => none
  | a :: rest =>
    match firstByID id rest with
    | none => some a
    | some b => if id b < id a then some b else some a

/-- The primary key the store assigns to a new row of a table whose keys are
`ids`. -/
def nextID (ids : List Nat) : Nat :=
  ids.foldl max 0 + 1

/-- `activeStands.Store(name, true)`. -/
def activeStore (m : List String) (name : String) : List String :=
  name :: m.filter (fun n => n != name)

/-- `activeStands.Delete(name)`. -/
def activeDelete (m : List String) (name : String) : List String :=
  m.filter (fun n => n != name)

/-- `GetStandByName` (operations.go:261-271). -/
def GetStandByName (env : Env) (w : World) (name : String) : World × Except String Stand :=
  let w1 := w.issue (.firstStandByName name)
  if env.dbFails w.log.length then (w1, .error "stand lookup failed")
  else
    match firstByID (·.ID) (w1.stands.filter (fun s => s.Name == name)) with
    | none => (w1, .error "stand not found")
    | some stand => (w1, .ok stand)

/-- `GetProductsFromStand` (operations.go:198-213). -/
def GetProductsFromStand (env : Env) (w : World) (stand : String) :
    World × Except String (List String) :=
  let w1 := w.issue (.firstStandByName stand)
  if env.dbFails w.log.length then (w1, .error "stand lookup failed")
  else
    match firstByID (·.ID) (w1.stands.filter (fun s => s.Name == stand)) with
    | none => (w1, .error "stand not found")
    | some standInfo => (w1, env.unmarshal standInfo.Products)

/-- `CreatePipeline` (operations.go:350-355). -/
def CreatePipeline (env : Env) (w : World) (pipeline : Pipeline) :
    World × Except String Pipeline :=
  let w1 := w.issue (.createPipeline pipeline)
  if env.dbFails w.log.length then (w1, .error "pipeline insert failed")
  else
    let row := { pipeline with ID := nextID (w1.pipelines.map (·.ID)) }
    ({ w1 with pipelines := w1.pipelines ++ [row] }, .ok row)

/-- `CreateStandPipeline` (operations.go:160-182). -/
def CreateStandPipeline (env : Env) (w : World) (standName : String) : World × Option String :=
  match GetStandByName env w standName with
  | (w1, .error e) => (w1, some e)
  | (w1, .ok stand) =>
    match CreatePipeline env w1 { Name := stand.Name, StandID := stand.ID, Status := "pending" } with
    | (w2, .error e) => (w2, some e)
    | (w2, .ok _) => (w2, none)

/-- `CreateStep` (operations.go:299-302). -/
def CreateStep (env : Env) (w : World) (step : Step) : World × Option String :=
  let w1 := w.issue (.createStep step)
  if env.dbFails w.log.length then (w1, some "step insert failed")
  else
    ({ w1 with steps := w1.steps ++ [{ step with ID := nextID (w1.steps.map (·.ID)) }] }, none)

/-- The loop of `UpdateStandPipeline` over the populated steps
(operations.go:151-155). -/
def createSteps (env : Env) : World → List Step → World × Option String
  | w, [] => (w, none)
  | w, step :: rest =>
    match CreateStep env w step with
    | (w1, some e) => (w1, some e)
    | (w1, none) => createSteps env w1 rest

/-- `UpdateStandPipeline` (operations.go:136-158): `Save` rewrites the row
with the pipeline's primary key. -/
def UpdateStandPipeline (env : Env) (w : World) (standName : String) (pipelineID : Int) :
    World × Option String :=
  let w1 := w.issue (.firstPipelineByName standName)
  if env.dbFails w.log.length then (w1, some "failed to find pipeline")
  else
    match firstByID (·.ID) (w1.pipelines.filter (fun p => p.Name == standName)) with
    | none => (w1, some "failed to find pipeline")
    | some pipeline =>
      let row := { pipeline with GitlabPipelineID := pipelineID }
      let w2 := w1.issue (.savePipeline row)
      if env.dbFails w1.log.length then (w2, some "failed to update pipeline")
      else
        createSteps env
          { w2 with pipelines := w2.pipelines.map (fun p => if p.ID = row.ID then row else p) }
          (PopulateSteps row.ID)

/-- `GetStepByStandName` (operations.go:357-370): the steps joined with their
pipelines and the pipelines' stands of the given name. -/
def GetStepByStandName (env : Env) (w : World) (standName : String) :
    World × Except String (List Step) :=
  let w1 := w.issue (.findStepsByStandName standName)
  if env.dbFails w.log.length then (w1, .error "step query failed")
  else
    (w1, .ok (w1.steps.flatMap (fun s =>
      (w1.pipelines.filter (fun p => p.ID == s.PipelineID)).flatMap (fun p =>
        (w1.stands.filter (fun st => st.ID == p.StandID && st.Name == standName)).map
          (fun _ => s)))))

/-- `CreateJob` (operations.go:305-308), a bulk insert.  For an empty slice
GORM reports an error without sending a statement; a statement the store
rejects leaves the transaction failed. -/
def CreateJob (env : Env) (w : World) (job : List Job) : World × Option String :=
  if job.isEmpty then (w, some "empty slice found")
  else
    let w1 := w.issue (.createJobs job)
    if env.dbFails w.log.length then ({ w1 with txFailed := true }, some "job insert failed")
    else
      ({ w1 with jobs := w1.jobs ++
          job.enum.map (fun e => { e.2 with ID := nextID (w1.jobs.map (·.ID)) + e.1 }) }, none)

/-- A `tx.Commit()` whose error is dropped (scheduler.go:377, 222).  Postgres
ends a transaction in which a statement failed by rolling it back; so does a
commit that fails. -/
def World.commitDropped (w : World) (env : Env) (snapshot : World) : World :=
  if w.txFailed || env.dbFails w.log.length then (w.issue .commit).restore snapshot
  else w.issue .commit

/-- The branch block of `ProcessCreatingStand` (scheduler.go:278-290). -/
def ensureBranch (env : Env) (w : World) (stand : Stand) : World × Option String :=
  let w1 := w.provisioned (.checkBranchExist stand.Name)
  match env.checkBranchExist w.provisioning.length stand.Name with
  | .error e => (w1, some e)
  | .ok existBranch =>
    if !existBranch then
      (w1.provisioned (.cloneBranch stand.Name stand.Ref),
        env.cloneBranch w1.provisioning.length stand.Name stand.Ref)
    else (w1, none)

/-- The environment block of `ProcessCreatingStand` (scheduler.go:292-303). -/
def ensureEnvironment (env : Env) (w : World) (stand : Stand) : World × Option String :=
  let w1 := w.provisioned (.checkEnvironmentExist stand.Name)
  match env.checkEnvironmentExist w.provisioning.length stand.Name with
  | .error e => (w1, some e)
  | .ok existEnv =>
    if !existEnv then
      (w1.provisioned (.createEnvironmentIntoRepository stand.Name),
        env.createEnvironmentIntoRepository w1.provisioning.length stand.Name)
    else (w1, none)

/-- The variables block of `ProcessCreatingStand` (scheduler.go:310-329). -/
def ensureVariables (env : Env) (w : World) (stand : Stand) (products : List String) :
    World × Option String :=
  let w1 := w.provisioned (.checkVariablesIntoEnvironment stand.Name)
  match env.checkVariablesIntoEnvironment w.provisioning.length stand.Name with
  | .error e => (w1, some e)
  | .ok existVariables =>
    if !existVariables then
      (w1.provisioned (.createVariablesIntoEnvironment stand.Name products),
        env.createVariablesIntoEnvironment w1.provisioning.length stand.Name products)
    else
      (w1.provisioned (.updateVariablesIntoEnvironment stand.Name products),
        env.updateVariablesIntoEnvironment w1.provisioning.length stand.Name products)

/-- The pipeline part of `ProcessCreatingStand` (scheduler.go:331-379), run in
the transaction begun at `snapshot`.  The error of `CreateJob` and the error
of the commit are dropped. -/
def createPipelineAndJobs (env : Env) (snapshot w : World) (stand : Stand) : World × Ending :=
  match CreateStandPipeline env w stand.Name with
  | (w1, some e) => (w1.rolledBack snapshot, .returned (some e))
  | (w1, none) =>
    let w2 := w1.provisioned (.runPipeline stand.Name)
    match env.runPipeline w1.provisioning.length stand.Name with
    | .error e => (w2.rolledBack snapshot, .returned (some e))
    | .ok pipelineID =>
      match UpdateStandPipeline env w2 stand.Name pipelineID with
      | (w3, some e) => (w3.rolledBack snapshot, .returned (some e))
      | (w3, none) =>
        let w4 := w3.provisioned (.getJobsFromPipeline pipelineID)
        match env.getJobsFromPipeline w3.provisioning.length pipelineID with
        | .error e => (w4.rolledBack snapshot, .returned (some e))
        | .ok jobs =>
          let JobMap := JobsToMap jobs
          match GetStepByStandName env w4 stand.Name with
          | (w5, .error _) => (w5.restore snapshot, .exited)
          | (w5, .ok steps) =>
            let jobsProcess := ProcessJobs JobMap steps
            ((CreateJob env w5 jobsProcess).1.commitDropped env snapshot, .returned none)

/-- `Runner.ProcessCreatingStand` (scheduler.go:274-380).  The returns before
the pipeline part leave the transaction open; it has written nothing. -/
def ProcessCreatingStand (env : Env) (w : World) (stand : Stand) : World × Ending :=
  let w0 := w.begun
  match ensureBranch env w0 stand with
  | (w1, some e) => (w1, .returned (some e))
  | (w1, none) =>
    match ensureEnvironment env w1 stand with
    | (w2, some e) => (w2, .returned (some e))
    | (w2, none) =>
      match GetProductsFromStand env w2 stand.Name with
      | (w3, .error e) => (w3, .returned (some e))
      | (w3, .ok products) =>
        match ensureVariables env w3 stand products with
        | (w4, some e) => (w4, .returned (some e))
        | (w4, none) => createPipelineAndJobs env w0 w4 stand

/-- The task `CheckCreatedStands` starts for one stand (scheduler.go:200-224);
the second component tells that the process was ended. -/
def createdTask (env : Env) (w : World) (stand : Stand) : World × Bool :=
  let w0 := { w with activeStands := activeStore w.activeStands stand.Name }
  match ProcessCreatingStand env w0 stand with
  | (w1, .exited) => (w1, true)
  | (w1, .returned (some _)) =>
    ({ w1.issue .rollback with activeStands := activeDelete w1.activeStands stand.Name }, false)
  | (w1, .returned none) =>
    let w2 := w1.issue (.updateStand stand.ID StatusPending)
    if env.dbFails w1.log.length then
      ({ w2.issue .rollback with activeStands := activeDelete w2.activeStands stand.Name }, false)
    else
      let w3 := { w2 with stands := setStandStatus stand.ID StatusPending w2.stands }
      let w4 := w3.commitDropped env w1
      ({ w4 with activeStands := activeDelete w4.activeStands stand.Name }, false)

/-- The loop of `CheckCreatedStands` over the stands found
(scheduler.go:191-227); with one slot in the semaphore the tasks run one after
the other. -/
def createdTasks (env : Env) : World → List Stand → World × Ending
  | w, [] => (w, .returned none)
  | w, stand :: rest =>
    if stand.Name ∈ w.activeStands then createdTasks env w rest
    else
      match createdTask env w stand with
      | (w1, true) => (w1, .exited)
      | (w1, false) => createdTasks env w1 rest

/-- `Runner.CheckCreatedStands` (scheduler.go:176-229). -/
def CheckCreatedStands (env : Env) (w : World) : World × Ending :=
  let w1 := w.issue (.findStands "created")
  if env.dbFails w.log.length then (w1, .returned (some "created stand query failed"))
  else
    let stands := w1.stands.filter (fun s => s.Status == "created")
    if stands.length = 0 then (w1, .returned none)
    else createdTasks env w1 stands

/-! ## Creating a stand (operations.go:117-134) -/

/-- `CreateStand` (operations.go:118-134).  `Create` inserts the row under the
key it carries, or under a new key when it carries the zero key; the store
rejects a row whose key is taken. -/
def CreateStand (env : Env) (w : World) (stand : Stand) : World × Option String :=
  let w1 := w.issue (.firstStandByName stand.Name)
  if env.dbFails w.log.length then (w1, some "stand lookup failed")
  else
    match firstByID (·.ID) (w1.stands.filter (fun s => s.Name == stand.Name)) with
    | some _ => (w1, some "stand with this name already exists")
    | none =>
      let w2 := w1.issue (.createStand stand)
      if env.dbFails w1.log.length ||
          (stand.ID != 0 && w2.stands.any (fun s => s.ID == stand.ID)) then
        (w2, some "stand insert failed")
      else
        let row := if stand.ID = 0 then { stand with ID := nextID (w2.stands.map (·.ID)) }
          else stand
        ({ w2 with stands := w2.stands ++ [row] }, none)

/-! ## The request bodies of the variable calls (gitlab/client.go:201-243) -/

/-- `strings.Join(elems, sep)`. -/
def stringsJoin (sep : String) : List String → String
  | [] => ""
  | [a] => a
  | a :: b :: rest => a ++ sep ++ stringsJoin sep (b :: rest)

/-- The verb `%s` of `fmt.Sprintf` applied to a `[]string`: the elements as
they are, separated by one space, between square brackets. -/
def sprintStrings (xs : List String) : String :=
  "[" ++ stringsJoin " " xs ++ "]"

/-- The text `UpdateVariablesIntoEnvironment` puts after `value=`
(client.go:203). -/
def updateVariablesValue (vars : List String) : String :=
  stringsJoin "," vars

/-- The request body of `UpdateVariablesIntoEnvironment` (client.go:203). -/
def updateVariablesBody (vars : List String) : String :=
  "value=" ++ updateVariablesValue vars

/-- The text `CreateVariablesIntoEnvironment` puts after `value=`
(client.go:241): the slice itself is the operand of `%s`. -/
def createVariablesValue (vars : List String) : String :=
  sprintStrings vars

/-- The request body of `CreateVariablesIntoEnvironment` (client.go:241). -/
def createVariablesBody (branchName : String) (vars : List String) : String :=
  "key=PRODUCTS&value=" ++ createVariablesValue vars ++ "&environment_scope=" ++ branchName

/-- The product codes joined by commas, the value the claim names. -/
def joinedByCommas (products : List String) : String :=
  String.intercalate "," products

/-- The field `key` of a form body `k1=v1&k2=v2...`, as sent. -/
def formField (key : String) (body : String) : Option String :=
  ((splitOnChar '&' body.toList).filterMap (fun part =>
    if part.takeWhile (fun c => c != '=') = key.toList then
      some (String.mk ((part.dropWhile (fun c => c != '=')).drop 1))
    else none)).head?

/-! ## The products column (internal.go:121-141, operations.go:198-213)

`PopulateStand` writes the product list with `json.Marshal` and
`GetProductsFromStand` reads it back with `json.Unmarshal` into a `[]string`.
A Go string is taken to be Unicode text, as the JSON decoder of the request
produces it. -/

/-- The digit of `"0123456789abcdef"` at position `n`. -/
def hexDigit (n : Nat) : Char :=
  if n < 10 then Char.ofNat (48 + n) else Char.ofNat (87 + n)

/-- What `json.Marshal` writes for one character of a string (`appendString`
of encoding/json with HTML escaping): the quote and the backslash behind a
backslash, the short escapes, `\u00XX` for the other control characters and
for `<`, `>`, `&`, the escapes of U+2028 and U+2029 for these two line separators, every
other character as it is. -/
def escapeChar (c : Char) : List Char :=
  if c = '"' then ['\\', '"']
  else if c = '\\' then ['\\', '\\']
  else if c = '\x08' then ['\\', 'b']
  else if c = '\x0c' then ['\\', 'f']
  else if c = '\n' then ['\\', 'n']
  else if c = '\r' then ['\\', 'r']
  else if c = '\t' then ['\\', 't']
  else if c.toNat < 0x20 ∨ c = '<' ∨ c = '>' ∨ c = '&' then
    ['\\', 'u', '0', '0', hexDigit (c.toNat / 16), hexDigit (c.toNat % 16)]
  else if c = '\u2028' then ['\\', 'u', '2', '0', '2', '8']
  else if c = '\u2029' then ['\\', 'u', '2', '0', '2', '9']
  else [c]

/-- A string as a JSON string literal. -/
def quoteString (s : String) : List Char :=
  '"' :: (s.toList.flatMap escapeChar ++ ['"'])

/-- The elements of a JSON array of strings, separated by commas. -/
def marshalElems : List String → List Char
  | [] => []
  | [a] => quoteString a
  | a :: b :: rest => quoteString a ++ ',' :: marshalElems (b :: rest)

/-- `json.Marshal` of a `[]string`; `none` is the nil slice. -/
def marshalStrings : Option (List String) → String
  | none => "null"
  | some xs => String.mk ('[' :: (marshalElems xs ++ [']']))

/-- White space between JSON tokens. -/
def isJSONSpace (c : Char) : Bool :=
  c == ' ' || c == '\t' || c == '\r' || c == '\n'

/-- The value of a hexadecimal digit. -/
def hexValue (c : Char) : Option Nat :=
  if '0' ≤ c ∧ c ≤ '9' then some (c.toNat - 48)
  else if 'a' ≤ c ∧ c ≤ 'f' then some (c.toNat - 87)
  else if 'A' ≤ c ∧ c ≤ 'F' then some (c.toNat - 55)
  else none

/-- The number four hexadecimal digits write (`getu4`). -/
def hex4 (a b c d : Char) : Option Nat :=
  match hexValue a, hexValue b, hexValue c, hexValue d with
  | some x, some y, some z, some u => some (((x * 16 + y) * 16 + z) * 16 + u)
  | _, _, _, _ => none

/-- The character of a `\uXXXX` escape of value `v`, given what follows the
escape: a high surrogate followed by the escape of a low surrogate is the
character the pair encodes, and the second escape is consumed; a surrogate
without its partner is the replacement character U+FFFD. -/
def unescapeUnit (v : Nat) (rest : List Char) : Char × List Char :=
  if 0xD800 ≤ v ∧ v < 0xE000 then
    match rest with
    | '\\' :: 'u' :: a :: b :: c :: d :: rest' =>
      match hex4 a b c d with
      | some v' =>
        if v < 0xDC00 ∧ 0xDC00 ≤ v' ∧ v' < 0xE000 then
          (Char.ofNat (0x10000 + (v - 0xD800) * 0x400 + (v' - 0xDC00)), rest')
        else ('\uFFFD', rest)
      | none => ('\uFFFD', rest)
    | _ => ('\uFFFD', rest)
  else (Char.ofNat v, rest)

/-- The character a one-letter escape denotes. -/
def shortEscape (e : Char) : Option Char :=
  if e = '"' then some '"'
  else if e = '\\' then some '\\'
  else if e = '/' then some '/'
  else if e = 'b' then some '\x08'
  else if e = 'f' then some '\x0c'
  else if e = 'n' then some '\n'
  else if e = 'r' then some '\r'
  else if e = 't' then some '\t'
  else none

/-- The rest of a JSON string literal after its opening quote: the characters
it denotes and what follows the closing quote (the scanner and `unquote` of
encoding/json; a control character in the literal is a syntax error).  The
first argument bounds the number of characters denoted. -/
def unquoteRest : Nat → List Char → Option (List Char × List Char)
  | 0, _ => none
  | _, [] => none
  | fuel + 1, c :: rest =>
    if c = '"' then some ([], rest)
    else if c = '\\' then
      match rest with
      | [] => none
      | e :: rest' =>
        if e = 'u' then
          match rest' with
          | a :: b :: x :: d :: rest'' =>
            match hex4 a b x d with
            | none => none
            | some v =>
              (unquoteRest fuel (unescapeUnit v rest'').2).map
                (fun p => ((unescapeUnit v rest'').1 :: p.1, p.2))
          | _ => none
        else
          match shortEscape e with
          | none => none
          | some ch => (unquoteRest fuel rest').map (fun p => (ch :: p.1, p.2))
    else if c.toNat < 0x20 then none
    else (unquoteRest fuel rest).map (fun p => (c :: p.1, p.2))

/-- One element of the array for a `[]string`: a string literal, or `null`,
which leaves the element the empty string; any other value is an error. -/
def unmarshalElem (cs : List Char) : Option (String × List Char) :=
  match cs with
  | [] => none
  | c :: rest =>
    if c = '"' then (unquoteRest rest.length rest).map (fun p => (String.mk p.1, p.2))
    else if c = 'n' then
      match rest with
      | 'u' :: 'l' :: 'l' :: rest' => some ("", rest')
      | _ => none
    else none

/-- The elements of a non-empty array and what follows its closing bracket.
The first argument bounds the number of elements. -/
def unmarshalElems : Nat → List Char → Option (List String × List Char)
  | 0, _ => none
  | fuel + 1, cs =>
    match unmarshalElem (cs.dropWhile isJSONSpace) with
    | none => none
    | some (x, rest) =>
      match rest.dropWhile isJSONSpace with
      | [] => none
      | c :: rest' =>
        if c = ',' then (unmarshalElems fuel rest').map (fun p => (x :: p.1, p.2))
        else if c = ']' then some ([x], rest')
        else none

/-- The end of the input after the top-level value: only white space may
follow. -/
def endOfValue (xs : List String) (rest : List Char) : Except String (List String) :=
  if rest.dropWhile isJSONSpace = [] then .ok xs
  else .error "invalid character after top-level value"

/-- `json.Unmarshal(data, &products)` for `products []string`: the input has
to be one JSON value, `null` or an array of strings and `null`s. -/
def unmarshalStrings (data : String) : Except String (List String) :=
  match data.toList.dropWhile isJSONSpace with
  | [] => .error "unexpected end of JSON input"
  | c :: rest =>
    if c = '[' then
      match rest.dropWhile isJSONSpace with
      | [] => .error "unexpected end of JSON input"
      | c' :: rest' =>
        if c' = ']' then endOfValue [] rest'
        else
          match unmarshalElems rest.length rest with
          | none => .error "cannot unmarshal into Go value of type []string"
          | some (xs, rest'') => endOfValue xs rest''
    else if c = 'n' then
      match rest with
      | 'u' :: 'l' :: 'l' :: rest' => endOfValue [] rest'
      | _ => .error "invalid character in literal null"
    else .error "cannot unmarshal into Go value of type []string"

/-- The body of a create-stand request (handlers.go:156-161); `Products` is
`none` for the nil slice of a request without the field. -/
structure CreateStandRequest where
  NameStand : String := ""
  Products : Option (List String) := none
  UserID : Int := 0
  Ref : String := ""
deriving DecidableEq, Repr

/-- `PopulateStand` (internal.go:121-141).  `json.Marshal` of a `[]string` has
no error, so the error result is always `nil`; `uint(req.UserID)` wraps a
negative identifier. -/
def PopulateStand (req : CreateStandRequest) : Stand :=
  { Name := req.NameStand, UserID := (req.UserID % 2 ^ 64).toNat,
    Products := marshalStrings req.Products, Status := "created", Ref := req.Ref }

/-! ## The goroutines of a lane (scheduler.go:188-228, 243-271)

`CheckCreatedStands` and `CheckPendingStands` have one shape: the goroutine of
the lane walks the stands found and starts a goroutine for every stand whose
name is not in the active set; a semaphore and a wait group tie them together.
Here a lane is a transition system.  A move is one action of one goroutine on
the state they share (the active set, the semaphore, the wait group), a
schedule is a list of moves.  The semaphore lets a task start only when the
task before it has left its function body, and the goroutine of the lane reads
nothing but the active set, which no executor touches; so what a task does
between registering its stand and its deferred function is one move. -/

/-- `maxConcurrentPending` as `NewRunner` sets it (scheduler.go:44). -/
def maxConcurrentPending : Nat := 1

/-- `maxConcurrentCreating` as `NewRunner` sets it (scheduler.go:45). -/
def maxConcurrentCreating : Nat := 1

/-- How far the goroutine of a task has come (scheduler.go:200-224, 255-266):
it was started by the `go` statement; it has run
`r.activeStands.Store(stand.Name, true)`; its function body has returned; its
deferred function has run `<-semaphore`; `wg.Done()`;
`r.activeStands.Delete(stand.Name)`. -/
inductive Stage where
  | started
  | registered
  | finished
  | released
  | signalled
  | ended
deriving DecidableEq, Repr

/-- The state of a lane: the world, the stands the loop has yet to visit, the
stand the loop holds at `semaphore <- struct{}{}` (after `wg.Add(1)`), the
counter of the wait group, the number of values in the semaphore and its
capacity, the tasks started so far, and how the lane function or the process
has ended, if it has. -/
structure Lane where
  world : World
  todo : List Stand
  capacity : Nat
  waiting : Option Stand := none
  counter : Nat := 0
  semaphore : Nat := 0
  tasks : List (Stand × Stage) := []
  ending : Option Ending := none
deriving DecidableEq, Repr

/-- A move: the next action of the goroutine of the lane, or of the task
started as the `i`-th. -/
inductive Move where
  | lane
  | task (i : Nat)
deriving DecidableEq, Repr

/-- The next action of the goroutine of the lane (the loop of
scheduler.go:191-227 and 246-269, then `wg.Wait()` and the return); `none`
when it is blocked at the semaphore or the wait group, or has returned. -/
def Lane.loop (L : Lane) : Option Lane :=
  if L.ending.isSome then none
  else
    match L.waiting with
    | some stand =>
      if L.semaphore < L.capacity then
        some { L with waiting := none, semaphore := L.semaphore + 1,
                      tasks := L.tasks ++ [(stand, .started)] }
      else none
    | none =>
      match L.todo with
      | stand :: rest =>
        if stand.Name ∈ L.world.activeStands then some { L with todo := rest }
        else some { L with todo := rest, waiting := some stand, counter := L.counter + 1 }
      | [] => if L.counter = 0 then some { L with ending := some (.returned none) } else none

/-- The next action of the `i`-th task; `body` is what the task does between
registering its stand and its deferred function, its second component tells
that the process was ended.  `none` when there is no such task, when it has
ended, or when `body` has no result. -/
def Lane.act (body : World → Stand → Option (World × Bool)) (L : Lane) (i : Nat) :
    Option Lane :=
  match L.tasks[i]? with
  | none => none
  | some (stand, .started) =>
    some { L with
      world := { L.world with activeStands := activeStore L.world.activeStands stand.Name },
      tasks := L.tasks.set i (stand, .registered) }
  | some (stand, .registered) =>
    match body L.world stand with
    | none => none
    | some (w, true) => some { L with world := w, ending := some .exited }
    | some (w, false) => some { L with world := w, tasks := L.tasks.set i (stand, .finished) }
  | some (stand, .finished) =>
    some { L with semaphore := L.semaphore - 1, tasks := L.tasks.set i (stand, .released) }
  | some (stand, .released) =>
    some { L with counter := L.counter - 1, tasks := L.tasks.set i (stand, .signalled) }
  | some (stand, .signalled) =>
    some { L with
      world := { L.world with activeStands := activeDelete L.world.activeStands stand.Name },
      tasks := L.tasks.set i (stand, .ended) }
  | some (_, .ended) => none

/-- One move of a lane; nothing moves once the process was ended. -/
def Lane.step (body : World → Stand → Option (World × Bool)) (L : Lane) : Move → Option Lane
  | .lane => if L.ending = some .exited then none else L.loop
  | .task i => if L.ending = some .exited then none else L.act body i

/-- A lane under a schedule; `none` when the schedule asks for a move that
cannot be made. -/
def Lane.run (body : World → Stand → Option (World × Bool)) : Lane → List Move → Option Lane
  | L, [] => some L
  | L, m :: moves =>
    match L.step body m with
    | none => none
    | some L1 => Lane.run body L1 moves

/-- The function body of the task of `CheckPendingStands` after it has
registered its stand (scheduler.go:263-266): the error of
`processPendingStand` is logged. -/
def pendingBody (polls : Nat) (env : Env) (w : World) (stand : Stand) : Option (World × Bool) :=
  match processPendingStand polls env w stand with
  | none => none
  | some (w1, _) => some (w1, false)

/-- The function body of the task of `CheckCreatedStands` after it has
registered its stand (scheduler.go:208-223). -/
def createdBody (env : Env) (w : World) (stand : Stand) : Option (World × Bool) :=
  match ProcessCreatingStand env w stand with
  | (w1, .exited) => some (w1, true)
  | (w1, .returned (some _)) => some (w1.issue .rollback, false)
  | (w1, .returned none) =>
    let w2 := w1.issue (.updateStand stand.ID StatusPending)
    if env.dbFails w1.log.length then some (w2.issue .rollback, false)
    else
      let w3 := { w2 with stands := setStandStatus stand.ID StatusPending w2.stands }
      some (w3.commitDropped env w1, false)

/-- The state in which the loop of a lane starts. -/
def Lane.start (capacity : Nat) (w : World) (stands : List Stand) : Lane :=
  { world := w, todo := stands, capacity := capacity }

/-- `CheckPendingStands` up to its loop (scheduler.go:231-244). -/
def pendingLane (env : Env) (w : World) : Lane :=
  let w1 := w.issue (.findStands StatusPending)
  if env.dbFails w.log.length then
    { Lane.start maxConcurrentPending w1 [] with
      ending := some (.returned (some "pending stand query failed")) }
  else
    let stands := w1.stands.filter (fun s => s.Status == StatusPending)
    if stands.length = 0 then
      { Lane.start maxConcurrentPending w1 [] with ending := some (.returned none) }
    else Lane.start maxConcurrentPending w1 stands

/-- `CheckCreatedStands` up to its loop (scheduler.go:176-189). -/
def createdLane (env : Env) (w : World) : Lane :=
  let w1 := w.issue (.findStands "created")
  if env.dbFails w.log.length then
    { Lane.start maxConcurrentCreating w1 [] with
      ending := some (.returned (some "created stand query failed")) }
  else
    let stands := w1.stands.filter (fun s => s.Status == "created")
    if stands.length = 0 then
      { Lane.start maxConcurrentCreating w1 [] with ending := some (.returned none) }
    else Lane.start maxConcurrentCreating w1 stands

/-- `Runner.CheckPendingStands` (scheduler.go:231-272) under a schedule of its
goroutines. -/
def CheckPendingStands (polls : Nat) (env : Env) (w : World) (moves : List Move) : Option Lane :=
  Lane.run (pendingBody polls env) (pendingLane env w) moves

/-- `Runner.CheckCreatedStands` (scheduler.go:176-229) under a schedule of its
goroutines. -/
def CheckCreatedStands.scheduled (env : Env) (w : World) (moves : List Move) : Option Lane :=
  Lane.run (createdBody env) (createdLane env w) moves

/-- What a lane keeps in every state of a run that started in the world `w`
with the stands `stands`: the names registered at the start stay registered;
every task, and the stand the loop holds at the semaphore, is for one of the
stands found, and its name was not registered at the start; every other
registered name is that of a task between its `Store` and its `Delete`; and
the world changes only when there is a task. -/
structure Lane.Sound (w : World) (stands : List Stand) (L : Lane) : Prop where
  kept : ∀ n ∈ w.activeStands, n ∈ L.world.activeStands
  fresh : ∀ (j : Nat) (s : Stand) (st : Stage), L.tasks[j]? = some (s, st) →
    s ∈ stands ∧ s.Name ∉ w.activeStands
  held : ∀ s, L.waiting = some s → s ∈ stands ∧ s.Name ∉ w.activeStands
  ahead : ∀ s ∈ L.todo, s ∈ stands
  owned : ∀ n ∈ L.world.activeStands, n ∈ w.activeStands ∨
    ∃ (j : Nat) (s : Stand) (st : Stage),
      L.tasks[j]? = some (s, st) ∧ s.Name = n ∧ st ≠ .started ∧ st ≠ .ended
  idle : L.tasks = [] → L.world = w

/-! ## The footprint of a run -/

/-- The step an operation addresses: the step queried for its jobs, re-read
or updated. -/
def DbOp.step? : DbOp → Option Nat
  | .findJobs id => some id
  | .firstStep id => some id
  | .updateStep id _ => some id
  | _ => none

/-- The job row an operation writes. -/
def DbOp.job? : DbOp → Option Nat
  | .updateJobStatus id _ => some id
  | .updateJobStartedAt id => some id
  | .updateJobFinishedAt id => some id
  | _ => none

/-- The provider job a call is made for. -/
def Call.jobID : Call → Int
  | .runJob id => id
  | .getJobStatus id => id

/-- Table `l'` holds the rows of `l`, in place, each rewritten within `P`. -/
def Evolves {α : Type} (P : α → α → Prop) (l l' : List α) : Prop :=
  ∃ g : α → α, l' = l.map g ∧ ∀ a, P a (g a)

/-- A step row keeps its identity and changes only if `T` holds of its `ID`. -/
def StepKept (T : Nat → Prop) (s s' : Step) : Prop :=
  s'.ID = s.ID ∧ s'.Name = s.Name ∧ s'.Order = s.Order ∧ s'.PipelineID = s.PipelineID ∧
    (¬ T s.ID → s' = s)

/-- A job row keeps its identity and changes only if `S` holds of its `ID`. -/
def JobKept (S : Nat → Prop) (j j' : Job) : Prop :=
  j'.ID = j.ID ∧ j'.StepID = j.StepID ∧ j'.GitlabJobID = j.GitlabJobID ∧ (¬ S j.ID → j' = j)

/-- The run from `w` to `w'` stays within the steps `T`, the job rows `S` and
the provider jobs `G`: other step and job rows are unchanged, no store
operation addresses another step or job row, no provider call is made for
another job. -/
structure Within (T S : Nat → Prop) (G : Int → Prop) (w w' : World) : Prop where
  steps : Evolves (StepKept T) w.steps w'.steps
  jobs : Evolves (JobKept S) w.jobs w'.jobs
  log : ∃ ops, w'.log = w.log ++ ops ∧
    ∀ op ∈ ops, (∀ id, op.step? = some id → T id) ∧ (∀ id, op.job? = some id → S id)
  calls : ∃ cs, w'.calls = w.calls ++ cs ∧ ∀ c ∈ cs, G c.jobID

/-- The run from `w` to `w'` leaves stands, pipelines and notifications alone. -/
structure SameUpper (w w' : World) : Prop where
  stands : w'.stands = w.stands
  pipelines : w'.pipelines = w.pipelines
  stepStates : w'.stepStates = w.stepStates

/-- Some job row of step `stepID` in `w` has identifier `id`. -/
def jobRowOf (w : World) (stepID : Nat) (id : Nat) : Prop :=
  ∃ j ∈ w.jobs, j.ID = id ∧ j.StepID = stepID

/-- Some job row of step `stepID` in `w` has provider identifier `gid`. -/
def providerJobOf (w : World) (stepID : Nat) (gid : Int) : Prop :=
  ∃ j ∈ w.jobs, j.GitlabJobID = gid ∧ j.StepID = stepID

/-- A job row keeps its identity; it is `success` if `S` holds of its `ID`
and unchanged otherwise. -/
def JobDone (S : Nat → Prop) (j j' : Job) : Prop :=
  j'.ID = j.ID ∧ j'.StepID = j.StepID ∧ (S j.ID → j'.Status = StatusSuccess) ∧
    (¬ S j.ID → j' = j)

/-- The run from `w` to `w'` brought the job rows `S` to `success`, changed no
other job row and added nothing to the status cache. -/
structure Done (S : Nat → Prop) (w w' : World) : Prop where
  jobs : Evolves (JobDone S) w.jobs w'.jobs
  cache : ∀ e ∈ w'.jobStatuses, e ∈ w.jobStatuses

/-- The world in which `processPendingStand` enters the step loop of
`pipeline`: after the pipeline query, stand to `running`, the step query and
pipeline to `running` (scheduler.go:385-425). -/
def enterStepLoop (env : Env) (w : World) (stand : Stand) (pipeline : Pipeline) : World :=
  (UpdatePipelineStatus env
    ((UpdateStandStatus env (w.issue (.findPipelines stand.ID)) StatusRunning stand).1.issue
      (.findSteps pipeline.ID)) StatusRunning pipeline).1

/-- The pipeline an operation addresses: the pipeline queried for its steps or
updated. -/
def DbOp.pipeline? : DbOp → Option Nat
  | .findSteps id => some id
  | .updatePipeline id _ => some id
  | _ => none

/-- The operation is one of a step executor: it addresses a step, a job row or
a notification. -/
def DbOp.lower : DbOp → Bool
  | .findJobs _ => true
  | .firstStep _ => true
  | .updateStep _ _ => true
  | .updateJobStatus _ _ => true
  | .updateJobStartedAt _ => true
  | .updateJobFinishedAt _ => true
  | .createStepState _ => true
  | _ => false

/-- The run from `w` to `w'` issued store operations within `P` only. -/
def Logged (P : DbOp → Prop) (w w' : World) : Prop :=
  ∃ ops, w'.log = w.log ++ ops ∧ ∀ op ∈ ops, P op

/-- What a notification row says: stand name, owning user, step name, order,
status and the delivered flag. -/
def StepState.view (x : StepState) : String × Nat × String × Int × String × Bool :=
  (x.StandName, x.UserID, x.StepName, x.Order, x.Status, x.Send)

/-- In world `wk` the lookups of `CreateStepNotify` for a step of `S` find the
step with its name and order under pipeline `pl`, that pipeline under stand
`stand`, and the stand with its name and owning user. -/
structure Notifiable (pl : Pipeline) (stand : Stand) (S : List Step) (wk : World) : Prop where
  steps : ∀ s ∈ S, ∃ row, wk.steps.find? (fun x => x.ID == s.ID) = some row ∧
    row.Name = s.Name ∧ row.Order = s.Order ∧ row.PipelineID = pl.ID
  pipeline : ∃ q, wk.pipelines.find? (fun p => p.ID == pl.ID) = some q ∧ q.StandID = stand.ID
  stand : ∃ st, wk.stands.find? (fun s => s.ID == stand.ID) = some st ∧
    st.Name = stand.Name ∧ st.UserID = stand.UserID

/-! ## Reading a run of the created lane -/

/-- The provider's answer to the existence check `c` made as call number `n`
of the created lane is `b`. -/
def Env.answered (env : Env) (n : Nat) (c : Provision) (b : Bool) : Prop :=
  match c with
  | .checkBranchExist name => env.checkBranchExist n name = .ok b
  | .checkEnvironmentExist name => env.checkEnvironmentExist n name = .ok b
  | .checkVariablesIntoEnvironment name => env.checkVariablesIntoEnvironment n name = .ok b
  | _ => False

/-- Among the calls `cs`, the first of them call number `n` of the created
lane, is the existence check `c`, and the provider answered it with `b`. -/
def Reported (env : Env) : Nat → List Provision → Provision → Bool → Prop
  | _, [], _, _ => False
  | n, c' :: cs, c, b => (c' = c ∧ env.answered n c b) ∨ Reported env (n + 1) cs c b

/-- The call creates or overwrites the variables of an environment. -/
def Provision.writesVariables : Provision → Bool
  | .createVariablesIntoEnvironment _ _ => true
  | .updateVariablesIntoEnvironment _ _ => true
  | _ => false

/-- World `w'` holds the tables, the active set and the transaction state of
`w`; the histories, the cache and the clock may differ. -/
structure SameTables (w w' : World) : Prop where
  stands : w'.stands = w.stands
  pipelines : w'.pipelines = w.pipelines
  steps : w'.steps = w.steps
  jobs : w'.jobs = w.jobs
  stepStates : w'.stepStates = w.stepStates
  activeStands : w'.activeStands = w.activeStands
  txFailed : w'.txFailed = w.txFailed

/-- The status is one of the three that end the polling of a job. -/
def Terminal (status : String) : Prop :=
  status = StatusSuccess ∨ status = StatusFailed ∨ status = StatusCanceled

/-- The cache holds no terminal status, under any key. -/
def NoTerminalCached (m : List (String × String)) : Prop :=
  ∀ e ∈ m, ¬ Terminal e.2

/-- A sequence of `checkAndUpdateStatus` calls, each for a job and a key of its
own and with the answers of an environment of its own. -/
def checkAll (w : World) (calls : List (Env × Job × String)) : World :=
  calls.foldl (fun w c => (checkAndUpdateStatus c.1 w c.2.1 c.2.2).1) w

/-! ## Reading a job map -/

/-- The job map files `job` under stage `stage` and name `name`. -/
def Bound (m : GoMap (GoMap Job)) (stage name : String) (job : Job) : Prop :=
  ∃ jobs, (stage, jobs) ∈ m ∧ (name, job) ∈ jobs

/-- The bindings form a Go map: the stage keys are pairwise distinct and so
are the name keys under each stage. -/
def IsGoMap (m : GoMap (GoMap Job)) : Prop :=
  (m.map Prod.fst).Nodup ∧ ∀ e ∈ m, (e.2.map Prod.fst).Nodup

/-- Every job is filed under its own stage and its own name, the way
`JobsToMap` files it. -/
def FiledByStageAndName (m : GoMap (GoMap Job)) : Prop :=
  ∀ stage name job, Bound m stage name job → job.Stage = stage ∧ job.Name = name

/-- The map `m` holds the bindings of `m'`, visited in any order. -/
def SameGoMap (m m' : GoMap (GoMap Job)) : Prop :=
  IsGoMap m ∧ ∀ stage name job, Bound m stage name job ↔ Bound m' stage name job

/-! ## Environments and stores used as concrete inputs -/

/-- The store performs every operation, the provider accepts every `RunJob`
and reports `success` for every job. -/
def cooperative : Env :=
  { dbFails := fun _ => false, runJob := fun _ _ => none, getJobStatus := fun _ _ => .ok "success" }

/-- As `cooperative`, but the store rejects its second operation. -/
def rejectsSecondOp : Env :=
  { dbFails := fun n => n == 1, runJob := fun _ _ => none, getJobStatus := fun _ _ => .ok "success" }

def infraStep : Step :=
  { ID := 1, Name := "Creating vm", Order := 1, PipelineID := 1, Status := "pending" }

/-- One pending step whose only job has already failed. -/
def failedJobStore : World :=
  { steps := [infraStep],
    jobs := [{ ID := 1, Name := "[1-1]-vm", StepID := 1, GitlabJobID := 11, Stage := "terraform",
               Status := "failed" }] }

/-- One pending step whose only job is still running on the provider. -/
def runningJobStore : World :=
  { steps := [infraStep],
    jobs := [{ ID := 1, Name := "[1-1]-vm", StepID := 1, GitlabJobID := 11, Stage := "terraform",
               Status := "running" }] }

/-- The jobs a provider reports for one pipeline run: one per recognised
stage and one of a stage outside the taxonomy. -/
def providerJobs : List Job :=
  [ { ID := 501, Name := "[1-1]-vm", Stage := "terraform", Status := "manual" },
    { ID := 502, Name := "[1-1]-k8s", Stage := "ansible", Status := "manual" },
    { ID := 503, Name := "[1-1]-release", Stage := "helm", Status := "manual" },
    { ID := 504, Name := "lint", Stage := "test", Status := "manual" } ]

/-- The three steps of pipeline 1 as the store returns them. -/
def threeSteps : List Step :=
  [ { ID := 1, Name := "Creating vm", Order := 1, PipelineID := 1, Status := "pending" },
    { ID := 2, Name := "Executing automation", Order := 2, PipelineID := 1, Status := "pending" },
    { ID := 3, Name := "Executing helm", Order := 3, PipelineID := 1, Status := "pending" } ]

/-- A provider job whose identifier does not fit a signed 64-bit integer. -/
def hugeIDJobs : List Job :=
  [ { ID := 2 ^ 63, Name := "[1-1]-vm", Stage := "terraform", Status := "manual" } ]

/-- Three jobs of one stage whose numeric tokens are not in lexicographic
order. -/
def numberedJobs : List Job :=
  [ { ID := 601, Name := "[10-1]-x", Stage := "terraform", Status := "manual" },
    { ID := 602, Name := "[2-1]-y", Stage := "terraform", Status := "manual" },
    { ID := 603, Name := "[1-1]-z", Stage := "terraform", Status := "manual" } ]

def standA : Stand :=
  { ID := 1, Name := "stand-a", UserID := 7, Products := "[\"A\",\"B\"]", Status := "pending",
    Ref := "master" }

def pipelineA : Pipeline :=
  { ID := 1, Name := "stand-a", StandID := 1, Status := "pending", GitlabPipelineID := 900 }

/-- A pending stand with one pending pipeline of three pending steps; the job
of the first step is `manual`, the job of the second has failed. -/
def abortStore : World :=
  { stands := [standA], pipelines := [pipelineA], steps := threeSteps,
    jobs :=
      [ { ID := 1, Name := "[1-1]-vm", StepID := 1, GitlabJobID := 501, Stage := "terraform",
          Status := "manual", Order := 1 },
        { ID := 2, Name := "[1-1]-k8s", StepID := 2, GitlabJobID := 502, Stage := "ansible",
          Status := "failed", Order := 1 },
        { ID := 3, Name := "[1-1]-release", StepID := 3, GitlabJobID := 503, Stage := "helm",
          Status := "manual", Order := 1 } ] }

/-- The world of `abortStore` after its first step under `cooperative`. -/
def abortStoreAfterStep1 : World :=
  ((processStep 1 cooperative (enterStepLoop cooperative abortStore standA pipelineA)
    (threeSteps.get ⟨0, by decide⟩)).getD ({}, none)).1

/-- The world of `abortStore` after its second step under `cooperative`. -/
def abortStoreAfterStep2 : World :=
  ((processStep 1 cooperative
    (CreateStepNotify cooperative abortStoreAfterStep1 (threeSteps.get ⟨0, by decide⟩)
      StatusSuccess).1 (threeSteps.get ⟨1, by decide⟩)).getD ({}, none)).1

/-- As `cooperative`, but the store rejects its fifteenth operation, which in
the run of `abortStore` is the write of the pipeline's `error` status. -/
def rejectsPipelineError : Env :=
  { dbFails := fun n => n == 14, runJob := fun _ _ => none,
    getJobStatus := fun _ _ => .ok "success" }

/-- A pending stand with one pending pipeline of three pending steps, each
holding one `manual` job that was never started. -/
def happyStore : World :=
  { stands := [standA], pipelines := [pipelineA], steps := threeSteps,
    jobs :=
      [ { ID := 1, Name := "[1-1]-vm", StepID := 1, GitlabJobID := 501, Stage := "terraform",
          Status := "manual", Order := 1 },
        { ID := 2, Name := "[1-1]-k8s", StepID := 2, GitlabJobID := 502, Stage := "ansible",
          Status := "manual", Order := 1 },
        { ID := 3, Name := "[1-1]-release", StepID := 3, GitlabJobID := 503, Stage := "helm",
          Status := "manual", Order := 1 } ] }

/-- As `cooperative`, but the store rejects its first operation. -/
def rejectsFirstOp : Env :=
  { dbFails := fun n => n == 0, runJob := fun _ _ => none,
    getJobStatus := fun _ _ => .ok "success" }

/-- A world in which the cache holds `status` for the job with provider
identifier 11, whose row is `running`. -/
def cachedStore (status : String) : World :=
  { steps := [infraStep],
    jobs := [{ ID := 1, Name := "[1-1]-vm", StepID := 1, GitlabJobID := 11, Stage := "terraform",
               Status := "running", StartedAt := some 0 }],
    jobStatuses := [("job_11", status)] }

/-- The provider reports `status` for every job; the store performs every
operation but those `rejects` names. -/
def reporting (status : String) (rejects : Nat → Bool) : Env :=
  { dbFails := rejects, runJob := fun _ _ => none, getJobStatus := fun _ _ => .ok status }

/-- A step with one `manual` job that was never started and one the recovery
pass left `manual` after it had been started. -/
def resumeStore : World :=
  { steps := [infraStep],
    jobs := [ { ID := 1, Name := "[1-1]-vm", StepID := 1, GitlabJobID := 11, Stage := "terraform",
                Status := "manual" },
              { ID := 2, Name := "[2-1]-disk", StepID := 1, GitlabJobID := 12, Stage := "terraform",
                Status := "manual", StartedAt := some 5 } ],
    clock := 9 }

/-- The second job of `resumeStore` as `processStep` loads it. -/
def resumedJob : Job :=
  { ID := 2, Name := "[2-1]-disk", StepID := 1, GitlabJobID := 12, Stage := "terraform",
    Status := "manual", StartedAt := some 5 }

/-- The provider rejects every `RunJob`. -/
def rejectsRunJob : Env :=
  { dbFails := fun _ => false, runJob := fun _ _ => some "403 Forbidden",
    getJobStatus := fun _ _ => .ok "success" }

/-- The first job of `resumeStore` as `processStep` loads it. -/
def unstartedJob : Job :=
  { ID := 1, Name := "[1-1]-vm", StepID := 1, GitlabJobID := 11, Stage := "terraform",
    Status := "manual" }

/-- The world of `resumeStore` after `processStep` has set the step to
`running` and `processJob` has returned for the first job, the provider
reporting `failed`. -/
def afterFailedPoll : World :=
  ((processJob 1 (reporting "failed" (fun _ => false))
    (UpdateStepStatus (reporting "failed" (fun _ => false))
      (resumeStore.issue (.findJobs infraStep.ID)) StatusRunning infraStep).1
    unstartedJob).getD ({}, none)).1

/-- A pending pipeline whose first step is `error` and whose other two steps
are pending, each with one `manual` job. -/
def mixedStore : World :=
  { stands := [standA], pipelines := [pipelineA],
    steps :=
      [ { ID := 1, Name := "Creating vm", Order := 1, PipelineID := 1, Status := "error" },
        { ID := 2, Name := "Executing automation", Order := 2, PipelineID := 1,
          Status := "pending" },
        { ID := 3, Name := "Executing helm", Order := 3, PipelineID := 1, Status := "pending" } ],
    jobs :=
      [ { ID := 1, Name := "[1-1]-vm", StepID := 1, GitlabJobID := 501, Stage := "terraform",
          Status := "failed", Order := 1 },
        { ID := 2, Name := "[1-1]-k8s", StepID := 2, GitlabJobID := 502, Stage := "ansible",
          Status := "manual", Order := 1 },
        { ID := 3, Name := "[1-1]-release", StepID := 3, GitlabJobID := 503, Stage := "helm",
          Status := "manual", Order := 1 } ] }

/-- A stand left `running` by a crash: its pipeline is `running`, its second
step was `running` with a `running` job, its first step had finished. -/
def staleStore : World :=
  { stands := [{ standA with Status := "running" }],
    pipelines := [{ pipelineA with Status := "running" }],
    steps :=
      [ { ID := 1, Name := "Creating vm", Order := 1, PipelineID := 1, Status := "success" },
        { ID := 2, Name := "Executing automation", Order := 2, PipelineID := 1,
          Status := "running" },
        { ID := 3, Name := "Executing helm", Order := 3, PipelineID := 1, Status := "pending" } ],
    jobs :=
      [ { ID := 1, Name := "[1-1]-vm", StepID := 1, GitlabJobID := 501, Stage := "terraform",
          Status := "success", Order := 1 },
        { ID := 2, Name := "[1-1]-k8s", StepID := 2, GitlabJobID := 502, Stage := "ansible",
          Status := "running", Order := 1 },
        { ID := 3, Name := "[1-1]-release", StepID := 3, GitlabJobID := 503, Stage := "helm",
          Status := "manual", Order := 1 } ] }

/-- Two stands left `running` by a crash, each with a `running` pipeline, a
`running` step and a `running` job. -/
def twoStaleStands : World :=
  { stands :=
      [ { ID := 1, Name := "stand-a", UserID := 7, Status := "running", Ref := "master" },
        { ID := 2, Name := "stand-b", UserID := 7, Status := "running", Ref := "master" } ],
    pipelines :=
      [ { ID := 1, Name := "stand-a", StandID := 1, Status := "running", GitlabPipelineID := 900 },
        { ID := 2, Name := "stand-b", StandID := 2, Status := "running", GitlabPipelineID := 901 } ],
    steps :=
      [ { ID := 1, Name := "Creating vm", Order := 1, PipelineID := 1, Status := "running" },
        { ID := 2, Name := "Creating vm", Order := 1, PipelineID := 2, Status := "running" } ],
    jobs :=
      [ { ID := 1, Name := "[1-1]-vm", StepID := 1, GitlabJobID := 501, Stage := "terraform",
          Status := "running", Order := 1 },
        { ID := 2, Name := "[1-1]-vm", StepID := 2, GitlabJobID := 601, Stage := "terraform",
          Status := "running", Order := 1 } ] }

/-- The stand of the example: created, not yet provisioned. -/
def createdStand : Stand :=
  { ID := 1, Name := "stand-a", UserID := 7, Products := "[\"A\",\"B\"]", Status := "created",
    Ref := "master" }

/-- A store that holds the created stand and nothing else. -/
def createdStore : World :=
  { stands := [createdStand] }

/-- The jobs the provider reports for the pipeline run of the example. -/
def reportedJobs : List Job :=
  [ { ID := 501, Name := "[1-1]-vm", Stage := "terraform", Status := "manual" },
    { ID := 502, Name := "[1-1]-k8s", Stage := "ansible", Status := "manual" },
    { ID := 503, Name := "[1-1]-release", Stage := "helm", Status := "manual" } ]

/-- The store performs every operation but those `rejects` names; the
provider answers every existence check with `present`, accepts every other
call, gives the pipeline run the identifier 900 and reports three jobs for it,
one in each stage. -/
def provisioner (present : Bool) (rejects : Nat → Bool) : Env :=
  { dbFails := rejects, runJob := fun _ _ => none, getJobStatus := fun _ _ => .ok "success",
    checkBranchExist := fun _ _ => .ok present,
    checkEnvironmentExist := fun _ _ => .ok present,
    checkVariablesIntoEnvironment := fun _ _ => .ok present,
    runPipeline := fun _ _ => .ok 900,
    getJobsFromPipeline := fun _ _ => .ok reportedJobs,
    unmarshal := fun s => if s = "[\"A\",\"B\"]" then .ok ["A", "B"] else .error "invalid JSON" }

/-- A pending stand whose only pipeline has finished. -/
def idleStore : World :=
  { stands := [standA], pipelines := [{ pipelineA with Status := "success" }],
    steps := [{ ID := 1, Name := "Creating vm", Order := 1, PipelineID := 1, Status := "success" }],
    jobs := [{ ID := 1, Name := "[1-1]-vm", StepID := 1, GitlabJobID := 501, Stage := "terraform",
               Status := "success", Order := 1 }] }

/-- A pending stand with two pending pipelines; the only job of the first has
failed, the job of the second is `manual`. -/
def twoPipelines : World :=
  { stands := [standA],
    pipelines := [pipelineA, { ID := 2, Name := "stand-a", StandID := 1, Status := "pending",
                               GitlabPipelineID := 901 }],
    steps :=
      [ { ID := 1, Name := "Creating vm", Order := 1, PipelineID := 1, Status := "pending" },
        { ID := 2, Name := "Creating vm", Order := 1, PipelineID := 2, Status := "pending" } ],
    jobs :=
      [ { ID := 1, Name := "[1-1]-vm", StepID := 1, GitlabJobID := 501, Stage := "terraform",
          Status := "failed", Order := 1 },
        { ID := 2, Name := "[1-1]-vm", StepID := 2, GitlabJobID := 601, Stage := "terraform",
          Status := "manual", Order := 1 } ] }

/-- The world of `mixedStore` right after `processPendingPipeline` has set its
second step to `running`: after the step query, the pipeline's `running`
write, the job query of the step and the step's `running` write. -/
def mixedStoreSecondStepStarted : World :=
  (UpdateStepStatus cooperative
    ((UpdatePipelineStatus cooperative (mixedStore.issue (.findSteps pipelineA.ID)) StatusRunning
      pipelineA).1.issue (.findJobs 2)) StatusRunning
    { ID := 2, Name := "Executing automation", Order := 2, PipelineID := 1,
      Status := "pending" }).1

/-- A request for a second stand, under a name no stored stand has. -/
def secondStand : Stand :=
  { Name := "stand-b", UserID := 7, Products := "[\"A\"]", Status := "created", Ref := "master" }

/-- The create-stand request of the example. -/
def standRequest : CreateStandRequest :=
  { NameStand := "stand-a", Products := some ["A", "B"], UserID := 7, Ref := "master" }

/-- A cooperative store and provider whose products column is read with
`json.Unmarshal`. -/
def decoding : Env :=
  { provisioner false (fun _ => false) with unmarshal := unmarshalStrings }

/-- The schedule in which one task runs from its start to its end while the
goroutine of the lane waits. -/
def oneTask : List Move :=
  [.lane, .lane, .task 0, .task 0, .task 0, .task 0, .task 0, .lane]

/-- The schedule in which the goroutine of the lane passes `wg.Wait()` as soon
as the task has called `wg.Done()`. -/
def earlyReturn : List Move :=
  [.lane, .lane, .task 0, .task 0, .task 0, .task 0, .lane]

/-- A pending pipeline whose only step has finished: the store of `idleStore`
with the pipeline still `pending`. -/
def settledStore : World :=
  { idleStore with pipelines := [pipelineA] }

/-! ## Fail-fast on an already failed job -/

theorem issue_log_length (w : World) (op : DbOp) :
    (w.issue op).log.length = w.log.length + 1 := by
  simp [World.issue]

/-- C1 (amended): for every step whose not-yet-success jobs include a failed or
canceled job, `processStep` returns an error and makes no provider call and
changes no job row; when the store performs the job query and the status
write, the step's status is set to `error`. -/
theorem processStep_fail_fast (polls : Nat) (env : Env) (w : World) (step : Step)
    (h : ∃ j ∈ pendingJobs w step.ID, j.Status = StatusFailed ∨ j.Status = StatusCanceled) :
    ∃ w' e, processStep polls env w step = some (w', some e) ∧
      w'.calls = w.calls ∧ w'.jobs = w.jobs ∧
      (env.dbFails w.log.length = false → env.dbFails (w.log.length + 1) = false →
        w'.steps = setStepStatus step.ID StatusError w.steps) := by
  obtain ⟨j, hj, hst⟩ := h
  have hany : (pendingJobs (w.issue (.findJobs step.ID)) step.ID).any
      (fun j => j.Status == StatusFailed || j.Status == StatusCanceled) = true := by
    rw [List.any_eq_true]
    refine ⟨j, hj, ?_⟩
    rcases hst with hst | hst <;> simp [hst]
  unfold processStep
  by_cases h0 : env.dbFails w.log.length = true
  · simp [h0, World.issue]
  · simp only [h0, if_false, hany, if_true, Bool.false_eq_true]
    by_cases h1 : env.dbFails (w.log.length + 1) = true
    · simp [UpdateStepStatus, issue_log_length, h1, World.issue]
    · simp [UpdateStepStatus, issue_log_length, h1, World.issue]

/-- C1, the witness: the store of `failedJobStore` under a cooperative
environment. -/
theorem processStep_fail_fast_witness :
    ∃ w' e, processStep 1 cooperative failedJobStore infraStep = some (w', some e) ∧
      w'.calls = failedJobStore.calls ∧ w'.jobs = failedJobStore.jobs ∧
      (cooperative.dbFails failedJobStore.log.length = false →
        cooperative.dbFails (failedJobStore.log.length + 1) = false →
        w'.steps = setStepStatus infraStep.ID StatusError failedJobStore.steps) :=
  processStep_fail_fast 1 cooperative failedJobStore infraStep
    ⟨_, List.mem_singleton.mpr rfl, Or.inl rfl⟩

/-- C1 as stated fails: the step holds a failed job, the store rejects the
status write, and `processStep` returns an error with the step still
`pending`. -/
theorem processStep_fail_fast_store_rejects :
    (∃ j ∈ pendingJobs failedJobStore infraStep.ID, j.Status = StatusFailed) ∧
    (processStep 1 rejectsSecondOp failedJobStore infraStep).map
      (fun r => (r.2.isSome, r.1.steps.map (·.Status), r.1.calls)) =
      some (true, ["pending"], []) :=
  ⟨⟨_, List.mem_singleton.mpr rfl, rfl⟩, by decide⟩

/-! ## A step closes over jobs that are not `success` -/

/-- C3 at the failing input: the step's only job is `running`; `processStep`
makes no provider call, returns no error and sets the step to `success` while
the job is still `running`. -/
theorem processStep_success_over_running_job :
    (processStep 1 cooperative runningJobStore infraStep).map
      (fun r => (r.2, r.1.steps.map (·.Status), r.1.jobs.map (·.Status), r.1.calls)) =
      some (none, ["success"], ["running"], []) := by
  decide

/-! ## Sorting job names by their numeric token -/

/-- C5: `SortNumericalPrefixStrings` returns a permutation of its input in
non-decreasing order of `extractNumber`; the three names of the example come
out in numeric, not lexicographic, order. -/
theorem SortNumericalPrefixStrings_sorted_perm (items : List String) :
    (SortNumericalPrefixStrings items).Perm items ∧
    (SortNumericalPrefixStrings items).Pairwise
      (fun a b => extractNumber a ≤ extractNumber b) ∧
    SortNumericalPrefixStrings ["[10-1]-x", "[2-1]-y", "[1-1]-z"] =
      ["[1-1]-z", "[2-1]-y", "[10-1]-x"] := by
  refine ⟨List.perm_insertionSort _ _, ?_, by decide⟩
  haveI : IsTotal String (fun a b => ¬ extractNumber b < extractNumber a) :=
    ⟨fun a b => by
      rcases le_total (extractNumber a) (extractNumber b) with h | h
      · exact Or.inl (not_lt.mpr h)
      · exact Or.inr (not_lt.mpr h)⟩
  haveI : IsTrans String (fun a b => ¬ extractNumber b < extractNumber a) :=
    ⟨fun a b c hab hbc => not_lt.mpr (le_trans (not_lt.mp hab) (not_lt.mp hbc))⟩
  have hs := List.sorted_insertionSort (fun a b => ¬ extractNumber b < extractNumber a) items
  exact List.Pairwise.imp (fun h => not_lt.mp h) hs

/-! ## The numeric token of a job name -/

theorem digitChar_value (k : Nat) (h : k < 10) :
    (Nat.digitChar k).toNat - 48 = k ∧ (Nat.digitChar k).isDigit = true := by
  interval_cases k <;> decide

theorem digitsFold_toDigitsCore (fuel : Nat) : ∀ (n : Nat) (ds : List Char), n < fuel →
    List.foldl (fun acc d => 10 * acc + (d.toNat - 48)) 0 (Nat.toDigitsCore 10 fuel n ds) =
      List.foldl (fun acc d => 10 * acc + (d.toNat - 48)) n ds := by
  induction fuel with
  | zero => intro n ds h; omega
  | succ fuel ih =>
    intro n ds h
    have hd := (digitChar_value (n % 10) (Nat.mod_lt _ (by decide))).1
    unfold Nat.toDigitsCore
    by_cases h0 : n / 10 = 0
    · simp only [h0, if_true, List.foldl_cons, hd]
      congr 1; omega
    · simp only [h0, if_false]
      rw [ih (n / 10) _ (by omega)]
      simp only [List.foldl_cons, hd]
      congr 1; omega

theorem isDigit_toDigitsCore (fuel : Nat) : ∀ (n : Nat) (ds : List Char),
    (∀ c ∈ ds, c.isDigit = true) → ∀ c ∈ Nat.toDigitsCore 10 fuel n ds, c.isDigit = true := by
  induction fuel with
  | zero => intro n ds h; simpa [Nat.toDigitsCore] using h
  | succ fuel ih =>
    intro n ds h
    have hd := (digitChar_value (n % 10) (Nat.mod_lt _ (by decide))).2
    have h' : ∀ c ∈ Nat.digitChar (n % 10) :: ds, c.isDigit = true := by
      intro c hc
      rcases List.mem_cons.mp hc with rfl | hc
      · exact hd
      · exact h c hc
    unfold Nat.toDigitsCore
    by_cases h0 : n / 10 = 0
    · simpa only [h0, if_true] using h'
    · simpa only [h0, if_false] using ih (n / 10) _ h'

theorem toDigitsCore_ne_nil (fuel n : Nat) (ds : List Char) (h : n < fuel) :
    Nat.toDigitsCore 10 fuel n ds ≠ [] := by
  induction fuel generalizing n ds with
  | zero => omega
  | succ fuel ih =>
    unfold Nat.toDigitsCore
    by_cases h0 : n / 10 = 0
    · simp [h0]
    · simp only [h0, if_false]; exact ih _ _ (by omega)

/-- The decimal digits of `n`, as `toString` writes them. -/
theorem decimal_digits (n : Nat) :
    digitsValue (toString n).toList = n ∧ (∀ c ∈ (toString n).toList, c.isDigit = true) ∧
      (toString n).toList ≠ [] := by
  have e : (toString n).toList = Nat.toDigitsCore 10 (n + 1) n [] := rfl
  rw [e]
  refine ⟨?_, isDigit_toDigitsCore _ _ _ (by simp), toDigitsCore_ne_nil _ _ _ (by omega)⟩
  unfold digitsValue
  rw [digitsFold_toDigitsCore _ _ _ (by omega)]
  rfl

theorem isDigit_cases (c : Char) (h : c.isDigit = true) :
    c ∈ ['0', '1', '2', '3', '4', '5', '6', '7', '8', '9'] := by
  have hc : Char.ofNat c.toNat = c := Char.ofNat_toNat c
  simp only [Char.isDigit, Bool.and_eq_true, decide_eq_true_eq, ge_iff_le] at h
  have h1 : 48 ≤ c.toNat := by
    have := h.1
    rw [UInt32.le_def] at this
    exact this
  have h2 : c.toNat ≤ 57 := by
    have := h.2
    rw [UInt32.le_def] at this
    exact this
  generalize c.toNat = k at hc h1 h2
  subst hc
  interval_cases k <;> decide

theorem isDigit_facts (c : Char) (h : c.isDigit = true) :
    (c == '[' || c == ']') = false ∧ c ≠ '-' ∧ c ≠ '+' ∧ c ≠ '\n' ∧ isSpace c = false := by
  have := isDigit_cases c h
  simp only [List.mem_cons, List.mem_singleton, List.not_mem_nil, or_false] at this
  rcases this with rfl | rfl | rfl | rfl | rfl | rfl | rfl | rfl | rfl | rfl <;> decide

theorem dropWhile_append_stop {α : Type} (p : α → Bool) (xs : List α) (y : α) (ys : List α)
    (hy : p y = false) :
    List.dropWhile p (xs ++ y :: ys) = List.dropWhile p xs ++ y :: ys := by
  induction xs with
  | nil => simp [List.dropWhile, hy]
  | cons x xs ih =>
    by_cases hx : p x = true
    · simp [List.dropWhile, hx, ih]
    · simp [List.dropWhile, hx]

theorem splitOnChar_ne_nil (sep : Char) (l : List Char) : splitOnChar sep l ≠ [] := by
  cases l with
  | nil => simp [splitOnChar]
  | cons c cs =>
    unfold splitOnChar
    by_cases h : c = sep
    · simp [h]
    · simp only [h, if_false]; split <;> simp

theorem splitOnChar_append (sep : Char) (xs ys : List Char) (h : ∀ x ∈ xs, x ≠ sep) :
    splitOnChar sep (xs ++ sep :: ys) = xs :: splitOnChar sep ys := by
  induction xs with
  | nil => simp [splitOnChar]
  | cons x xs ih =>
    have hx : x ≠ sep := h x (List.mem_cons_self _ _)
    have ih' := ih (fun y hy => h y (List.mem_cons_of_mem _ hy))
    simp only [List.cons_append]
    rw [splitOnChar]
    simp [hx, ih']

theorem splitOnChar_head_ne (sep : Char) : ∀ (l : List Char) (p : List Char) (ps : List (List Char)),
    splitOnChar sep l = p :: ps → ∀ x ∈ p, x ≠ sep := by
  intro l
  induction l with
  | nil =>
    intro p ps h
    rw [splitOnChar] at h
    cases h
    intro x hx
    cases hx
  | cons c cs ih =>
    intro p ps h
    rw [splitOnChar] at h
    by_cases hc : c = sep
    · rw [if_pos hc] at h
      cases h
      intro x hx
      cases hx
    · simp only [hc, if_false] at h
      cases hs : splitOnChar sep cs with
      | nil => exact absurd hs (splitOnChar_ne_nil _ _)
      | cons q qs =>
        rw [hs] at h
        cases h
        intro x hx
        rcases List.mem_cons.mp hx with rfl | hx
        · exact hc
        · exact ih q _ hs x hx

theorem trimBrackets_numbered (ds rest : List Char) (hne : ds ≠ [])
    (hd : ∀ c ∈ ds, c.isDigit = true) :
    ∃ rest', trimBrackets ('[' :: (ds ++ '-' :: rest)) = ds ++ '-' :: rest' := by
  obtain ⟨d, ds', rfl⟩ := List.exists_cons_of_ne_nil hne
  have hdd := (isDigit_facts d (hd d (List.mem_cons_self _ _))).1
  refine ⟨((rest.reverse.dropWhile (fun c => c == '[' || c == ']')).reverse), ?_⟩
  unfold trimBrackets
  have e1 : List.dropWhile (fun c => c == '[' || c == ']') ('[' :: (d :: ds' ++ '-' :: rest)) =
      d :: ds' ++ '-' :: rest := by
    simp [List.dropWhile, hdd]
  rw [e1]
  have e2 : (d :: ds' ++ '-' :: rest).reverse = rest.reverse ++ '-' :: (d :: ds').reverse := by
    simp
  rw [e2, dropWhile_append_stop _ _ _ _ (by decide)]
  simp

theorem sscanfInt_digits (ds : List Char) (hne : ds ≠ []) (hd : ∀ c ∈ ds, c.isDigit = true)
    (hr : digitsValue ds < 2 ^ 63) : sscanfInt ds = some (digitsValue ds : Int) := by
  obtain ⟨d, ds', rfl⟩ := List.exists_cons_of_ne_nil hne
  obtain ⟨-, h1, h2, h3, h4⟩ := isDigit_facts d (hd d (List.mem_cons_self _ _))
  have htw : List.takeWhile Char.isDigit (d :: ds') = d :: ds' :=
    List.takeWhile_eq_self_iff.mpr hd
  have hr' : ((digitsValue (d :: ds') : Nat) : Int) < 2 ^ 63 := by exact_mod_cast hr
  have hr0 : -(2 ^ 63 : Int) ≤ ((digitsValue (d :: ds') : Nat) : Int) := by
    have : (0 : Int) ≤ ((digitsValue (d :: ds') : Nat) : Int) := Int.natCast_nonneg _
    omega
  simp only [sscanfInt, skipSpace, h3, h4, if_false, Bool.false_eq_true]
  simp [h1, h2, htw]
  constructor <;> omega

theorem sscanfInt_no_integer (token : List Char)
    (h : token = [] ∨ ∃ c cs, token = c :: cs ∧ c.isDigit = false ∧ c ≠ '+' ∧ c ≠ '-' ∧
      isSpace c = false) : sscanfInt token = none := by
  rcases h with rfl | ⟨c, cs, rfl, h1, h2, h3, h4⟩
  · simp [sscanfInt, skipSpace]
  · have hn : c ≠ '\n' := by
      rintro rfl
      revert h4; decide
    simp only [sscanfInt, skipSpace, hn, h4, if_false, Bool.false_eq_true]
    simp [h2, h3, List.takeWhile, h1]

/-- C6 (amended): a name that opens with a bracket, the decimal digits of a
natural number `n` below `2 ^ 63` and a hyphen has `extractNumber` equal to
`n`; a name whose first hyphen-separated token, brackets stripped, is empty or
starts with a character that is neither a digit, nor a plus sign, nor white
space has `extractNumber` equal to 0. -/
theorem extractNumber_spec :
    (∀ (n : Nat) (rest : String), n < 2 ^ 63 →
      extractNumber ("[" ++ toString n ++ "-" ++ rest) = (n : Int)) ∧
    (∀ (name : String) (token : List Char),
      (splitOnChar '-' (trimBrackets name.toList)).head? = some token →
      (token = [] ∨ ∃ c cs, token = c :: cs ∧ c.isDigit = false ∧ c ≠ '+' ∧ isSpace c = false) →
      extractNumber name = 0) ∧
    extractNumber "[10-1]-x" = 10 ∧ extractNumber "deploy-app" = 0 := by
  refine ⟨?_, ?_, by decide, by decide⟩
  · intro n rest hn
    obtain ⟨hv, hd, hne⟩ := decimal_digits n
    have e : ("[" ++ toString n ++ "-" ++ rest).toList =
        '[' :: ((toString n).toList ++ '-' :: rest.toList) := by
      simp [String.toList]
    obtain ⟨rest', ht⟩ := trimBrackets_numbered _ rest.toList hne hd
    unfold extractNumber
    rw [e, ht, splitOnChar_append _ _ _ (fun x hx => (isDigit_facts x (hd x hx)).2.1)]
    simp only
    rw [sscanfInt_digits _ hne hd (by rw [hv]; exact hn), hv]
  · intro name token ht h
    unfold extractNumber
    cases hs : splitOnChar '-' (trimBrackets name.toList) with
    | nil => rfl
    | cons p ps =>
      rw [hs] at ht
      simp only [List.head?_cons, Option.some.injEq] at ht
      subst ht
      have hne := splitOnChar_head_ne _ _ _ _ hs
      have : sscanfInt p = none := by
        apply sscanfInt_no_integer
        rcases h with h | ⟨c, cs, rfl, h1, h2, h3⟩
        · exact Or.inl h
        · exact Or.inr ⟨c, cs, rfl, h1, h2, hne c (List.mem_cons_self _ _), h3⟩
      simp only [this]

/-- C6 as stated fails: the first token of `+7-x` and of ` 7-x` starts with a
character that is not a digit, yet `extractNumber` is 7. -/
theorem extractNumber_sign_or_space :
    (splitOnChar '-' (trimBrackets "+7-x".toList)).head? = some ['+', '7'] ∧
    ('+' : Char).isDigit = false ∧ extractNumber "+7-x" = 7 ∧
    (splitOnChar '-' (trimBrackets " 7-x".toList)).head? = some [' ', '7'] ∧
    (' ' : Char).isDigit = false ∧ extractNumber " 7-x" = 7 := by
  decide

/-! ## What `ProcessJobs` returns -/

theorem lookup_of_mem_keys {V : Type} (m : GoMap V) (k : String) (h : k ∈ m.map Prod.fst) :
    ∃ v, m.lookup k = some v ∧ (k, v) ∈ m := by
  induction m with
  | nil => simp at h
  | cons e es ih =>
    obtain ⟨k', v'⟩ := e
    by_cases hk : k = k'
    · subst hk
      exact ⟨v', by simp [List.lookup], List.mem_cons_self _ _⟩
    · have hmem : k ∈ es.map Prod.fst := by
        simpa [hk] using h
      obtain ⟨v, h1, h2⟩ := ih hmem
      refine ⟨v, ?_, List.mem_cons_of_mem _ h2⟩
      have : (k == k') = false := by simpa using hk
      simp [List.lookup, this, h1]

theorem sorted_names_perm (jobs : GoMap Job) :
    (SortNumericalPrefixStrings (jobs.map Prod.fst)).Perm (jobs.map Prod.fst) :=
  List.perm_insertionSort _ _

theorem stageJobs_mem (jobs : GoMap Job) (stepID : Nat) (j' : Job) (h : j' ∈ stageJobs jobs stepID) :
    ∃ i name job, (name, job) ∈ jobs ∧ j' = stampJob stepID i job := by
  unfold stageJobs at h
  obtain ⟨e, he, rfl⟩ := List.mem_map.mp h
  have hk : e.2 ∈ jobs.map Prod.fst := by
    have : e.2 ∈ SortNumericalPrefixStrings (jobs.map Prod.fst) :=
      List.snd_mem_of_mem_enum he
    exact (sorted_names_perm jobs).mem_iff.mp this
  obtain ⟨v, h1, h2⟩ := lookup_of_mem_keys jobs e.2 hk
  exact ⟨e.1, e.2, v, h2, by simp [h1]⟩

theorem processStages_mem (steps : List Step) : ∀ (m : GoMap (GoMap Job)) (stepID : Nat)
    (acc : List Job) (j' : Job), j' ∈ (processStages steps m (stepID, acc)).2 →
    j' ∈ acc ∨ ∃ stage jobs prev, (stage, jobs) ∈ m ∧ stageOrderMap stage ≠ 0 ∧
      j' ∈ stageJobs jobs (selectStepID steps (stageOrderMap stage) prev) := by
  intro m
  induction m with
  | nil => intro stepID acc j' h; exact Or.inl h
  | cons e rest ih =>
    obtain ⟨stage, jobs⟩ := e
    intro stepID acc j' h
    rw [processStages] at h
    by_cases h0 : stageOrderMap stage = 0
    · rw [if_pos h0] at h
      rcases ih _ _ _ h with h | ⟨s, js, prev, h1, h2, h3⟩
      · exact Or.inl h
      · exact Or.inr ⟨s, js, prev, List.mem_cons_of_mem _ h1, h2, h3⟩
    · rw [if_neg h0] at h
      rcases ih _ _ _ h with h | ⟨s, js, prev, h1, h2, h3⟩
      · rcases List.mem_append.mp h with h | h
        · exact Or.inl h
        · exact Or.inr ⟨stage, jobs, stepID, List.mem_cons_self _ _, h0, h⟩
      · exact Or.inr ⟨s, js, prev, List.mem_cons_of_mem _ h1, h2, h3⟩

theorem ProcessJobs_mem (m : GoMap (GoMap Job)) (steps : List Step) (j' : Job)
    (h : j' ∈ ProcessJobs m steps) :
    ∃ stage name job prev i, Bound m stage name job ∧ stageOrderMap stage ≠ 0 ∧
      j' = stampJob (selectStepID steps (stageOrderMap stage) prev) i job := by
  rcases processStages_mem steps m 0 [] j' h with h | ⟨stage, jobs, prev, h1, h2, h3⟩
  · simp at h
  · obtain ⟨i, name, job, h4, h5⟩ := stageJobs_mem _ _ _ h3
    exact ⟨stage, name, job, prev, i, ⟨jobs, h1, h4⟩, h2, h5⟩

theorem toInt64_small (n : Nat) (h : n < 2 ^ 63) : toInt64 n = (n : Int) := by
  unfold toInt64
  have : n % 2 ^ 64 = n := Nat.mod_eq_of_lt (by omega)
  rw [this, if_pos h]

/-- C10 (amended): every job `ProcessJobs` returns is built from a job the map
holds under a recognised stage; its `GitlabJobID` is that job's identifier
converted to a signed 64-bit integer, hence the identifier itself when it is
below `2 ^ 63`; its own `ID` is 0; name, stage and status are kept. -/
theorem ProcessJobs_keeps_provider_fields (m : GoMap (GoMap Job)) (steps : List Step)
    (j' : Job) (h : j' ∈ ProcessJobs m steps) :
    ∃ stage name job, Bound m stage name job ∧ stageOrderMap stage ≠ 0 ∧
      j'.GitlabJobID = toInt64 job.ID ∧ (job.ID < 2 ^ 63 → j'.GitlabJobID = (job.ID : Int)) ∧
      j'.ID = 0 ∧ j'.Name = job.Name ∧ j'.Stage = job.Stage ∧ j'.Status = job.Status := by
  obtain ⟨stage, name, job, prev, i, hb, h0, rfl⟩ := ProcessJobs_mem m steps j' h
  exact ⟨stage, name, job, hb, h0, rfl, fun hlt => toInt64_small _ hlt, rfl, rfl, rfl, rfl⟩

/-- C10, the witness: the `terraform` job of `providerJobs`. -/
theorem ProcessJobs_keeps_provider_fields_witness :
    ∃ stage name job, Bound (JobsToMap providerJobs) stage name job ∧ stageOrderMap stage ≠ 0 ∧
      (501 : Int) = toInt64 job.ID ∧ (job.ID < 2 ^ 63 → (501 : Int) = (job.ID : Int)) ∧
      (0 : Nat) = 0 ∧ "[1-1]-vm" = job.Name ∧ "terraform" = job.Stage ∧ "manual" = job.Status :=
  ProcessJobs_keeps_provider_fields (JobsToMap providerJobs) threeSteps
    { ID := 0, Name := "[1-1]-vm", StepID := 1, GitlabJobID := 501, Stage := "terraform",
      Status := "manual", Order := 1 } (by decide)

/-- C10 as stated fails: the provider reports the identifier `2 ^ 63`, and the
job `ProcessJobs` returns has `GitlabJobID` equal to `-2 ^ 63`. -/
theorem ProcessJobs_wraps_huge_identifier :
    hugeIDJobs.map (·.ID) = [2 ^ 63] ∧
    (ProcessJobs (JobsToMap hugeIDJobs) threeSteps).map (·.GitlabJobID) = [-(2 ^ 63)] := by
  decide

theorem selectStepID_spec (o : Int) : ∀ (steps : List Step) (prev : Nat),
    (selectStepID steps o prev = prev ∧ ∀ s ∈ steps, s.Order ≠ o) ∨
      ∃ s ∈ steps, s.Order = o ∧ s.ID = selectStepID steps o prev := by
  intro steps
  induction steps with
  | nil => intro prev; exact Or.inl ⟨rfl, by simp⟩
  | cons e es ih =>
    intro prev
    have hstep : selectStepID (e :: es) o prev =
        selectStepID es o (if e.Order = o then e.ID else prev) := rfl
    rw [hstep]
    rcases ih (if e.Order = o then e.ID else prev) with ⟨h1, h2⟩ | ⟨s, hs, h1, h2⟩
    · by_cases he : e.Order = o
      · rw [if_pos he] at h1
        exact Or.inr ⟨e, List.mem_cons_self _ _, he, by rw [if_pos he, h1]⟩
      · rw [if_neg he] at h1
        refine Or.inl ⟨by rw [if_neg he, h1], ?_⟩
        intro s hs
        rcases List.mem_cons.mp hs with rfl | hs
        · exact he
        · exact h2 s hs
    · exact Or.inr ⟨s, List.mem_cons_of_mem _ hs, h1, h2⟩

theorem stageOrderMap_cases (stage : String) (h : stageOrderMap stage ≠ 0) :
    stageOrderMap stage = 1 ∨ stageOrderMap stage = 2 ∨ stageOrderMap stage = 3 := by
  unfold stageOrderMap at h ⊢
  split_ifs at h ⊢ <;> simp at h ⊢

/-- C9: when each job is filed under its own stage and the step list holds a
step of each ordinal 1, 2 and 3, every job `ProcessJobs` returns has `StepID`
equal to the `ID` of a step of the list whose `Order` is the ordinal of the
job's stage; with pairwise distinct step identifiers, every step carrying that
`ID` has this `Order`. -/
theorem ProcessJobs_binds_stage_step (m : GoMap (GoMap Job)) (steps : List Step)
    (hf : FiledByStageAndName m)
    (h123 : ∀ o : Int, o = 1 ∨ o = 2 ∨ o = 3 → ∃ s ∈ steps, s.Order = o)
    (j' : Job) (h : j' ∈ ProcessJobs m steps) :
    (∃ s ∈ steps, s.ID = j'.StepID ∧ s.Order = stageOrderMap j'.Stage) ∧
    ((steps.map (·.ID)).Nodup →
      ∀ s ∈ steps, s.ID = j'.StepID → s.Order = stageOrderMap j'.Stage) := by
  obtain ⟨stage, name, job, prev, i, hb, h0, rfl⟩ := ProcessJobs_mem m steps j' h
  have hst : job.Stage = stage := (hf stage name job hb).1
  have hex : ∃ s ∈ steps, s.ID = selectStepID steps (stageOrderMap stage) prev ∧
      s.Order = stageOrderMap stage := by
    rcases selectStepID_spec (stageOrderMap stage) steps prev with ⟨-, h2⟩ | ⟨s, hs, h1, h2⟩
    · obtain ⟨s, hs, ho⟩ := h123 _ (stageOrderMap_cases stage h0)
      exact absurd ho (h2 s hs)
    · exact ⟨s, hs, h2, h1⟩
  have e1 : (stampJob (selectStepID steps (stageOrderMap stage) prev) i job).StepID =
      selectStepID steps (stageOrderMap stage) prev := rfl
  have e2 : (stampJob (selectStepID steps (stageOrderMap stage) prev) i job).Stage = stage := hst
  rw [e1, e2]
  refine ⟨hex, ?_⟩
  intro hnd s hs hid
  obtain ⟨s0, hs0, hid0, ho0⟩ := hex
  have : s = s0 := List.inj_on_of_nodup_map hnd hs hs0 (by rw [hid, hid0])
  rw [this, ho0]

/-- C9, the witness: the jobs of `providerJobs` against `threeSteps`. -/
theorem ProcessJobs_binds_stage_step_witness :
    (∃ s ∈ threeSteps, s.ID = 2 ∧ s.Order = stageOrderMap "ansible") ∧
    ((threeSteps.map (·.ID)).Nodup →
      ∀ s ∈ threeSteps, s.ID = 2 → s.Order = stageOrderMap "ansible") :=
  ProcessJobs_binds_stage_step (JobsToMap providerJobs) threeSteps
    (by
      intro stage name job hb
      obtain ⟨jobs, h1, h2⟩ := hb
      have h1' : (stage, jobs) ∈
          [("terraform", [("[1-1]-vm", providerJobs.get ⟨0, by decide⟩)]),
           ("ansible", [("[1-1]-k8s", providerJobs.get ⟨1, by decide⟩)]),
           ("helm", [("[1-1]-release", providerJobs.get ⟨2, by decide⟩)]),
           ("test", [("lint", providerJobs.get ⟨3, by decide⟩)])] := h1
      simp only [List.mem_cons, Prod.mk.injEq, List.mem_singleton, List.not_mem_nil,
        or_false] at h1'
      rcases h1' with ⟨rfl, rfl⟩ | ⟨rfl, rfl⟩ | ⟨rfl, rfl⟩ | ⟨rfl, rfl⟩ <;>
      · simp only [List.mem_singleton, Prod.mk.injEq] at h2
        obtain ⟨rfl, rfl⟩ := h2
        exact ⟨rfl, rfl⟩)
    (by
      intro o ho
      rcases ho with rfl | rfl | rfl <;> decide)
    { ID := 0, Name := "[1-1]-k8s", StepID := 2, GitlabJobID := 502, Stage := "ansible",
      Status := "manual", Order := 1 } (by decide)

/-! ## Orders within a stage -/

theorem sorted_names_pairwise (items : List String) :
    (SortNumericalPrefixStrings items).Pairwise
      (fun a b => extractNumber a ≤ extractNumber b) := by
  haveI : IsTotal String (fun a b => ¬ extractNumber b < extractNumber a) :=
    ⟨fun a b => by
      rcases le_total (extractNumber a) (extractNumber b) with h | h
      · exact Or.inl (not_lt.mpr h)
      · exact Or.inr (not_lt.mpr h)⟩
  haveI : IsTrans String (fun a b => ¬ extractNumber b < extractNumber a) :=
    ⟨fun a b c hab hbc => not_lt.mpr (le_trans (not_lt.mp hab) (not_lt.mp hbc))⟩
  have hs := List.sorted_insertionSort (fun a b => ¬ extractNumber b < extractNumber a) items
  exact List.Pairwise.imp (fun h => not_lt.mp h) hs

theorem stageJobs_orders (jobs : GoMap Job) (stepID : Nat) :
    (stageJobs jobs stepID).map (·.Order) = (List.range jobs.length).map (fun i : Nat => (i : Int) + 1) := by
  unfold stageJobs
  rw [List.map_map]
  have e : ((fun j : Job => j.Order) ∘
      fun e : Nat × String => stampJob stepID e.1 ((jobs.lookup e.2).getD {})) =
      (fun i : Nat => (i : Int) + 1) ∘ Prod.fst := by
    funext e; rfl
  rw [e, ← List.map_map, List.enum_map_fst, (sorted_names_perm jobs).length_eq, List.length_map]

/-- The record built for the name at position `i` of the sorted names. -/
theorem stageJobs_entry (jobs : GoMap Job) (stepID : Nat) (j' : Job)
    (h : j' ∈ stageJobs jobs stepID) :
    ∃ i name job, (SortNumericalPrefixStrings (jobs.map Prod.fst))[i]? = some name ∧
      (name, job) ∈ jobs ∧ j' = stampJob stepID i job := by
  unfold stageJobs at h
  obtain ⟨e, he, rfl⟩ := List.mem_map.mp h
  have hk : e.2 ∈ jobs.map Prod.fst :=
    (sorted_names_perm jobs).mem_iff.mp (List.snd_mem_of_mem_enum he)
  obtain ⟨v, h1, h2⟩ := lookup_of_mem_keys jobs e.2 hk
  exact ⟨e.1, e.2, v, List.mem_enum_iff_getElem?.mp he, h2, by simp [h1]⟩

theorem stageJobs_monotone (jobs : GoMap Job) (stepID : Nat)
    (hn : ∀ name job, (name, job) ∈ jobs → job.Name = name)
    (j1 j2 : Job) (h1 : j1 ∈ stageJobs jobs stepID) (h2 : j2 ∈ stageJobs jobs stepID)
    (hlt : extractNumber j1.Name < extractNumber j2.Name) : j1.Order < j2.Order := by
  obtain ⟨i1, n1, job1, hi1, hb1, rfl⟩ := stageJobs_entry _ _ _ h1
  obtain ⟨i2, n2, job2, hi2, hb2, rfl⟩ := stageJobs_entry _ _ _ h2
  have e1 : (stampJob stepID i1 job1).Name = n1 := hn n1 job1 hb1
  have e2 : (stampJob stepID i2 job2).Name = n2 := hn n2 job2 hb2
  rw [e1, e2] at hlt
  have o1 : (stampJob stepID i1 job1).Order = (i1 : Int) + 1 := rfl
  have o2 : (stampJob stepID i2 job2).Order = (i2 : Int) + 1 := rfl
  rw [o1, o2]
  obtain ⟨hl1, hg1⟩ := List.getElem?_eq_some.mp hi1
  obtain ⟨hl2, hg2⟩ := List.getElem?_eq_some.mp hi2
  have hsorted := List.pairwise_iff_getElem.mp (sorted_names_pairwise (jobs.map Prod.fst))
  have hlt' : i1 < i2 := by
    by_contra hcon
    rcases Nat.lt_or_ge i2 i1 with hlt2 | hge
    · have := hsorted i2 i1 hl2 hl1 hlt2
      rw [hg1, hg2] at this
      omega
    · have : i1 = i2 := by omega
      subst this
      rw [hg1] at hg2
      subst hg2
      omega
  omega

theorem stageJobs_names (jobs : GoMap Job) (stepID : Nat)
    (hn : ∀ name job, (name, job) ∈ jobs → job.Name = name) :
    (stageJobs jobs stepID).map (·.Name) = SortNumericalPrefixStrings (jobs.map Prod.fst) := by
  unfold stageJobs
  rw [List.map_map]
  have : List.map ((fun j : Job => j.Name) ∘
      fun e : Nat × String => stampJob stepID e.1 ((jobs.lookup e.2).getD {}))
      (SortNumericalPrefixStrings (jobs.map Prod.fst)).enum =
      List.map Prod.snd (SortNumericalPrefixStrings (jobs.map Prod.fst)).enum := by
    apply List.map_congr_left
    intro e he
    have hk : e.2 ∈ jobs.map Prod.fst :=
      (sorted_names_perm jobs).mem_iff.mp (List.snd_mem_of_mem_enum he)
    obtain ⟨v, h1, h2⟩ := lookup_of_mem_keys jobs e.2 hk
    simp only [Function.comp, h1, Option.getD_some]
    exact hn e.2 v h2
  rw [this, List.enum_map_snd]

theorem stageJobs_stage (jobs : GoMap Job) (stepID : Nat) (stage : String)
    (hs : ∀ name job, (name, job) ∈ jobs → job.Stage = stage) :
    ∀ j ∈ stageJobs jobs stepID, j.Stage = stage := by
  intro j hj
  obtain ⟨i, name, job, -, hb, rfl⟩ := stageJobs_entry _ _ _ hj
  exact hs name job hb

/-- The jobs of one stage in the result of the stage loop: those already
collected, then the records of the stage's own binding. -/
theorem processStages_stage (steps : List Step) (stage : String) :
    ∀ (m : GoMap (GoMap Job)), IsGoMap m → FiledByStageAndName m →
    ∀ (stepID : Nat) (acc : List Job),
    ∃ seg, (processStages steps m (stepID, acc)).2.filter (fun j => j.Stage == stage) =
        acc.filter (fun j => j.Stage == stage) ++ seg ∧
      ((seg = [] ∧ (stageOrderMap stage = 0 ∨ stage ∉ m.map Prod.fst)) ∨
        (stageOrderMap stage ≠ 0 ∧ ∃ jobs prev, (stage, jobs) ∈ m ∧
          seg = stageJobs jobs (selectStepID steps (stageOrderMap stage) prev))) := by
  intro m
  induction m with
  | nil =>
    intro _ _ stepID acc
    exact ⟨[], by simp [processStages], Or.inl ⟨rfl, Or.inr (by simp)⟩⟩
  | cons e rest ih =>
    obtain ⟨k, jobs⟩ := e
    intro hm hf stepID acc
    have hm' : IsGoMap rest :=
      ⟨(List.nodup_cons.mp hm.1).2, fun e he => hm.2 e (List.mem_cons_of_mem _ he)⟩
    have hf' : FiledByStageAndName rest := by
      intro s n j ⟨js, h1, h2⟩
      exact hf s n j ⟨js, List.mem_cons_of_mem _ h1, h2⟩
    have hk : k ∉ rest.map Prod.fst := (List.nodup_cons.mp hm.1).1
    rw [processStages]
    by_cases h0 : stageOrderMap k = 0
    · rw [if_pos h0]
      obtain ⟨seg, h1, h2⟩ := ih hm' hf' stepID acc
      refine ⟨seg, h1, ?_⟩
      rcases h2 with ⟨rfl, h2⟩ | ⟨h2, js, prev, h3, h4⟩
      · refine Or.inl ⟨rfl, ?_⟩
        rcases h2 with h2 | h2
        · exact Or.inl h2
        · by_cases hks : stage = k
          · exact Or.inl (hks ▸ h0)
          · exact Or.inr (by simpa [hks] using h2)
      · exact Or.inr ⟨h2, js, prev, List.mem_cons_of_mem _ h3, h4⟩
    · rw [if_neg h0]
      obtain ⟨seg, h1, h2⟩ := ih hm' hf'
        (selectStepID steps (stageOrderMap k) stepID)
        (acc ++ stageJobs jobs (selectStepID steps (stageOrderMap k) stepID))
      have hstage : ∀ j ∈ stageJobs jobs (selectStepID steps (stageOrderMap k) stepID),
          j.Stage = k :=
        stageJobs_stage _ _ _ (fun name job hb =>
          (hf k name job ⟨jobs, List.mem_cons_self _ _, hb⟩).1)
      by_cases hks : stage = k
      · subst hks
        have hfil : (stageJobs jobs (selectStepID steps (stageOrderMap stage) stepID)).filter
            (fun j => j.Stage == stage) =
            stageJobs jobs (selectStepID steps (stageOrderMap stage) stepID) := by
          apply List.filter_eq_self.mpr
          intro j hj
          simp [hstage j hj]
        have hseg : seg = [] := by
          rcases h2 with ⟨h2, -⟩ | ⟨-, js, prev, h3, -⟩
          · exact h2
          · exact absurd (List.mem_map_of_mem Prod.fst h3) hk
        refine ⟨stageJobs jobs (selectStepID steps (stageOrderMap stage) stepID), ?_,
          Or.inr ⟨h0, jobs, stepID, List.mem_cons_self _ _, rfl⟩⟩
        rw [h1, List.filter_append, hfil, hseg, List.append_nil]
      · have hfil : (stageJobs jobs (selectStepID steps (stageOrderMap k) stepID)).filter
            (fun j => j.Stage == stage) = [] := by
          apply List.filter_eq_nil_iff.mpr
          intro j hj
          simp [hstage j hj, Ne.symm hks]
        refine ⟨seg, ?_, ?_⟩
        · rw [h1, List.filter_append, hfil, List.append_nil]
        · rcases h2 with ⟨rfl, h2⟩ | ⟨h2, js, prev, h3, h4⟩
          · refine Or.inl ⟨rfl, ?_⟩
            rcases h2 with h2 | h2
            · exact Or.inl h2
            · exact Or.inr (by simpa [hks] using h2)
          · exact Or.inr ⟨h2, js, prev, List.mem_cons_of_mem _ h3, h4⟩

/-- The jobs `ProcessJobs` returns for a recognised stage that the map binds. -/
theorem ProcessJobs_stage (m : GoMap (GoMap Job)) (steps : List Step) (hm : IsGoMap m)
    (hf : FiledByStageAndName m) (stage : String) (jobs : GoMap Job) (hb : (stage, jobs) ∈ m)
    (h0 : stageOrderMap stage ≠ 0) :
    ∃ prev, (ProcessJobs m steps).filter (fun j => j.Stage == stage) =
      stageJobs jobs (selectStepID steps (stageOrderMap stage) prev) := by
  obtain ⟨seg, h1, h2⟩ := processStages_stage steps stage m hm hf 0 []
  rcases h2 with ⟨-, h2⟩ | ⟨-, js, prev, h3, h4⟩
  · rcases h2 with h2 | h2
    · exact absurd h2 h0
    · exact absurd (List.mem_map_of_mem Prod.fst hb) h2
  · have : js = jobs := by
      have hinj := List.inj_on_of_nodup_map hm.1 h3 hb rfl
      exact (Prod.mk.inj hinj).2
    subst this
    exact ⟨prev, by simpa [ProcessJobs, h4] using h1⟩

/-- The jobs `ProcessJobs` returns for any other stage: none. -/
theorem ProcessJobs_stage_none (m : GoMap (GoMap Job)) (steps : List Step) (hm : IsGoMap m)
    (hf : FiledByStageAndName m) (stage : String)
    (h : stageOrderMap stage = 0 ∨ stage ∉ m.map Prod.fst) :
    (ProcessJobs m steps).filter (fun j => j.Stage == stage) = [] := by
  obtain ⟨seg, h1, h2⟩ := processStages_stage steps stage m hm hf 0 []
  rcases h2 with ⟨rfl, -⟩ | ⟨h0, js, prev, h3, -⟩
  · simpa [ProcessJobs] using h1
  · rcases h with h | h
    · exact absurd h h0
    · exact absurd (List.mem_map_of_mem Prod.fst h3) h

/-- In a job map that files each job under its own stage and name, the jobs
`ProcessJobs` returns for a stage with an ordinal carry the `Order` values 1,
2, ..., `k`, `k` the number of jobs of the stage; and of two returned jobs of
one stage the one whose name has the smaller numeric token has the smaller
`Order`. -/
theorem ProcessJobs_orders_of_ordinal (m : GoMap (GoMap Job)) (steps : List Step)
    (hm : IsGoMap m) (hf : FiledByStageAndName m) :
    (∀ stage jobs, (stage, jobs) ∈ m → stageOrderMap stage ≠ 0 →
      ((ProcessJobs m steps).filter (fun j => j.Stage == stage)).map (·.Order) =
        (List.range jobs.length).map (fun i : Nat => (i : Int) + 1)) ∧
    (∀ j1 ∈ ProcessJobs m steps, ∀ j2 ∈ ProcessJobs m steps, j1.Stage = j2.Stage →
      extractNumber j1.Name < extractNumber j2.Name → j1.Order < j2.Order) := by
  constructor
  · intro stage jobs hb h0
    obtain ⟨prev, h⟩ := ProcessJobs_stage m steps hm hf stage jobs hb h0
    rw [h, stageJobs_orders]
  · intro j1 h1 j2 h2 hst hlt
    have hf1 : j1 ∈ (ProcessJobs m steps).filter (fun j => j.Stage == j1.Stage) :=
      List.mem_filter.mpr ⟨h1, by simp⟩
    have hf2 : j2 ∈ (ProcessJobs m steps).filter (fun j => j.Stage == j1.Stage) :=
      List.mem_filter.mpr ⟨h2, by simp [hst]⟩
    by_cases hrec : stageOrderMap j1.Stage = 0 ∨ j1.Stage ∉ m.map Prod.fst
    · rw [ProcessJobs_stage_none m steps hm hf _ hrec] at hf1
      simp at hf1
    · have h0 : stageOrderMap j1.Stage ≠ 0 := fun h => hrec (Or.inl h)
      have hk : j1.Stage ∈ m.map Prod.fst := by
        by_contra h; exact hrec (Or.inr h)
      obtain ⟨e, he, hek⟩ := List.mem_map.mp hk
      obtain ⟨k, jobs⟩ := e
      simp only at hek
      subst hek
      obtain ⟨prev, h⟩ := ProcessJobs_stage m steps hm hf _ jobs he h0
      rw [h] at hf1 hf2
      exact stageJobs_monotone jobs _
        (fun name job hb => (hf _ name job ⟨jobs, he, hb⟩).2) j1 j2 hf1 hf2 hlt

/-! ## The map `JobsToMap` builds -/

theorem GoMap.mem_set {V : Type} (m : GoMap V) (k : String) (v : V) (e : String × V) :
    e ∈ m.set k v ↔ e = (k, v) ∨ (e.1 ≠ k ∧ e ∈ m) := by
  unfold GoMap.set
  by_cases h : m.any (fun e => e.1 == k) = true
  · rw [if_pos h]
    obtain ⟨e0, he0, hk0⟩ := List.any_eq_true.mp h
    have hk0' : e0.1 = k := by simpa using hk0
    constructor
    · intro he
      obtain ⟨e1, he1, rfl⟩ := List.mem_map.mp he
      by_cases h1 : e1.1 = k
      · exact Or.inl (by rw [if_pos h1])
      · exact Or.inr (by rw [if_neg h1]; exact ⟨h1, he1⟩)
    · rintro (rfl | ⟨h1, h2⟩)
      · exact List.mem_map.mpr ⟨e0, he0, by rw [if_pos hk0']⟩
      · exact List.mem_map.mpr ⟨e, h2, by rw [if_neg h1]⟩
  · rw [if_neg h]
    have hno : ∀ e0 ∈ m, e0.1 ≠ k := by
      intro e0 he0 hk
      exact h (List.any_eq_true.mpr ⟨e0, he0, by simpa using hk⟩)
    constructor
    · intro he
      rcases List.mem_append.mp he with he | he
      · exact Or.inr ⟨hno e he, he⟩
      · exact Or.inl (List.mem_singleton.mp he)
    · rintro (rfl | ⟨_, h2⟩)
      · exact List.mem_append.mpr (Or.inr (List.mem_singleton.mpr rfl))
      · exact List.mem_append.mpr (Or.inl h2)

theorem GoMap.set_keys_nodup {V : Type} (m : GoMap V) (k : String) (v : V)
    (h : (m.map Prod.fst).Nodup) : ((m.set k v).map Prod.fst).Nodup := by
  unfold GoMap.set
  by_cases hk : m.any (fun e => e.1 == k) = true
  · rw [if_pos hk]
    have : List.map Prod.fst (List.map (fun e : String × V => if e.1 = k then (k, v) else e) m) =
        List.map Prod.fst m := by
      rw [List.map_map]
      apply List.map_congr_left
      intro e _
      by_cases h1 : e.1 = k
      · simp [Function.comp, h1]
      · simp [Function.comp, h1]
    rw [this]; exact h
  · rw [if_neg hk]
    have hno : k ∉ m.map Prod.fst := by
      intro hmem
      obtain ⟨e0, he0, hk0⟩ := List.mem_map.mp hmem
      exact hk (List.any_eq_true.mpr ⟨e0, he0, by simpa using hk0⟩)
    rw [List.map_append]
    simpa [List.nodup_append, h] using hno

theorem lookup_of_mem_nodup {V : Type} (m : GoMap V) (k : String) (v : V)
    (hnd : (m.map Prod.fst).Nodup) (h : (k, v) ∈ m) : m.lookup k = some v := by
  induction m with
  | nil => simp at h
  | cons e es ih =>
    obtain ⟨k', v'⟩ := e
    have hnd' := List.nodup_cons.mp hnd
    rcases List.mem_cons.mp h with h1 | h1
    · cases h1
      simp [List.lookup]
    · have hne : k ≠ k' := by
        rintro rfl
        have hmem : (k, v).1 ∈ es.map Prod.fst := List.mem_map_of_mem Prod.fst h1
        exact hnd'.1 hmem
      have : (k == k') = false := by simpa using hne
      simp [List.lookup, this, ih hnd'.2 h1]

theorem lookup_none_of_not_mem {V : Type} (m : GoMap V) (k : String)
    (h : k ∉ m.map Prod.fst) : m.lookup k = none := by
  induction m with
  | nil => rfl
  | cons e es ih =>
    obtain ⟨k', v'⟩ := e
    have hne : k ≠ k' := by
      rintro rfl
      exact h (by simp)
    have hes : k ∉ es.map Prod.fst := fun hm => h (by simp [hm])
    have : (k == k') = false := by simpa using hne
    simp [List.lookup, this, ih hes]

/-- The jobs filed under `stage`, read the way `JobsToMap` reads them. -/
theorem mem_lookup_getD (m : GoMap (GoMap Job)) (hm : IsGoMap m) (stage name : String)
    (job : Job) : (name, job) ∈ (m.lookup stage).getD [] ↔ Bound m stage name job := by
  by_cases hk : stage ∈ m.map Prod.fst
  · obtain ⟨e, he, hek⟩ := List.mem_map.mp hk
    obtain ⟨k, js⟩ := e
    simp only at hek
    subst hek
    rw [lookup_of_mem_nodup m k js hm.1 he]
    constructor
    · intro h; exact ⟨js, he, h⟩
    · rintro ⟨js', h1, h2⟩
      have := List.inj_on_of_nodup_map hm.1 h1 he rfl
      rw [(Prod.mk.inj this).2] at h2
      exact h2
  · rw [lookup_none_of_not_mem m stage hk]
    constructor
    · intro h; simp at h
    · rintro ⟨js, h1, -⟩
      exact absurd (List.mem_map_of_mem Prod.fst h1) hk

theorem lookup_getD_nodup (m : GoMap (GoMap Job)) (hm : IsGoMap m) (stage : String) :
    (((m.lookup stage).getD []).map Prod.fst).Nodup := by
  by_cases hk : stage ∈ m.map Prod.fst
  · obtain ⟨e, he, hek⟩ := List.mem_map.mp hk
    obtain ⟨k, js⟩ := e
    simp only at hek
    subst hek
    rw [lookup_of_mem_nodup m k js hm.1 he]
    exact hm.2 _ he
  · rw [lookup_none_of_not_mem m stage hk]
    simp

/-- One round of the loop of `JobsToMap`. -/
theorem fileJob_spec (m : GoMap (GoMap Job)) (hm : IsGoMap m) (job : Job) :
    IsGoMap (m.set job.Stage (((m.lookup job.Stage).getD []).set job.Name job)) ∧
    ∀ s n j, Bound (m.set job.Stage (((m.lookup job.Stage).getD []).set job.Name job)) s n j ↔
      (s = job.Stage ∧ n = job.Name ∧ j = job) ∨
        ((s ≠ job.Stage ∨ n ≠ job.Name) ∧ Bound m s n j) := by
  constructor
  · refine ⟨GoMap.set_keys_nodup _ _ _ hm.1, ?_⟩
    intro e he
    rcases (GoMap.mem_set _ _ _ _).mp he with rfl | ⟨-, he⟩
    · exact GoMap.set_keys_nodup _ _ _ (lookup_getD_nodup m hm _)
    · exact hm.2 e he
  · intro s n j
    constructor
    · rintro ⟨js, h1, h2⟩
      rcases (GoMap.mem_set _ _ _ _).mp h1 with h1 | ⟨hne, h1⟩
      · cases h1
        rcases (GoMap.mem_set _ _ _ _).mp h2 with h2 | ⟨hne, h2⟩
        · cases h2
          exact Or.inl ⟨rfl, rfl, rfl⟩
        · exact Or.inr ⟨Or.inr hne, (mem_lookup_getD m hm _ _ _).mp h2⟩
      · exact Or.inr ⟨Or.inl hne, ⟨js, h1, h2⟩⟩
    · rintro (⟨rfl, rfl, rfl⟩ | ⟨hne, hb⟩)
      · exact ⟨_, (GoMap.mem_set _ _ _ _).mpr (Or.inl rfl),
          (GoMap.mem_set _ _ _ _).mpr (Or.inl rfl)⟩
      · by_cases hs : s = job.Stage
        · subst hs
          have hn : n ≠ job.Name := by
            rcases hne with h | h
            · exact absurd rfl h
            · exact h
          exact ⟨_, (GoMap.mem_set _ _ _ _).mpr (Or.inl rfl),
            (GoMap.mem_set _ _ _ _).mpr (Or.inr ⟨hn, (mem_lookup_getD m hm _ _ _).mpr hb⟩)⟩
        · obtain ⟨js, h1, h2⟩ := hb
          exact ⟨js, (GoMap.mem_set _ _ _ _).mpr (Or.inr ⟨hs, h1⟩), h2⟩

theorem fileJobs_spec : ∀ (jobs : List Job) (m : GoMap (GoMap Job)), IsGoMap m →
    IsGoMap (jobs.foldl (fun jobMap job =>
      jobMap.set job.Stage (((jobMap.lookup job.Stage).getD []).set job.Name job)) m) ∧
    (∀ s n j, Bound (jobs.foldl (fun jobMap job =>
      jobMap.set job.Stage (((jobMap.lookup job.Stage).getD []).set job.Name job)) m) s n j →
      Bound m s n j ∨ (j ∈ jobs ∧ j.Stage = s ∧ j.Name = n)) ∧
    (∀ s n, ((∃ j, Bound m s n j) ∨ ∃ j ∈ jobs, j.Stage = s ∧ j.Name = n) →
      ∃ j, Bound (jobs.foldl (fun jobMap job =>
        jobMap.set job.Stage (((jobMap.lookup job.Stage).getD []).set job.Name job)) m) s n j) := by
  intro jobs
  induction jobs with
  | nil =>
    intro m hm
    refine ⟨hm, fun s n j h => Or.inl h, ?_⟩
    rintro s n (h | ⟨j, hj, -⟩)
    · exact h
    · simp at hj
  | cons job rest ih =>
    intro m hm
    obtain ⟨hm1, hb1⟩ := fileJob_spec m hm job
    obtain ⟨h1, h2, h3⟩ := ih _ hm1
    rw [List.foldl_cons]
    refine ⟨h1, ?_, ?_⟩
    · intro s n j hb
      rcases h2 s n j hb with hb | ⟨hj, hs, hn⟩
      · rcases (hb1 s n j).mp hb with ⟨rfl, rfl, rfl⟩ | ⟨-, hb⟩
        · exact Or.inr ⟨List.mem_cons_self _ _, rfl, rfl⟩
        · exact Or.inl hb
      · exact Or.inr ⟨List.mem_cons_of_mem _ hj, hs, hn⟩
    · intro s n h
      apply h3
      by_cases hk : s = job.Stage ∧ n = job.Name
      · exact Or.inl ⟨job, (hb1 s n job).mpr (Or.inl ⟨hk.1, hk.2, rfl⟩)⟩
      · have hk' : s ≠ job.Stage ∨ n ≠ job.Name := by
          by_contra hcon
          push_neg at hcon
          exact hk hcon
        rcases h with ⟨j, hb⟩ | ⟨j, hj, hs, hn⟩
        · exact Or.inl ⟨j, (hb1 s n j).mpr (Or.inr ⟨hk', hb⟩)⟩
        · rcases List.mem_cons.mp hj with rfl | hj
          · exact absurd ⟨hs.symm, hn.symm⟩ hk
          · exact Or.inr ⟨j, hj, hs, hn⟩

/-- What `JobsToMap` builds: a Go map that files each job under its own stage
and name, and binds exactly the (stage, name) pairs of the input. -/
theorem JobsToMap_spec (jobs : List Job) :
    IsGoMap (JobsToMap jobs) ∧ FiledByStageAndName (JobsToMap jobs) ∧
    (∀ s n j, Bound (JobsToMap jobs) s n j → j ∈ jobs) ∧
    (∀ j ∈ jobs, ∃ j', Bound (JobsToMap jobs) j.Stage j.Name j') := by
  have hnil : IsGoMap ([] : GoMap (GoMap Job)) := ⟨by simp, by simp⟩
  obtain ⟨h1, h2, h3⟩ := fileJobs_spec jobs [] hnil
  have hno : ∀ s n j, ¬ Bound ([] : GoMap (GoMap Job)) s n j := by
    rintro s n j ⟨js, h, -⟩
    simp at h
  refine ⟨h1, ?_, ?_, ?_⟩
  · intro s n j hb
    rcases h2 s n j hb with hb | ⟨-, hs, hn⟩
    · exact absurd hb (hno _ _ _)
    · exact ⟨hs, hn⟩
  · intro s n j hb
    rcases h2 s n j hb with hb | ⟨hj, -, -⟩
    · exact absurd hb (hno _ _ _)
    · exact hj
  · intro j hj
    exact h3 j.Stage j.Name (Or.inr ⟨j, hj, rfl, rfl⟩)

/-! ## One returned job per (stage, name) pair -/

theorem filter_stage_name (l : List Job) (s n : String) :
    l.filter (fun o => o.Stage == s && o.Name == n) =
      (l.filter (fun o => o.Stage == s)).filter (fun o => o.Name == n) := by
  rw [List.filter_filter]
  apply List.filter_congr
  intro o _
  exact Bool.and_comm _ _

theorem length_filter_name (seg : List Job) (n : String) :
    (seg.filter (fun o => o.Name == n)).length = (seg.map (·.Name)).count n := by
  rw [List.count_eq_countP, List.countP_map, ← List.countP_eq_length_filter]
  rfl

/-- How many returned jobs carry a given stage and name. -/
theorem ProcessJobs_count (m : GoMap (GoMap Job)) (steps : List Step) (hm : IsGoMap m)
    (hf : FiledByStageAndName m) (s n : String) :
    ((ProcessJobs m steps).filter (fun o => o.Stage == s && o.Name == n)).length ≤ 1 ∧
    (stageOrderMap s ≠ 0 → (∃ j, Bound m s n j) →
      ((ProcessJobs m steps).filter (fun o => o.Stage == s && o.Name == n)).length = 1) := by
  rw [filter_stage_name]
  by_cases hrec : stageOrderMap s = 0 ∨ s ∉ m.map Prod.fst
  · rw [ProcessJobs_stage_none m steps hm hf s hrec]
    refine ⟨by simp, ?_⟩
    rintro h0 ⟨j, js, h1, -⟩
    rcases hrec with h | h
    · exact absurd h h0
    · exact absurd (List.mem_map_of_mem Prod.fst h1) h
  · have h0 : stageOrderMap s ≠ 0 := fun h => hrec (Or.inl h)
    have hk : s ∈ m.map Prod.fst := by
      by_contra h; exact hrec (Or.inr h)
    obtain ⟨e, he, hek⟩ := List.mem_map.mp hk
    obtain ⟨k, jobs⟩ := e
    simp only at hek
    subst hek
    obtain ⟨prev, h⟩ := ProcessJobs_stage m steps hm hf _ jobs he h0
    have hnd : (SortNumericalPrefixStrings (jobs.map Prod.fst)).Nodup :=
      (sorted_names_perm jobs).nodup_iff.mpr (hm.2 _ he)
    rw [h, length_filter_name,
      stageJobs_names jobs _ (fun name job hb => (hf _ name job ⟨jobs, he, hb⟩).2)]
    refine ⟨List.nodup_iff_count_le_one.mp hnd n, ?_⟩
    rintro - ⟨j, js, h1, h2⟩
    have hjs : js = jobs := (Prod.mk.inj (List.inj_on_of_nodup_map hm.1 h1 he rfl)).2
    subst hjs
    apply List.count_eq_one_of_mem hnd
    exact (sorted_names_perm js).mem_iff.mpr (List.mem_map_of_mem Prod.fst h2)

theorem ProcessJobs_bound (m : GoMap (GoMap Job)) (steps : List Step)
    (hf : FiledByStageAndName m) (o : Job) (h : o ∈ ProcessJobs m steps) :
    stageOrderMap o.Stage ≠ 0 ∧ ∃ j, Bound m o.Stage o.Name j := by
  obtain ⟨stage, name, job, prev, i, hb, h0, rfl⟩ := ProcessJobs_mem m steps o h
  obtain ⟨hs, hn⟩ := hf stage name job hb
  have e1 : (stampJob (selectStepID steps (stageOrderMap stage) prev) i job).Stage = stage := hs
  have e2 : (stampJob (selectStepID steps (stageOrderMap stage) prev) i job).Name = name := hn
  rw [e1, e2]
  exact ⟨h0, job, hb⟩

/-- For the map `JobsToMap` builds from the provider's job list, visited in
any order, `ProcessJobs` returns exactly one job for each (stage, name) pair of
the list whose stage has an ordinal, every returned job has such a stage and
the stage and name of a job of the list, and when these (stage, name) pairs
are pairwise distinct the number of returned jobs is the number of jobs of the
list whose stage has an ordinal. -/
theorem ProcessJobs_one_per_ordinal_pair (jobs : List Job) (steps : List Step)
    (m : GoMap (GoMap Job)) (hm : SameGoMap m (JobsToMap jobs)) :
    (∀ j ∈ jobs, stageOrderMap j.Stage ≠ 0 →
      ((ProcessJobs m steps).filter
        (fun o => o.Stage == j.Stage && o.Name == j.Name)).length = 1) ∧
    (∀ o ∈ ProcessJobs m steps, stageOrderMap o.Stage ≠ 0 ∧
      ∃ j ∈ jobs, j.Stage = o.Stage ∧ j.Name = o.Name) ∧
    (((jobs.filter (fun j => stageOrderMap j.Stage != 0)).map
        (fun j => (j.Stage, j.Name))).Nodup →
      (ProcessJobs m steps).length =
        (jobs.filter (fun j => stageOrderMap j.Stage != 0)).length) := by
  obtain ⟨hgo, hsame⟩ := hm
  obtain ⟨-, hfiled, hin, hall⟩ := JobsToMap_spec jobs
  have hf : FiledByStageAndName m := fun s n j hb => hfiled s n j ((hsame s n j).mp hb)
  have ha : ∀ j ∈ jobs, stageOrderMap j.Stage ≠ 0 →
      ((ProcessJobs m steps).filter
        (fun o => o.Stage == j.Stage && o.Name == j.Name)).length = 1 := by
    intro j hj h0
    obtain ⟨j', hb⟩ := hall j hj
    exact (ProcessJobs_count m steps hgo hf j.Stage j.Name).2 h0 ⟨j', (hsame _ _ _).mpr hb⟩
  have hb : ∀ o ∈ ProcessJobs m steps, stageOrderMap o.Stage ≠ 0 ∧
      ∃ j ∈ jobs, j.Stage = o.Stage ∧ j.Name = o.Name := by
    intro o ho
    obtain ⟨h0, j, hbd⟩ := ProcessJobs_bound m steps hf o ho
    have hbd' := (hsame _ _ _).mp hbd
    exact ⟨h0, j, hin _ _ _ hbd', hfiled _ _ _ hbd'⟩
  refine ⟨ha, hb, ?_⟩
  intro hnd
  have hnd' : ((ProcessJobs m steps).map (fun o => (o.Stage, o.Name))).Nodup := by
    rw [List.nodup_iff_count_le_one]
    rintro ⟨s, n⟩
    simp only [List.count, List.countP_map, List.countP_eq_length_filter]
    rw [List.filter_map, List.length_map]
    refine le_trans (le_of_eq ?_) (ProcessJobs_count m steps hgo hf s n).1
    congr 1
    apply List.filter_congr
    intro o _
    rw [Bool.eq_iff_iff]
    simp only [Function.comp, Bool.and_eq_true, beq_iff_eq]
    exact ⟨fun h => Prod.mk.inj (of_decide_eq_true h),
      fun h => decide_eq_true (by rw [h.1, h.2])⟩
  have hperm : ((ProcessJobs m steps).map (fun o => (o.Stage, o.Name))).Perm
      ((jobs.filter (fun j => stageOrderMap j.Stage != 0)).map (fun j => (j.Stage, j.Name))) := by
    rw [List.perm_ext_iff_of_nodup hnd' hnd]
    rintro ⟨s, n⟩
    constructor
    · intro h
      obtain ⟨o, ho, hkey⟩ := List.mem_map.mp h
      obtain ⟨h0, j, hj, hs, hn⟩ := hb o ho
      refine List.mem_map.mpr ⟨j, List.mem_filter.mpr ⟨hj, ?_⟩, ?_⟩
      · simpa [hs] using h0
      · rw [hs, hn]; exact hkey
    · intro h
      obtain ⟨j, hj, hkey⟩ := List.mem_map.mp h
      obtain ⟨hj, h0⟩ := List.mem_filter.mp hj
      have h0' : stageOrderMap j.Stage ≠ 0 := by simpa using h0
      have hlen := ha j hj h0'
      have hpos : 0 < ((ProcessJobs m steps).filter
          (fun o => o.Stage == j.Stage && o.Name == j.Name)).length := by omega
      obtain ⟨o, ho⟩ := List.exists_mem_of_length_pos hpos
      obtain ⟨ho, hp⟩ := List.mem_filter.mp ho
      simp only [Bool.and_eq_true, beq_iff_eq] at hp
      refine List.mem_map.mpr ⟨o, ho, ?_⟩
      rw [hp.1, hp.2]; exact hkey
  have := hperm.length_eq
  simpa using this

/-- The stages with an ordinal in `stageOrderMap` are `terraform`, `ansible`
and `helm`. -/
theorem stageOrderMap_recognised (stage : String) :
    stageOrderMap stage ≠ 0 ↔ stage = "terraform" ∨ stage = "ansible" ∨ stage = "helm" := by
  unfold stageOrderMap
  by_cases h1 : stage = "terraform"
  · simp [h1]
  · by_cases h2 : stage = "ansible"
    · simp [h2]
    · by_cases h3 : stage = "helm"
      · simp [h3]
      · simp [h1, h2, h3]

/-- C7: in a job map that files each job under its own stage and name, for
each of the stages `terraform`, `ansible` and `helm` the jobs `ProcessJobs`
returns for the stage are the jobs the map holds for it, one for each name, and
they carry the `Order` values 1, 2, ..., `k`, `k` the number of jobs of the
stage, one each; and of two returned jobs of one stage the one whose name has
the smaller numeric token has the smaller `Order`. -/
theorem ProcessJobs_orders_within_stage (m : GoMap (GoMap Job)) (steps : List Step)
    (hm : IsGoMap m) (hf : FiledByStageAndName m) :
    (∀ stage jobs, (stage, jobs) ∈ m →
      stage = "terraform" ∨ stage = "ansible" ∨ stage = "helm" →
      ((ProcessJobs m steps).filter (fun j => j.Stage == stage)).map (·.Order) =
        (List.range jobs.length).map (fun i : Nat => (i : Int) + 1) ∧
      (((ProcessJobs m steps).filter (fun j => j.Stage == stage)).map (·.Name)).Perm
        (jobs.map Prod.fst)) ∧
    (∀ j1 ∈ ProcessJobs m steps, ∀ j2 ∈ ProcessJobs m steps, j1.Stage = j2.Stage →
      extractNumber j1.Name < extractNumber j2.Name → j1.Order < j2.Order) := by
  refine ⟨?_, (ProcessJobs_orders_of_ordinal m steps hm hf).2⟩
  intro stage jobs hb hrec
  have h0 : stageOrderMap stage ≠ 0 := (stageOrderMap_recognised stage).2 hrec
  refine ⟨(ProcessJobs_orders_of_ordinal m steps hm hf).1 stage jobs hb h0, ?_⟩
  obtain ⟨prev, h⟩ := ProcessJobs_stage m steps hm hf stage jobs hb h0
  rw [h, stageJobs_names jobs _ (fun name job hj => (hf stage name job ⟨jobs, hb, hj⟩).2)]
  exact sorted_names_perm jobs

/-- C7, the instance: the three `terraform` jobs of `numberedJobs` come back
with the `Order` values 1, 2 and 3, in the order of their numeric tokens 1, 2
and 10. -/
theorem ProcessJobs_orders_within_stage_witness :
    (ProcessJobs (JobsToMap numberedJobs) threeSteps).map (fun j => (j.Name, j.Order)) =
      [("[1-1]-z", 1), ("[2-1]-y", 2), ("[10-1]-x", 3)] ∧
    (((ProcessJobs (JobsToMap numberedJobs) threeSteps).filter
        (fun j => j.Stage == "terraform")).map (·.Order) = [1, 2, 3] ∧
      (((ProcessJobs (JobsToMap numberedJobs) threeSteps).filter
        (fun j => j.Stage == "terraform")).map (·.Name)).Perm
        ["[10-1]-x", "[2-1]-y", "[1-1]-z"]) ∧
    (∀ j1 ∈ ProcessJobs (JobsToMap numberedJobs) threeSteps,
      ∀ j2 ∈ ProcessJobs (JobsToMap numberedJobs) threeSteps, j1.Stage = j2.Stage →
      extractNumber j1.Name < extractNumber j2.Name → j1.Order < j2.Order) :=
  ⟨by decide,
    (ProcessJobs_orders_within_stage (JobsToMap numberedJobs) threeSteps
      (JobsToMap_spec numberedJobs).1 (JobsToMap_spec numberedJobs).2.1).1 "terraform"
      [("[10-1]-x", numberedJobs.get ⟨0, by decide⟩), ("[2-1]-y", numberedJobs.get ⟨1, by decide⟩),
        ("[1-1]-z", numberedJobs.get ⟨2, by decide⟩)]
      (by decide) (Or.inl rfl),
    (ProcessJobs_orders_within_stage (JobsToMap numberedJobs) threeSteps
      (JobsToMap_spec numberedJobs).1 (JobsToMap_spec numberedJobs).2.1).2⟩

/-- C8: for the map `JobsToMap` builds from the provider's job list, visited in
any order, `ProcessJobs` returns exactly one job for each (stage, name) pair of
the list whose stage is `terraform`, `ansible` or `helm`; every returned job
has one of these three stages and the stage and name of a job of the list; and
when the (stage, name) pairs of the jobs of these stages are pairwise distinct
the number of returned jobs is the number of jobs of the list with one of
these stages. -/
theorem ProcessJobs_one_per_recognised_pair (jobs : List Job) (steps : List Step)
    (m : GoMap (GoMap Job)) (hm : SameGoMap m (JobsToMap jobs)) :
    (∀ j ∈ jobs, j.Stage = "terraform" ∨ j.Stage = "ansible" ∨ j.Stage = "helm" →
      ((ProcessJobs m steps).filter
        (fun o => o.Stage == j.Stage && o.Name == j.Name)).length = 1) ∧
    (∀ o ∈ ProcessJobs m steps,
      (o.Stage = "terraform" ∨ o.Stage = "ansible" ∨ o.Stage = "helm") ∧
      ∃ j ∈ jobs, j.Stage = o.Stage ∧ j.Name = o.Name) ∧
    (((jobs.filter (fun j => j.Stage == "terraform" || j.Stage == "ansible" ||
          j.Stage == "helm")).map (fun j => (j.Stage, j.Name))).Nodup →
      (ProcessJobs m steps).length =
        (jobs.filter (fun j => j.Stage == "terraform" || j.Stage == "ansible" ||
          j.Stage == "helm")).length) := by
  obtain ⟨h1, h2, h3⟩ := ProcessJobs_one_per_ordinal_pair jobs steps m hm
  have hfilter : jobs.filter (fun j => j.Stage == "terraform" || j.Stage == "ansible" ||
      j.Stage == "helm") = jobs.filter (fun j => stageOrderMap j.Stage != 0) := by
    apply List.filter_congr
    intro j _
    rw [Bool.eq_iff_iff]
    simp only [Bool.or_eq_true, beq_iff_eq, bne_iff_ne, ne_eq]
    rw [← ne_eq, stageOrderMap_recognised, or_assoc]
  refine ⟨fun j hj hrec => h1 j hj ((stageOrderMap_recognised _).2 hrec),
    fun o ho => ⟨(stageOrderMap_recognised _).1 (h2 o ho).1, (h2 o ho).2⟩, ?_⟩
  rw [hfilter]
  exact h3

/-- C8, the instance: of the four jobs of `providerJobs` the three of the
stages `terraform`, `ansible` and `helm` come back, one each; the job of stage
`test` does not. -/
theorem ProcessJobs_one_per_recognised_pair_witness :
    (ProcessJobs (JobsToMap providerJobs) threeSteps).map (fun o => (o.Stage, o.Name)) =
      [("terraform", "[1-1]-vm"), ("ansible", "[1-1]-k8s"), ("helm", "[1-1]-release")] ∧
    ((ProcessJobs (JobsToMap providerJobs) threeSteps).filter
      (fun o => o.Stage == "ansible" && o.Name == "[1-1]-k8s")).length = 1 ∧
    (ProcessJobs (JobsToMap providerJobs) threeSteps).length = 3 :=
  ⟨by decide,
    (ProcessJobs_one_per_recognised_pair providerJobs threeSteps (JobsToMap providerJobs)
      ⟨(JobsToMap_spec providerJobs).1, fun _ _ _ => Iff.rfl⟩).1
      (providerJobs.get ⟨1, by decide⟩) (by decide) (Or.inr (Or.inl rfl)),
    (ProcessJobs_one_per_recognised_pair providerJobs threeSteps (JobsToMap providerJobs)
      ⟨(JobsToMap_spec providerJobs).1, fun _ _ _ => Iff.rfl⟩).2.2 (by decide)⟩

/-! ## Footprint of the step executor -/

theorem Evolves.same {α : Type} {P : α → α → Prop} (hP : ∀ a, P a a) (l : List α) :
    Evolves P l l :=
  ⟨id, by simp, hP⟩

theorem Evolves.map {α : Type} {P : α → α → Prop} (g : α → α) (hP : ∀ a, P a (g a))
    (l : List α) : Evolves P l (l.map g) :=
  ⟨g, rfl, hP⟩

theorem Evolves.compose {α : Type} {P : α → α → Prop} (hP : ∀ a b c, P a b → P b c → P a c)
    {l l' l'' : List α} (h1 : Evolves P l l') (h2 : Evolves P l' l'') : Evolves P l l'' := by
  obtain ⟨g1, rfl, hg1⟩ := h1
  obtain ⟨g2, rfl, hg2⟩ := h2
  exact ⟨g2 ∘ g1, by simp, fun a => hP _ _ _ (hg1 a) (hg2 (g1 a))⟩

theorem StepKept.unchanged (T : Nat → Prop) (s : Step) : StepKept T s s :=
  ⟨rfl, rfl, rfl, rfl, fun _ => rfl⟩

theorem StepKept.chain (T : Nat → Prop) (a b c : Step) (h1 : StepKept T a b)
    (h2 : StepKept T b c) : StepKept T a c := by
  obtain ⟨a1, a2, a3, a4, a5⟩ := h1
  obtain ⟨b1, b2, b3, b4, b5⟩ := h2
  refine ⟨b1.trans a1, b2.trans a2, b3.trans a3, b4.trans a4, fun h => ?_⟩
  have hb : b = a := a5 h
  subst hb
  exact b5 h

theorem JobKept.untouched (S : Nat → Prop) (j : Job) : JobKept S j j :=
  ⟨rfl, rfl, rfl, fun _ => rfl⟩

theorem JobKept.link (S : Nat → Prop) (a b c : Job) (h1 : JobKept S a b)
    (h2 : JobKept S b c) : JobKept S a c := by
  obtain ⟨a1, a2, a3, a4⟩ := h1
  obtain ⟨b1, b2, b3, b4⟩ := h2
  refine ⟨b1.trans a1, b2.trans a2, b3.trans a3, fun h => ?_⟩
  have hb : b = a := a4 h
  subst hb
  exact b4 h

theorem Within.stay (T S : Nat → Prop) (G : Int → Prop) (w : World) : Within T S G w w :=
  { steps := Evolves.same (StepKept.unchanged T) _
    jobs := Evolves.same (JobKept.untouched S) _
    log := ⟨[], by simp, by simp⟩
    calls := ⟨[], by simp, by simp⟩ }

theorem Within.andThen {T S : Nat → Prop} {G : Int → Prop} {w w' w'' : World}
    (h1 : Within T S G w w') (h2 : Within T S G w' w'') : Within T S G w w'' := by
  obtain ⟨ops1, hl1, ho1⟩ := h1.log
  obtain ⟨ops2, hl2, ho2⟩ := h2.log
  obtain ⟨cs1, hc1, hg1⟩ := h1.calls
  obtain ⟨cs2, hc2, hg2⟩ := h2.calls
  exact
    { steps := Evolves.compose (StepKept.chain T) h1.steps h2.steps
      jobs := Evolves.compose (JobKept.link S) h1.jobs h2.jobs
      log := ⟨ops1 ++ ops2, by rw [hl2, hl1, List.append_assoc], by
        intro op hop
        rcases List.mem_append.mp hop with h | h
        · exact ho1 op h
        · exact ho2 op h⟩
      calls := ⟨cs1 ++ cs2, by rw [hc2, hc1, List.append_assoc], by
        intro c hc
        rcases List.mem_append.mp hc with h | h
        · exact hg1 c h
        · exact hg2 c h⟩ }

theorem Within.widen {T S T' S' : Nat → Prop} {G G' : Int → Prop} {w w' : World}
    (h : Within T S G w w') (hT : ∀ id, T id → T' id) (hS : ∀ id, S id → S' id)
    (hG : ∀ id, G id → G' id) : Within T' S' G' w w' := by
  obtain ⟨f, hf, hfP⟩ := h.steps
  obtain ⟨g, hg, hgP⟩ := h.jobs
  obtain ⟨ops, hl, ho⟩ := h.log
  obtain ⟨cs, hc, hcG⟩ := h.calls
  exact
    { steps := ⟨f, hf, fun a => by
        obtain ⟨a1, a2, a3, a4, a5⟩ := hfP a
        exact ⟨a1, a2, a3, a4, fun hn => a5 (fun ht => hn (hT _ ht))⟩⟩
      jobs := ⟨g, hg, fun a => by
        obtain ⟨a1, a2, a3, a4⟩ := hgP a
        exact ⟨a1, a2, a3, fun hn => a4 (fun hs => hn (hS _ hs))⟩⟩
      log := ⟨ops, hl, fun op hop =>
        ⟨fun id h => hT _ ((ho op hop).1 id h), fun id h => hS _ ((ho op hop).2 id h)⟩⟩
      calls := ⟨cs, hc, fun c hcm => hG _ (hcG c hcm)⟩ }

theorem SameUpper.still (w : World) : SameUpper w w := ⟨rfl, rfl, rfl⟩

theorem SameUpper.followedBy {w w' w'' : World} (h1 : SameUpper w w') (h2 : SameUpper w' w'') :
    SameUpper w w'' :=
  ⟨h2.stands.trans h1.stands, h2.pipelines.trans h1.pipelines,
    h2.stepStates.trans h1.stepStates⟩

/-- A recorded store operation that addresses only steps of `T` and job rows
of `S`. -/
theorem within_issue (T S : Nat → Prop) (G : Int → Prop) (w : World) (op : DbOp)
    (hT : ∀ id, op.step? = some id → T id) (hS : ∀ id, op.job? = some id → S id) :
    Within T S G w (w.issue op) :=
  { steps := Evolves.same (StepKept.unchanged T) _
    jobs := Evolves.same (JobKept.untouched S) _
    log := ⟨[op], rfl, by
      intro o ho
      rw [List.mem_singleton.mp ho]
      exact ⟨hT, hS⟩⟩
    calls := ⟨[], by simp [World.issue], by simp⟩ }

theorem within_called (T S : Nat → Prop) (G : Int → Prop) (w : World) (c : Call)
    (hG : G c.jobID) : Within T S G w (w.called c) :=
  { steps := Evolves.same (StepKept.unchanged T) _
    jobs := Evolves.same (JobKept.untouched S) _
    log := ⟨[], by simp [World.called], by simp⟩
    calls := ⟨[c], rfl, by
      intro o ho
      rw [List.mem_singleton.mp ho]
      exact hG⟩ }

/-- A change of the cache or of the clock alone. -/
theorem within_of_tables (T S : Nat → Prop) (G : Int → Prop) (w w' : World)
    (h1 : w'.steps = w.steps) (h2 : w'.jobs = w.jobs) (h3 : w'.log = w.log)
    (h4 : w'.calls = w.calls) : Within T S G w w' :=
  { steps := by rw [h1]; exact Evolves.same (StepKept.unchanged T) _
    jobs := by rw [h2]; exact Evolves.same (JobKept.untouched S) _
    log := ⟨[], by simp [h3], by simp⟩
    calls := ⟨[], by simp [h4], by simp⟩ }

/-- Rewriting the job rows that carry one identifier of `S`. -/
theorem within_jobs (T S : Nat → Prop) (G : Int → Prop) (w w' : World) (id : Nat)
    (g : Job → Job) (hS : S id)
    (hg : ∀ j, (g j).ID = j.ID ∧ (g j).StepID = j.StepID ∧ (g j).GitlabJobID = j.GitlabJobID ∧
      (j.ID ≠ id → g j = j))
    (h1 : w'.steps = w.steps) (h2 : w'.jobs = w.jobs.map g) (h3 : w'.log = w.log)
    (h4 : w'.calls = w.calls) : Within T S G w w' :=
  { steps := by rw [h1]; exact Evolves.same (StepKept.unchanged T) _
    jobs := ⟨g, h2, fun j => by
      obtain ⟨a1, a2, a3, a4⟩ := hg j
      exact ⟨a1, a2, a3, fun hn => a4 (fun he => hn (he ▸ hS))⟩⟩
    log := ⟨[], by simp [h3], by simp⟩
    calls := ⟨[], by simp [h4], by simp⟩ }

theorem UpdateJobStatus_within (T S : Nat → Prop) (G : Int → Prop) (env : Env) (w : World)
    (status : String) (job : Job) (hS : S job.ID) :
    Within T S G w (UpdateJobStatus env w status job).1 ∧
      SameUpper w (UpdateJobStatus env w status job).1 := by
  have hi := within_issue T S G w (.updateJobStatus job.ID status)
    (fun id h => by simp [DbOp.step?] at h)
    (fun id h => by simp only [DbOp.job?, Option.some.injEq] at h; exact h ▸ hS)
  unfold UpdateJobStatus
  by_cases h : env.dbFails w.log.length = true
  · simp only [h, if_true]
    exact ⟨hi, ⟨rfl, rfl, rfl⟩⟩
  · simp only [h, if_false, Bool.false_eq_true]
    refine ⟨hi.andThen ?_, ⟨rfl, rfl, rfl⟩⟩
    refine within_jobs T S G _ _ job.ID
      (fun j => if j.ID = job.ID then { j with Status := status } else j) hS ?_ rfl rfl rfl rfl
    intro j
    by_cases hj : j.ID = job.ID <;> simp [hj]

theorem updateStartedAt_within (T S : Nat → Prop) (G : Int → Prop) (env : Env) (w : World)
    (job : Job) (hS : S job.ID) :
    Within T S G w (updateStartedAt env w job).1 ∧
      SameUpper w (updateStartedAt env w job).1 := by
  have hi := within_issue T S G w (.updateJobStartedAt job.ID)
    (fun id h => by simp [DbOp.step?] at h)
    (fun id h => by simp only [DbOp.job?, Option.some.injEq] at h; exact h ▸ hS)
  unfold updateStartedAt
  by_cases h : env.dbFails w.log.length = true
  · simp only [h, if_true]
    exact ⟨hi, ⟨rfl, rfl, rfl⟩⟩
  · simp only [h, if_false, Bool.false_eq_true]
    refine ⟨hi.andThen ?_, ⟨rfl, rfl, rfl⟩⟩
    refine within_jobs T S G _ _ job.ID
      (fun j => if j.ID = job.ID then { j with StartedAt := some (w.issue (.updateJobStartedAt job.ID)).clock } else j)
      hS ?_ rfl rfl rfl rfl
    intro j
    by_cases hj : j.ID = job.ID <;> simp [hj]

theorem updateFinishedAt_within (T S : Nat → Prop) (G : Int → Prop) (env : Env) (w : World)
    (job : Job) (hS : S job.ID) :
    Within T S G w (updateFinishedAt env w job).1 ∧
      SameUpper w (updateFinishedAt env w job).1 := by
  have hi := within_issue T S G w (.updateJobFinishedAt job.ID)
    (fun id h => by simp [DbOp.step?] at h)
    (fun id h => by simp only [DbOp.job?, Option.some.injEq] at h; exact h ▸ hS)
  unfold updateFinishedAt
  by_cases h : env.dbFails w.log.length = true
  · simp only [h, if_true]
    exact ⟨hi, ⟨rfl, rfl, rfl⟩⟩
  · simp only [h, if_false, Bool.false_eq_true]
    refine ⟨hi.andThen ?_, ⟨rfl, rfl, rfl⟩⟩
    refine within_jobs T S G _ _ job.ID
      (fun j => if j.ID = job.ID then { j with FinishedAt := some (w.issue (.updateJobFinishedAt job.ID)).clock } else j)
      hS ?_ rfl rfl rfl rfl
    intro j
    by_cases hj : j.ID = job.ID <;> simp [hj]

theorem UpdateStepStatus_within (T S : Nat → Prop) (G : Int → Prop) (env : Env) (w : World)
    (status : String) (step : Step) (hT : T step.ID) :
    Within T S G w (UpdateStepStatus env w status step).1 ∧
      SameUpper w (UpdateStepStatus env w status step).1 := by
  have hi := within_issue T S G w (.updateStep step.ID status)
    (fun id h => by simp only [DbOp.step?, Option.some.injEq] at h; exact h ▸ hT)
    (fun id h => by simp [DbOp.job?] at h)
  unfold UpdateStepStatus
  by_cases h : env.dbFails w.log.length = true
  · simp only [h, if_true]
    exact ⟨hi, ⟨rfl, rfl, rfl⟩⟩
  · simp only [h, if_false, Bool.false_eq_true]
    refine ⟨hi.andThen ?_, ⟨rfl, rfl, rfl⟩⟩
    exact
      { steps := ⟨fun s => if s.ID = step.ID then { s with Status := status } else s, rfl,
          fun s => by
            by_cases hs : s.ID = step.ID
            · show StepKept T s (if s.ID = step.ID then _ else s)
              rw [if_pos hs]
              exact ⟨rfl, rfl, rfl, rfl, fun hn => absurd (hs ▸ hT) hn⟩
            · show StepKept T s (if s.ID = step.ID then _ else s)
              rw [if_neg hs]
              exact StepKept.unchanged T s⟩
        jobs := Evolves.same (JobKept.untouched S) _
        log := ⟨[], by simp, by simp⟩
        calls := ⟨[], by simp, by simp⟩ }

theorem checkAndUpdateStatus_within (T S : Nat → Prop) (G : Int → Prop) (env : Env) (w : World)
    (job : Job) (key : String) (hS : S job.ID) (hG : G job.GitlabJobID) :
    Within T S G w (checkAndUpdateStatus env w job key).1 ∧
      SameUpper w (checkAndUpdateStatus env w job key).1 := by
  have hc := within_called T S G w (.getJobStatus job.GitlabJobID) hG
  have hcu : SameUpper w (w.called (.getJobStatus job.GitlabJobID)) := ⟨rfl, rfl, rfl⟩
  unfold checkAndUpdateStatus
  cases hget : env.getJobStatus w.calls.length job.GitlabJobID with
  | error e =>
    exact ⟨hc.andThen (within_of_tables T S G _ _ rfl rfl rfl rfl), ⟨rfl, rfl, rfl⟩⟩
  | ok status =>
    simp only
    by_cases hcache :
        cacheLoad (w.called (.getJobStatus job.GitlabJobID)).jobStatuses key = some status
    · rw [if_pos hcache]
      exact ⟨hc, hcu⟩
    · rw [if_neg hcache]
      obtain ⟨hu, huu⟩ := UpdateJobStatus_within T S G env
        (w.called (.getJobStatus job.GitlabJobID)) status job hS
      cases hupd : UpdateJobStatus env (w.called (.getJobStatus job.GitlabJobID)) status job with
      | mk w2 r =>
        rw [hupd] at hu huu
        cases r with
        | some e => exact ⟨hc.andThen hu, hcu.followedBy huu⟩
        | none =>
          simp only
          split_ifs
          · exact ⟨(hc.andThen hu).andThen (within_of_tables T S G _ _ rfl rfl rfl rfl),
              (hcu.followedBy huu).followedBy ⟨rfl, rfl, rfl⟩⟩
          · exact ⟨(hc.andThen hu).andThen (within_of_tables T S G _ _ rfl rfl rfl rfl),
              (hcu.followedBy huu).followedBy ⟨rfl, rfl, rfl⟩⟩
          · exact ⟨(hc.andThen hu).andThen (within_of_tables T S G _ _ rfl rfl rfl rfl),
              (hcu.followedBy huu).followedBy ⟨rfl, rfl, rfl⟩⟩

theorem monitorJobStatus_within (T S : Nat → Prop) (G : Int → Prop) (env : Env) (job : Job)
    (hS : S job.ID) (hG : G job.GitlabJobID) :
    ∀ (polls : Nat) (w w' : World) (r : Option String),
      monitorJobStatus polls env w job = some (w', r) → Within T S G w w' ∧ SameUpper w w' := by
  intro polls
  induction polls with
  | zero => intro w w' r h; simp [monitorJobStatus] at h
  | succ polls ih =>
    intro w w' r h
    rw [monitorJobStatus] at h
    obtain ⟨hc, hcu⟩ := checkAndUpdateStatus_within T S G env w job (jobKey job) hS hG
    rcases hres : checkAndUpdateStatus env w job (jobKey job) with ⟨w1, fin, err⟩
    rw [hres] at h hc hcu
    cases err with
    | some e =>
      simp only [Option.some.injEq, Prod.mk.injEq] at h
      obtain ⟨rfl, -⟩ := h
      exact ⟨hc, hcu⟩
    | none =>
      cases fin with
      | true =>
        simp only [Option.some.injEq, Prod.mk.injEq] at h
        obtain ⟨rfl, -⟩ := h
        exact ⟨hc, hcu⟩
      | false =>
        simp only at h
        obtain ⟨h1, h2⟩ := ih w1 w' r h
        exact ⟨hc.andThen h1, hcu.followedBy h2⟩

theorem triggerJob_within (T S : Nat → Prop) (G : Int → Prop) (env : Env) (w : World)
    (job : Job) (hS : S job.ID) (hG : G job.GitlabJobID) :
    Within T S G w (triggerJob env w job).1 ∧ SameUpper w (triggerJob env w job).1 := by
  unfold triggerJob
  by_cases hst : job.StartedAt = none
  · rw [if_pos hst]
    have hc := within_called T S G w (.runJob job.GitlabJobID) hG
    have hcu : SameUpper w (w.called (.runJob job.GitlabJobID)) := ⟨rfl, rfl, rfl⟩
    cases hrun : env.runJob w.calls.length job.GitlabJobID with
    | some e => exact ⟨hc, hcu⟩
    | none =>
      obtain ⟨h1, h2⟩ := updateStartedAt_within T S G env
        (w.called (.runJob job.GitlabJobID)) job hS
      exact ⟨hc.andThen h1, hcu.followedBy h2⟩
  · rw [if_neg hst]
    exact ⟨Within.stay T S G w, SameUpper.still w⟩

theorem processJob_within (T S : Nat → Prop) (G : Int → Prop) (polls : Nat) (env : Env)
    (w w' : World) (job : Job) (r : Option String) (hS : S job.ID) (hG : G job.GitlabJobID)
    (h : processJob polls env w job = some (w', r)) : Within T S G w w' ∧ SameUpper w w' := by
  unfold processJob at h
  obtain ⟨ht, htu⟩ := triggerJob_within T S G env w job hS hG
  rcases htr : triggerJob env w job with ⟨w1, err⟩
  rw [htr] at h ht htu
  cases err with
  | some e =>
    simp only [Option.some.injEq, Prod.mk.injEq] at h
    obtain ⟨rfl, -⟩ := h
    exact ⟨ht, htu⟩
  | none =>
    simp only at h
    cases hmon : monitorJobStatus polls env w1 job with
    | none => rw [hmon] at h; simp at h
    | some res =>
      obtain ⟨w2, err2⟩ := res
      obtain ⟨hm, hmu⟩ := monitorJobStatus_within T S G env job hS hG polls w1 w2 err2 hmon
      rw [hmon] at h
      cases err2 with
      | some e =>
        simp only [Option.some.injEq, Prod.mk.injEq] at h
        obtain ⟨rfl, -⟩ := h
        exact ⟨ht.andThen hm, htu.followedBy hmu⟩
      | none =>
        simp only [Option.some.injEq] at h
        obtain ⟨hf, hfu⟩ := updateFinishedAt_within T S G env w2 job hS
        rw [h] at hf hfu
        exact ⟨(ht.andThen hm).andThen hf, (htu.followedBy hmu).followedBy hfu⟩

theorem processManualJobs_within (T S : Nat → Prop) (G : Int → Prop) (polls : Nat) (env : Env)
    (step : Step) (hT : T step.ID) :
    ∀ (jobs : List Job), (∀ job ∈ jobs, S job.ID ∧ G job.GitlabJobID) →
    ∀ (w w' : World) (r : Option String),
      processManualJobs polls env step w jobs = some (w', r) →
      Within T S G w w' ∧ SameUpper w w' := by
  intro jobs
  induction jobs with
  | nil =>
    intro _ w w' r h
    simp only [processManualJobs, Option.some.injEq, Prod.mk.injEq] at h
    obtain ⟨rfl, -⟩ := h
    exact ⟨Within.stay T S G w, SameUpper.still w⟩
  | cons job rest ih =>
    intro hjobs w w' r h
    have hrest : ∀ job ∈ rest, S job.ID ∧ G job.GitlabJobID :=
      fun j hj => hjobs j (List.mem_cons_of_mem _ hj)
    obtain ⟨hS, hG⟩ := hjobs job (List.mem_cons_self _ _)
    rw [processManualJobs] at h
    by_cases hman : job.Status = StatusManual
    · rw [if_pos hman] at h
      cases hpj : processJob polls env w job with
      | none => rw [hpj] at h; simp at h
      | some res =>
        obtain ⟨w1, err⟩ := res
        obtain ⟨hp, hpu⟩ := processJob_within T S G polls env w w1 job err hS hG hpj
        rw [hpj] at h
        cases err with
        | some e =>
          simp only at h
          obtain ⟨hu, huu⟩ := UpdateStepStatus_within T S G env w1 StatusError step hT
          rcases hupd : UpdateStepStatus env w1 StatusError step with ⟨w2, err2⟩
          rw [hupd] at h hu huu
          cases err2 with
          | some e2 =>
            simp only [Option.some.injEq, Prod.mk.injEq] at h
            obtain ⟨rfl, -⟩ := h
            exact ⟨hp.andThen hu, hpu.followedBy huu⟩
          | none =>
            simp only [Option.some.injEq, Prod.mk.injEq] at h
            obtain ⟨rfl, -⟩ := h
            exact ⟨hp.andThen hu, hpu.followedBy huu⟩
        | none =>
          simp only at h
          obtain ⟨h1, h2⟩ := ih hrest w1 w' r h
          exact ⟨hp.andThen h1, hpu.followedBy h2⟩
    · rw [if_neg hman] at h
      exact ih hrest w w' r h

theorem mem_pendingJobs (w : World) (stepID : Nat) (j : Job) (h : j ∈ pendingJobs w stepID) :
    j ∈ w.jobs ∧ j.StepID = stepID ∧ j.Status ≠ StatusSuccess := by
  unfold pendingJobs at h
  obtain ⟨h1, h2⟩ := List.mem_filter.mp h
  simp only [Bool.and_eq_true, beq_iff_eq, bne_iff_ne, ne_eq] at h2
  exact ⟨h1, h2.1, h2.2⟩

/-- The footprint of `processStep`: whatever the store and the provider
answer, it addresses only its own step, the job rows of that step and their
provider jobs, and leaves stands, pipelines and notifications alone. -/
theorem processStep_within (polls : Nat) (env : Env) (w w' : World) (step : Step)
    (r : Option String) (h : processStep polls env w step = some (w', r)) :
    Within (fun id => id = step.ID) (jobRowOf w step.ID) (providerJobOf w step.ID) w w' ∧
      SameUpper w w' := by
  have hi := within_issue (fun id => id = step.ID) (jobRowOf w step.ID)
    (providerJobOf w step.ID) w (.findJobs step.ID)
    (fun id h => by simp only [DbOp.step?, Option.some.injEq] at h; exact h.symm)
    (fun id h => by simp [DbOp.job?] at h)
  have hiu : SameUpper w (w.issue (.findJobs step.ID)) := ⟨rfl, rfl, rfl⟩
  have hjobs : ∀ job ∈ pendingJobs (w.issue (.findJobs step.ID)) step.ID,
      jobRowOf w step.ID job.ID ∧ providerJobOf w step.ID job.GitlabJobID := by
    intro job hj
    obtain ⟨h1, h2, -⟩ := mem_pendingJobs _ _ _ hj
    exact ⟨⟨job, h1, rfl, h2⟩, ⟨job, h1, rfl, h2⟩⟩
  unfold processStep at h
  by_cases hdb : env.dbFails w.log.length = true
  · simp only [hdb, if_true, Option.some.injEq, Prod.mk.injEq] at h
    obtain ⟨rfl, -⟩ := h
    exact ⟨hi, hiu⟩
  · simp only [hdb, if_false, Bool.false_eq_true] at h
    by_cases hfail : (pendingJobs (w.issue (.findJobs step.ID)) step.ID).any
        (fun j => j.Status == StatusFailed || j.Status == StatusCanceled) = true
    · rw [if_pos hfail] at h
      obtain ⟨hu, huu⟩ := UpdateStepStatus_within (fun id => id = step.ID) (jobRowOf w step.ID)
        (providerJobOf w step.ID) env (w.issue (.findJobs step.ID)) StatusError step rfl
      rcases hupd : UpdateStepStatus env (w.issue (.findJobs step.ID)) StatusError step with
        ⟨w2, err2⟩
      rw [hupd] at h hu huu
      cases err2 <;>
      · simp only [Option.some.injEq, Prod.mk.injEq] at h
        obtain ⟨rfl, -⟩ := h
        exact ⟨hi.andThen hu, hiu.followedBy huu⟩
    · rw [if_neg hfail] at h
      obtain ⟨hu, huu⟩ := UpdateStepStatus_within (fun id => id = step.ID) (jobRowOf w step.ID)
        (providerJobOf w step.ID) env (w.issue (.findJobs step.ID)) StatusRunning step rfl
      rcases hupd : UpdateStepStatus env (w.issue (.findJobs step.ID)) StatusRunning step with
        ⟨w2, err2⟩
      rw [hupd] at h hu huu
      cases err2 with
      | some e =>
        simp only [Option.some.injEq, Prod.mk.injEq] at h
        obtain ⟨rfl, -⟩ := h
        exact ⟨hi.andThen hu, hiu.followedBy huu⟩
      | none =>
        simp only at h
        have hloop : ∀ w3 r3,
            (if ((pendingJobs (w.issue (.findJobs step.ID)) step.ID).any
                  (fun j => j.Status == StatusManual) &&
                !(pendingJobs (w.issue (.findJobs step.ID)) step.ID).any
                  (fun j => j.Status == StatusRunning)) = true
              then processManualJobs polls env step w2
                (pendingJobs (w.issue (.findJobs step.ID)) step.ID)
              else some (w2, none)) = some (w3, r3) →
            Within (fun id => id = step.ID) (jobRowOf w step.ID) (providerJobOf w step.ID) w2 w3 ∧
              SameUpper w2 w3 := by
          intro w3 r3 hr
          split_ifs at hr
          · exact processManualJobs_within (fun id => id = step.ID) _ _ polls env step rfl _
              hjobs w2 w3 r3 hr
          · simp only [Option.some.injEq, Prod.mk.injEq] at hr
            obtain ⟨rfl, -⟩ := hr
            exact ⟨Within.stay _ _ _ _, SameUpper.still _⟩
        split at h
        · simp at h
        · rename_i w3 e heq
          simp only [Option.some.injEq, Prod.mk.injEq] at h
          obtain ⟨rfl, -⟩ := h
          obtain ⟨hl, hlu⟩ := hloop _ _ heq
          exact ⟨(hi.andThen hu).andThen hl, (hiu.followedBy huu).followedBy hlu⟩
        · rename_i w3 heq
          simp only [Option.some.injEq] at h
          obtain ⟨hl, hlu⟩ := hloop _ _ heq
          obtain ⟨hf, hfu⟩ := UpdateStepStatus_within (fun id => id = step.ID)
            (jobRowOf w step.ID) (providerJobOf w step.ID) env w3 StatusSuccess step rfl
          rw [h] at hf hfu
          exact ⟨((hi.andThen hu).andThen hl).andThen hf, ((hiu.followedBy huu).followedBy hlu).followedBy hfu⟩

/-! ## Pipeline and stand level operations -/

theorem UpdateStandStatus_within (T S : Nat → Prop) (G : Int → Prop) (env : Env) (w : World)
    (status : String) (stand : Stand) :
    Within T S G w (UpdateStandStatus env w status stand).1 := by
  have hi := within_issue T S G w (.updateStand stand.ID status)
    (fun id h => by simp [DbOp.step?] at h) (fun id h => by simp [DbOp.job?] at h)
  unfold UpdateStandStatus
  by_cases h : env.dbFails w.log.length = true
  · simp only [h, if_true]; exact hi
  · simp only [h, if_false, Bool.false_eq_true]
    exact hi.andThen (within_of_tables T S G _ _ rfl rfl rfl rfl)

theorem UpdatePipelineStatus_within (T S : Nat → Prop) (G : Int → Prop) (env : Env) (w : World)
    (status : String) (pipeline : Pipeline) :
    Within T S G w (UpdatePipelineStatus env w status pipeline).1 := by
  have hi := within_issue T S G w (.updatePipeline pipeline.ID status)
    (fun id h => by simp [DbOp.step?] at h) (fun id h => by simp [DbOp.job?] at h)
  unfold UpdatePipelineStatus
  by_cases h : env.dbFails w.log.length = true
  · simp only [h, if_true]; exact hi
  · simp only [h, if_false, Bool.false_eq_true]
    exact hi.andThen (within_of_tables T S G _ _ rfl rfl rfl rfl)

theorem CreateStepNotify_within (T S : Nat → Prop) (G : Int → Prop) (env : Env) (w : World)
    (step : Step) (status : String) (hT : T step.ID) :
    Within T S G w (CreateStepNotify env w step status).1 ∧
      (CreateStepNotify env w step status).1.stands = w.stands ∧
      (CreateStepNotify env w step status).1.pipelines = w.pipelines := by
  have hi := within_issue T S G w (.firstStep step.ID)
    (fun id h => by simp only [DbOp.step?, Option.some.injEq] at h; exact h ▸ hT)
    (fun id h => by simp [DbOp.job?] at h)
  unfold CreateStepNotify
  by_cases h : env.dbFails w.log.length = true
  · simp only [h, if_true]; exact ⟨hi, rfl, rfl⟩
  · simp only [h, if_false, Bool.false_eq_true]
    split
    · exact ⟨hi, rfl, rfl⟩
    · rename_i row hrow
      have hi2 := fun (st : StepState) =>
        within_issue T S G (w.issue (.firstStep step.ID)) (.createStepState st)
          (fun id h => by simp [DbOp.step?] at h) (fun id h => by simp [DbOp.job?] at h)
      split_ifs
      · exact ⟨hi.andThen (hi2 _), rfl, rfl⟩
      · exact ⟨(hi.andThen (hi2 _)).andThen (within_of_tables T S G _ _ rfl rfl rfl rfl), rfl, rfl⟩

theorem UpdateStandStatus_healthy (env : Env) (hdb : ∀ n, env.dbFails n = false) (w : World)
    (status : String) (stand : Stand) :
    UpdateStandStatus env w status stand = ((UpdateStandStatus env w status stand).1, none) ∧
    (UpdateStandStatus env w status stand).1.stands = setStandStatus stand.ID status w.stands ∧
    (UpdateStandStatus env w status stand).1.pipelines = w.pipelines ∧
    (UpdateStandStatus env w status stand).1.stepStates = w.stepStates := by
  simp [UpdateStandStatus, hdb, World.issue]

theorem UpdatePipelineStatus_healthy (env : Env) (hdb : ∀ n, env.dbFails n = false) (w : World)
    (status : String) (pipeline : Pipeline) :
    UpdatePipelineStatus env w status pipeline =
      ((UpdatePipelineStatus env w status pipeline).1, none) ∧
    (UpdatePipelineStatus env w status pipeline).1.pipelines =
      setPipelineStatus pipeline.ID status w.pipelines ∧
    (UpdatePipelineStatus env w status pipeline).1.stands = w.stands ∧
    (UpdatePipelineStatus env w status pipeline).1.stepStates = w.stepStates := by
  simp [UpdatePipelineStatus, hdb, World.issue]

theorem find_step_of_mem (steps : List Step) (s : Step) (h : s ∈ steps) :
    ∃ row, steps.find? (fun x => x.ID == s.ID) = some row ∧ row ∈ steps ∧ row.ID = s.ID := by
  cases hf : steps.find? (fun x => x.ID == s.ID) with
  | none =>
    have := List.find?_eq_none.mp hf s h
    simp at this
  | some row =>
    have h1 := List.find?_some hf
    have h2 := List.mem_of_find?_eq_some hf
    exact ⟨row, rfl, h2, by simpa using h1⟩

/-- With a store that performs every operation, the notification of a step
that is in the store is written: one row is appended, carrying the given
status and the order of the stored step. -/
theorem CreateStepNotify_healthy (env : Env) (hdb : ∀ n, env.dbFails n = false) (w : World)
    (step : Step) (status : String) (hmem : ∃ s ∈ w.steps, s.ID = step.ID) :
    CreateStepNotify env w step status = ((CreateStepNotify env w step status).1, none) ∧
    ∃ row st, row ∈ w.steps ∧ row.ID = step.ID ∧ st.Status = status ∧ st.Order = row.Order ∧
      st.StepName = row.Name ∧ st.Send = false ∧
      (CreateStepNotify env w step status).1.stepStates = w.stepStates ++ [st] := by
  obtain ⟨s, hs, hid⟩ := hmem
  obtain ⟨row, hfind, hrow, hrid⟩ := find_step_of_mem w.steps s hs
  rw [hid] at hfind hrid
  unfold CreateStepNotify
  simp only [hdb, World.issue, hfind, if_false, Bool.false_eq_true]
  exact ⟨trivial, row, _, hrow, hrid, rfl, rfl, rfl, rfl, rfl⟩

theorem setStandStatus_twice (id : Nat) (a b : String) (rows : List Stand) :
    setStandStatus id b (setStandStatus id a rows) = setStandStatus id b rows := by
  unfold setStandStatus
  rw [List.map_map]
  apply List.map_congr_left
  intro s _
  by_cases h : s.ID = id <;> simp [Function.comp, h]

theorem setPipelineStatus_twice (id : Nat) (a b : String) (rows : List Pipeline) :
    setPipelineStatus id b (setPipelineStatus id a rows) = setPipelineStatus id b rows := by
  unfold setPipelineStatus
  rw [List.map_map]
  apply List.map_congr_left
  intro s _
  by_cases h : s.ID = id <;> simp [Function.comp, h]

theorem setStepStatus_twice (id : Nat) (a b : String) (rows : List Step) :
    setStepStatus id b (setStepStatus id a rows) = setStepStatus id b rows := by
  unfold setStepStatus
  rw [List.map_map]
  apply List.map_congr_left
  intro s _
  by_cases h : s.ID = id <;> simp [Function.comp, h]

/-- The job rows of a step after a run are the rewritten job rows of that
step before it. -/
theorem jobRowOf_of_within {T S : Nat → Prop} {G : Int → Prop} {w w' : World}
    (h : Within T S G w w') (sid id : Nat) (hr : jobRowOf w' sid id) : jobRowOf w sid id := by
  obtain ⟨g, hg, hP⟩ := h.jobs
  obtain ⟨j, hj, h1, h2⟩ := hr
  rw [hg] at hj
  obtain ⟨j0, hj0, rfl⟩ := List.mem_map.mp hj
  obtain ⟨a1, a2, -, -⟩ := hP j0
  exact ⟨j0, hj0, a1 ▸ h1, a2 ▸ h2⟩

theorem providerJobOf_of_within {T S : Nat → Prop} {G : Int → Prop} {w w' : World}
    (h : Within T S G w w') (sid : Nat) (gid : Int) (hr : providerJobOf w' sid gid) :
    providerJobOf w sid gid := by
  obtain ⟨g, hg, hP⟩ := h.jobs
  obtain ⟨j, hj, h1, h2⟩ := hr
  rw [hg] at hj
  obtain ⟨j0, hj0, rfl⟩ := List.mem_map.mp hj
  obtain ⟨-, a2, a3, -⟩ := hP j0
  exact ⟨j0, hj0, a3 ▸ h1, a2 ▸ h2⟩

theorem mem_steps_of_within {T S : Nat → Prop} {G : Int → Prop} {w w' : World}
    (h : Within T S G w w') (s : Step) (hs : s ∈ w.steps) : ∃ s' ∈ w'.steps, s'.ID = s.ID := by
  obtain ⟨f, hf, hP⟩ := h.steps
  exact ⟨f s, by rw [hf]; exact List.mem_map_of_mem f hs, (hP s).1⟩

/-- The tables at the entry of the step loop. -/
theorem enterStepLoop_spec (env : Env) (hdb : ∀ n, env.dbFails n = false) (w : World)
    (stand : Stand) (pipeline : Pipeline) (T S : Nat → Prop) (G : Int → Prop) :
    Within T S G w (enterStepLoop env w stand pipeline) ∧
    (enterStepLoop env w stand pipeline).steps = w.steps ∧
    (enterStepLoop env w stand pipeline).jobs = w.jobs ∧
    (enterStepLoop env w stand pipeline).stepStates = w.stepStates ∧
    (enterStepLoop env w stand pipeline).jobStatuses = w.jobStatuses ∧
    (enterStepLoop env w stand pipeline).stands = setStandStatus stand.ID StatusRunning w.stands ∧
    (enterStepLoop env w stand pipeline).pipelines =
      setPipelineStatus pipeline.ID StatusRunning w.pipelines := by
  refine ⟨?_, ?_⟩
  · unfold enterStepLoop
    exact (((within_issue T S G w (.findPipelines stand.ID)
      (fun id h => by simp [DbOp.step?] at h) (fun id h => by simp [DbOp.job?] at h)).andThen
      (UpdateStandStatus_within T S G env _ _ _)).andThen
      (within_issue T S G _ (.findSteps pipeline.ID)
      (fun id h => by simp [DbOp.step?] at h) (fun id h => by simp [DbOp.job?] at h))).andThen
      (UpdatePipelineStatus_within T S G env _ _ _)
  · simp [enterStepLoop, UpdatePipelineStatus, UpdateStandStatus, hdb, World.issue]

/-! ## Abort propagation -/

theorem pendingSteps_perm (w : World) (pipelineID : Nat) :
    (pendingSteps w pipelineID).Perm
      (w.steps.filter (fun s => s.PipelineID == pipelineID && s.Status == StatusPending)) :=
  List.perm_insertionSort _ _

theorem mem_pendingSteps (w : World) (pipelineID : Nat) (s : Step)
    (h : s ∈ pendingSteps w pipelineID) :
    s ∈ w.steps ∧ s.PipelineID = pipelineID ∧ s.Status = StatusPending := by
  have := (pendingSteps_perm w pipelineID).mem_iff.mp h
  obtain ⟨h1, h2⟩ := List.mem_filter.mp this
  simp only [Bool.and_eq_true, beq_iff_eq] at h2
  exact ⟨h1, h2.1, h2.2⟩

theorem pendingSteps_ids_nodup (w : World) (pipelineID : Nat)
    (h : (w.steps.map (·.ID)).Nodup) : ((pendingSteps w pipelineID).map (·.ID)).Nodup := by
  have hsub : ((w.steps.filter
      (fun s => s.PipelineID == pipelineID && s.Status == StatusPending)).map (·.ID)).Nodup :=
    List.Nodup.sublist ((List.filter_sublist _).map _) h
  exact ((pendingSteps_perm w pipelineID).map _).nodup_iff.mpr hsub

theorem pendingSteps_congr (w w' : World) (pipelineID : Nat) (h : w'.steps = w.steps) :
    pendingSteps w' pipelineID = pendingSteps w pipelineID := by
  unfold pendingSteps
  rw [h]

theorem pendingPipelines_congr (w w' : World) (standID : Nat) (h : w'.pipelines = w.pipelines) :
    pendingPipelines w' standID = pendingPipelines w standID := by
  unfold pendingPipelines
  rw [h]

/-- The run of `processPendingStand` over one pending pipeline whose first
step succeeds and whose second step fails, with a store that performs every
operation: the result and the world it ends in. -/
theorem processPendingStand_second_step_fails (polls : Nat) (env : Env) (w : World)
    (stand : Stand) (pl : Pipeline) (s1 s2 : Step) (rest : List Step) (wB wD : World)
    (e : String) (hdb : ∀ n, env.dbFails n = false)
    (hpl : pendingPipelines w stand.ID = [pl])
    (hsteps : pendingSteps w pl.ID = s1 :: s2 :: rest)
    (h1 : processStep polls env (enterStepLoop env w stand pl) s1 = some (wB, none))
    (h2 : processStep polls env (CreateStepNotify env wB s1 StatusSuccess).1 s2 =
      some (wD, some e)) :
    ∃ e', processPendingStand polls env w stand =
      some ((UpdateStandStatus env
        (CreateStepNotify env (UpdatePipelineStatus env wD StatusError pl).1 s2 StatusError).1
        StatusError stand).1, some e') := by
  have hs1 : s1 ∈ w.steps :=
    (mem_pendingSteps w pl.ID s1 (by rw [hsteps]; exact List.mem_cons_self _ _)).1
  have hs2 : s2 ∈ w.steps :=
    (mem_pendingSteps w pl.ID s2 (by rw [hsteps]; simp)).1
  obtain ⟨hA, hAsteps, -⟩ := enterStepLoop_spec env hdb w stand pl
    (fun _ => True) (fun _ => True) (fun _ => True)
  have hB : Within (fun _ => True) (fun _ => True) (fun _ => True) w wB :=
    hA.andThen ((processStep_within polls env _ wB s1 none h1).1.widen
      (fun _ _ => trivial) (fun _ _ => trivial) (fun _ _ => trivial))
  have hn1 := (CreateStepNotify_healthy env hdb wB s1 StatusSuccess
    (mem_steps_of_within hB s1 hs1)).1
  have hC : Within (fun _ => True) (fun _ => True) (fun _ => True) w
      (CreateStepNotify env wB s1 StatusSuccess).1 :=
    hB.andThen (CreateStepNotify_within _ _ _ env wB s1 StatusSuccess trivial).1
  have hD : Within (fun _ => True) (fun _ => True) (fun _ => True) w wD :=
    hC.andThen ((processStep_within polls env _ wD s2 (some e) h2).1.widen
      (fun _ _ => trivial) (fun _ _ => trivial) (fun _ _ => trivial))
  have hE : Within (fun _ => True) (fun _ => True) (fun _ => True) w
      (UpdatePipelineStatus env wD StatusError pl).1 :=
    hD.andThen (UpdatePipelineStatus_within _ _ _ env wD StatusError pl)
  have hn2 := (CreateStepNotify_healthy env hdb _ s2 StatusError
    (mem_steps_of_within hE s2 hs2)).1
  have hloop : processSteps polls env pl (enterStepLoop env w stand pl) (s1 :: s2 :: rest) =
      some ((CreateStepNotify env (UpdatePipelineStatus env wD StatusError pl).1 s2
        StatusError).1, some "step failed") := by
    rw [processSteps, h1]
    simp only
    rw [hn1]
    simp only
    rw [processSteps, h2]
    simp only
    rw [(UpdatePipelineStatus_healthy env hdb wD StatusError pl).1]
    simp only
    rw [hn2]
  have hpipe : processPendingPipeline polls env
      (UpdateStandStatus env (w.issue (.findPipelines stand.ID)) StatusRunning stand).1 pl =
      some ((CreateStepNotify env (UpdatePipelineStatus env wD StatusError pl).1 s2
        StatusError).1, some "step failed") := by
    have hps : pendingSteps
        ((UpdateStandStatus env (w.issue (.findPipelines stand.ID)) StatusRunning stand).1.issue
          (.findSteps pl.ID)) pl.ID = s1 :: s2 :: rest := by
      rw [← hsteps]
      apply pendingSteps_congr
      simp [UpdateStandStatus, hdb, World.issue]
    unfold processPendingPipeline
    simp only [hdb, hps, if_false, Bool.false_eq_true, List.length_cons]
    rw [if_neg (by omega)]
    rw [(UpdatePipelineStatus_healthy env hdb _ StatusRunning pl).1]
    simp only
    have := hloop
    unfold enterStepLoop at this
    rw [this]
  refine ⟨"pipeline failed", ?_⟩
  have hpp : pendingPipelines (w.issue (.findPipelines stand.ID)) stand.ID = [pl] := by
    rw [← hpl]
    exact pendingPipelines_congr _ _ _ rfl
  unfold processPendingStand
  simp only [hdb, hpp, if_false, Bool.false_eq_true, List.length_cons, List.length_nil]
  rw [if_neg (by omega)]
  rw [(UpdateStandStatus_healthy env hdb _ StatusRunning stand).1]
  simp only
  rw [processPipelines, hpipe]
  simp only
  rw [(UpdateStandStatus_healthy env hdb _ StatusError stand).1]

theorem jobRowOf_congr (w w' : World) (h : w'.jobs = w.jobs) (sid id : Nat)
    (hr : jobRowOf w' sid id) : jobRowOf w sid id := by
  unfold jobRowOf at hr ⊢
  rw [h] at hr
  exact hr

theorem providerJobOf_congr (w w' : World) (h : w'.jobs = w.jobs) (sid : Nat) (gid : Int)
    (hr : providerJobOf w' sid gid) : providerJobOf w sid gid := by
  unfold providerJobOf at hr ⊢
  rw [h] at hr
  exact hr

/-- C2 (amended): with a store that performs every operation and primary keys
that are unique, a stand whose single pending pipeline has three pending
steps, in ascending order `s1`, `s2`, `s3`, the first succeeding and the second
failing: `processPendingStand`
returns an error, the third step is still the same `pending` row, its job rows
are unchanged, no store operation addresses it or one of its job rows, every
provider call is for a job of the first or second step, and the pipeline and
the stand end in status `error`. -/
theorem processPendingStand_abort (polls : Nat) (env : Env) (w : World) (stand : Stand)
    (pl : Pipeline) (s1 s2 s3 : Step) (wB wD : World) (e : String)
    (hdb : ∀ n, env.dbFails n = false)
    (hkeys : (w.steps.map (·.ID)).Nodup ∧ (w.jobs.map (·.ID)).Nodup)
    (hpl : pendingPipelines w stand.ID = [pl])
    (hsteps : pendingSteps w pl.ID = [s1, s2, s3])
    (h1 : processStep polls env (enterStepLoop env w stand pl) s1 = some (wB, none))
    (h2 : processStep polls env (CreateStepNotify env wB s1 StatusSuccess).1 s2 =
      some (wD, some e)) :
    ∃ w' e', processPendingStand polls env w stand = some (w', some e') ∧
      s3.Status = StatusPending ∧ s3 ∈ w'.steps ∧ (∀ s ∈ w'.steps, s.ID = s3.ID → s = s3) ∧
      w'.jobs.filter (fun j => j.StepID == s3.ID) = w.jobs.filter (fun j => j.StepID == s3.ID) ∧
      (∀ op ∈ w'.log.drop w.log.length, op.step? ≠ some s3.ID ∧
        ∀ j ∈ w.jobs, j.StepID = s3.ID → op.job? ≠ some j.ID) ∧
      (∀ c ∈ w'.calls.drop w.calls.length,
        ∃ j ∈ w.jobs, (j.StepID = s1.ID ∨ j.StepID = s2.ID) ∧ j.GitlabJobID = c.jobID) ∧
      w'.pipelines = setPipelineStatus pl.ID StatusError w.pipelines ∧
      w'.stands = setStandStatus stand.ID StatusError w.stands := by
  obtain ⟨e', hrun⟩ := processPendingStand_second_step_fails polls env w stand pl s1 s2 [s3]
    wB wD e hdb hpl hsteps h1 h2
  refine ⟨_, e', hrun, ?_⟩
  -- the three steps are rows of the store with pairwise distinct identifiers
  have hm1 := mem_pendingSteps w pl.ID s1 (by rw [hsteps]; simp)
  have hm2 := mem_pendingSteps w pl.ID s2 (by rw [hsteps]; simp)
  have hm3 := mem_pendingSteps w pl.ID s3 (by rw [hsteps]; simp)
  have hnd := pendingSteps_ids_nodup w pl.ID hkeys.1
  rw [hsteps] at hnd
  simp only [List.map_cons, List.map_nil, List.nodup_cons, List.mem_cons, List.mem_singleton,
    List.not_mem_nil, or_false, not_or, not_false_eq_true, List.nodup_nil, and_true] at hnd
  obtain ⟨⟨h12, h13⟩, h23⟩ := hnd
  -- the footprint of the whole run
  obtain ⟨hA, hAsteps, hAjobs, -, -, hAstands, hApl⟩ := enterStepLoop_spec env hdb w stand pl
    (fun id => id = s1.ID ∨ id = s2.ID)
    (fun id => jobRowOf w s1.ID id ∨ jobRowOf w s2.ID id)
    (fun gid => providerJobOf w s1.ID gid ∨ providerJobOf w s2.ID gid)
  obtain ⟨hB', hBu⟩ := processStep_within polls env _ wB s1 none h1
  have hB := hA.andThen (hB'.widen (fun _ h => Or.inl h)
    (fun id h => Or.inl (jobRowOf_congr _ _ hAjobs _ _ h))
    (fun id h => Or.inl (providerJobOf_congr _ _ hAjobs _ _ h)))
  obtain ⟨hC', hCst, hCpl⟩ := CreateStepNotify_within
    (fun id => id = s1.ID ∨ id = s2.ID)
    (fun id => jobRowOf w s1.ID id ∨ jobRowOf w s2.ID id)
    (fun gid => providerJobOf w s1.ID gid ∨ providerJobOf w s2.ID gid)
    env wB s1 StatusSuccess (Or.inl rfl)
  have hC := hB.andThen hC'
  obtain ⟨hD', hDu⟩ := processStep_within polls env _ wD s2 (some e) h2
  have hD := hC.andThen (hD'.widen (fun _ h => Or.inr h)
    (fun id h => Or.inr (jobRowOf_of_within hC _ _ h))
    (fun id h => Or.inr (providerJobOf_of_within hC _ _ h)))
  have hE := hD.andThen (UpdatePipelineStatus_within
    (fun id => id = s1.ID ∨ id = s2.ID)
    (fun id => jobRowOf w s1.ID id ∨ jobRowOf w s2.ID id)
    (fun gid => providerJobOf w s1.ID gid ∨ providerJobOf w s2.ID gid) env wD StatusError pl)
  obtain ⟨hF', hFst, hFpl⟩ := CreateStepNotify_within
    (fun id => id = s1.ID ∨ id = s2.ID)
    (fun id => jobRowOf w s1.ID id ∨ jobRowOf w s2.ID id)
    (fun gid => providerJobOf w s1.ID gid ∨ providerJobOf w s2.ID gid)
    env (UpdatePipelineStatus env wD StatusError pl).1 s2 StatusError (Or.inr rfl)
  have hG := (hE.andThen hF').andThen (UpdateStandStatus_within
    (fun id => id = s1.ID ∨ id = s2.ID)
    (fun id => jobRowOf w s1.ID id ∨ jobRowOf w s2.ID id)
    (fun gid => providerJobOf w s1.ID gid ∨ providerJobOf w s2.ID gid) env
    (CreateStepNotify env (UpdatePipelineStatus env wD StatusError pl).1 s2 StatusError).1
    StatusError stand)
  -- a job row of step 3 is not a job row of step 1 or 2
  have hjob3 : ∀ j ∈ w.jobs, j.StepID = s3.ID →
      ¬ (jobRowOf w s1.ID j.ID ∨ jobRowOf w s2.ID j.ID) := by
    intro j hj h3 hS
    rcases hS with ⟨j0, hj0, hid, hst⟩ | ⟨j0, hj0, hid, hst⟩
    · have : j0 = j := List.inj_on_of_nodup_map hkeys.2 hj0 hj hid
      rw [this, h3] at hst
      exact h13 hst.symm
    · have : j0 = j := List.inj_on_of_nodup_map hkeys.2 hj0 hj hid
      rw [this, h3] at hst
      exact h23 hst.symm
  obtain ⟨f, hf, hfP⟩ := hG.steps
  obtain ⟨g, hg, hgP⟩ := hG.jobs
  obtain ⟨ops, hlog, hops⟩ := hG.log
  obtain ⟨cs, hcalls, hcs⟩ := hG.calls
  have hf3 : f s3 = s3 := (hfP s3).2.2.2.2 (by
    rintro (h | h)
    · exact h13 h.symm
    · exact h23 h.symm)
  refine ⟨hm3.2.2, ?_, ?_, ?_, ?_, ?_, ?_, ?_⟩
  · rw [hf]
    exact List.mem_map.mpr ⟨s3, hm3.1, hf3⟩
  · intro s hs hid
    rw [hf] at hs
    obtain ⟨s0, hs0, rfl⟩ := List.mem_map.mp hs
    have hid0 : s0.ID = s3.ID := (hfP s0).1 ▸ hid
    have : s0 = s3 := List.inj_on_of_nodup_map hkeys.1 hs0 hm3.1 hid0
    rw [this, hf3]
  · rw [hg, List.filter_map]
    have hcomp : ((fun j : Job => j.StepID == s3.ID) ∘ g) = fun j : Job => j.StepID == s3.ID := by
      funext j
      simp only [Function.comp, (hgP j).2.1]
    rw [hcomp]
    conv_rhs => rw [← List.map_id (w.jobs.filter (fun j => j.StepID == s3.ID))]
    apply List.map_congr_left
    intro j hj
    obtain ⟨hj1, hj2⟩ := List.mem_filter.mp hj
    exact (hgP j).2.2.2 (hjob3 j hj1 (by simpa using hj2))
  · rw [hlog, List.drop_left]
    intro op hop
    obtain ⟨ho1, ho2⟩ := hops op hop
    refine ⟨fun h => ?_, fun j hj h3 h => hjob3 j hj h3 (ho2 _ h)⟩
    rcases ho1 _ h with h | h
    · exact h13 h.symm
    · exact h23 h.symm
  · rw [hcalls, List.drop_left]
    intro c hc
    rcases hcs c hc with ⟨j, hj, hgid, hst⟩ | ⟨j, hj, hgid, hst⟩
    · exact ⟨j, hj, Or.inl hst, hgid⟩
    · exact ⟨j, hj, Or.inr hst, hgid⟩
  · rw [(UpdateStandStatus_healthy env hdb _ StatusError stand).2.2.1, hFpl,
      (UpdatePipelineStatus_healthy env hdb wD StatusError pl).2.1, hDu.pipelines, hCpl,
      hBu.pipelines, hApl, setPipelineStatus_twice]
  · rw [(UpdateStandStatus_healthy env hdb _ StatusError stand).2.1, hFst,
      (UpdatePipelineStatus_healthy env hdb wD StatusError pl).2.2.1, hDu.stands, hCst,
      hBu.stands, hAstands, setStandStatus_twice]

/-- C2, the witness: `abortStore` under `cooperative`; the job of step 1
succeeds on the provider, the job of step 2 is already `failed`. -/
theorem processPendingStand_abort_witness :
    ∃ w' e', processPendingStand 1 cooperative abortStore standA = some (w', some e') ∧
      (threeSteps.get ⟨2, by decide⟩).Status = StatusPending ∧
      threeSteps.get ⟨2, by decide⟩ ∈ w'.steps ∧
      (∀ s ∈ w'.steps, s.ID = (threeSteps.get ⟨2, by decide⟩).ID →
        s = threeSteps.get ⟨2, by decide⟩) ∧
      w'.jobs.filter (fun j => j.StepID == (threeSteps.get ⟨2, by decide⟩).ID) =
        abortStore.jobs.filter (fun j => j.StepID == (threeSteps.get ⟨2, by decide⟩).ID) ∧
      (∀ op ∈ w'.log.drop abortStore.log.length,
        op.step? ≠ some (threeSteps.get ⟨2, by decide⟩).ID ∧
        ∀ j ∈ abortStore.jobs, j.StepID = (threeSteps.get ⟨2, by decide⟩).ID →
          op.job? ≠ some j.ID) ∧
      (∀ c ∈ w'.calls.drop abortStore.calls.length,
        ∃ j ∈ abortStore.jobs, (j.StepID = (threeSteps.get ⟨0, by decide⟩).ID ∨
          j.StepID = (threeSteps.get ⟨1, by decide⟩).ID) ∧ j.GitlabJobID = c.jobID) ∧
      w'.pipelines = setPipelineStatus pipelineA.ID StatusError abortStore.pipelines ∧
      w'.stands = setStandStatus standA.ID StatusError abortStore.stands :=
  processPendingStand_abort 1 cooperative abortStore standA pipelineA
    (threeSteps.get ⟨0, by decide⟩) (threeSteps.get ⟨1, by decide⟩)
    (threeSteps.get ⟨2, by decide⟩) abortStoreAfterStep1 abortStoreAfterStep2
    "step failed due to job" (fun _ => rfl) ⟨by decide, by decide⟩ (by decide) (by decide)
    (by decide) (by decide)

/-- C2 as stated fails: step 1 of `abortStore` succeeds and step 2 fails, the
store rejects the write of the pipeline's `error` status, and the run ends with
the pipeline still `running` (step 3 `pending`, the stand `error`). -/
theorem processPendingStand_abort_store_rejects :
    pendingPipelines abortStore standA.ID = [pipelineA] ∧
    pendingSteps abortStore pipelineA.ID = threeSteps ∧
    (processPendingStand 1 rejectsPipelineError abortStore standA).map
      (fun r => (r.2.isSome, r.1.steps.map (·.Status), r.1.pipelines.map (·.Status),
        r.1.stands.map (·.Status))) =
      some (true, ["success", "error", "pending"], ["running"], ["error"]) := by
  decide

/-! ## The run with a cooperative store and provider -/

theorem Done.none (w : World) : Done (fun _ => False) w w :=
  { jobs := Evolves.same (fun _ => ⟨rfl, rfl, fun h => False.elim h, fun _ => rfl⟩) _
    cache := fun _ h => h }

theorem Done.next {S1 S2 : Nat → Prop} {w w' w'' : World} (h1 : Done S1 w w')
    (h2 : Done S2 w' w'') : Done (fun id => S1 id ∨ S2 id) w w'' := by
  obtain ⟨g1, hg1, hP1⟩ := h1.jobs
  obtain ⟨g2, hg2, hP2⟩ := h2.jobs
  refine { jobs := ⟨g2 ∘ g1, by rw [hg2, hg1, List.map_map], fun j => ?_⟩
           cache := fun e he => h1.cache e (h2.cache e he) }
  obtain ⟨a1, a2, a3, a4⟩ := hP1 j
  obtain ⟨b1, b2, b3, b4⟩ := hP2 (g1 j)
  refine ⟨b1.trans a1, b2.trans a2, ?_, ?_⟩
  · intro hS
    by_cases h2S : S2 j.ID
    · exact b3 (a1 ▸ h2S)
    · have hS1 : S1 j.ID := hS.resolve_right h2S
      have : g2 (g1 j) = g1 j := b4 (a1 ▸ h2S)
      show (g2 (g1 j)).Status = StatusSuccess
      rw [this]
      exact a3 hS1
  · intro hS
    have hn1 : ¬ S1 j.ID := fun h => hS (Or.inl h)
    have hn2 : ¬ S2 j.ID := fun h => hS (Or.inr h)
    have e1 : g1 j = j := a4 hn1
    show g2 (g1 j) = j
    rw [b4 (a1 ▸ hn2), e1]

theorem Done.iff {S S' : Nat → Prop} {w w' : World} (h : Done S w w')
    (hS : ∀ id, S id ↔ S' id) : Done S' w w' := by
  obtain ⟨g, hg, hP⟩ := h.jobs
  exact { jobs := ⟨g, hg, fun j => by
            obtain ⟨a1, a2, a3, a4⟩ := hP j
            exact ⟨a1, a2, fun h => a3 ((hS _).mpr h), fun h => a4 (fun h' => h ((hS _).mp h'))⟩⟩
          cache := h.cache }

theorem mem_of_cacheLoad (m : List (String × String)) (k v : String)
    (h : cacheLoad m k = some v) : (k, v) ∈ m := by
  unfold cacheLoad at h
  induction m with
  | nil => simp at h
  | cons e es ih =>
    obtain ⟨k', v'⟩ := e
    by_cases hk : k = k'
    · subst hk
      simp only [List.lookup, beq_self_eq_true, Option.some.injEq] at h
      subst h
      exact List.mem_cons_self _ _
    · have : (k == k') = false := by simpa using hk
      simp only [List.lookup, this] at h
      exact List.mem_cons_of_mem _ (ih h)

theorem mem_cacheDelete (m : List (String × String)) (k : String) (e : String × String)
    (h : e ∈ cacheDelete m k) : e ∈ m ∧ e.1 ≠ k := by
  unfold cacheDelete at h
  obtain ⟨h1, h2⟩ := List.mem_filter.mp h
  exact ⟨h1, by simpa using h2⟩

/-- One poll that finds the job `success`: the row is written, the poll
reports the job finished, and the cache ends without an entry for the key. -/
theorem checkAndUpdateStatus_success (env : Env) (hdb : ∀ n, env.dbFails n = false)
    (hget : ∀ n id, env.getJobStatus n id = .ok StatusSuccess) (w : World) (job : Job)
    (key : String) (hcache : ∀ e ∈ w.jobStatuses, e.2 ≠ StatusSuccess) :
    ∃ w', checkAndUpdateStatus env w job key = (w', true, none) ∧
      w'.jobs = setJobStatus job.ID StatusSuccess w.jobs ∧ w'.steps = w.steps ∧
      SameUpper w w' ∧ ∀ e ∈ w'.jobStatuses, e ∈ w.jobStatuses := by
  have hload : ¬ cacheLoad (w.called (.getJobStatus job.GitlabJobID)).jobStatuses key =
      some StatusSuccess := by
    intro h
    exact hcache _ (mem_of_cacheLoad _ _ _ h) rfl
  have hne : ¬ (StatusSuccess = StatusFailed ∨ StatusSuccess = StatusCanceled) := by decide
  unfold checkAndUpdateStatus
  simp only [hget, if_neg hload, UpdateJobStatus, hdb, if_false, Bool.false_eq_true,
    if_neg hne, if_true]
  refine ⟨_, rfl, rfl, rfl, ⟨rfl, rfl, rfl⟩, ?_⟩
  intro e he
  have h1 := (mem_cacheDelete _ _ _ he)
  rcases List.mem_cons.mp h1.1 with h | h
  · exact absurd (by rw [h]) h1.2
  · exact (mem_cacheDelete _ _ _ h).1

theorem jobs_done_of_writes (l l1 : List Job) (id t' : Nat)
    (h1 : l1 = l ∨ ∃ t, l1 = setJobStartedAt id t l) :
    Evolves (JobDone (fun x => x = id)) l
      (setJobFinishedAt id t' (setJobStatus id StatusSuccess l1)) := by
  rcases h1 with rfl | ⟨t, rfl⟩
  · unfold setJobFinishedAt setJobStatus
    rw [List.map_map]
    refine ⟨_, rfl, fun j => ?_⟩
    by_cases hj : j.ID = id <;> simp [JobDone, Function.comp, hj]
  · unfold setJobFinishedAt setJobStatus setJobStartedAt
    rw [List.map_map, List.map_map]
    refine ⟨_, rfl, fun j => ?_⟩
    by_cases hj : j.ID = id <;> simp [JobDone, Function.comp, hj]

/-- `processJob` on a job that the provider runs and reports `success`. -/
theorem processJob_success (polls : Nat) (env : Env) (hdb : ∀ n, env.dbFails n = false)
    (hrun : ∀ n id, env.runJob n id = none)
    (hget : ∀ n id, env.getJobStatus n id = .ok StatusSuccess) (w : World) (job : Job)
    (hcache : ∀ e ∈ w.jobStatuses, e.2 ≠ StatusSuccess) :
    ∃ w', processJob (polls + 1) env w job = some (w', none) ∧
      Done (fun id => id = job.ID) w w' ∧ w'.steps = w.steps ∧ SameUpper w w' := by
  -- the trigger
  have htrig : ∃ wt, triggerJob env w job = (wt, none) ∧
      (wt.jobs = w.jobs ∨ ∃ t, wt.jobs = setJobStartedAt job.ID t w.jobs) ∧
      wt.jobStatuses = w.jobStatuses ∧ wt.steps = w.steps ∧ SameUpper w wt := by
    unfold triggerJob
    by_cases hst : job.StartedAt = none
    · simp only [hst, if_true, hrun, updateStartedAt, hdb, if_false, Bool.false_eq_true]
      exact ⟨_, rfl, Or.inr ⟨_, rfl⟩, rfl, rfl, ⟨rfl, rfl, rfl⟩⟩
    · rw [if_neg hst]
      exact ⟨w, rfl, Or.inl rfl, rfl, rfl, SameUpper.still w⟩
  obtain ⟨wt, ht, htj, htc, hts, htu⟩ := htrig
  obtain ⟨wc, hc, hcj, hcs, hcu, hcc⟩ := checkAndUpdateStatus_success env hdb hget wt job
    (jobKey job) (by rw [htc]; exact hcache)
  have hmon : monitorJobStatus (polls + 1) env wt job = some (wc, none) := by
    rw [monitorJobStatus, hc]
  have hfin : updateFinishedAt env wc job = ((updateFinishedAt env wc job).1, none) := by
    simp [updateFinishedAt, hdb]
  unfold processJob
  rw [ht]
  simp only [hmon]
  rw [hfin]
  refine ⟨_, rfl, ?_, ?_, ?_⟩
  · refine { jobs := ?_, cache := ?_ }
    · simp only [updateFinishedAt, hdb, if_false, Bool.false_eq_true, World.issue, hcj]
      exact jobs_done_of_writes w.jobs wt.jobs job.ID _ htj
    · simp only [updateFinishedAt, hdb, if_false, Bool.false_eq_true, World.issue]
      intro e he
      exact htc ▸ hcc e he
  · simp only [updateFinishedAt, hdb, if_false, Bool.false_eq_true, World.issue, hcs, hts]
  · simp only [updateFinishedAt, hdb, if_false, Bool.false_eq_true, World.issue]
    exact ⟨hcu.stands.trans htu.stands, hcu.pipelines.trans htu.pipelines,
      hcu.stepStates.trans htu.stepStates⟩

/-- The trigger loop over `manual` jobs that the provider runs and reports
`success`. -/
theorem processManualJobs_success (polls : Nat) (env : Env)
    (hdb : ∀ n, env.dbFails n = false) (hrun : ∀ n id, env.runJob n id = none)
    (hget : ∀ n id, env.getJobStatus n id = .ok StatusSuccess) (step : Step) :
    ∀ (jobs : List Job), (∀ j ∈ jobs, j.Status = StatusManual) →
    ∀ (w : World), (∀ e ∈ w.jobStatuses, e.2 ≠ StatusSuccess) →
    ∃ w', processManualJobs (polls + 1) env step w jobs = some (w', none) ∧
      Done (fun id => ∃ j ∈ jobs, j.ID = id) w w' ∧ w'.steps = w.steps ∧ SameUpper w w' := by
  intro jobs
  induction jobs with
  | nil =>
    intro _ w _
    exact ⟨w, rfl, (Done.none w).iff (fun id => by simp), rfl, SameUpper.still w⟩
  | cons job rest ih =>
    intro hman w hcache
    obtain ⟨w1, h1, hd1, hs1, hu1⟩ := processJob_success polls env hdb hrun hget w job hcache
    obtain ⟨w', h2, hd2, hs2, hu2⟩ := ih (fun j hj => hman j (List.mem_cons_of_mem _ hj)) w1
      (fun e he => hcache e (hd1.cache e he))
    refine ⟨w', ?_, (hd1.next hd2).iff (fun id => ?_), hs2.trans hs1, hu1.followedBy hu2⟩
    · rw [processManualJobs, if_pos (hman job (List.mem_cons_self _ _)), h1]
      exact h2
    · constructor
      · rintro (h | ⟨j, hj, h⟩)
        · exact ⟨job, List.mem_cons_self _ _, h.symm⟩
        · exact ⟨j, List.mem_cons_of_mem _ hj, h⟩
      · rintro ⟨j, hj, h⟩
        rcases List.mem_cons.mp hj with rfl | hj
        · exact Or.inl h.symm
        · exact Or.inr ⟨j, hj, h⟩

/-- `processStep` on a step whose unfinished jobs are all `manual`, with a
store that performs every operation and a provider that runs every job and
reports it `success`. -/
theorem processStep_success (polls : Nat) (env : Env) (hdb : ∀ n, env.dbFails n = false)
    (hrun : ∀ n id, env.runJob n id = none)
    (hget : ∀ n id, env.getJobStatus n id = .ok StatusSuccess) (w : World) (step : Step)
    (hman : ∀ j ∈ w.jobs, j.StepID = step.ID →
      j.Status = StatusSuccess ∨ j.Status = StatusManual)
    (hcache : ∀ e ∈ w.jobStatuses, e.2 ≠ StatusSuccess) :
    ∃ w', processStep (polls + 1) env w step = some (w', none) ∧
      Done (fun id => ∃ j ∈ pendingJobs w step.ID, j.ID = id) w w' ∧
      w'.steps = setStepStatus step.ID StatusSuccess w.steps ∧ SameUpper w w' := by
  have hpj : pendingJobs (w.issue (.findJobs step.ID)) step.ID = pendingJobs w step.ID := rfl
  have hall : ∀ j ∈ pendingJobs w step.ID, j.Status = StatusManual := by
    intro j hj
    obtain ⟨h1, h2, h3⟩ := mem_pendingJobs w step.ID j hj
    exact (hman j h1 h2).resolve_left h3
  have hfail : (pendingJobs w step.ID).any
      (fun j => j.Status == StatusFailed || j.Status == StatusCanceled) = false := by
    rw [List.any_eq_false]
    intro j hj
    rw [hall j hj]
    decide
  have hrunning : (pendingJobs w step.ID).any (fun j => j.Status == StatusRunning) = false := by
    rw [List.any_eq_false]
    intro j hj
    rw [hall j hj]
    decide
  obtain ⟨w3, h3, hd3, hs3, hu3⟩ := processManualJobs_success polls env hdb hrun hget step
    (pendingJobs w step.ID) hall
    (UpdateStepStatus env (w.issue (.findJobs step.ID)) StatusRunning step).1
    (by simpa [UpdateStepStatus, hdb, World.issue] using hcache)
  have hloop : (if ((pendingJobs w step.ID).any (fun j => j.Status == StatusManual) &&
        !(pendingJobs w step.ID).any (fun j => j.Status == StatusRunning)) = true
      then processManualJobs (polls + 1) env step
        (UpdateStepStatus env (w.issue (.findJobs step.ID)) StatusRunning step).1
        (pendingJobs w step.ID)
      else some ((UpdateStepStatus env (w.issue (.findJobs step.ID)) StatusRunning step).1,
        none)) = some (w3, none) := by
    split_ifs with hc
    · exact h3
    · have hnil : pendingJobs w step.ID = [] := by
        cases hp : pendingJobs w step.ID with
        | nil => rfl
        | cons j js =>
          exfalso
          apply hc
          rw [hrunning]
          have hj := hall j (by rw [hp]; exact List.mem_cons_self _ _)
          rw [hp, List.any_cons, hj]
          simp
      rw [hnil] at h3
      exact h3
  have hup : ∀ (w0 : World) (st : String),
      UpdateStepStatus env w0 st step = ((UpdateStepStatus env w0 st step).1, none) ∧
        (UpdateStepStatus env w0 st step).1.steps = setStepStatus step.ID st w0.steps ∧
        (UpdateStepStatus env w0 st step).1.jobs = w0.jobs ∧
        (UpdateStepStatus env w0 st step).1.jobStatuses = w0.jobStatuses ∧
        SameUpper w0 (UpdateStepStatus env w0 st step).1 := by
    intro w0 st
    simp only [UpdateStepStatus, hdb, if_false, Bool.false_eq_true, World.issue, and_self,
      true_and]
    exact ⟨rfl, rfl, rfl⟩
  refine ⟨(UpdateStepStatus env w3 StatusSuccess step).1, ?_, ?_, ?_, ?_⟩
  · unfold processStep
    simp only [hdb, if_false, Bool.false_eq_true, hpj, hfail]
    rw [(hup _ StatusRunning).1]
    simp only [hloop]
    exact congrArg some (hup w3 StatusSuccess).1
  · obtain ⟨g, hg, hP⟩ := hd3.jobs
    refine { jobs := ⟨g, ?_, hP⟩, cache := ?_ }
    · rw [(hup w3 StatusSuccess).2.2.1, hg, (hup _ StatusRunning).2.2.1]
      rfl
    · intro e he
      rw [(hup w3 StatusSuccess).2.2.2.1] at he
      have := hd3.cache e he
      rw [(hup _ StatusRunning).2.2.2.1] at this
      exact this
  · rw [(hup w3 StatusSuccess).2.1, hs3, (hup _ StatusRunning).2.1]
    exact setStepStatus_twice _ _ _ _
  · have h1 := (hup (w.issue (.findJobs step.ID)) StatusRunning).2.2.2.2
    have h2 := (hup w3 StatusSuccess).2.2.2.2
    have h0 : SameUpper w (w.issue (.findJobs step.ID)) := ⟨rfl, rfl, rfl⟩
    exact ((h0.followedBy h1).followedBy hu3).followedBy h2

theorem CreateStepNotify_tables (env : Env) (w : World) (step : Step) (status : String) :
    (CreateStepNotify env w step status).1.steps = w.steps ∧
    (CreateStepNotify env w step status).1.jobs = w.jobs ∧
    (CreateStepNotify env w step status).1.jobStatuses = w.jobStatuses := by
  unfold CreateStepNotify
  by_cases h : env.dbFails w.log.length = true
  · simp only [h, if_true]; exact ⟨rfl, rfl, rfl⟩
  · simp only [h, if_false, Bool.false_eq_true]
    split
    · exact ⟨rfl, rfl, rfl⟩
    · split_ifs <;> exact ⟨rfl, rfl, rfl⟩

theorem setStepStatus_evolves (id : Nat) (status : String) (rows : List Step) :
    Evolves (StepKept (fun _ => True)) rows (setStepStatus id status rows) := by
  refine ⟨_, rfl, fun s => ?_⟩
  by_cases h : s.ID = id
  · rw [if_pos h]
    exact ⟨rfl, rfl, rfl, rfl, fun hn => absurd trivial hn⟩
  · rw [if_neg h]
    exact StepKept.unchanged _ s

/-- A row of an evolved step table with the identifier of a step of the
original table has that step's order and name, when identifiers are unique. -/
theorem evolved_step_row (rows rows' : List Step) (h : Evolves (StepKept (fun _ => True)) rows rows')
    (hnd : (rows.map (·.ID)).Nodup) (s : Step) (hs : s ∈ rows) (row : Step) (hrow : row ∈ rows')
    (hid : row.ID = s.ID) : row.Order = s.Order ∧ row.Name = s.Name := by
  obtain ⟨f, hf, hP⟩ := h
  rw [hf] at hrow
  obtain ⟨r0, hr0, rfl⟩ := List.mem_map.mp hrow
  obtain ⟨a1, a2, a3, -, -⟩ := hP r0
  have : r0 = s := List.inj_on_of_nodup_map hnd hr0 hs (a1 ▸ hid)
  subst this
  exact ⟨a3, a2⟩

/-- One round of the step loop when the jobs of the step are `manual` and the
store and the provider cooperate: the step is processed and its `success`
notification written. -/
theorem step_round_success (polls : Nat) (env : Env) (hdb : ∀ n, env.dbFails n = false)
    (hrun : ∀ n id, env.runJob n id = none)
    (hget : ∀ n id, env.getJobStatus n id = .ok StatusSuccess) (w wk : World) (s : Step)
    (hs : s ∈ w.steps) (hnd : (w.steps.map (·.ID)).Nodup)
    (hev : Evolves (StepKept (fun _ => True)) w.steps wk.steps)
    (hA : ∀ j' ∈ wk.jobs, j' ∈ w.jobs ∨ j'.Status = StatusSuccess)
    (hm : ∀ j ∈ w.jobs, j.StepID = s.ID → j.Status = StatusManual)
    (hcache : ∀ e ∈ wk.jobStatuses, e.2 ≠ StatusSuccess) :
    ∃ wB wn st, processStep (polls + 1) env wk s = some (wB, none) ∧
      CreateStepNotify env wB s StatusSuccess = (wn, none) ∧
      wn.steps = setStepStatus s.ID StatusSuccess wk.steps ∧
      wn.stands = wk.stands ∧ wn.pipelines = wk.pipelines ∧
      wn.stepStates = wk.stepStates ++ [st] ∧
      (st.Status = StatusSuccess ∧ st.Order = s.Order ∧ st.StepName = s.Name ∧ st.Send = false) ∧
      (∀ e ∈ wn.jobStatuses, e.2 ≠ StatusSuccess) ∧
      (∀ j' ∈ wn.jobs, j' ∈ w.jobs ∨ j'.Status = StatusSuccess) ∧
      (∀ j' ∈ wn.jobs, j'.StepID = s.ID → j'.Status = StatusSuccess) ∧
      (∀ j' ∈ wn.jobs, ∃ j0 ∈ wk.jobs, j'.StepID = j0.StepID ∧
        (j' = j0 ∨ j'.Status = StatusSuccess)) ∧
      wn.jobs.map (·.ID) = wk.jobs.map (·.ID) ∧
      Evolves (StepKept (fun _ => True)) w.steps wn.steps := by
  have hman : ∀ j ∈ wk.jobs, j.StepID = s.ID →
      j.Status = StatusSuccess ∨ j.Status = StatusManual := by
    intro j hj hst
    rcases hA j hj with h | h
    · exact Or.inr (hm j h hst)
    · exact Or.inl h
  obtain ⟨wB, hB, hd, hBs, hBu⟩ := processStep_success polls env hdb hrun hget wk s hman hcache
  have hevB : Evolves (StepKept (fun _ => True)) w.steps wB.steps := by
    rw [hBs]
    exact Evolves.compose (StepKept.chain _) hev (setStepStatus_evolves _ _ _)
  have hfound : ∃ s' ∈ wB.steps, s'.ID = s.ID := by
    obtain ⟨f, hf, hP⟩ := hevB
    exact ⟨f s, by rw [hf]; exact List.mem_map_of_mem f hs, (hP s).1⟩
  obtain ⟨hn, row, st, hrow, hrid, hst1, hst2, hst3, hst4, hst5⟩ :=
    CreateStepNotify_healthy env hdb wB s StatusSuccess hfound
  obtain ⟨ht1, ht2, ht3⟩ := CreateStepNotify_tables env wB s StatusSuccess
  obtain ⟨-, hnst, hnpl⟩ := CreateStepNotify_within (fun _ => True) (fun _ => True)
    (fun _ => True) env wB s StatusSuccess trivial
  obtain ⟨hro, hrn⟩ := evolved_step_row w.steps wB.steps hevB hnd s hs row hrow hrid
  obtain ⟨g, hg, hP⟩ := hd.jobs
  refine ⟨wB, (CreateStepNotify env wB s StatusSuccess).1, st, hB, hn, ?_, ?_, ?_, ?_, ?_, ?_,
    ?_, ?_, ?_, ?_, ?_⟩
  · rw [ht1, hBs]
  · rw [hnst, hBu.stands]
  · rw [hnpl, hBu.pipelines]
  · rw [hst5, hBu.stepStates]
  · exact ⟨hst1, hst2.trans hro, hst3.trans hrn, hst4⟩
  · intro e he
    rw [ht3] at he
    exact hcache e (hd.cache e he)
  · intro j' hj'
    rw [ht2, hg] at hj'
    obtain ⟨j0, hj0, rfl⟩ := List.mem_map.mp hj'
    obtain ⟨-, -, a3, a4⟩ := hP j0
    by_cases hS : ∃ j ∈ pendingJobs wk s.ID, j.ID = j0.ID
    · exact Or.inr (a3 hS)
    · rw [a4 hS]
      exact hA j0 hj0
  · intro j' hj' hst
    rw [ht2, hg] at hj'
    obtain ⟨j0, hj0, rfl⟩ := List.mem_map.mp hj'
    obtain ⟨-, a2, a3, a4⟩ := hP j0
    by_cases hS : ∃ j ∈ pendingJobs wk s.ID, j.ID = j0.ID
    · exact a3 hS
    · rw [a4 hS]
      by_contra hne
      apply hS
      refine ⟨j0, ?_, rfl⟩
      unfold pendingJobs
      refine List.mem_filter.mpr ⟨hj0, ?_⟩
      have hsid : j0.StepID = s.ID := a2 ▸ hst
      simp only [Bool.and_eq_true, beq_iff_eq, bne_iff_ne, ne_eq]
      exact ⟨hsid, hne⟩
  · intro j' hj'
    rw [ht2, hg] at hj'
    obtain ⟨j0, hj0, rfl⟩ := List.mem_map.mp hj'
    obtain ⟨-, a2, a3, a4⟩ := hP j0
    refine ⟨j0, hj0, a2, ?_⟩
    by_cases hS : ∃ j ∈ pendingJobs wk s.ID, j.ID = j0.ID
    · exact Or.inr (a3 hS)
    · exact Or.inl (a4 hS)
  · rw [ht2, hg, List.map_map]
    apply List.map_congr_left
    intro j _
    exact (hP j).1
  · rw [ht1]
    exact hevB

/-! ## End-to-end happy path of the pending lane -/

/-- C4 (amended): a pending stand with one pending pipeline whose three
pending steps (orders 1, 2, 3) hold only `manual` jobs without a start time;
the store performs every operation, the provider accepts every `RunJob` and
reports `success` for every job, and the status cache holds no `success`
entry.  Then `processPendingStand`, given at least one poll per job, returns
no error; the stand, the pipeline and the three steps are set to `success`,
every job row of the three steps is `success`, and exactly three `StepState`
rows are appended, all `success`, of orders 1, 2, 3. -/
theorem processPendingStand_happy_path (polls : Nat) (env : Env) (w : World) (stand : Stand)
    (pl : Pipeline) (s1 s2 s3 : Step)
    (hdb : ∀ n, env.dbFails n = false) (hrun : ∀ n id, env.runJob n id = none)
    (hget : ∀ n id, env.getJobStatus n id = .ok StatusSuccess)
    (hcache : ∀ e ∈ w.jobStatuses, e.2 ≠ StatusSuccess)
    (hkeys : (w.steps.map (·.ID)).Nodup)
    (hstand : stand ∈ w.stands ∧ stand.Status = StatusPending)
    (hpl : pendingPipelines w stand.ID = [pl])
    (hsteps : pendingSteps w pl.ID = [s1, s2, s3])
    (horders : s1.Order = 1 ∧ s2.Order = 2 ∧ s3.Order = 3)
    (hjobs : ∀ j ∈ w.jobs, (j.StepID = s1.ID ∨ j.StepID = s2.ID ∨ j.StepID = s3.ID) →
      j.Status = StatusManual ∧ j.StartedAt = none) :
    ∃ w', processPendingStand (polls + 1) env w stand = some (w', none) ∧
      w'.stands = setStandStatus stand.ID StatusSuccess w.stands ∧
      { stand with Status := StatusSuccess } ∈ w'.stands ∧
      w'.pipelines = setPipelineStatus pl.ID StatusSuccess w.pipelines ∧
      w'.steps = setStepStatus s3.ID StatusSuccess (setStepStatus s2.ID StatusSuccess
        (setStepStatus s1.ID StatusSuccess w.steps)) ∧
      (∀ j ∈ w'.jobs, (j.StepID = s1.ID ∨ j.StepID = s2.ID ∨ j.StepID = s3.ID) →
        j.Status = StatusSuccess) ∧
      w'.jobs.map (·.ID) = w.jobs.map (·.ID) ∧
      ∃ r1 r2 r3, w'.stepStates = w.stepStates ++ [r1, r2, r3] ∧
        (r1.Status = StatusSuccess ∧ r2.Status = StatusSuccess ∧ r3.Status = StatusSuccess) ∧
        (r1.Order = 1 ∧ r2.Order = 2 ∧ r3.Order = 3) ∧
        (r1.StepName = s1.Name ∧ r2.StepName = s2.Name ∧ r3.StepName = s3.Name) := by
  have hm1 := mem_pendingSteps w pl.ID s1 (by rw [hsteps]; simp)
  have hm2 := mem_pendingSteps w pl.ID s2 (by rw [hsteps]; simp)
  have hm3 := mem_pendingSteps w pl.ID s3 (by rw [hsteps]; simp)
  obtain ⟨-, hAsteps, hAjobs, hAss, hAcache, hAstands, hApl⟩ :=
    enterStepLoop_spec env hdb w stand pl (fun _ => True) (fun _ => True) (fun _ => True)
  -- round 1
  obtain ⟨wB1, wn1, r1, hB1, hN1, hs1, hst1, hpl1, hss1, hr1, hc1, hA1, hD1, hP1, hid1, hev1⟩ :=
    step_round_success polls env hdb hrun hget w (enterStepLoop env w stand pl) s1 hm1.1 hkeys
      (by rw [hAsteps]; exact Evolves.same (StepKept.unchanged _) _)
      (by rw [hAjobs]; exact fun j hj => Or.inl hj)
      (fun j hj h => (hjobs j hj (Or.inl h)).1)
      (by rw [hAcache]; exact hcache)
  -- round 2
  obtain ⟨wB2, wn2, r2, hB2, hN2, hs2, hst2, hpl2, hss2, hr2, hc2, hA2, hD2, hP2, hid2, hev2⟩ :=
    step_round_success polls env hdb hrun hget w wn1 s2 hm2.1 hkeys hev1 hA1
      (fun j hj h => (hjobs j hj (Or.inr (Or.inl h))).1) hc1
  -- round 3
  obtain ⟨wB3, wn3, r3, hB3, hN3, hs3, hst3, hpl3, hss3, hr3, hc3, hA3, hD3, hP3, hid3, hev3⟩ :=
    step_round_success polls env hdb hrun hget w wn2 s3 hm3.1 hkeys hev2 hA2
      (fun j hj h => (hjobs j hj (Or.inr (Or.inr h))).1) hc2
  have hloop : processSteps (polls + 1) env pl (enterStepLoop env w stand pl) [s1, s2, s3] =
      some (wn3, none) := by
    rw [processSteps, hB1]
    simp only
    rw [hN1]
    simp only
    rw [processSteps, hB2]
    simp only
    rw [hN2]
    simp only
    rw [processSteps, hB3]
    simp only
    rw [hN3]
    simp only
    rw [processSteps]
  have hpipe : processPendingPipeline (polls + 1) env
      (UpdateStandStatus env (w.issue (.findPipelines stand.ID)) StatusRunning stand).1 pl =
      some ((UpdatePipelineStatus env wn3 StatusSuccess pl).1, none) := by
    have hps : pendingSteps
        ((UpdateStandStatus env (w.issue (.findPipelines stand.ID)) StatusRunning stand).1.issue
          (.findSteps pl.ID)) pl.ID = [s1, s2, s3] := by
      rw [← hsteps]
      apply pendingSteps_congr
      simp [UpdateStandStatus, hdb, World.issue]
    unfold processPendingPipeline
    simp only [hdb, hps, if_false, Bool.false_eq_true, List.length_cons]
    rw [if_neg (by omega)]
    rw [(UpdatePipelineStatus_healthy env hdb _ StatusRunning pl).1]
    simp only
    have := hloop
    unfold enterStepLoop at this
    rw [this]
    simp only
    exact congrArg some (UpdatePipelineStatus_healthy env hdb wn3 StatusSuccess pl).1
  have hrun' : processPendingStand (polls + 1) env w stand =
      some ((UpdateStandStatus env (UpdatePipelineStatus env wn3 StatusSuccess pl).1
        StatusSuccess stand).1, none) := by
    have hpp : pendingPipelines (w.issue (.findPipelines stand.ID)) stand.ID = [pl] := by
      rw [← hpl]
      exact pendingPipelines_congr _ _ _ rfl
    unfold processPendingStand
    simp only [hdb, hpp, if_false, Bool.false_eq_true, List.length_cons, List.length_nil]
    rw [if_neg (by omega)]
    rw [(UpdateStandStatus_healthy env hdb _ StatusRunning stand).1]
    simp only
    rw [processPipelines, hpipe]
    simp only
    rw [processPipelines]
    simp only
    exact congrArg some (UpdateStandStatus_healthy env hdb _ StatusSuccess stand).1
  have htail : ∀ (w0 : World),
      (UpdateStandStatus env (UpdatePipelineStatus env w0 StatusSuccess pl).1
        StatusSuccess stand).1.steps = w0.steps ∧
      (UpdateStandStatus env (UpdatePipelineStatus env w0 StatusSuccess pl).1
        StatusSuccess stand).1.jobs = w0.jobs ∧
      (UpdateStandStatus env (UpdatePipelineStatus env w0 StatusSuccess pl).1
        StatusSuccess stand).1.stepStates = w0.stepStates ∧
      (UpdateStandStatus env (UpdatePipelineStatus env w0 StatusSuccess pl).1
        StatusSuccess stand).1.stands = setStandStatus stand.ID StatusSuccess w0.stands ∧
      (UpdateStandStatus env (UpdatePipelineStatus env w0 StatusSuccess pl).1
        StatusSuccess stand).1.pipelines = setPipelineStatus pl.ID StatusSuccess w0.pipelines := by
    intro w0
    simp [UpdateStandStatus, UpdatePipelineStatus, hdb, World.issue]
  obtain ⟨ht1, ht2, ht3, ht4, ht5⟩ := htail wn3
  refine ⟨_, hrun', ?_, ?_, ?_, ?_, ?_, ?_, ?_⟩
  · rw [ht4, hst3, hst2, hst1, hAstands, setStandStatus_twice]
  · rw [ht4, hst3, hst2, hst1, hAstands, setStandStatus_twice]
    exact List.mem_map.mpr ⟨stand, hstand.1, by rw [if_pos rfl]⟩
  · rw [ht5, hpl3, hpl2, hpl1, hApl, setPipelineStatus_twice]
  · rw [ht1, hs3, hs2, hs1, hAsteps]
  · intro j hj hst
    rw [ht2] at hj
    rcases hst with h | h | h
    · obtain ⟨j2, hj2, e2, hor2⟩ := hP3 j hj
      obtain ⟨j1, hj1, e1, hor1⟩ := hP2 j2 hj2
      rcases hor2 with rfl | h'
      · rcases hor1 with rfl | h''
        · exact hD1 _ hj1 h
        · exact h''
      · exact h'
    · obtain ⟨j2, hj2, e2, hor2⟩ := hP3 j hj
      rcases hor2 with rfl | h'
      · exact hD2 _ hj2 h
      · exact h'
    · exact hD3 j hj h
  · rw [ht2, hid3, hid2, hid1, hAjobs]
  · refine ⟨r1, r2, r3, ?_, ⟨hr1.1, hr2.1, hr3.1⟩,
      ⟨hr1.2.1.trans horders.1, hr2.2.1.trans horders.2.1, hr3.2.1.trans horders.2.2⟩,
      ⟨hr1.2.2.1, hr2.2.2.1, hr3.2.2.1⟩⟩
    rw [ht3, hss3, hss2, hss1, hAss]
    simp

/-- C4, the witness: `happyStore` under `cooperative`, one poll per job. -/
theorem processPendingStand_happy_path_witness :
    ∃ w', processPendingStand 1 cooperative happyStore standA = some (w', none) ∧
      w'.stands = setStandStatus standA.ID StatusSuccess happyStore.stands ∧
      { standA with Status := StatusSuccess } ∈ w'.stands ∧
      w'.pipelines = setPipelineStatus pipelineA.ID StatusSuccess happyStore.pipelines ∧
      w'.steps = setStepStatus 3 StatusSuccess (setStepStatus 2 StatusSuccess
        (setStepStatus 1 StatusSuccess happyStore.steps)) ∧
      (∀ j ∈ w'.jobs, (j.StepID = 1 ∨ j.StepID = 2 ∨ j.StepID = 3) →
        j.Status = StatusSuccess) ∧
      w'.jobs.map (·.ID) = happyStore.jobs.map (·.ID) ∧
      ∃ r1 r2 r3, w'.stepStates = happyStore.stepStates ++ [r1, r2, r3] ∧
        (r1.Status = StatusSuccess ∧ r2.Status = StatusSuccess ∧ r3.Status = StatusSuccess) ∧
        (r1.Order = 1 ∧ r2.Order = 2 ∧ r3.Order = 3) ∧
        (r1.StepName = "Creating vm" ∧ r2.StepName = "Executing automation" ∧
          r3.StepName = "Executing helm") :=
  processPendingStand_happy_path 0 cooperative happyStore standA pipelineA
    (threeSteps.get ⟨0, by decide⟩) (threeSteps.get ⟨1, by decide⟩)
    (threeSteps.get ⟨2, by decide⟩) (fun _ => rfl) (fun _ _ => rfl) (fun _ _ => rfl)
    (by decide) (by decide) ⟨by decide, rfl⟩ (by decide) (by decide) ⟨rfl, rfl, rfl⟩ (by decide)

/-- C4 as stated fails: in the scenario of the claim the store rejects the
pipeline query; `processPendingStand` returns an error and the stand, the
pipeline, the steps and the jobs are as before. -/
theorem processPendingStand_happy_path_store_rejects :
    pendingPipelines happyStore standA.ID = [pipelineA] ∧
    pendingSteps happyStore pipelineA.ID = threeSteps ∧
    (∀ j ∈ happyStore.jobs, j.Status = StatusManual ∧ j.StartedAt = none) ∧
    (processPendingStand 1 rejectsFirstOp happyStore standA).map
      (fun r => (r.2.isSome, r.1.stands.map (·.Status), r.1.pipelines.map (·.Status),
        r.1.steps.map (·.Status), r.1.jobs.map (·.Status), r.1.stepStates)) =
      some (true, ["pending"], ["pending"], ["pending", "pending", "pending"],
        ["manual", "manual", "manual"], []) := by
  refine ⟨by decide, by decide, by decide, rfl⟩

/-! ## The status cache of `checkAndUpdateStatus` -/

theorem cacheLoad_cacheDelete (m : List (String × String)) (k : String) :
    cacheLoad (cacheDelete m k) k = none := by
  unfold cacheLoad cacheDelete
  induction m with
  | nil => rfl
  | cons e rest ih =>
    obtain ⟨a, b⟩ := e
    by_cases h : a = k
    · simp [List.filter, h, ih]
    · have h' : (k == a) = false := by simpa using fun h'' => h h''.symm
      have h2 : List.filter (fun e : String × String => e.1 != k) ((a, b) :: rest) =
          (a, b) :: List.filter (fun e : String × String => e.1 != k) rest := by
        simp [List.filter_cons, h]
      rw [h2, List.lookup_cons, h']
      exact ih

theorem cacheLoad_cacheStore (m : List (String × String)) (k v : String) :
    cacheLoad (cacheStore m k v) k = some v := by
  simp [cacheLoad, cacheStore, List.lookup]

/-- C18 (amended): for every job, cache key and cache state, a failed poll
issues no write and leaves no entry under the key; after a poll that reports
`status` the write of `status` to the job's row is issued exactly when the
cache holds no entry under the key equal to `status`, the row is rewritten
when the store performs that write, and then the cache holds no entry under
the key if `status` is terminal and holds `status` otherwise. -/
theorem checkAndUpdateStatus_cache (env : Env) (w : World) (job : Job) (key : String) :
    (∀ e, env.getJobStatus w.calls.length job.GitlabJobID = .error e →
      (checkAndUpdateStatus env w job key).1.log = w.log ∧
      (checkAndUpdateStatus env w job key).1.jobs = w.jobs ∧
      cacheLoad (checkAndUpdateStatus env w job key).1.jobStatuses key = none) ∧
    (∀ status, env.getJobStatus w.calls.length job.GitlabJobID = .ok status →
      ((checkAndUpdateStatus env w job key).1.log =
        if cacheLoad w.jobStatuses key = some status then w.log
        else w.log ++ [.updateJobStatus job.ID status]) ∧
      ((checkAndUpdateStatus env w job key).1.jobs =
        if cacheLoad w.jobStatuses key = some status ∨ env.dbFails w.log.length = true then w.jobs
        else setJobStatus job.ID status w.jobs) ∧
      (cacheLoad w.jobStatuses key ≠ some status → env.dbFails w.log.length = false →
        cacheLoad (checkAndUpdateStatus env w job key).1.jobStatuses key =
          if status = StatusSuccess ∨ status = StatusFailed ∨ status = StatusCanceled then none
          else some status)) := by
  refine ⟨fun e he => ?_, fun status hs => ?_⟩
  · simp [checkAndUpdateStatus, he, World.called, cacheLoad_cacheDelete]
  · by_cases hc : cacheLoad w.jobStatuses key = some status
    · simp [checkAndUpdateStatus, hs, World.called, hc]
    · by_cases hdb : env.dbFails w.log.length = true
      · simp [checkAndUpdateStatus, hs, World.called, hc, UpdateJobStatus, World.issue, hdb]
      · have hdb' : env.dbFails w.log.length = false := by simpa using hdb
        by_cases hf : status = StatusFailed ∨ status = StatusCanceled
        · have : status = StatusSuccess ∨ status = StatusFailed ∨ status = StatusCanceled :=
            Or.inr hf
          simp [checkAndUpdateStatus, hs, World.called, hc, UpdateJobStatus, World.issue, hdb',
            hf, this, cacheLoad_cacheDelete]
        · by_cases hsu : status = StatusSuccess
          · subst hsu
            have h1 : ¬ (StatusSuccess = StatusFailed ∨ StatusSuccess = StatusCanceled) := hf
            simp [checkAndUpdateStatus, hs, World.called, hc, UpdateJobStatus, World.issue, hdb',
              h1, cacheLoad_cacheDelete]
          · have hn : ¬ (status = StatusSuccess ∨ status = StatusFailed ∨ status = StatusCanceled) := by
              rintro (h | h | h)
              · exact hsu h
              · exact hf (Or.inl h)
              · exact hf (Or.inr h)
            simp [checkAndUpdateStatus, hs, World.called, hc, UpdateJobStatus, World.issue, hdb',
              hf, hsu, hn, cacheLoad_cacheStore]

/-- C18 as stated fails.  With `success` cached for the job and `success`
polled, nothing is written and the entry stays; with `running` cached,
`failed` polled and the write rejected by the store, the entry stays as well. -/
theorem checkAndUpdateStatus_keeps_entry :
    ((checkAndUpdateStatus (reporting "success" (fun _ => false)) (cachedStore "success")
        { ID := 1, StepID := 1, GitlabJobID := 11 } "job_11").1.jobStatuses = [("job_11", "success")] ∧
      (checkAndUpdateStatus (reporting "success" (fun _ => false)) (cachedStore "success")
        { ID := 1, StepID := 1, GitlabJobID := 11 } "job_11").1.log = []) ∧
    ((checkAndUpdateStatus (reporting "failed" (fun _ => true)) (cachedStore "running")
        { ID := 1, StepID := 1, GitlabJobID := 11 } "job_11").1.jobStatuses = [("job_11", "running")] ∧
      (checkAndUpdateStatus (reporting "failed" (fun _ => true)) (cachedStore "running")
        { ID := 1, StepID := 1, GitlabJobID := 11 } "job_11").1.jobs.map (·.Status) = ["running"]) := by
  decide

/-! ## Triggering and resuming a job -/

theorem checkAndUpdateStatus_poll (env : Env) (w : World) (job : Job) (key : String) :
    (checkAndUpdateStatus env w job key).1.calls = w.calls ++ [.getJobStatus job.GitlabJobID] ∧
    (checkAndUpdateStatus env w job key).1.jobs.map (·.StartedAt) = w.jobs.map (·.StartedAt) ∧
    (checkAndUpdateStatus env w job key).1.clock = w.clock ∧
    ∃ ops, (checkAndUpdateStatus env w job key).1.log = w.log ++ ops ∧
      ∀ op ∈ ops, ∃ s, op = .updateJobStatus job.ID s := by
  have hmap : ∀ s, (setJobStatus job.ID s w.jobs).map (·.StartedAt) = w.jobs.map (·.StartedAt) := by
    intro s
    simp only [setJobStatus, List.map_map]
    apply List.map_congr_left
    intro j _
    by_cases h : j.ID = job.ID <;> simp [h]
  unfold checkAndUpdateStatus
  cases hg : env.getJobStatus w.calls.length job.GitlabJobID with
  | error e => exact ⟨rfl, rfl, rfl, [], by simp [World.called], by simp⟩
  | ok status =>
    by_cases hc : cacheLoad (w.called (.getJobStatus job.GitlabJobID)).jobStatuses key = some status
    · simp only [hc, if_true]
      exact ⟨rfl, rfl, rfl, [], by simp [World.called], by simp⟩
    · simp only [hc, if_false]
      by_cases hdb : env.dbFails w.log.length = true
      · simp only [UpdateJobStatus, World.called, hdb, if_true]
        exact ⟨rfl, rfl, rfl, [.updateJobStatus job.ID status], rfl, by simp⟩
      · simp only [UpdateJobStatus, World.called, hdb, if_false]
        by_cases hf : status = StatusFailed ∨ status = StatusCanceled
        · simp only [hf, if_true]
          exact ⟨rfl, hmap status, rfl, [.updateJobStatus job.ID status], rfl, by simp⟩
        · simp only [hf, if_false]
          by_cases hsu : status = StatusSuccess
          · simp only [hsu, if_true]
            exact ⟨rfl, hmap _, rfl, [.updateJobStatus job.ID StatusSuccess], rfl, by simp⟩
          · simp only [hsu, if_false]
            exact ⟨rfl, hmap status, rfl, [.updateJobStatus job.ID status], rfl, by simp⟩

theorem monitorJobStatus_polls (env : Env) (job : Job) :
    ∀ (polls : Nat) (w w' : World) (r : Option String),
      monitorJobStatus polls env w job = some (w', r) →
      (∃ k, w'.calls = w.calls ++ List.replicate k (.getJobStatus job.GitlabJobID)) ∧
      w'.jobs.map (·.StartedAt) = w.jobs.map (·.StartedAt) ∧ w'.clock = w.clock ∧
      ∃ ops, w'.log = w.log ++ ops ∧ ∀ op ∈ ops, ∃ s, op = .updateJobStatus job.ID s := by
  intro polls
  induction polls with
  | zero => intro w w' r h; simp [monitorJobStatus] at h
  | succ n ih =>
    intro w w' r h
    obtain ⟨hc, hj, hk, ops, hl, hops⟩ := checkAndUpdateStatus_poll env w job (jobKey job)
    rw [monitorJobStatus] at h
    rcases hres : checkAndUpdateStatus env w job (jobKey job) with ⟨w1, fin, err⟩
    rw [hres] at h hc hj hk hl
    simp only at hc hj hk hl
    have hstop : w' = w1 →
        (∃ k, w'.calls = w.calls ++ List.replicate k (.getJobStatus job.GitlabJobID)) ∧
        w'.jobs.map (·.StartedAt) = w.jobs.map (·.StartedAt) ∧ w'.clock = w.clock ∧
        ∃ ops, w'.log = w.log ++ ops ∧ ∀ op ∈ ops, ∃ s, op = .updateJobStatus job.ID s := by
      intro e
      subst e
      exact ⟨⟨1, by simpa using hc⟩, hj, hk, ops, hl, hops⟩
    cases err with
    | some e =>
      simp only [Option.some.injEq, Prod.mk.injEq] at h
      exact hstop h.1.symm
    | none =>
      cases fin with
      | true =>
        simp only [Option.some.injEq, Prod.mk.injEq] at h
        exact hstop h.1.symm
      | false =>
        simp only at h
        obtain ⟨⟨k, hc2⟩, hj2, hk2, ops2, hl2, hops2⟩ := ih w1 w' r h
        refine ⟨⟨k + 1, ?_⟩, hj2.trans hj, hk2.trans hk, ops ++ ops2, ?_, ?_⟩
        · rw [hc2, hc, List.append_assoc, List.replicate_succ]
          rfl
        · rw [hl2, hl, List.append_assoc]
        · intro op hop
          rcases List.mem_append.mp hop with h1 | h1
          · exact hops op h1
          · exact hops2 op h1

/-- Whenever `processJob` returns, the provider calls it made
are one `RunJob` for the job's provider identifier if the job had no start
time, and none if it had one, followed only by polls of the job's status; the
start-time write is issued right after a `RunJob` that succeeded and at no
other time, and the rows carry the new start time when the store performs that
write; in every other run the start times are what they were. -/
theorem processJob_returned_trace (polls : Nat) (env : Env) (w w' : World) (job : Job)
    (r : Option String) (h : processJob polls env w job = some (w', r)) :
    (∃ k, w'.calls = w.calls ++
      (if job.StartedAt = none then [Call.runJob job.GitlabJobID] else []) ++
      List.replicate k (Call.getJobStatus job.GitlabJobID)) ∧
    (∃ ops, w'.log = w.log ++
      (if job.StartedAt = none ∧ env.runJob w.calls.length job.GitlabJobID = none then
        [DbOp.updateJobStartedAt job.ID] else []) ++ ops ∧
      ∀ op ∈ ops, op ≠ DbOp.updateJobStartedAt job.ID) ∧
    w'.jobs.map (·.StartedAt) =
      (if job.StartedAt = none ∧ env.runJob w.calls.length job.GitlabJobID = none ∧
          env.dbFails w.log.length = false then
        (setJobStartedAt job.ID w.clock w.jobs).map (·.StartedAt)
      else w.jobs.map (·.StartedAt)) := by
  have hfin : ∀ w2 : World, (updateFinishedAt env w2 job).1.calls = w2.calls ∧
      (updateFinishedAt env w2 job).1.log = w2.log ++ [.updateJobFinishedAt job.ID] ∧
      (updateFinishedAt env w2 job).1.jobs.map (·.StartedAt) = w2.jobs.map (·.StartedAt) := by
    intro w2
    unfold updateFinishedAt
    by_cases hdb : env.dbFails w2.log.length = true
    · simp [hdb, World.issue]
    · rw [if_neg hdb]
      refine ⟨rfl, rfl, ?_⟩
      simp only [setJobFinishedAt, List.map_map, World.issue]
      apply List.map_congr_left
      intro j _
      by_cases h : j.ID = job.ID <;> simp [h]
  -- what the monitoring phase and the finish write add to a world `w1`
  have hrest : ∀ w1 : World, (∃ w2 r2, monitorJobStatus polls env w1 job = some (w2, r2) ∧
        (w' = w2 ∨ w' = (updateFinishedAt env w2 job).1)) →
      (∃ k, w'.calls = w1.calls ++ List.replicate k (Call.getJobStatus job.GitlabJobID)) ∧
      (∃ ops, w'.log = w1.log ++ ops ∧ ∀ op ∈ ops, op ≠ DbOp.updateJobStartedAt job.ID) ∧
      w'.jobs.map (·.StartedAt) = w1.jobs.map (·.StartedAt) := by
    rintro w1 ⟨w2, r2, hm, hw⟩
    obtain ⟨⟨k, hc⟩, hj, -, ops, hl, hops⟩ := monitorJobStatus_polls env job polls w1 w2 r2 hm
    have hne : ∀ op ∈ ops, op ≠ DbOp.updateJobStartedAt job.ID := by
      intro op hop
      obtain ⟨s, rfl⟩ := hops op hop
      simp
    rcases hw with rfl | rfl
    · exact ⟨⟨k, hc⟩, ⟨ops, hl, hne⟩, hj⟩
    · obtain ⟨h1, h2, h3⟩ := hfin w2
      refine ⟨⟨k, h1.trans hc⟩, ⟨ops ++ [.updateJobFinishedAt job.ID], ?_, ?_⟩, h3.trans hj⟩
      · rw [h2, hl, List.append_assoc]
      · intro op hop
        rcases List.mem_append.mp hop with h4 | h4
        · exact hne op h4
        · rw [List.mem_singleton.mp h4]
          simp
  -- the monitoring phase of this run, from the world the trigger left
  have hmon : ∀ w1 : World, triggerJob env w job = (w1, none) →
      ∃ w2 r2, monitorJobStatus polls env w1 job = some (w2, r2) ∧
        (w' = w2 ∨ w' = (updateFinishedAt env w2 job).1) := by
    intro w1 ht
    rw [processJob, ht] at h
    simp only at h
    cases hm : monitorJobStatus polls env w1 job with
    | none => rw [hm] at h; simp at h
    | some res =>
      obtain ⟨w2, r2⟩ := res
      rw [hm] at h
      refine ⟨w2, r2, rfl, ?_⟩
      cases r2 with
      | some e =>
        simp only [Option.some.injEq, Prod.mk.injEq] at h
        exact Or.inl h.1.symm
      | none =>
        simp only [Option.some.injEq] at h
        exact Or.inr (by rw [h])
  by_cases hs : job.StartedAt = none
  · cases hrun : env.runJob w.calls.length job.GitlabJobID with
    | some e =>
      have ht : triggerJob env w job = (w.called (.runJob job.GitlabJobID), some e) := by
        simp [triggerJob, hs, hrun]
      rw [processJob, ht] at h
      simp only [Option.some.injEq, Prod.mk.injEq] at h
      obtain ⟨rfl, -⟩ := h
      refine ⟨⟨0, by simp [hs, World.called]⟩, ⟨[], by simp [hs, World.called], by simp⟩, ?_⟩
      simp [hs, World.called]
    | none =>
      by_cases hdb : env.dbFails w.log.length = true
      · have ht : triggerJob env w job =
            ((w.called (.runJob job.GitlabJobID)).issue (.updateJobStartedAt job.ID),
              some "started_at update failed") := by
          simp [triggerJob, hs, hrun, updateStartedAt, World.called, hdb]
        rw [processJob, ht] at h
        simp only [Option.some.injEq, Prod.mk.injEq] at h
        obtain ⟨rfl, -⟩ := h
        refine ⟨⟨0, by simp [hs, World.called, World.issue]⟩,
          ⟨[], by simp [hs, World.called, World.issue], by simp⟩, ?_⟩
        simp [hs, World.called, World.issue, hdb]
      · have hdb' : env.dbFails w.log.length = false := by simpa using hdb
        have ht : triggerJob env w job =
            ((updateStartedAt env (w.called (.runJob job.GitlabJobID)) job).1, none) := by
          simp [triggerJob, hs, hrun, updateStartedAt, World.called, hdb']
        obtain ⟨⟨k, hc⟩, ⟨ops, hl, hops⟩, hj⟩ := hrest _ (hmon _ ht)
        refine ⟨⟨k, ?_⟩, ⟨ops, ?_, hops⟩, ?_⟩
        · rw [hc]
          simp [hs, updateStartedAt, World.called, hdb', World.issue]
        · rw [hl]
          simp [hs, updateStartedAt, World.called, hdb', World.issue]
        · rw [hj]
          simp [hs, updateStartedAt, World.called, hdb', World.issue]
  · have ht : triggerJob env w job = (w, none) := by simp [triggerJob, hs]
    obtain ⟨⟨k, hc⟩, ⟨ops, hl, hops⟩, hj⟩ := hrest _ (hmon _ ht)
    refine ⟨⟨k, ?_⟩, ⟨ops, ?_, hops⟩, ?_⟩
    · rw [hc]; simp [hs]
    · rw [hl]; simp [hs]
    · rw [hj]; simp [hs]

/-- C17 as stated fails: the job has no start time, the provider rejects
`RunJob`, and `processJob` returns an error with no start time recorded. -/
theorem processJob_rejected_trigger :
    (processJob 1 rejectsRunJob resumeStore
        { ID := 1, StepID := 1, GitlabJobID := 11, Status := "manual" }).map
      (fun r => (r.2.isSome, r.1.calls, r.1.jobs.map (·.StartedAt), r.1.log)) =
      some (true, [Call.runJob 11], [none, some 5], []) := by
  decide

/-- While `monitorJobStatus` polls it calls nothing but `GetJobStatus` for the
job, writes nothing but the job's status and leaves every start time. -/
theorem monitorProgress_polls (env : Env) (job : Job) :
    ∀ (polls : Nat) (w : World),
      (∃ k, (monitorProgress polls env w job).calls =
        w.calls ++ List.replicate k (.getJobStatus job.GitlabJobID)) ∧
      (monitorProgress polls env w job).jobs.map (·.StartedAt) = w.jobs.map (·.StartedAt) ∧
      ∃ ops, (monitorProgress polls env w job).log = w.log ++ ops ∧
        ∀ op ∈ ops, ∃ s, op = .updateJobStatus job.ID s := by
  intro polls
  induction polls with
  | zero =>
    intro w
    exact ⟨⟨0, by simp [monitorProgress]⟩, rfl, [], by simp [monitorProgress], by simp⟩
  | succ n ih =>
    intro w
    obtain ⟨hc, hj, -, ops, hl, hops⟩ := checkAndUpdateStatus_poll env w job (jobKey job)
    rw [monitorProgress]
    rcases hres : checkAndUpdateStatus env w job (jobKey job) with ⟨w1, fin, err⟩
    rw [hres] at hc hj hl
    simp only at hc hj hl
    have hstop : (∃ k, w1.calls = w.calls ++ List.replicate k (.getJobStatus job.GitlabJobID)) ∧
        w1.jobs.map (·.StartedAt) = w.jobs.map (·.StartedAt) ∧
        ∃ ops, w1.log = w.log ++ ops ∧ ∀ op ∈ ops, ∃ s, op = .updateJobStatus job.ID s :=
      ⟨⟨1, by simpa using hc⟩, hj, ops, hl, hops⟩
    cases err with
    | some e => cases fin <;> exact hstop
    | none =>
      cases fin with
      | true => exact hstop
      | false =>
        simp only
        obtain ⟨⟨k, hc2⟩, hj2, ops2, hl2, hops2⟩ := ih w1
        refine ⟨⟨k + 1, ?_⟩, hj2.trans hj, ops ++ ops2, ?_, ?_⟩
        · rw [hc2, hc, List.append_assoc, List.replicate_succ]
          rfl
        · rw [hl2, hl, List.append_assoc]
        · intro op hop
          rcases List.mem_append.mp hop with h1 | h1
          · exact hops op h1
          · exact hops2 op h1

/-- When `processJob` returns, it returns with the world `processJobProgress`
gives. -/
theorem processJobProgress_returned (polls : Nat) (env : Env) (w w' : World) (job : Job)
    (r : Option String) (h : processJob polls env w job = some (w', r)) :
    processJobProgress polls env w job = w' := by
  unfold processJob at h
  unfold processJobProgress
  rcases ht : triggerJob env w job with ⟨w1, e1⟩
  rw [ht] at h
  cases e1 with
  | some e =>
    simp only [Option.some.injEq, Prod.mk.injEq] at h
    exact h.1
  | none =>
    simp only at h ⊢
    cases hm : monitorJobStatus polls env w1 job with
    | none => rw [hm] at h; cases h
    | some res =>
      obtain ⟨w2, r2⟩ := res
      rw [hm] at h
      cases r2 with
      | some e =>
        simp only [Option.some.injEq, Prod.mk.injEq] at h
        exact h.1
      | none =>
        simp only [Option.some.injEq] at h
        simp only
        rw [h]

/-- C17 (amended): however long `processJob` polls, and whether or not it
returns, the provider calls it has made are one `RunJob` for the job's
provider identifier if the job had no start time, and none if it had one,
followed only by polls of the job's status; the start-time write is issued
right after a `RunJob` that succeeded and at no other time, and the rows carry
the new start time when the store performs that write, otherwise the start
times are what they were; when `RunJob` fails `processJob` returns the error
at once. -/
theorem processJob_triggers_unstarted (polls : Nat) (env : Env) (w : World) (job : Job) :
    (∀ w' r, processJob polls env w job = some (w', r) →
      w' = processJobProgress polls env w job) ∧
    (∃ k, (processJobProgress polls env w job).calls = w.calls ++
      (if job.StartedAt = none then [Call.runJob job.GitlabJobID] else []) ++
      List.replicate k (Call.getJobStatus job.GitlabJobID)) ∧
    (∃ ops, (processJobProgress polls env w job).log = w.log ++
      (if job.StartedAt = none ∧ env.runJob w.calls.length job.GitlabJobID = none then
        [DbOp.updateJobStartedAt job.ID] else []) ++ ops ∧
      ∀ op ∈ ops, op ≠ DbOp.updateJobStartedAt job.ID) ∧
    (processJobProgress polls env w job).jobs.map (·.StartedAt) =
      (if job.StartedAt = none ∧ env.runJob w.calls.length job.GitlabJobID = none ∧
          env.dbFails w.log.length = false then
        (setJobStartedAt job.ID w.clock w.jobs).map (·.StartedAt)
      else w.jobs.map (·.StartedAt)) ∧
    (∀ e, job.StartedAt = none → env.runJob w.calls.length job.GitlabJobID = some e →
      processJob polls env w job = some (w.called (.runJob job.GitlabJobID), some e)) := by
  refine ⟨fun w' r h => (processJobProgress_returned polls env w w' job r h).symm, ?_⟩
  have hlast : ∀ e, job.StartedAt = none →
      env.runJob w.calls.length job.GitlabJobID = some e →
      processJob polls env w job = some (w.called (.runJob job.GitlabJobID), some e) := by
    intro e hs hrun
    simp [processJob, triggerJob, hs, hrun]
  refine ⟨?_, ?_, ?_, hlast⟩ <;>
  cases hp : processJob polls env w job with
  | some res =>
    obtain ⟨w', r⟩ := res
    rw [processJobProgress_returned polls env w w' job r hp]
    obtain ⟨h1, h2, h3⟩ := processJob_returned_trace polls env w w' job r hp
    first | exact h1 | exact h2 | exact h3
  | none =>
    -- the trigger went through and the poll loop has not ended
    rcases ht : triggerJob env w job with ⟨w1, e1⟩
    have hmon : e1 = none ∧ monitorJobStatus polls env w1 job = none := by
      unfold processJob at hp
      rw [ht] at hp
      cases e1 with
      | some e => cases hp
      | none =>
        refine ⟨rfl, ?_⟩
        simp only at hp
        cases hm : monitorJobStatus polls env w1 job with
        | none => rfl
        | some res =>
          obtain ⟨w2, r2⟩ := res
          rw [hm] at hp
          cases r2 <;> cases hp
    obtain ⟨rfl, hm⟩ := hmon
    have hprog : processJobProgress polls env w job = monitorProgress polls env w1 job := by
      unfold processJobProgress
      rw [ht]
      simp only
      rw [hm]
    rw [hprog]
    obtain ⟨⟨k, hc⟩, hj, ops, hl, hops⟩ := monitorProgress_polls env job polls w1
    have hne : ∀ op ∈ ops, op ≠ DbOp.updateJobStartedAt job.ID := by
      intro op hop
      obtain ⟨s, rfl⟩ := hops op hop
      simp
    by_cases hs : job.StartedAt = none
    · cases hrun : env.runJob w.calls.length job.GitlabJobID with
      | some e =>
        have := hlast e hs hrun
        rw [hp] at this
        cases this
      | none =>
        by_cases hdb : env.dbFails w.log.length = true
        · have ht2 : triggerJob env w job =
              ((w.called (.runJob job.GitlabJobID)).issue (.updateJobStartedAt job.ID),
                some "started_at update failed") := by
            simp [triggerJob, hs, hrun, updateStartedAt, World.called, hdb]
          rw [ht] at ht2
          cases ht2
        · have hdb' : env.dbFails w.log.length = false := by simpa using hdb
          have ht2 : triggerJob env w job =
              ((updateStartedAt env (w.called (.runJob job.GitlabJobID)) job).1, none) := by
            simp [triggerJob, hs, hrun, updateStartedAt, World.called, hdb']
          rw [ht] at ht2
          simp only [Prod.mk.injEq, and_true] at ht2
          subst ht2
          first
            | exact ⟨k, by rw [hc]; simp [hs, updateStartedAt, World.called, hdb', World.issue]⟩
            | exact ⟨ops, by rw [hl]; simp [hs, updateStartedAt, World.called, hdb',
                World.issue], hne⟩
            | (rw [hj]; simp [hs, updateStartedAt, World.called, hdb', World.issue])
    · have ht2 : triggerJob env w job = (w, none) := by simp [triggerJob, hs]
      rw [ht] at ht2
      simp only [Prod.mk.injEq, and_true] at ht2
      subst ht2
      first
        | exact ⟨k, by rw [hc]; simp [hs]⟩
        | exact ⟨ops, by rw [hl]; simp [hs], hne⟩
        | (rw [hj]; simp [hs])

/-- C17, the instances: the first job of `resumeStore` has no start time.
Under a cooperative environment `processJob` runs it, records the start time
9, polls once and returns; under a provider that keeps reporting `running`
it has run the job, recorded the start time and polled twice after two checks,
and has not returned. -/
theorem processJob_triggers_unstarted_witness :
    ((processJob 1 cooperative resumeStore unstartedJob).map
        (fun r => (r.2, r.1.calls, r.1.jobs.map (·.StartedAt))) =
      some (none, [Call.runJob 11, Call.getJobStatus 11], [some 9, some 5])) ∧
    (processJob 2 (reporting "running" (fun _ => false)) resumeStore unstartedJob = none ∧
      (processJobProgress 2 (reporting "running" (fun _ => false)) resumeStore
        unstartedJob).calls = [Call.runJob 11, Call.getJobStatus 11, Call.getJobStatus 11] ∧
      (processJobProgress 2 (reporting "running" (fun _ => false)) resumeStore
        unstartedJob).jobs.map (·.StartedAt) = [some 9, some 5]) ∧
    (∃ k, (processJobProgress 2 (reporting "running" (fun _ => false)) resumeStore
        unstartedJob).calls = resumeStore.calls ++
      (if unstartedJob.StartedAt = none then [Call.runJob unstartedJob.GitlabJobID] else []) ++
      List.replicate k (Call.getJobStatus unstartedJob.GitlabJobID)) :=
  ⟨by decide, ⟨by decide, by decide, by decide⟩,
    (processJob_triggers_unstarted 2 (reporting "running" (fun _ => false)) resumeStore
      unstartedJob).2.1⟩

/-! ## The verdict of a job and the step that holds it -/

theorem checkAndUpdateStatus_finished (env : Env) (w : World) (job : Job) (key : String)
    (w1 : World) (h : checkAndUpdateStatus env w job key = (w1, true, none)) :
    env.getJobStatus w.calls.length job.GitlabJobID = .ok StatusSuccess := by
  unfold checkAndUpdateStatus at h
  cases hg : env.getJobStatus w.calls.length job.GitlabJobID with
  | error e => rw [hg] at h; simp at h
  | ok status =>
    rw [hg] at h
    simp only at h
    by_cases hc : cacheLoad (w.called (.getJobStatus job.GitlabJobID)).jobStatuses key = some status
    · rw [if_pos hc] at h; simp at h
    · rw [if_neg hc] at h
      by_cases hdb : env.dbFails (w.called (.getJobStatus job.GitlabJobID)).log.length = true
      · simp [UpdateJobStatus, hdb] at h
      · simp only [UpdateJobStatus, hdb] at h
        by_cases hf : status = StatusFailed ∨ status = StatusCanceled
        · simp [hf] at h
        · by_cases hsu : status = StatusSuccess
          · rw [hsu]
          · simp [hf, hsu] at h

theorem monitorJobStatus_last_poll (env : Env) (job : Job) :
    ∀ (polls : Nat) (w w' : World),
      monitorJobStatus polls env w job = some (w', none) →
      w'.calls.getLast? = some (.getJobStatus job.GitlabJobID) ∧
      env.getJobStatus (w'.calls.length - 1) job.GitlabJobID = .ok StatusSuccess := by
  intro polls
  induction polls with
  | zero => intro w w' h; simp [monitorJobStatus] at h
  | succ n ih =>
    intro w w' h
    rw [monitorJobStatus] at h
    rcases hres : checkAndUpdateStatus env w job (jobKey job) with ⟨w1, fin, err⟩
    rw [hres] at h
    cases err with
    | some e => simp at h
    | none =>
      cases fin with
      | true =>
        simp only [Option.some.injEq, Prod.mk.injEq, and_true] at h
        subst h
        have hc := (checkAndUpdateStatus_poll env w job (jobKey job)).1
        rw [hres] at hc
        simp only at hc
        refine ⟨by rw [hc]; simp, ?_⟩
        rw [hc]
        simpa using checkAndUpdateStatus_finished env w job (jobKey job) w1 hres
      | false => exact ih w1 w' h

theorem monitorJobStatus_fails (env : Env) (job : Job) (s : String)
    (hs : s = StatusFailed ∨ s = StatusCanceled) :
    ∀ (k polls : Nat) (w : World), k < polls →
      cacheLoad w.jobStatuses (jobKey job) ≠ some StatusFailed →
      cacheLoad w.jobStatuses (jobKey job) ≠ some StatusCanceled →
      env.getJobStatus (w.calls.length + k) job.GitlabJobID = .ok s →
      (∀ i, i < k → env.getJobStatus (w.calls.length + i) job.GitlabJobID ≠ .ok StatusSuccess) →
      ∃ w' e, monitorJobStatus polls env w job = some (w', some e) := by
  intro k
  induction k with
  | zero =>
    intro polls w hk hc1 hc2 hans _
    obtain ⟨n, rfl⟩ : ∃ n, polls = n + 1 := ⟨polls - 1, by omega⟩
    rw [monitorJobStatus]
    simp only [Nat.add_zero] at hans
    have hc : cacheLoad (w.called (.getJobStatus job.GitlabJobID)).jobStatuses (jobKey job) ≠
        some s := by
      rcases hs with rfl | rfl
      · exact hc1
      · exact hc2
    unfold checkAndUpdateStatus
    rw [hans]
    simp only [if_neg hc]
    by_cases hdb : env.dbFails (w.called (.getJobStatus job.GitlabJobID)).log.length = true
    · simp [UpdateJobStatus, hdb]
    · simp [UpdateJobStatus, hdb, hs]
  | succ k ih =>
    intro polls w hk hc1 hc2 hans hbefore
    obtain ⟨n, rfl⟩ : ∃ n, polls = n + 1 := ⟨polls - 1, by omega⟩
    rw [monitorJobStatus]
    have hcalls := (checkAndUpdateStatus_poll env w job (jobKey job)).1
    have hnext : ∀ w1 : World, w1.calls = w.calls ++ [.getJobStatus job.GitlabJobID] →
        cacheLoad w1.jobStatuses (jobKey job) ≠ some StatusFailed →
        cacheLoad w1.jobStatuses (jobKey job) ≠ some StatusCanceled →
        ∃ w' e, monitorJobStatus n env w1 job = some (w', some e) := by
      intro w1 h1 h2 h3
      have hlen : w1.calls.length = w.calls.length + 1 := by rw [h1]; simp
      apply ih n w1 (by omega) h2 h3
      · rw [hlen, Nat.add_assoc, Nat.add_comm 1 k]; exact hans
      · intro i hi
        rw [hlen, Nat.add_assoc, Nat.add_comm 1 i]
        exact hbefore (i + 1) (by omega)
    have h0 := hbefore 0 (by omega)
    simp only [Nat.add_zero] at h0
    unfold checkAndUpdateStatus
    cases hg : env.getJobStatus w.calls.length job.GitlabJobID with
    | error e => simp
    | ok status =>
      simp only
      have hns : status ≠ StatusSuccess := fun h => h0 (by rw [hg, h])
      by_cases hc : cacheLoad (w.called (.getJobStatus job.GitlabJobID)).jobStatuses (jobKey job) =
          some status
      · rw [if_pos hc]
        exact hnext _ rfl hc1 hc2
      · rw [if_neg hc]
        by_cases hdb : env.dbFails (w.called (.getJobStatus job.GitlabJobID)).log.length = true
        · simp [UpdateJobStatus, hdb]
        · simp only [UpdateJobStatus, hdb]
          by_cases hf : status = StatusFailed ∨ status = StatusCanceled
          · simp [hf]
          · simp only [hf, hns, if_false]
            apply hnext
            · rfl
            · show cacheLoad (cacheStore _ (jobKey job) status) (jobKey job) ≠ _
              rw [cacheLoad_cacheStore]
              intro h
              exact hf (Or.inl (Option.some.inj h))
            · show cacheLoad (cacheStore _ (jobKey job) status) (jobKey job) ≠ _
              rw [cacheLoad_cacheStore]
              intro h
              exact hf (Or.inr (Option.some.inj h))

theorem triggerJob_cache (env : Env) (w : World) (job : Job) :
    (triggerJob env w job).1.jobStatuses = w.jobStatuses := by
  unfold triggerJob
  by_cases hs : job.StartedAt = none
  · rw [if_pos hs]
    cases env.runJob w.calls.length job.GitlabJobID with
    | some e => rfl
    | none =>
      simp only [updateStartedAt]
      by_cases hdb : env.dbFails (w.called (.runJob job.GitlabJobID)).log.length = true
      · rw [if_pos hdb]; rfl
      · rw [if_neg hdb]; rfl
  · rw [if_neg hs]

theorem processManualJobs_append (polls : Nat) (env : Env) (step : Step) (rest : List Job) :
    ∀ (pre : List Job) (w wj : World),
      processManualJobs polls env step w pre = some (wj, none) →
      processManualJobs polls env step w (pre ++ rest) =
        processManualJobs polls env step wj rest := by
  intro pre
  induction pre with
  | nil =>
    intro w wj h
    simp only [processManualJobs, Option.some.injEq, Prod.mk.injEq, and_true] at h
    rw [h]; rfl
  | cons j pre ih =>
    intro w wj h
    rw [List.cons_append, processManualJobs]
    rw [processManualJobs] at h
    by_cases hm : j.Status = StatusManual
    · rw [if_pos hm] at h ⊢
      cases hp : processJob polls env w j with
      | none => rw [hp] at h; simp at h
      | some res =>
        obtain ⟨w1, r1⟩ := res
        rw [hp] at h
        cases r1 with
        | some e =>
          simp only at h
          cases hu : UpdateStepStatus env w1 StatusError step with
          | mk w2 r2 =>
            rw [hu] at h
            cases r2 <;> simp at h
        | none => exact ih w1 wj h
    · rw [if_neg hm] at h ⊢
      exact ih w wj h

/-- C19 (amended): `processJob` returns without error only after a poll that
reported `success`; it returns an error, given enough polls, when the provider
reports `failed` or `canceled` before it reports `success` and the cache does
not already hold that status; and when `processJob` returns an error for a
`manual` job in the trigger loop of `processStep`, the step's `error` write is
issued, no provider call follows, so no later job of the step is triggered,
and `processStep` returns an error; the step's row is `error` when the store
performs that write. -/
theorem processJob_verdict (polls : Nat) (env : Env) :
    (∀ (w w' : World) (job : Job), processJob polls env w job = some (w', none) →
      w'.calls.getLast? = some (.getJobStatus job.GitlabJobID) ∧
      env.getJobStatus (w'.calls.length - 1) job.GitlabJobID = .ok StatusSuccess) ∧
    (∀ (w : World) (job : Job) (k : Nat) (s : String), k < polls →
      s = StatusFailed ∨ s = StatusCanceled →
      cacheLoad w.jobStatuses (jobKey job) ≠ some StatusFailed →
      cacheLoad w.jobStatuses (jobKey job) ≠ some StatusCanceled →
      env.getJobStatus ((triggerJob env w job).1.calls.length + k) job.GitlabJobID = .ok s →
      (∀ i, i < k →
        env.getJobStatus ((triggerJob env w job).1.calls.length + i) job.GitlabJobID ≠
          .ok StatusSuccess) →
      ∃ w' e, processJob polls env w job = some (w', some e)) ∧
    (∀ (w wj w1 : World) (step : Step) (pre post : List Job) (j : Job) (e : String),
      env.dbFails w.log.length = false → env.dbFails (w.log.length + 1) = false →
      pendingJobs w step.ID = pre ++ j :: post →
      (∀ x ∈ pendingJobs w step.ID, x.Status ≠ StatusFailed ∧ x.Status ≠ StatusCanceled ∧
        x.Status ≠ StatusRunning) →
      j.Status = StatusManual →
      processManualJobs polls env step
        (UpdateStepStatus env (w.issue (.findJobs step.ID)) StatusRunning step).1 pre =
        some (wj, none) →
      processJob polls env wj j = some (w1, some e) →
      ∃ w' e', processStep polls env w step = some (w', some e') ∧
        w'.calls = w1.calls ∧ w'.jobs = w1.jobs ∧
        w'.log = w1.log ++ [.updateStep step.ID StatusError] ∧
        (env.dbFails w1.log.length = false →
          w'.steps = setStepStatus step.ID StatusError w1.steps)) := by
  refine ⟨?_, ?_, ?_⟩
  · intro w w' job h
    rw [processJob] at h
    rcases ht : triggerJob env w job with ⟨w1, r1⟩
    rw [ht] at h
    cases r1 with
    | some e => simp at h
    | none =>
      simp only at h
      cases hm : monitorJobStatus polls env w1 job with
      | none => rw [hm] at h; simp at h
      | some res =>
        obtain ⟨w2, r2⟩ := res
        rw [hm] at h
        cases r2 with
        | some e => simp at h
        | none =>
          simp only [Option.some.injEq] at h
          have hcalls : w'.calls = w2.calls := by
            have : (updateFinishedAt env w2 job).1 = w' := by rw [h]
            rw [← this]
            unfold updateFinishedAt
            by_cases hdb : env.dbFails w2.log.length = true
            · rw [if_pos hdb]; rfl
            · rw [if_neg hdb]; rfl
          rw [hcalls]
          exact monitorJobStatus_last_poll env job polls w1 w2 hm
  · intro w job k s hk hs hc1 hc2 hans hbefore
    rw [processJob]
    rcases ht : triggerJob env w job with ⟨w1, r1⟩
    rw [ht] at hans hbefore
    cases r1 with
    | some e => exact ⟨_, _, rfl⟩
    | none =>
      have hcache : w1.jobStatuses = w.jobStatuses := by
        have := triggerJob_cache env w job
        rw [ht] at this
        exact this
      obtain ⟨w', e, hm⟩ := monitorJobStatus_fails env job s hs k polls w1 hk
        (by rw [hcache]; exact hc1) (by rw [hcache]; exact hc2) hans hbefore
      exact ⟨w', e, by simp only [hm]⟩
  · intro w wj w1 step pre post j e hdb0 hdb1 hjobs hnone hman hpre hjob
    have hpj : pendingJobs (w.issue (.findJobs step.ID)) step.ID = pre ++ j :: post := hjobs
    have hany : (pre ++ j :: post).any
        (fun j => j.Status == StatusFailed || j.Status == StatusCanceled) = false := by
      rw [List.any_eq_false]
      intro x hx
      have := hnone x (hjobs ▸ hx)
      simp [this.1, this.2.1]
    have hmanual : (pre ++ j :: post).any (fun j => j.Status == StatusManual) = true := by
      rw [List.any_eq_true]
      exact ⟨j, by simp, by simp [hman]⟩
    have hrunning : (pre ++ j :: post).any (fun j => j.Status == StatusRunning) = false := by
      rw [List.any_eq_false]
      intro x hx
      have := hnone x (hjobs ▸ hx)
      simp [this.2.2]
    have hloop : processManualJobs polls env step
        (UpdateStepStatus env (w.issue (.findJobs step.ID)) StatusRunning step).1
        (pre ++ j :: post) =
        some ((UpdateStepStatus env w1 StatusError step).1,
          some (match (UpdateStepStatus env w1 StatusError step).2 with
            | some e => e
            | none => "job failed")) := by
      rw [processManualJobs_append polls env step (j :: post) pre _ wj hpre, processManualJobs,
        if_pos hman, hjob]
      simp only
      rcases hu : UpdateStepStatus env w1 StatusError step with ⟨w2, r2⟩
      cases r2 <;> rfl
    have hrun : UpdateStepStatus env (w.issue (.findJobs step.ID)) StatusRunning step =
        ((UpdateStepStatus env (w.issue (.findJobs step.ID)) StatusRunning step).1, none) := by
      simp [UpdateStepStatus, World.issue, hdb1]
    refine ⟨(UpdateStepStatus env w1 StatusError step).1,
      (match (UpdateStepStatus env w1 StatusError step).2 with
        | some e => e
        | none => "job failed"), ?_, ?_, ?_, ?_, ?_⟩
    · rw [processStep]
      simp only [hdb0, Bool.false_eq_true, if_false, hpj, hany]
      rw [hrun]
      simp only [hmanual, hrunning, Bool.not_false, Bool.and_self, if_true]
      rw [hloop]
    · unfold UpdateStepStatus
      by_cases hdb : env.dbFails w1.log.length = true
      · rw [if_pos hdb]; rfl
      · rw [if_neg hdb]; rfl
    · unfold UpdateStepStatus
      by_cases hdb : env.dbFails w1.log.length = true
      · rw [if_pos hdb]; rfl
      · rw [if_neg hdb]; rfl
    · unfold UpdateStepStatus
      by_cases hdb : env.dbFails w1.log.length = true
      · rw [if_pos hdb]; rfl
      · rw [if_neg hdb]; rfl
    · intro hdb
      simp [UpdateStepStatus, hdb, World.issue]

/-- C19, the witness: the step of `resumeStore`; the provider reports `failed`
for its first job, the second job is never polled. -/
theorem processJob_verdict_witness :
    afterFailedPoll.calls = [Call.runJob 11, Call.getJobStatus 11] ∧
    ∃ w' e', processStep 1 (reporting "failed" (fun _ => false)) resumeStore infraStep =
        some (w', some e') ∧
      w'.calls = afterFailedPoll.calls ∧ w'.jobs = afterFailedPoll.jobs ∧
      w'.log = afterFailedPoll.log ++ [.updateStep infraStep.ID StatusError] ∧
      ((reporting "failed" (fun _ => false)).dbFails afterFailedPoll.log.length = false →
        w'.steps = setStepStatus infraStep.ID StatusError afterFailedPoll.steps) :=
  ⟨by decide,
    (processJob_verdict 1 (reporting "failed" (fun _ => false))).2.2 resumeStore _
      afterFailedPoll infraStep [] [resumedJob] unstartedJob "stand have a failed job" rfl rfl
      (by decide) (by decide) rfl rfl (by decide)⟩

/-- C19 as stated fails: the provider reports `failed` for the first job of
the step, the store rejects the step's `error` write, and `processStep`
returns an error with the step still `running`. -/
theorem processStep_error_write_rejected :
    (processStep 1 (reporting "failed" (fun n => n == 4)) resumeStore infraStep).map
      (fun r => (r.2.isSome, r.1.steps.map (·.Status), r.1.jobs.map (·.Status), r.1.calls)) =
      some (true, ["running"], ["failed", "manual"], [Call.runJob 11, Call.getJobStatus 11]) := by
  decide

/-! ## The outcome of a pipeline -/

theorem steps_eq_of_evolves (l l' : List Step) (h : Evolves (StepKept (fun _ => False)) l l') :
    l' = l := by
  obtain ⟨g, rfl, hg⟩ := h
  conv_rhs => rw [← List.map_id l]
  apply List.map_congr_left
  intro a _
  exact (hg a).2.2.2.2 (fun h => h)

theorem processJob_steps (polls : Nat) (env : Env) (w w' : World) (job : Job)
    (r : Option String) (h : processJob polls env w job = some (w', r)) :
    w'.steps = w.steps ∧ SameUpper w w' := by
  obtain ⟨h1, h2⟩ := processJob_within (fun _ => False) (fun _ => True) (fun _ => True) polls env
    w w' job r trivial trivial h
  exact ⟨steps_eq_of_evolves _ _ h1.steps, h2⟩

theorem UpdateStepStatus_steps (env : Env) (hdb : ∀ n, env.dbFails n = false) (w : World)
    (status : String) (step : Step) :
    UpdateStepStatus env w status step = ((UpdateStepStatus env w status step).1, none) ∧
    (UpdateStepStatus env w status step).1.steps = setStepStatus step.ID status w.steps ∧
    SameUpper w (UpdateStepStatus env w status step).1 := by
  simp [UpdateStepStatus, hdb, World.issue]
  exact ⟨rfl, rfl, rfl⟩

theorem processManualJobs_steps (polls : Nat) (env : Env) (hdb : ∀ n, env.dbFails n = false)
    (step : Step) :
    ∀ (jobs : List Job) (w w' : World) (r : Option String),
      processManualJobs polls env step w jobs = some (w', r) →
      w'.steps = (if r.isSome then setStepStatus step.ID StatusError w.steps else w.steps) ∧
        SameUpper w w' := by
  intro jobs
  induction jobs with
  | nil =>
    intro w w' r h
    simp only [processManualJobs, Option.some.injEq, Prod.mk.injEq] at h
    obtain ⟨rfl, rfl⟩ := h
    exact ⟨rfl, rfl, rfl, rfl⟩
  | cons j rest ih =>
    intro w w' r h
    rw [processManualJobs] at h
    by_cases hm : j.Status = StatusManual
    · rw [if_pos hm] at h
      cases hp : processJob polls env w j with
      | none => rw [hp] at h; simp at h
      | some res =>
        obtain ⟨w1, r1⟩ := res
        rw [hp] at h
        obtain ⟨hs1, hu1⟩ := processJob_steps polls env w w1 j r1 hp
        cases r1 with
        | some e =>
          simp only at h
          obtain ⟨he, hst, hup⟩ := UpdateStepStatus_steps env hdb w1 StatusError step
          rw [he] at h
          simp only [Option.some.injEq, Prod.mk.injEq] at h
          obtain ⟨rfl, rfl⟩ := h
          refine ⟨by simp [hst, hs1], hu1.followedBy hup⟩
        | none =>
          obtain ⟨h1, h2⟩ := ih w1 w' r h
          exact ⟨by rw [h1, hs1], hu1.followedBy h2⟩
    · rw [if_neg hm] at h
      exact ih w w' r h

theorem processStep_steps (polls : Nat) (env : Env) (hdb : ∀ n, env.dbFails n = false)
    (w w' : World) (step : Step) (r : Option String)
    (h : processStep polls env w step = some (w', r)) :
    w'.steps = setStepStatus step.ID (if r.isSome then StatusError else StatusSuccess) w.steps ∧
      SameUpper w w' := by
  have hup := (processStep_within polls env w w' step r h).2
  refine ⟨?_, hup⟩
  rw [processStep] at h
  simp only [hdb, Bool.false_eq_true, if_false] at h
  by_cases hany : (pendingJobs (w.issue (.findJobs step.ID)) step.ID).any
      (fun j => j.Status == StatusFailed || j.Status == StatusCanceled) = true
  · rw [if_pos hany] at h
    obtain ⟨he, hst, -⟩ := UpdateStepStatus_steps env hdb (w.issue (.findJobs step.ID))
      StatusError step
    rw [he] at h
    simp only [Option.some.injEq, Prod.mk.injEq] at h
    obtain ⟨rfl, rfl⟩ := h
    simpa using hst
  · rw [if_neg hany] at h
    obtain ⟨he, hst, -⟩ := UpdateStepStatus_steps env hdb (w.issue (.findJobs step.ID))
      StatusRunning step
    rw [he] at h
    simp only at h
    have hst' : (UpdateStepStatus env (w.issue (.findJobs step.ID)) StatusRunning step).1.steps =
        setStepStatus step.ID StatusRunning w.steps := hst
    generalize (UpdateStepStatus env (w.issue (.findJobs step.ID)) StatusRunning step).1 = w2
      at h hst'
    have hloop : ∀ (res : Option (World × Option String)),
        (∀ w3 r3, res = some (w3, r3) →
          w3.steps = (if r3.isSome then setStepStatus step.ID StatusError w2.steps
            else w2.steps)) →
        (match res with
          | none => none
          | some (w3, some e) => some (w3, some e)
          | some (w3, none) => some (UpdateStepStatus env w3 StatusSuccess step)) =
          some (w', r) →
        w'.steps = setStepStatus step.ID (if r.isSome then StatusError else StatusSuccess)
          w.steps := by
      intro res hres hm
      cases res with
      | none => simp at hm
      | some p =>
        obtain ⟨w3, r3⟩ := p
        have h3 := hres w3 r3 rfl
        cases r3 with
        | some e =>
          simp only [Option.some.injEq, Prod.mk.injEq] at hm
          obtain ⟨rfl, rfl⟩ := hm
          simp only [Option.isSome_some, if_true] at h3 ⊢
          rw [h3, hst', setStepStatus_twice]
        | none =>
          simp only [Option.some.injEq] at hm
          obtain ⟨he2, hst2, -⟩ := UpdateStepStatus_steps env hdb w3 StatusSuccess step
          rw [he2] at hm
          simp only [Prod.mk.injEq] at hm
          obtain ⟨rfl, rfl⟩ := hm
          simp only [Option.isSome_none, Bool.false_eq_true, if_false] at h3 ⊢
          rw [hst2, h3, hst', setStepStatus_twice]
    apply hloop _ _ h
    intro w3 r3 hres
    split at hres
    · exact (processManualJobs_steps polls env hdb step _ w2 w3 r3 hres).1
    · simp only [Option.some.injEq, Prod.mk.injEq] at hres
      obtain ⟨rfl, rfl⟩ := hres
      simp

theorem foldl_setStepStatus (status : String) :
    ∀ (steps : List Step) (rows : List Step),
      steps.foldl (fun rows s => setStepStatus s.ID status rows) rows =
        rows.map (fun a => if a.ID ∈ steps.map (·.ID) then { a with Status := status } else a) := by
  intro steps
  induction steps with
  | nil => intro rows; simp
  | cons s rest ih =>
    intro rows
    rw [List.foldl_cons, ih, setStepStatus, List.map_map]
    apply List.map_congr_left
    intro a _
    simp only [Function.comp_apply, List.map_cons, List.mem_cons]
    by_cases h1 : a.ID = s.ID
    · rw [if_pos h1, if_pos (Or.inl h1)]
      by_cases h2 : a.ID ∈ rest.map (·.ID)
      · rw [if_pos h2]
      · rw [if_neg h2]
    · rw [if_neg h1]
      by_cases h2 : a.ID ∈ rest.map (·.ID)
      · rw [if_pos h2, if_pos (Or.inr h2)]
      · rw [if_neg h2, if_neg (by rintro (h | h); exact h1 h; exact h2 h)]

theorem setStepStatus_has_row (id : Nat) (status : String) (rows : List Step) (x : Nat)
    (h : ∃ a ∈ rows, a.ID = x) : ∃ a ∈ setStepStatus id status rows, a.ID = x := by
  obtain ⟨a, ha, hx⟩ := h
  refine ⟨_, List.mem_map_of_mem _ ha, ?_⟩
  by_cases h1 : a.ID = id
  · rw [if_pos h1]; exact hx
  · rw [if_neg h1]; exact hx

theorem UpdatePipelineStatus_steps (env : Env) (w : World) (status : String)
    (pipeline : Pipeline) : (UpdatePipelineStatus env w status pipeline).1.steps = w.steps := by
  unfold UpdatePipelineStatus
  by_cases hdb : env.dbFails w.log.length = true
  · rw [if_pos hdb]; rfl
  · rw [if_neg hdb]; rfl

theorem processSteps_outcome (polls : Nat) (env : Env) (hdb : ∀ n, env.dbFails n = false)
    (pl : Pipeline) :
    ∀ (steps : List Step) (wk w' : World) (r : Option String),
      (∀ s ∈ steps, ∃ a ∈ wk.steps, a.ID = s.ID) →
      processSteps polls env pl wk steps = some (w', r) →
      (r = none → w'.pipelines = wk.pipelines ∧
        w'.steps = steps.foldl (fun rows s => setStepStatus s.ID StatusSuccess rows) wk.steps) ∧
      (r ≠ none → w'.pipelines = setPipelineStatus pl.ID StatusError wk.pipelines ∧
        ∃ pre s post, steps = pre ++ s :: post ∧
          w'.steps = setStepStatus s.ID StatusError
            (pre.foldl (fun rows s => setStepStatus s.ID StatusSuccess rows) wk.steps)) := by
  intro steps
  induction steps with
  | nil =>
    intro wk w' r _ h
    simp only [processSteps, Option.some.injEq, Prod.mk.injEq] at h
    obtain ⟨rfl, rfl⟩ := h
    exact ⟨fun _ => ⟨rfl, rfl⟩, fun h => absurd rfl h⟩
  | cons s rest ih =>
    intro wk w' r hrows h
    rw [processSteps] at h
    cases hp : processStep polls env wk s with
    | none => rw [hp] at h; simp at h
    | some res =>
      obtain ⟨w1, r1⟩ := res
      rw [hp] at h
      obtain ⟨hs1, hu1⟩ := processStep_steps polls env hdb wk w1 s r1 hp
      have hrow1 : ∀ x, (∃ a ∈ wk.steps, a.ID = x) → ∃ a ∈ w1.steps, a.ID = x := by
        intro x hx
        rw [hs1]
        exact setStepStatus_has_row _ _ _ _ hx
      cases r1 with
      | some e =>
        simp only at h
        obtain ⟨he, hpl, -, -⟩ := UpdatePipelineStatus_healthy env hdb w1 StatusError pl
        have hst := UpdatePipelineStatus_steps env w1 StatusError pl
        rw [he] at h
        simp only at h
        generalize (UpdatePipelineStatus env w1 StatusError pl).1 = w2 at h hpl hst
        obtain ⟨hn, -⟩ := CreateStepNotify_healthy env hdb w2 s StatusError
          (by rw [hst]; exact hrow1 _ (hrows s (List.mem_cons_self _ _)))
        obtain ⟨hns, -, -⟩ := CreateStepNotify_tables env w2 s StatusError
        obtain ⟨-, -, hnp⟩ := CreateStepNotify_within (fun _ => True) (fun _ => True)
          (fun _ => True) env w2 s StatusError trivial
        rw [hn] at h
        simp only [Option.some.injEq, Prod.mk.injEq] at h
        obtain ⟨rfl, rfl⟩ := h
        refine ⟨fun h => by simp at h, fun _ => ⟨?_, [], s, rest, rfl, ?_⟩⟩
        · rw [hnp, hpl, hu1.pipelines]
        · rw [hns, hst, hs1]
          simp
      | none =>
        simp only at h
        obtain ⟨hn, -⟩ := CreateStepNotify_healthy env hdb w1 s StatusSuccess
          (hrow1 _ (hrows s (List.mem_cons_self _ _)))
        obtain ⟨hns, -, -⟩ := CreateStepNotify_tables env w1 s StatusSuccess
        obtain ⟨-, -, hnp⟩ := CreateStepNotify_within (fun _ => True) (fun _ => True)
          (fun _ => True) env w1 s StatusSuccess trivial
        rw [hn] at h
        simp only at h
        generalize (CreateStepNotify env w1 s StatusSuccess).1 = w2 at h hns hnp
        have hs2 : w2.steps = setStepStatus s.ID StatusSuccess wk.steps := by
          rw [hns, hs1]; simp
        obtain ⟨h1, h2⟩ := ih w2 w' r (by
          intro x hx
          rw [hns]
          exact hrow1 _ (hrows x (List.mem_cons_of_mem _ hx))) h
        refine ⟨fun hr => ?_, fun hr => ?_⟩
        · obtain ⟨h3, h4⟩ := h1 hr
          exact ⟨by rw [h3, hnp, hu1.pipelines], by rw [h4, hs2]; rfl⟩
        · obtain ⟨h3, pre, s', post, h5, h6⟩ := h2 hr
          exact ⟨by rw [h3, hnp, hu1.pipelines], s :: pre, s', post, by rw [h5]; rfl,
            by rw [h6, hs2]; rfl⟩

/-- For a store that performs every operation and a pipeline
with at least one pending step, when `processPendingPipeline` returns without
error the pipeline is `success` and every step that was pending is `success`;
when it returns an error the pipeline is `error` and one of the steps that
were pending is `error`; the steps that were not pending are as they were. -/
theorem processPendingPipeline_outcome_of_steps (polls : Nat) (env : Env) (w w' : World)
    (pl : Pipeline) (r : Option String) (hdb : ∀ n, env.dbFails n = false)
    (hne : pendingSteps w pl.ID ≠ [])
    (h : processPendingPipeline polls env w pl = some (w', r)) :
    (r = none → w'.pipelines = setPipelineStatus pl.ID StatusSuccess w.pipelines ∧
      w'.steps = (pendingSteps w pl.ID).foldl
        (fun rows s => setStepStatus s.ID StatusSuccess rows) w.steps ∧
      ∀ a ∈ w'.steps, (∃ s ∈ pendingSteps w pl.ID, s.ID = a.ID) → a.Status = StatusSuccess) ∧
    (r ≠ none → w'.pipelines = setPipelineStatus pl.ID StatusError w.pipelines ∧
      ∃ s ∈ pendingSteps w pl.ID, ∃ a ∈ w'.steps, a.ID = s.ID ∧ a.Status = StatusError) ∧
    (∀ a ∈ w.steps, (∀ s ∈ pendingSteps w pl.ID, s.ID ≠ a.ID) → a ∈ w'.steps) := by
  rw [processPendingPipeline] at h
  simp only [hdb, Bool.false_eq_true, if_false] at h
  have hps : pendingSteps (w.issue (.findSteps pl.ID)) pl.ID = pendingSteps w pl.ID :=
    pendingSteps_congr _ _ _ rfl
  rw [hps] at h
  rw [if_neg (by simpa using hne)] at h
  obtain ⟨he, hpl, -, -⟩ := UpdatePipelineStatus_healthy env hdb (w.issue (.findSteps pl.ID))
    StatusRunning pl
  have hst := UpdatePipelineStatus_steps env (w.issue (.findSteps pl.ID)) StatusRunning pl
  rw [he] at h
  simp only at h
  generalize (UpdatePipelineStatus env (w.issue (.findSteps pl.ID)) StatusRunning pl).1 = w2
    at h hpl hst
  have hpl2 : w2.pipelines = setPipelineStatus pl.ID StatusRunning w.pipelines := hpl
  have hst2 : w2.steps = w.steps := hst
  cases hp : processSteps polls env pl w2 (pendingSteps w pl.ID) with
  | none => rw [hp] at h; simp at h
  | some res =>
    obtain ⟨w3, r3⟩ := res
    rw [hp] at h
    obtain ⟨h1, h2⟩ := processSteps_outcome polls env hdb pl _ w2 w3 r3 (by
      intro s hs
      rw [hst2]
      exact ⟨s, (mem_pendingSteps w pl.ID s hs).1, rfl⟩) hp
    have hkeep : ∀ (ids : List Step) (rows : List Step) (a : Step), a ∈ rows →
        (∀ s ∈ ids, s.ID ≠ a.ID) →
        a ∈ ids.foldl (fun rows s => setStepStatus s.ID StatusSuccess rows) rows := by
      intro ids rows a ha hn
      rw [foldl_setStepStatus]
      refine List.mem_map.mpr ⟨a, ha, ?_⟩
      rw [if_neg]
      intro hmem
      obtain ⟨s, hs, hid⟩ := List.mem_map.mp hmem
      exact hn s hs hid
    cases r3 with
    | some e =>
      simp only [Option.some.injEq, Prod.mk.injEq] at h
      obtain ⟨rfl, rfl⟩ := h
      obtain ⟨h3, pre, s, post, h5, h6⟩ := h2 (by simp)
      refine ⟨fun hr => by simp at hr, fun _ => ⟨?_, s, ?_, ?_⟩, ?_⟩
      · rw [h3, hpl2, setPipelineStatus_twice]
      · rw [h5]; simp
      · have hs : s ∈ pendingSteps w pl.ID := by rw [h5]; simp
        have hrow : ∃ a ∈ pre.foldl (fun rows s => setStepStatus s.ID StatusSuccess rows)
            w2.steps, a.ID = s.ID := by
          rw [foldl_setStepStatus, hst2]
          refine ⟨_, List.mem_map_of_mem _ (mem_pendingSteps w pl.ID s hs).1, ?_⟩
          by_cases hm : s.ID ∈ pre.map (·.ID)
          · rw [if_pos hm]
          · rw [if_neg hm]
        obtain ⟨a, ha, hid⟩ := hrow
        rw [h6]
        refine ⟨_, List.mem_map_of_mem _ ha, ?_⟩
        rw [if_pos hid]
        exact ⟨hid, rfl⟩
      · intro a ha hn
        rw [h6]
        have h7 := hkeep pre w2.steps a (by rw [hst2]; exact ha) (by
          intro s' hs'
          exact hn s' (by rw [h5]; simp [hs']))
        have h8 : a.ID ≠ s.ID := fun h9 => hn s (by rw [h5]; simp) h9.symm
        have := List.mem_map_of_mem
          (fun x : Step => if x.ID = s.ID then { x with Status := StatusError } else x) h7
        simp only [if_neg h8] at this
        exact this
    | none =>
      simp only [Option.some.injEq] at h
      obtain ⟨he2, hpl3, -, -⟩ := UpdatePipelineStatus_healthy env hdb w3 StatusSuccess pl
      have hst3 := UpdatePipelineStatus_steps env w3 StatusSuccess pl
      rw [he2] at h
      simp only [Prod.mk.injEq] at h
      obtain ⟨rfl, rfl⟩ := h
      obtain ⟨h3, h4⟩ := h1 rfl
      have hsteps : (UpdatePipelineStatus env w3 StatusSuccess pl).1.steps =
          (pendingSteps w pl.ID).foldl (fun rows s => setStepStatus s.ID StatusSuccess rows)
            w.steps := by
        rw [hst3, h4, hst2]
      refine ⟨fun _ => ⟨?_, hsteps, ?_⟩, fun hr => absurd rfl hr, ?_⟩
      · rw [hpl3, h3, hpl2, setPipelineStatus_twice]
      · intro a ha hex
        rw [hsteps, foldl_setStepStatus] at ha
        obtain ⟨a0, -, rfl⟩ := List.mem_map.mp ha
        obtain ⟨s, hs, hid⟩ := hex
        by_cases hm : a0.ID ∈ (pendingSteps w pl.ID).map (·.ID)
        · rw [if_pos hm]
        · rw [if_neg hm] at hid
          exact absurd (List.mem_map.mpr ⟨s, hs, hid⟩) hm
      · intro a ha hn
        rw [hsteps]
        exact hkeep _ _ a ha hn

/-- C20 (amended): for a store that performs every operation, when
`processPendingPipeline` returns for a pipeline without a pending step it
returns no error and the pipeline and the steps are as they were; for a
pipeline with a pending step, when it returns without error the pipeline is
`success` and every step that was pending is `success`, when it returns an
error the pipeline is `error` and one of the steps that were pending is
`error`, and the steps that were not pending are as they were. -/
theorem processPendingPipeline_outcome (polls : Nat) (env : Env) (w w' : World) (pl : Pipeline)
    (r : Option String) (hdb : ∀ n, env.dbFails n = false)
    (h : processPendingPipeline polls env w pl = some (w', r)) :
    (pendingSteps w pl.ID = [] →
      r = none ∧ w'.pipelines = w.pipelines ∧ w'.steps = w.steps) ∧
    (pendingSteps w pl.ID ≠ [] →
      (r = none → w'.pipelines = setPipelineStatus pl.ID StatusSuccess w.pipelines ∧
        w'.steps = (pendingSteps w pl.ID).foldl
          (fun rows s => setStepStatus s.ID StatusSuccess rows) w.steps ∧
        ∀ a ∈ w'.steps, (∃ s ∈ pendingSteps w pl.ID, s.ID = a.ID) → a.Status = StatusSuccess) ∧
      (r ≠ none → w'.pipelines = setPipelineStatus pl.ID StatusError w.pipelines ∧
        ∃ s ∈ pendingSteps w pl.ID, ∃ a ∈ w'.steps, a.ID = s.ID ∧ a.Status = StatusError) ∧
      (∀ a ∈ w.steps, (∀ s ∈ pendingSteps w pl.ID, s.ID ≠ a.ID) → a ∈ w'.steps)) := by
  refine ⟨?_, fun hne => processPendingPipeline_outcome_of_steps polls env w w' pl r hdb hne h⟩
  intro hnil
  rw [processPendingPipeline] at h
  simp only [hdb, Bool.false_eq_true, if_false] at h
  have hps : pendingSteps (w.issue (.findSteps pl.ID)) pl.ID = pendingSteps w pl.ID :=
    pendingSteps_congr _ _ _ rfl
  rw [hps, hnil] at h
  simp only [List.length_nil, if_true, Option.some.injEq, Prod.mk.injEq] at h
  obtain ⟨rfl, rfl⟩ := h
  exact ⟨rfl, rfl, rfl⟩

/-- C20, the instances: the pipeline of `happyStore`, all of whose steps are
pending, ends `success` with its three steps `success`; the pipeline of
`settledStore`, which has no pending step, stays `pending`. -/
theorem processPendingPipeline_outcome_witness :
    (∃ w', processPendingPipeline 1 cooperative happyStore pipelineA = some (w', none) ∧
      w'.pipelines.map (·.Status) = ["success"] ∧
      w'.steps.map (·.Status) = ["success", "success", "success"] ∧
      w'.pipelines = setPipelineStatus pipelineA.ID StatusSuccess happyStore.pipelines ∧
      w'.steps = (pendingSteps happyStore pipelineA.ID).foldl
        (fun rows s => setStepStatus s.ID StatusSuccess rows) happyStore.steps ∧
      ∀ a ∈ w'.steps, (∃ s ∈ pendingSteps happyStore pipelineA.ID, s.ID = a.ID) →
        a.Status = StatusSuccess) ∧
    (∃ w', processPendingPipeline 1 cooperative settledStore pipelineA = some (w', none) ∧
      (none : Option String) = none ∧ w'.pipelines = settledStore.pipelines ∧
      w'.steps = settledStore.steps) :=
  ⟨⟨_, rfl, by decide, by decide,
    ((processPendingPipeline_outcome 1 cooperative happyStore _ pipelineA none (fun _ => rfl)
      rfl).2 (by decide)).1 rfl⟩,
    ⟨_, rfl,
      (processPendingPipeline_outcome 1 cooperative settledStore _ pipelineA none
        (fun _ => rfl) rfl).1 (by decide)⟩⟩

/-- C20 as stated fails, in three ways.  In `mixedStore` the first step of the
pipeline is `error` and the other two are pending: `processPendingPipeline`
returns without error and marks the pipeline `success` while the first step is
still `error`.  In `settledStore` the only step of the pending pipeline is
`success` and no step is pending: it returns without error and the pipeline
stays `pending`.  And when the store rejects the last write of the run of
`happyStore`, every step is `success`, an error is returned and the pipeline
stays `running`. -/
theorem processPendingPipeline_status_not_from_steps :
    (processPendingPipeline 1 cooperative mixedStore pipelineA).map
      (fun r => (r.2, r.1.pipelines.map (·.Status), r.1.steps.map (·.Status))) =
      some (none, ["success"], ["error", "success", "success"]) ∧
    (processPendingPipeline 1 cooperative settledStore pipelineA).map
      (fun r => (r.2, r.1.pipelines.map (·.Status), r.1.steps.map (·.Status))) =
      some (none, ["pending"], ["success"]) ∧
    (processPendingPipeline 1 (reporting "success" (fun n => n == 26)) happyStore
        pipelineA).map
      (fun r => (r.2.isSome, r.1.pipelines.map (·.Status), r.1.steps.map (·.Status))) =
      some (true, ["running"], ["success", "success", "success"]) := by
  refine ⟨by decide, by decide, by decide⟩

/-! ## The recovery pass -/

theorem recoverPipelines_rejected (standID : Nat) (rows : List Pipeline) :
    recoverPipelines "статус" standID rows = none := by
  simp [recoverPipelines, Pipeline.text]

theorem recoverStand_tables (env : Env) (w : World) (stand : Stand) :
    (recoverStand env w stand).stands = w.stands ∧
    (recoverStand env w stand).pipelines = w.pipelines ∧
    (recoverStand env w stand).steps = w.steps ∧
    (recoverStand env w stand).jobs = w.jobs ∧
    (recoverStand env w stand).activeStands = w.activeStands := by
  unfold recoverStand
  by_cases ha : stand.Name ∈ w.activeStands
  · rw [if_pos ha]
    exact ⟨rfl, rfl, rfl, rfl, rfl⟩
  · rw [if_neg ha]
    by_cases h0 : env.dbFails w.log.length = true
    · simp only [h0, if_true]
      exact ⟨rfl, rfl, rfl, rfl, rfl⟩
    · simp only [h0, if_false, recoverPipelines_rejected, ite_self]
      exact ⟨rfl, rfl, rfl, rfl, rfl⟩

theorem recoverStands_tables (env : Env) :
    ∀ (stands : List Stand) (w : World),
      (stands.foldl (recoverStand env) w).stands = w.stands ∧
      (stands.foldl (recoverStand env) w).pipelines = w.pipelines ∧
      (stands.foldl (recoverStand env) w).steps = w.steps ∧
      (stands.foldl (recoverStand env) w).jobs = w.jobs := by
  intro stands
  induction stands with
  | nil => intro w; exact ⟨rfl, rfl, rfl, rfl⟩
  | cons s rest ih =>
    intro w
    rw [List.foldl_cons]
    obtain ⟨h1, h2, h3, h4⟩ := ih (recoverStand env w s)
    obtain ⟨g1, g2, g3, g4, -⟩ := recoverStand_tables env w s
    exact ⟨h1.trans g1, h2.trans g2, h3.trans g3, h4.trans g4⟩

theorem recoverStaleStands_tables (env : Env) (w : World) :
    (recoverStaleStands env w).1.stands = w.stands ∧
    (recoverStaleStands env w).1.pipelines = w.pipelines ∧
    (recoverStaleStands env w).1.steps = w.steps ∧
    (recoverStaleStands env w).1.jobs = w.jobs := by
  unfold recoverStaleStands
  by_cases h0 : env.dbFails w.log.length = true
  · simp only [h0, if_true]
    exact ⟨rfl, rfl, rfl, rfl⟩
  · simp only [h0, if_false]
    exact recoverStands_tables env _ _

/-- C11 at the failing input: one stand left `running`, not in the active
set, every operation performed by the store.  `recoverStaleStands` returns no
error and leaves the stand, its pipeline, its `running` step and that step's
`running` job as they were: the transaction is rolled back at the `pipelines`
statement. -/
theorem recoverStaleStands_leaves_stand_running :
    staleStore.activeStands = [] ∧
    (recoverStaleStands cooperative staleStore).2 = none ∧
    (recoverStaleStands cooperative staleStore).1.stands.map (·.Status) = ["running"] ∧
    (recoverStaleStands cooperative staleStore).1.pipelines.map (·.Status) = ["running"] ∧
    (recoverStaleStands cooperative staleStore).1.steps.map (·.Status) =
      ["success", "running", "pending"] ∧
    (recoverStaleStands cooperative staleStore).1.jobs.map (·.Status) =
      ["success", "running", "manual"] ∧
    (recoverStaleStands cooperative staleStore).1.log =
      [.findStands "running", .execStands 1, .execPipelines 1, .rollback] := by
  decide

/-- C12: a second pass directly after a first leaves every row of the four
tables as the first pass left it, whatever the store does in either pass. -/
theorem recoverStaleStands_idempotent (env env' : Env) (w : World) :
    (recoverStaleStands env' (recoverStaleStands env w).1).1.stands =
      (recoverStaleStands env w).1.stands ∧
    (recoverStaleStands env' (recoverStaleStands env w).1).1.pipelines =
      (recoverStaleStands env w).1.pipelines ∧
    (recoverStaleStands env' (recoverStaleStands env w).1).1.steps =
      (recoverStaleStands env w).1.steps ∧
    (recoverStaleStands env' (recoverStaleStands env w).1).1.jobs =
      (recoverStaleStands env w).1.jobs :=
  recoverStaleStands_tables env' _

/-- C13 at the failing input: two stands left `running`; the store rejects
the first statement of the first stand's transaction and performs every other
operation.  `recoverStaleStands` returns no error, the rows of the first stand
are unchanged, the transaction of the second stand is attempted, and the
second stand is still `running` with its pipeline, step and job. -/
theorem recoverStaleStands_second_stand_not_recovered :
    (recoverStaleStands rejectsSecondOp twoStaleStands).2 = none ∧
    (recoverStaleStands rejectsSecondOp twoStaleStands).1.log =
      [.findStands "running", .execStands 1, .rollback,
        .execStands 2, .execPipelines 2, .rollback] ∧
    (recoverStaleStands rejectsSecondOp twoStaleStands).1.stands.map (·.Status) =
      ["running", "running"] ∧
    (recoverStaleStands rejectsSecondOp twoStaleStands).1.pipelines.map (·.Status) =
      ["running", "running"] ∧
    (recoverStaleStands rejectsSecondOp twoStaleStands).1.steps.map (·.Status) =
      ["running", "running"] ∧
    (recoverStaleStands rejectsSecondOp twoStaleStands).1.jobs.map (·.Status) =
      ["running", "running"] := by
  decide

/-! ## The provider calls of `ProcessCreatingStand` -/

theorem CreateStep_provisioning (env : Env) (w : World) (s : Step) :
    (CreateStep env w s).1.provisioning = w.provisioning := by
  unfold CreateStep
  split <;> rfl

theorem createSteps_provisioning (env : Env) :
    ∀ (steps : List Step) (w : World),
      (createSteps env w steps).1.provisioning = w.provisioning := by
  intro steps
  induction steps with
  | nil => intro w; rfl
  | cons s rest ih =>
    intro w
    rw [createSteps]
    have h1 := CreateStep_provisioning env w s
    rcases hx : CreateStep env w s with ⟨w1, r1⟩
    rw [hx] at h1
    cases r1 with
    | some e => exact h1
    | none => exact (ih w1).trans h1

theorem GetStandByName_provisioning (env : Env) (w : World) (name : String) :
    (GetStandByName env w name).1.provisioning = w.provisioning := by
  unfold GetStandByName
  dsimp only
  split
  · rfl
  · split <;> rfl

theorem CreatePipeline_provisioning (env : Env) (w : World) (p : Pipeline) :
    (CreatePipeline env w p).1.provisioning = w.provisioning := by
  unfold CreatePipeline
  split <;> rfl

theorem CreateStandPipeline_provisioning (env : Env) (w : World) (name : String) :
    (CreateStandPipeline env w name).1.provisioning = w.provisioning := by
  unfold CreateStandPipeline
  have h1 := GetStandByName_provisioning env w name
  rcases hx : GetStandByName env w name with ⟨w1, r1⟩
  rw [hx] at h1
  cases r1 with
  | error e => exact h1
  | ok st =>
    simp only
    have h2 := CreatePipeline_provisioning env w1
      { Name := st.Name, StandID := st.ID, Status := "pending" }
    rcases hy : CreatePipeline env w1 { Name := st.Name, StandID := st.ID, Status := "pending" }
      with ⟨w2, r2⟩
    rw [hy] at h2
    cases r2 with
    | error e => exact h2.trans h1
    | ok p => exact h2.trans h1

theorem UpdateStandPipeline_provisioning (env : Env) (w : World) (name : String) (id : Int) :
    (UpdateStandPipeline env w name id).1.provisioning = w.provisioning := by
  unfold UpdateStandPipeline
  dsimp only
  split
  · rfl
  · split
    · rfl
    · split
      · rfl
      · rw [createSteps_provisioning]; rfl

theorem GetStepByStandName_provisioning (env : Env) (w : World) (name : String) :
    (GetStepByStandName env w name).1.provisioning = w.provisioning := by
  unfold GetStepByStandName
  split <;> rfl

theorem CreateJob_provisioning (env : Env) (w : World) (jobs : List Job) :
    (CreateJob env w jobs).1.provisioning = w.provisioning := by
  unfold CreateJob
  split
  · rfl
  · split <;> rfl

theorem commitDropped_provisioning (env : Env) (w snapshot : World) :
    (w.commitDropped env snapshot).provisioning = w.provisioning := by
  unfold World.commitDropped
  split <;> rfl

theorem createPipelineAndJobs_provisioning (env : Env) (snapshot w : World) (stand : Stand) :
    ∃ tail, (createPipelineAndJobs env snapshot w stand).1.provisioning = w.provisioning ++ tail ∧
      ∀ c ∈ tail, (∃ n, c = .runPipeline n) ∨ (∃ id, c = .getJobsFromPipeline id) := by
  unfold createPipelineAndJobs
  have h1 := CreateStandPipeline_provisioning env w stand.Name
  rcases hx : CreateStandPipeline env w stand.Name with ⟨w1, r1⟩
  rw [hx] at h1
  simp only at h1
  cases r1 with
  | some e => exact ⟨[], by simpa [World.rolledBack, World.restore, World.issue] using h1, by simp⟩
  | none =>
    simp only
    cases env.runPipeline w1.provisioning.length stand.Name with
    | error e =>
      exact ⟨[.runPipeline stand.Name],
        by simp [World.rolledBack, World.restore, World.issue, World.provisioned, h1], by simp⟩
    | ok pid =>
      simp only
      have h2 := UpdateStandPipeline_provisioning env (w1.provisioned (.runPipeline stand.Name))
        stand.Name pid
      rcases hy : UpdateStandPipeline env (w1.provisioned (.runPipeline stand.Name)) stand.Name
        pid with ⟨w3, r3⟩
      rw [hy] at h2
      simp only at h2
      have h3 : w3.provisioning = w.provisioning ++ [.runPipeline stand.Name] := by
        rw [h2]; simp [World.provisioned, h1]
      cases r3 with
      | some e =>
        exact ⟨[.runPipeline stand.Name],
          by simpa [World.rolledBack, World.restore, World.issue] using h3, by simp⟩
      | none =>
        simp only
        cases env.getJobsFromPipeline w3.provisioning.length pid with
        | error e =>
          exact ⟨[.runPipeline stand.Name, .getJobsFromPipeline pid],
            by simp [World.rolledBack, World.restore, World.issue, World.provisioned, h3],
            by simp⟩
        | ok jobs =>
          simp only
          refine ⟨[.runPipeline stand.Name, .getJobsFromPipeline pid], ?_, by simp⟩
          have h4 := GetStepByStandName_provisioning env
            (w3.provisioned (.getJobsFromPipeline pid)) stand.Name
          rcases hz : GetStepByStandName env (w3.provisioned (.getJobsFromPipeline pid))
            stand.Name with ⟨w5, r5⟩
          rw [hz] at h4
          simp only at h4
          have h5 : w5.provisioning =
              w.provisioning ++ [.runPipeline stand.Name, .getJobsFromPipeline pid] := by
            rw [h4]; simp [World.provisioned, h3]
          cases r5 with
          | error e => simpa [World.restore] using h5
          | ok steps =>
            simp only
            rw [commitDropped_provisioning, CreateJob_provisioning]
            exact h5

theorem Reported.mem (env : Env) (c : Provision) (b : Bool) :
    ∀ (cs : List Provision) (n : Nat), Reported env n cs c b → c ∈ cs := by
  intro cs
  induction cs with
  | nil => intro n h; exact h.elim
  | cons a rest ih =>
    intro n h
    rcases h with ⟨rfl, -⟩ | h
    · exact List.mem_cons_self _ _
    · exact List.mem_cons_of_mem _ (ih _ h)

/-- The calls from the variables block on. -/
theorem variables_onward (env : Env) (snapshot w : World) (stand : Stand)
    (products : List String) :
    ∃ cs, (match ensureVariables env w stand products with
        | (w4, some e) => (w4, Ending.returned (some e))
        | (w4, none) => createPipelineAndJobs env snapshot w4 stand).1.provisioning =
        w.provisioning ++ cs ∧
      ((∀ n, Provision.checkBranchExist n ∉ cs) ∧ (∀ n r, Provision.cloneBranch n r ∉ cs) ∧
        (∀ n, Provision.checkEnvironmentExist n ∉ cs) ∧
        (∀ n, Provision.createEnvironmentIntoRepository n ∉ cs)) ∧
      (∀ b, Reported env w.provisioning.length cs (.checkVariablesIntoEnvironment stand.Name) b →
        cs.filter Provision.writesVariables =
          [if b then .updateVariablesIntoEnvironment stand.Name products
            else .createVariablesIntoEnvironment stand.Name products]) ∧
      ((∀ b, ¬ Reported env w.provisioning.length cs
          (.checkVariablesIntoEnvironment stand.Name) b) →
        cs.filter Provision.writesVariables = []) := by
  have htail : ∀ w4 : World, ∀ pre : List Provision, w4.provisioning = w.provisioning ++ pre →
      ∃ tail, (createPipelineAndJobs env snapshot w4 stand).1.provisioning =
          w.provisioning ++ (pre ++ tail) ∧
        (∀ n, Provision.checkBranchExist n ∉ tail) ∧ (∀ n r, Provision.cloneBranch n r ∉ tail) ∧
        (∀ n, Provision.checkEnvironmentExist n ∉ tail) ∧
        (∀ n, Provision.createEnvironmentIntoRepository n ∉ tail) ∧
        (∀ n, Provision.checkVariablesIntoEnvironment n ∉ tail) ∧
        tail.filter Provision.writesVariables = [] := by
    intro w4 pre hpre
    obtain ⟨tail, h1, h2⟩ := createPipelineAndJobs_provisioning env snapshot w4 stand
    refine ⟨tail, by rw [h1, hpre, List.append_assoc], ?_, ?_, ?_, ?_, ?_, ?_⟩
    · intro n hn; rcases h2 _ hn with ⟨m, h⟩ | ⟨m, h⟩ <;> cases h
    · intro n r hn; rcases h2 _ hn with ⟨m, h⟩ | ⟨m, h⟩ <;> cases h
    · intro n hn; rcases h2 _ hn with ⟨m, h⟩ | ⟨m, h⟩ <;> cases h
    · intro n hn; rcases h2 _ hn with ⟨m, h⟩ | ⟨m, h⟩ <;> cases h
    · intro n hn; rcases h2 _ hn with ⟨m, h⟩ | ⟨m, h⟩ <;> cases h
    · rw [List.filter_eq_nil_iff]
      intro c hc
      rcases h2 _ hc with ⟨m, rfl⟩ | ⟨m, rfl⟩ <;> simp [Provision.writesVariables]
  have hnot : ∀ (tail : List Provision) (k : Nat) (b : Bool),
      (∀ n, Provision.checkVariablesIntoEnvironment n ∉ tail) →
      ¬ Reported env k tail (.checkVariablesIntoEnvironment stand.Name) b :=
    fun tail k b h hr => h _ (Reported.mem env _ b tail k hr)
  unfold ensureVariables
  cases hv : env.checkVariablesIntoEnvironment w.provisioning.length stand.Name with
  | error e =>
    refine ⟨[.checkVariablesIntoEnvironment stand.Name], rfl, by simp, ?_, ?_⟩
    · intro b hb
      simp [Reported, Env.answered, hv] at hb
    · intro _
      simp [Provision.writesVariables]
  | ok exist =>
    cases exist with
    | false =>
      simp only [Bool.not_false, if_true]
      cases hc : env.createVariablesIntoEnvironment
          (w.provisioned (.checkVariablesIntoEnvironment stand.Name)).provisioning.length
          stand.Name products with
      | some e =>
        refine ⟨[.checkVariablesIntoEnvironment stand.Name,
          .createVariablesIntoEnvironment stand.Name products],
          by simp [World.provisioned], by simp, ?_, ?_⟩
        · intro b hb
          simp [Reported, Env.answered, hv] at hb
          subst hb
          simp [Provision.writesVariables]
        · intro h
          exact absurd (by simp [Reported, Env.answered, hv]) (h false)
      | none =>
        obtain ⟨tail, h1, t1, t2, t3, t4, t5, t6⟩ := htail
          ((w.provisioned (.checkVariablesIntoEnvironment stand.Name)).provisioned
            (.createVariablesIntoEnvironment stand.Name products))
          [.checkVariablesIntoEnvironment stand.Name,
            .createVariablesIntoEnvironment stand.Name products]
          (by simp [World.provisioned])
        refine ⟨_, h1, by simp [t1, t2, t3, t4], ?_, ?_⟩
        · intro b hb
          simp [Reported, Env.answered, hv, hnot tail _ b t5] at hb
          subst hb
          simp [Provision.writesVariables, t6]
        · intro h
          exact absurd (by simp [Reported, Env.answered, hv]) (h false)
    | true =>
      simp only [Bool.not_true, Bool.false_eq_true, if_false]
      cases hc : env.updateVariablesIntoEnvironment
          (w.provisioned (.checkVariablesIntoEnvironment stand.Name)).provisioning.length
          stand.Name products with
      | some e =>
        refine ⟨[.checkVariablesIntoEnvironment stand.Name,
          .updateVariablesIntoEnvironment stand.Name products],
          by simp [World.provisioned], by simp, ?_, ?_⟩
        · intro b hb
          simp [Reported, Env.answered, hv] at hb
          subst hb
          simp [Provision.writesVariables]
        · intro h
          exact absurd (by simp [Reported, Env.answered, hv]) (h true)
      | none =>
        obtain ⟨tail, h1, t1, t2, t3, t4, t5, t6⟩ := htail
          ((w.provisioned (.checkVariablesIntoEnvironment stand.Name)).provisioned
            (.updateVariablesIntoEnvironment stand.Name products))
          [.checkVariablesIntoEnvironment stand.Name,
            .updateVariablesIntoEnvironment stand.Name products]
          (by simp [World.provisioned])
        refine ⟨_, h1, by simp [t1, t2, t3, t4], ?_, ?_⟩
        · intro b hb
          simp [Reported, Env.answered, hv, hnot tail _ b t5] at hb
          subst hb
          simp [Provision.writesVariables, t6]
        · intro h
          exact absurd (by simp [Reported, Env.answered, hv]) (h true)

theorem GetProductsFromStand_spec (env : Env) (w : World) (name : String) :
    (GetProductsFromStand env w name).1.provisioning = w.provisioning ∧
    ∀ products, (GetProductsFromStand env w name).2 = .ok products →
      ∃ row, firstByID (·.ID) (w.stands.filter (fun s => s.Name == name)) = some row ∧
        env.unmarshal row.Products = .ok products := by
  unfold GetProductsFromStand
  dsimp only
  split
  · exact ⟨rfl, fun p h => by simp at h⟩
  · have hst : (w.issue (.firstStandByName name)).stands = w.stands := rfl
    rw [hst]
    cases hf : firstByID (·.ID) (w.stands.filter (fun s => s.Name == name)) with
    | none => exact ⟨rfl, fun p h => by simp at h⟩
    | some row => exact ⟨rfl, fun p h => ⟨row, rfl, h⟩⟩

/-- The calls from the product lookup on. -/
theorem products_onward (env : Env) (snapshot w : World) (stand : Stand) :
    ∃ cs, (match GetProductsFromStand env w stand.Name with
        | (w3, .error e) => (w3, Ending.returned (some e))
        | (w3, .ok products) =>
          match ensureVariables env w3 stand products with
          | (w4, some e) => (w4, Ending.returned (some e))
          | (w4, none) => createPipelineAndJobs env snapshot w4 stand).1.provisioning =
        w.provisioning ++ cs ∧
      ((∀ n, Provision.checkBranchExist n ∉ cs) ∧ (∀ n r, Provision.cloneBranch n r ∉ cs) ∧
        (∀ n, Provision.checkEnvironmentExist n ∉ cs) ∧
        (∀ n, Provision.createEnvironmentIntoRepository n ∉ cs)) ∧
      (∀ b, Reported env w.provisioning.length cs (.checkVariablesIntoEnvironment stand.Name) b →
        ∃ row products,
          firstByID (·.ID) (w.stands.filter (fun s => s.Name == stand.Name)) = some row ∧
          env.unmarshal row.Products = .ok products ∧
          cs.filter Provision.writesVariables =
            [if b then .updateVariablesIntoEnvironment stand.Name products
              else .createVariablesIntoEnvironment stand.Name products]) ∧
      ((∀ b, ¬ Reported env w.provisioning.length cs
          (.checkVariablesIntoEnvironment stand.Name) b) →
        cs.filter Provision.writesVariables = []) := by
  obtain ⟨hp, hrow⟩ := GetProductsFromStand_spec env w stand.Name
  rcases hx : GetProductsFromStand env w stand.Name with ⟨w3, r3⟩
  rw [hx] at hp hrow
  simp only at hp hrow
  cases r3 with
  | error e =>
    refine ⟨[], by simpa using hp, by simp, ?_, by simp⟩
    intro b hb
    exact hb.elim
  | ok products =>
    obtain ⟨row, hr1, hr2⟩ := hrow products rfl
    obtain ⟨cs, h1, h2, h3, h4⟩ := variables_onward env snapshot w3 stand products
    rw [hp] at h1 h3 h4
    exact ⟨cs, h1, h2, fun b hb => ⟨row, products, hr1, hr2, h3 b hb⟩, h4⟩

/-- The calls from the environment block on. -/
theorem environment_onward (env : Env) (snapshot w : World) (stand : Stand) :
    ∃ cs, (match ensureEnvironment env w stand with
        | (w2, some e) => (w2, Ending.returned (some e))
        | (w2, none) =>
          match GetProductsFromStand env w2 stand.Name with
          | (w3, .error e) => (w3, Ending.returned (some e))
          | (w3, .ok products) =>
            match ensureVariables env w3 stand products with
            | (w4, some e) => (w4, Ending.returned (some e))
            | (w4, none) => createPipelineAndJobs env snapshot w4 stand).1.provisioning =
        w.provisioning ++ cs ∧
      ((∀ n, Provision.checkBranchExist n ∉ cs) ∧ (∀ n r, Provision.cloneBranch n r ∉ cs)) ∧
      ((Provision.createEnvironmentIntoRepository stand.Name ∈ cs ↔
          Reported env w.provisioning.length cs (.checkEnvironmentExist stand.Name) false) ∧
        (∀ n, Provision.createEnvironmentIntoRepository n ∈ cs → n = stand.Name) ∧
        cs.count (.createEnvironmentIntoRepository stand.Name) ≤ 1 ∧
        (Reported env w.provisioning.length cs (.checkEnvironmentExist stand.Name) true →
          ∀ n, Provision.createEnvironmentIntoRepository n ∉ cs)) ∧
      (∀ b, Reported env w.provisioning.length cs (.checkVariablesIntoEnvironment stand.Name) b →
        ∃ row products,
          firstByID (·.ID) (w.stands.filter (fun s => s.Name == stand.Name)) = some row ∧
          env.unmarshal row.Products = .ok products ∧
          cs.filter Provision.writesVariables =
            [if b then .updateVariablesIntoEnvironment stand.Name products
              else .createVariablesIntoEnvironment stand.Name products]) ∧
      ((∀ b, ¬ Reported env w.provisioning.length cs
          (.checkVariablesIntoEnvironment stand.Name) b) →
        cs.filter Provision.writesVariables = []) := by
  have hnot : ∀ (tail : List Provision) (k : Nat) (b : Bool),
      (∀ n, Provision.checkEnvironmentExist n ∉ tail) →
      ¬ Reported env k tail (.checkEnvironmentExist stand.Name) b :=
    fun tail k b h hr => h _ (Reported.mem env _ b tail k hr)
  -- the rest of the run from a world that differs from `w` in its calls only
  have hrest : ∀ (w2 : World) (pre : List Provision), w2.provisioning = w.provisioning ++ pre →
      w2.stands = w.stands →
      ∃ cs, (match GetProductsFromStand env w2 stand.Name with
          | (w3, .error e) => (w3, Ending.returned (some e))
          | (w3, .ok products) =>
            match ensureVariables env w3 stand products with
            | (w4, some e) => (w4, Ending.returned (some e))
            | (w4, none) => createPipelineAndJobs env snapshot w4 stand).1.provisioning =
          w.provisioning ++ (pre ++ cs) ∧
        ((∀ n, Provision.checkBranchExist n ∉ cs) ∧ (∀ n r, Provision.cloneBranch n r ∉ cs) ∧
          (∀ n, Provision.checkEnvironmentExist n ∉ cs) ∧
          (∀ n, Provision.createEnvironmentIntoRepository n ∉ cs)) ∧
        (∀ b, Reported env (w.provisioning.length + pre.length) cs
            (.checkVariablesIntoEnvironment stand.Name) b →
          ∃ row products,
            firstByID (·.ID) (w.stands.filter (fun s => s.Name == stand.Name)) = some row ∧
            env.unmarshal row.Products = .ok products ∧
            cs.filter Provision.writesVariables =
              [if b then .updateVariablesIntoEnvironment stand.Name products
                else .createVariablesIntoEnvironment stand.Name products]) ∧
        ((∀ b, ¬ Reported env (w.provisioning.length + pre.length) cs
            (.checkVariablesIntoEnvironment stand.Name) b) →
          cs.filter Provision.writesVariables = []) := by
    intro w2 pre hpre hst
    obtain ⟨cs, h1, h2, h3, h4⟩ := products_onward env snapshot w2 stand
    rw [hpre, List.length_append, hst] at h3
    rw [hpre, List.length_append] at h4
    exact ⟨cs, by rw [h1, hpre, List.append_assoc], h2, h3, h4⟩
  unfold ensureEnvironment
  cases hv : env.checkEnvironmentExist w.provisioning.length stand.Name with
  | error e =>
    refine ⟨[.checkEnvironmentExist stand.Name], rfl, by simp, ?_, ?_, ?_⟩
    · simp [Reported, Env.answered, hv]
    · intro b hb
      simp [Reported, Env.answered] at hb
    · intro _
      simp [Provision.writesVariables]
  | ok exist =>
    cases exist with
    | false =>
      simp only [Bool.not_false, if_true]
      cases hc : env.createEnvironmentIntoRepository
          (w.provisioned (.checkEnvironmentExist stand.Name)).provisioning.length stand.Name with
      | some e =>
        refine ⟨[.checkEnvironmentExist stand.Name,
          .createEnvironmentIntoRepository stand.Name], by simp [World.provisioned], by simp,
          ?_, ?_, ?_⟩
        · simp [Reported, Env.answered, hv]
        · intro b hb
          simp [Reported, Env.answered] at hb
        · intro _
          simp [Provision.writesVariables]
      | none =>
        obtain ⟨cs, h1, ⟨a1, a2, a3, a4⟩, h3, h4⟩ := hrest
          ((w.provisioned (.checkEnvironmentExist stand.Name)).provisioned
            (.createEnvironmentIntoRepository stand.Name))
          [.checkEnvironmentExist stand.Name, .createEnvironmentIntoRepository stand.Name]
          (by simp [World.provisioned]) rfl
        refine ⟨_, h1, by simp [a1, a2], ?_, ?_, ?_⟩
        · simp [Reported, Env.answered, hv, a4, hnot cs _ _ a3, List.count_cons,
            List.count_eq_zero_of_not_mem (a4 stand.Name)]
        · intro b hb
          simp only [Reported, Env.answered, false_and, false_or, reduceCtorEq] at hb
          obtain ⟨row, products, hr1, hr2, hr3⟩ := h3 b hb
          exact ⟨row, products, hr1, hr2, by simp [Provision.writesVariables, hr3]⟩
        · intro h
          have := h4 (fun b hb => h b (by
            simp only [Reported, Env.answered, false_and, false_or, reduceCtorEq]
            exact hb))
          simp [Provision.writesVariables, this]
    | true =>
      simp only [Bool.not_true, Bool.false_eq_true, if_false]
      obtain ⟨cs, h1, ⟨a1, a2, a3, a4⟩, h3, h4⟩ := hrest
        (w.provisioned (.checkEnvironmentExist stand.Name))
        [.checkEnvironmentExist stand.Name] (by simp [World.provisioned]) rfl
      refine ⟨_, h1, by simp [a1, a2], ?_, ?_, ?_⟩
      · simp [Reported, Env.answered, hv, a4, hnot cs _ _ a3,
          List.count_eq_zero_of_not_mem (a4 stand.Name)]
      · intro b hb
        simp only [Reported, Env.answered, false_and, false_or, reduceCtorEq] at hb
        obtain ⟨row, products, hr1, hr2, hr3⟩ := h3 b hb
        exact ⟨row, products, hr1, hr2, by simp [Provision.writesVariables, hr3]⟩
      · intro h
        have := h4 (fun b hb => h b (by
          simp only [Reported, Env.answered, false_and, false_or, reduceCtorEq]
          exact hb))
        simp [Provision.writesVariables, this]

/-- C14: among the calls `ProcessCreatingStand` makes, `CloneBranch(name, ref)`
is made exactly when `CheckBranchExist` reported false and
`CreateEnvironmentIntoRepository(name)` exactly when `CheckEnvironmentExist`
reported false, each at most once and for no other branch or environment;
once `CheckVariablesIntoEnvironment` has reported, exactly one call writes the
variables, `Create` if it reported false and `Update` if it reported true,
with the decoded product list of the stand's row, and without that report no
call writes them; so a run in which the branch and the environment are
reported to exist creates neither.  The last part is the first run and the
retry of the example. -/
theorem ProcessCreatingStand_existence_checked (env : Env) (w : World) (stand : Stand) :
    (∃ cs, (ProcessCreatingStand env w stand).1.provisioning = w.provisioning ++ cs ∧
      ((Provision.cloneBranch stand.Name stand.Ref ∈ cs ↔
          Reported env w.provisioning.length cs (.checkBranchExist stand.Name) false) ∧
        (∀ n r, Provision.cloneBranch n r ∈ cs → n = stand.Name ∧ r = stand.Ref) ∧
        cs.count (.cloneBranch stand.Name stand.Ref) ≤ 1 ∧
        (Reported env w.provisioning.length cs (.checkBranchExist stand.Name) true →
          ∀ n r, Provision.cloneBranch n r ∉ cs)) ∧
      ((Provision.createEnvironmentIntoRepository stand.Name ∈ cs ↔
          Reported env w.provisioning.length cs (.checkEnvironmentExist stand.Name) false) ∧
        (∀ n, Provision.createEnvironmentIntoRepository n ∈ cs → n = stand.Name) ∧
        cs.count (.createEnvironmentIntoRepository stand.Name) ≤ 1 ∧
        (Reported env w.provisioning.length cs (.checkEnvironmentExist stand.Name) true →
          ∀ n, Provision.createEnvironmentIntoRepository n ∉ cs)) ∧
      (∀ b, Reported env w.provisioning.length cs (.checkVariablesIntoEnvironment stand.Name) b →
        ∃ row products,
          firstByID (·.ID) (w.stands.filter (fun s => s.Name == stand.Name)) = some row ∧
          env.unmarshal row.Products = .ok products ∧
          cs.filter Provision.writesVariables =
            [if b then .updateVariablesIntoEnvironment stand.Name products
              else .createVariablesIntoEnvironment stand.Name products]) ∧
      ((∀ b, ¬ Reported env w.provisioning.length cs
          (.checkVariablesIntoEnvironment stand.Name) b) →
        cs.filter Provision.writesVariables = [])) ∧
    (ProcessCreatingStand (provisioner false (fun _ => false)) createdStore
        createdStand).1.provisioning =
      [.checkBranchExist "stand-a", .cloneBranch "stand-a" "master",
        .checkEnvironmentExist "stand-a", .createEnvironmentIntoRepository "stand-a",
        .checkVariablesIntoEnvironment "stand-a",
        .createVariablesIntoEnvironment "stand-a" ["A", "B"],
        .runPipeline "stand-a", .getJobsFromPipeline 900] ∧
    (ProcessCreatingStand (provisioner true (fun _ => false)) createdStore
        createdStand).1.provisioning =
      [.checkBranchExist "stand-a", .checkEnvironmentExist "stand-a",
        .checkVariablesIntoEnvironment "stand-a",
        .updateVariablesIntoEnvironment "stand-a" ["A", "B"],
        .runPipeline "stand-a", .getJobsFromPipeline 900] := by
  refine ⟨?_, by decide, by decide⟩
  have hnot : ∀ (tail : List Provision) (k : Nat) (b : Bool),
      (∀ n, Provision.checkBranchExist n ∉ tail) →
      ¬ Reported env k tail (.checkBranchExist stand.Name) b :=
    fun tail k b h hr => h _ (Reported.mem env _ b tail k hr)
  have hrest : ∀ (w1 : World) (pre : List Provision), w1.provisioning = w.provisioning ++ pre →
      w1.stands = w.stands →
      ∃ cs, (match ensureEnvironment env w1 stand with
          | (w2, some e) => (w2, Ending.returned (some e))
          | (w2, none) =>
            match GetProductsFromStand env w2 stand.Name with
            | (w3, .error e) => (w3, Ending.returned (some e))
            | (w3, .ok products) =>
              match ensureVariables env w3 stand products with
              | (w4, some e) => (w4, Ending.returned (some e))
              | (w4, none) => createPipelineAndJobs env w.begun w4 stand).1.provisioning =
          w.provisioning ++ (pre ++ cs) ∧
        ((∀ n, Provision.checkBranchExist n ∉ cs) ∧ (∀ n r, Provision.cloneBranch n r ∉ cs)) ∧
        ((Provision.createEnvironmentIntoRepository stand.Name ∈ cs ↔
            Reported env (w.provisioning.length + pre.length) cs
              (.checkEnvironmentExist stand.Name) false) ∧
          (∀ n, Provision.createEnvironmentIntoRepository n ∈ cs → n = stand.Name) ∧
          cs.count (.createEnvironmentIntoRepository stand.Name) ≤ 1 ∧
          (Reported env (w.provisioning.length + pre.length) cs
              (.checkEnvironmentExist stand.Name) true →
            ∀ n, Provision.createEnvironmentIntoRepository n ∉ cs)) ∧
        (∀ b, Reported env (w.provisioning.length + pre.length) cs
            (.checkVariablesIntoEnvironment stand.Name) b →
          ∃ row products,
            firstByID (·.ID) (w.stands.filter (fun s => s.Name == stand.Name)) = some row ∧
            env.unmarshal row.Products = .ok products ∧
            cs.filter Provision.writesVariables =
              [if b then .updateVariablesIntoEnvironment stand.Name products
                else .createVariablesIntoEnvironment stand.Name products]) ∧
        ((∀ b, ¬ Reported env (w.provisioning.length + pre.length) cs
            (.checkVariablesIntoEnvironment stand.Name) b) →
          cs.filter Provision.writesVariables = []) := by
    intro w1 pre hpre hst
    obtain ⟨cs, h1, h2, h3, h4, h5⟩ := environment_onward env w.begun w1 stand
    rw [hpre, List.length_append] at h3 h5
    rw [hpre, List.length_append, hst] at h4
    exact ⟨cs, by rw [h1, hpre, List.append_assoc], h2, h3, h4, h5⟩
  unfold ProcessCreatingStand ensureBranch
  have hb0 : w.begun.provisioning = w.provisioning := rfl
  simp only [hb0]
  cases hv : env.checkBranchExist w.provisioning.length stand.Name with
  | error e =>
    refine ⟨[.checkBranchExist stand.Name], rfl, ?_, ?_, ?_, ?_⟩
    · simp [Reported, Env.answered, hv]
    · simp [Reported, Env.answered]
    · intro b hb
      simp [Reported, Env.answered] at hb
    · intro _
      simp [Provision.writesVariables]
  | ok exist =>
    cases exist with
    | false =>
      simp only [Bool.not_false, if_true]
      cases hc : env.cloneBranch
          (w.begun.provisioned (.checkBranchExist stand.Name)).provisioning.length stand.Name
          stand.Ref with
      | some e =>
        refine ⟨[.checkBranchExist stand.Name, .cloneBranch stand.Name stand.Ref],
          by simp [World.provisioned, World.begun], ?_, ?_, ?_, ?_⟩
        · simp [Reported, Env.answered, hv]
        · simp [Reported, Env.answered]
        · intro b hb
          simp [Reported, Env.answered] at hb
        · intro _
          simp [Provision.writesVariables]
      | none =>
        obtain ⟨cs, h1, ⟨a1, a2⟩, ⟨e1, e2, e3, e4⟩, h3, h4⟩ := hrest
          ((w.begun.provisioned (.checkBranchExist stand.Name)).provisioned
            (.cloneBranch stand.Name stand.Ref))
          [.checkBranchExist stand.Name, .cloneBranch stand.Name stand.Ref]
          (by simp [World.provisioned, World.begun]) rfl
        refine ⟨_, h1, ?_, ?_, ?_, ?_⟩
        · simp [Reported, Env.answered, hv, a2, hnot cs _ _ a1, List.count_cons,
            List.count_eq_zero_of_not_mem (a2 stand.Name stand.Ref)]
        · refine ⟨?_, ?_, ?_, ?_⟩
          · simpa [Reported, Env.answered] using e1
          · simpa using e2
          · simpa [List.count_cons] using e3
          · simpa [Reported, Env.answered] using e4
        · intro b hb
          simp only [Reported, Env.answered, false_and, false_or, reduceCtorEq] at hb
          obtain ⟨row, products, hr1, hr2, hr3⟩ := h3 b hb
          exact ⟨row, products, hr1, hr2, by simp [Provision.writesVariables, hr3]⟩
        · intro h
          have := h4 (fun b hb => h b (by
            simp only [Reported, Env.answered, false_and, false_or, reduceCtorEq]
            exact hb))
          simp [Provision.writesVariables, this]
    | true =>
      simp only [Bool.not_true, Bool.false_eq_true, if_false]
      obtain ⟨cs, h1, ⟨a1, a2⟩, ⟨e1, e2, e3, e4⟩, h3, h4⟩ := hrest
        (w.begun.provisioned (.checkBranchExist stand.Name))
        [.checkBranchExist stand.Name] (by simp [World.provisioned, World.begun]) rfl
      refine ⟨_, h1, ?_, ?_, ?_, ?_⟩
      · simp [Reported, Env.answered, hv, a2, hnot cs _ _ a1,
          List.count_eq_zero_of_not_mem (a2 stand.Name stand.Ref)]
      · refine ⟨?_, ?_, ?_, ?_⟩
        · simpa [Reported, Env.answered] using e1
        · simpa using e2
        · simpa [List.count_cons] using e3
        · simpa [Reported, Env.answered] using e4
      · intro b hb
        simp only [Reported, Env.answered, false_and, false_or, reduceCtorEq] at hb
        obtain ⟨row, products, hr1, hr2, hr3⟩ := h3 b hb
        exact ⟨row, products, hr1, hr2, by simp [Provision.writesVariables, hr3]⟩
      · intro h
        have := h4 (fun b hb => h b (by
          simp only [Reported, Env.answered, false_and, false_or, reduceCtorEq]
          exact hb))
        simp [Provision.writesVariables, this]

/-! ## Provisioning a created stand -/

theorem foldl_max_ge (ids : List Nat) :
    ∀ a, a ≤ ids.foldl max a ∧ ∀ x ∈ ids, x ≤ ids.foldl max a := by
  induction ids with
  | nil => intro a; exact ⟨le_refl _, fun x hx => by simp at hx⟩
  | cons b rest ih =>
    intro a
    obtain ⟨h1, h2⟩ := ih (max a b)
    refine ⟨le_trans (le_max_left a b) h1, ?_⟩
    intro x hx
    rcases List.mem_cons.mp hx with rfl | hx
    · exact le_trans (le_max_right a x) h1
    · exact h2 x hx

theorem lt_nextID (ids : List Nat) (x : Nat) (h : x ∈ ids) : x < nextID ids := by
  have := (foldl_max_ge ids 0).2 x h
  unfold nextID
  omega

theorem nextID_append (ids : List Nat) (x : Nat) (h : nextID ids ≤ x) :
    nextID (ids ++ [x]) = x + 1 := by
  unfold nextID at h ⊢
  rw [List.foldl_append]
  simp only [List.foldl_cons, List.foldl_nil]
  rw [max_eq_right (by omega)]

theorem firstByID_singleton {α : Type} (id : α → Nat) (a : α) : firstByID id [a] = some a := by
  simp [firstByID]

theorem SameTables.itself (w : World) : SameTables w w :=
  ⟨rfl, rfl, rfl, rfl, rfl, rfl, rfl⟩

theorem SameTables.andAlso {a b c : World} (h1 : SameTables a b) (h2 : SameTables b c) :
    SameTables a c :=
  ⟨h2.stands.trans h1.stands, h2.pipelines.trans h1.pipelines, h2.steps.trans h1.steps,
    h2.jobs.trans h1.jobs, h2.stepStates.trans h1.stepStates,
    h2.activeStands.trans h1.activeStands, h2.txFailed.trans h1.txFailed⟩

theorem ensureBranch_accepts (env : Env) (w : World) (stand : Stand)
    (h1 : ∀ n name, ∃ b, env.checkBranchExist n name = .ok b)
    (h2 : ∀ n a b, env.cloneBranch n a b = none) :
    (ensureBranch env w stand).2 = none ∧ SameTables w (ensureBranch env w stand).1 := by
  unfold ensureBranch
  obtain ⟨b, hb⟩ := h1 w.provisioning.length stand.Name
  rw [hb]
  cases b with
  | false => exact ⟨by simp [h2], ⟨rfl, rfl, rfl, rfl, rfl, rfl, rfl⟩⟩
  | true => exact ⟨rfl, ⟨rfl, rfl, rfl, rfl, rfl, rfl, rfl⟩⟩

theorem ensureEnvironment_accepts (env : Env) (w : World) (stand : Stand)
    (h1 : ∀ n name, ∃ b, env.checkEnvironmentExist n name = .ok b)
    (h2 : ∀ n a, env.createEnvironmentIntoRepository n a = none) :
    (ensureEnvironment env w stand).2 = none ∧
      SameTables w (ensureEnvironment env w stand).1 := by
  unfold ensureEnvironment
  obtain ⟨b, hb⟩ := h1 w.provisioning.length stand.Name
  rw [hb]
  cases b with
  | false => exact ⟨by simp [h2], ⟨rfl, rfl, rfl, rfl, rfl, rfl, rfl⟩⟩
  | true => exact ⟨rfl, ⟨rfl, rfl, rfl, rfl, rfl, rfl, rfl⟩⟩

theorem ensureVariables_accepts (env : Env) (w : World) (stand : Stand) (products : List String)
    (h1 : ∀ n name, ∃ b, env.checkVariablesIntoEnvironment n name = .ok b)
    (h2 : ∀ n a ps, env.createVariablesIntoEnvironment n a ps = none)
    (h3 : ∀ n a ps, env.updateVariablesIntoEnvironment n a ps = none) :
    (ensureVariables env w stand products).2 = none ∧
      SameTables w (ensureVariables env w stand products).1 := by
  unfold ensureVariables
  obtain ⟨b, hb⟩ := h1 w.provisioning.length stand.Name
  rw [hb]
  cases b with
  | false => exact ⟨by simp [h2], ⟨rfl, rfl, rfl, rfl, rfl, rfl, rfl⟩⟩
  | true => exact ⟨by simp [h3], ⟨rfl, rfl, rfl, rfl, rfl, rfl, rfl⟩⟩

theorem GetProductsFromStand_healthy (env : Env) (hdb : ∀ n, env.dbFails n = false) (w : World)
    (stand : Stand) (hst : w.stands.filter (fun s => s.Name == stand.Name) = [stand]) :
    (GetProductsFromStand env w stand.Name).2 = env.unmarshal stand.Products ∧
      SameTables w (GetProductsFromStand env w stand.Name).1 := by
  unfold GetProductsFromStand
  simp only [hdb, Bool.false_eq_true, if_false, World.issue, hst, firstByID_singleton]
  exact ⟨trivial, ⟨rfl, rfl, rfl, rfl, rfl, rfl, rfl⟩⟩

theorem CreateStandPipeline_healthy (env : Env) (hdb : ∀ n, env.dbFails n = false) (w : World)
    (stand : Stand) (hst : w.stands.filter (fun s => s.Name == stand.Name) = [stand]) :
    (CreateStandPipeline env w stand.Name).2 = none ∧
      SameTables
        { w with pipelines := w.pipelines ++
            [{ ID := nextID (w.pipelines.map (·.ID)), Name := stand.Name, StandID := stand.ID,
               Status := "pending" }] }
        (CreateStandPipeline env w stand.Name).1 := by
  unfold CreateStandPipeline GetStandByName CreatePipeline
  simp only [hdb, Bool.false_eq_true, if_false, World.issue, hst, firstByID_singleton]
  exact ⟨trivial, ⟨rfl, rfl, rfl, rfl, rfl, rfl, rfl⟩⟩

theorem createSteps_healthy (env : Env) (hdb : ∀ n, env.dbFails n = false) (w : World)
    (pipelineID : Nat) :
    (createSteps env w (PopulateSteps pipelineID)).2 = none ∧
      SameTables
        { w with steps := w.steps ++
          [ { ID := nextID (w.steps.map (·.ID)), Name := "Creating vm",
              Description := "Initial creation step", Order := 1, PipelineID := pipelineID,
              Status := "pending" },
            { ID := nextID (w.steps.map (·.ID)) + 1, Name := "Executing automation",
              Description := "Kubernetes installation", Order := 2, PipelineID := pipelineID,
              Status := "pending" },
            { ID := nextID (w.steps.map (·.ID)) + 2, Name := "Executing helm",
              Description := "Running helm", Order := 3, PipelineID := pipelineID,
              Status := "pending" } ] }
        (createSteps env w (PopulateSteps pipelineID)).1 := by
  have e1 : nextID (w.steps.map (·.ID) ++ [nextID (w.steps.map (·.ID))]) =
      nextID (w.steps.map (·.ID)) + 1 := nextID_append _ _ (le_refl _)
  have e2 : nextID (w.steps.map (·.ID) ++
      [nextID (w.steps.map (·.ID)), nextID (w.steps.map (·.ID)) + 1]) =
      nextID (w.steps.map (·.ID)) + 2 := by
    have := nextID_append (w.steps.map (·.ID) ++ [nextID (w.steps.map (·.ID))])
      (nextID (w.steps.map (·.ID)) + 1) (by rw [e1])
    simpa using this
  simp only [PopulateSteps, createSteps, CreateStep, hdb, Bool.false_eq_true, if_false,
    World.issue, List.map_append, List.map_cons, List.map_nil, List.append_assoc,
    List.singleton_append, List.cons_append, List.nil_append, e1, e2]
  exact ⟨trivial, ⟨rfl, rfl, rfl, rfl, rfl, rfl, rfl⟩⟩

theorem UpdateStandPipeline_healthy (env : Env) (hdb : ∀ n, env.dbFails n = false) (w : World)
    (name : String) (pipelineID : Int) (old : List Pipeline) (p : Pipeline)
    (hpl : w.pipelines = old ++ [p]) (hp : p.Name = name)
    (hold : ∀ q ∈ old, q.Name ≠ name ∧ q.ID ≠ p.ID) :
    (UpdateStandPipeline env w name pipelineID).2 = none ∧
      SameTables
        { w with
          pipelines := old ++ [{ p with GitlabPipelineID := pipelineID }],
          steps := w.steps ++
          [ { ID := nextID (w.steps.map (·.ID)), Name := "Creating vm",
              Description := "Initial creation step", Order := 1, PipelineID := p.ID,
              Status := "pending" },
            { ID := nextID (w.steps.map (·.ID)) + 1, Name := "Executing automation",
              Description := "Kubernetes installation", Order := 2, PipelineID := p.ID,
              Status := "pending" },
            { ID := nextID (w.steps.map (·.ID)) + 2, Name := "Executing helm",
              Description := "Running helm", Order := 3, PipelineID := p.ID,
              Status := "pending" } ] }
        (UpdateStandPipeline env w name pipelineID).1 := by
  have hfilter : (old ++ [p]).filter (fun q => q.Name == name) = [p] := by
    rw [List.filter_append]
    have : old.filter (fun q => q.Name == name) = [] := by
      rw [List.filter_eq_nil_iff]
      intro q hq
      simpa using (hold q hq).1
    rw [this]
    simp [hp]
  have hmap : (old ++ [p]).map (fun q => if q.ID = p.ID then
      { p with GitlabPipelineID := pipelineID } else q) =
      old ++ [{ p with GitlabPipelineID := pipelineID }] := by
    rw [List.map_append]
    congr 1
    · conv_rhs => rw [← List.map_id old]
      apply List.map_congr_left
      intro q hq
      simp [(hold q hq).2]
    · simp
  unfold UpdateStandPipeline
  simp only [hdb, Bool.false_eq_true, if_false, World.issue, hpl, hfilter, firstByID_singleton,
    hmap]
  obtain ⟨h1, h2⟩ := createSteps_healthy env hdb
    { w with
      log := w.log ++ [.firstPipelineByName name] ++
        [.savePipeline { p with GitlabPipelineID := pipelineID }],
      pipelines := old ++ [{ p with GitlabPipelineID := pipelineID }] } p.ID
  exact ⟨h1, ⟨h2.stands, h2.pipelines, h2.steps, h2.jobs, h2.stepStates, h2.activeStands,
    h2.txFailed⟩⟩

theorem GetStepByStandName_healthy (env : Env) (hdb : ∀ n, env.dbFails n = false) (w : World)
    (stand : Stand) (olds news : List Step) (oldp : List Pipeline) (p : Pipeline)
    (hst : w.stands.filter (fun s => s.Name == stand.Name) = [stand])
    (hsteps : w.steps = olds ++ news) (hpl : w.pipelines = oldp ++ [p])
    (hp : p.StandID = stand.ID) (hnew : ∀ s ∈ news, s.PipelineID = p.ID)
    (hfk : ∀ s ∈ olds, ∃ q ∈ oldp, q.ID = s.PipelineID)
    (hold : ∀ q ∈ oldp, q.StandID ≠ stand.ID ∧ q.ID ≠ p.ID) :
    (GetStepByStandName env w stand.Name).2 = .ok news ∧
      SameTables w (GetStepByStandName env w stand.Name).1 := by
  have hstand : ∀ id, w.stands.filter (fun st => st.ID == id && st.Name == stand.Name) =
      if stand.ID = id then [stand] else [] := by
    intro id
    have : w.stands.filter (fun st => st.ID == id && st.Name == stand.Name) =
        (w.stands.filter (fun s => s.Name == stand.Name)).filter (fun st => st.ID == id) := by
      rw [List.filter_filter]
    rw [this, hst]
    by_cases h : stand.ID = id <;> simp [h]
  have hinner : ∀ s : Step,
      ((oldp ++ [p]).filter (fun q => q.ID == s.PipelineID)).flatMap (fun q =>
        (w.stands.filter (fun st => st.ID == q.StandID && st.Name == stand.Name)).map
          (fun _ => s)) = if s.PipelineID = p.ID then [s] else [] := by
    intro s
    rw [List.filter_append, List.flatMap_append]
    have h1 : (oldp.filter (fun q => q.ID == s.PipelineID)).flatMap (fun q =>
        (w.stands.filter (fun st => st.ID == q.StandID && st.Name == stand.Name)).map
          (fun _ => s)) = [] := by
      rw [List.flatMap_eq_nil_iff]
      intro q hq
      have hq1 := (List.mem_filter.mp hq).1
      rw [hstand, if_neg (fun h => (hold q hq1).1 h.symm)]
      rfl
    rw [h1]
    by_cases h : s.PipelineID = p.ID
    · simp [h, hstand, hp]
    · have : ¬ p.ID = s.PipelineID := fun h' => h h'.symm
      simp [h, this]
  have hold_steps : olds.flatMap (fun s =>
      ((oldp ++ [p]).filter (fun q => q.ID == s.PipelineID)).flatMap (fun q =>
        (w.stands.filter (fun st => st.ID == q.StandID && st.Name == stand.Name)).map
          (fun _ => s))) = [] := by
    rw [List.flatMap_eq_nil_iff]
    intro s hs
    rw [hinner, if_neg]
    intro h
    obtain ⟨q, hq, hqs⟩ := hfk s hs
    exact (hold q hq).2 (hqs.trans h)
  have hnew_steps : news.flatMap (fun s =>
      ((oldp ++ [p]).filter (fun q => q.ID == s.PipelineID)).flatMap (fun q =>
        (w.stands.filter (fun st => st.ID == q.StandID && st.Name == stand.Name)).map
          (fun _ => s))) = news := by
    have : ∀ l : List Step, (∀ s ∈ l, s.PipelineID = p.ID) → l.flatMap (fun s =>
        ((oldp ++ [p]).filter (fun q => q.ID == s.PipelineID)).flatMap (fun q =>
          (w.stands.filter (fun st => st.ID == q.StandID && st.Name == stand.Name)).map
            (fun _ => s))) = l := by
      intro l
      induction l with
      | nil => intro _; rfl
      | cons a rest ih =>
        intro h
        rw [List.flatMap_cons, hinner, if_pos (h a (List.mem_cons_self _ _)),
          ih (fun s hs => h s (List.mem_cons_of_mem _ hs))]
        rfl
    exact this news hnew
  unfold GetStepByStandName
  simp only [hdb, Bool.false_eq_true, if_false, World.issue, hsteps, hpl, List.flatMap_append,
    hold_steps, hnew_steps, List.nil_append]
  exact ⟨trivial, ⟨rfl, hpl.symm, hsteps.symm, rfl, rfl, rfl, rfl⟩⟩

theorem ProcessJobs_one_per_stage (a b c : Job) (s1 s2 s3 : Step)
    (hj : [a.Stage, b.Stage, c.Stage].Perm ["terraform", "ansible", "helm"])
    (hs : s1.Order = 1 ∧ s2.Order = 2 ∧ s3.Order = 3) :
    ProcessJobs (JobsToMap [a, b, c]) [s1, s2, s3] =
      [a, b, c].map (fun j => stampJob
        (if j.Stage = "terraform" then s1.ID else if j.Stage = "ansible" then s2.ID else s3.ID)
        0 j) := by
  obtain ⟨o1, o2, o3⟩ := hs
  have hnd : [a.Stage, b.Stage, c.Stage].Nodup := hj.nodup_iff.mpr (by decide)
  have ha : a.Stage ∈ ["terraform", "ansible", "helm"] := hj.mem_iff.mp (by simp)
  have hb : b.Stage ∈ ["terraform", "ansible", "helm"] := hj.mem_iff.mp (by simp)
  have hc : c.Stage ∈ ["terraform", "ansible", "helm"] := hj.mem_iff.mp (by simp)
  simp only [List.mem_cons, List.mem_singleton, List.not_mem_nil, or_false] at ha hb hc
  simp only [List.nodup_cons, List.mem_cons, List.mem_singleton, List.not_mem_nil, or_false,
    not_or, List.nodup_nil, and_true, not_false_eq_true] at hnd
  obtain ⟨⟨hab, hac⟩, hbc⟩ := hnd
  rcases ha with ha | ha | ha <;> rcases hb with hb | hb | hb <;> rcases hc with hc | hc | hc <;>
    first
    | exact absurd (ha.trans hb.symm) hab
    | exact absurd (ha.trans hc.symm) hac
    | exact absurd (hb.trans hc.symm) hbc
    | simp [ProcessJobs, JobsToMap, GoMap.set, ha, hb, hc, processStages, stageOrderMap,
        selectStepID, o1, o2, o3, stageJobs, SortNumericalPrefixStrings, List.enum,
        List.enumFrom, List.lookup]

theorem CreateJob_healthy (env : Env) (hdb : ∀ n, env.dbFails n = false) (w : World)
    (job : Job) (rest : List Job) :
    (CreateJob env w (job :: rest)).2 = none ∧
      SameTables
        { w with jobs := w.jobs ++
          (job :: rest).enum.map (fun e => { e.2 with ID := nextID (w.jobs.map (·.ID)) + e.1 }) }
        (CreateJob env w (job :: rest)).1 := by
  unfold CreateJob
  simp only [List.isEmpty_cons, Bool.false_eq_true, if_false, hdb, World.issue]
  exact ⟨trivial, ⟨rfl, rfl, rfl, rfl, rfl, rfl, rfl⟩⟩

theorem commitDropped_healthy (env : Env) (hdb : ∀ n, env.dbFails n = false)
    (w snapshot : World) (htx : w.txFailed = false) :
    SameTables w (w.commitDropped env snapshot) := by
  unfold World.commitDropped
  simp only [htx, hdb, Bool.or_self, Bool.false_eq_true, if_false]
  exact ⟨rfl, rfl, rfl, rfl, rfl, rfl, rfl⟩

theorem createPipelineAndJobs_healthy (env : Env) (hdb : ∀ n, env.dbFails n = false)
    (snapshot w : World) (stand : Stand) (pid : Int) (a b c : Job)
    (hrun : ∀ n, env.runPipeline n stand.Name = .ok pid)
    (hjobs : ∀ n, env.getJobsFromPipeline n pid = .ok [a, b, c])
    (hj : [a.Stage, b.Stage, c.Stage].Perm ["terraform", "ansible", "helm"])
    (hst : w.stands.filter (fun s => s.Name == stand.Name) = [stand])
    (hnopl : ∀ q ∈ w.pipelines, q.StandID ≠ stand.ID ∧ q.Name ≠ stand.Name)
    (hfk : ∀ s ∈ w.steps, ∃ q ∈ w.pipelines, q.ID = s.PipelineID)
    (htx : w.txFailed = false) :
    (createPipelineAndJobs env snapshot w stand).2 = .returned none ∧
      SameTables
        { w with
          pipelines := w.pipelines ++
            [{ ID := nextID (w.pipelines.map (·.ID)), Name := stand.Name, StandID := stand.ID,
               Status := "pending", GitlabPipelineID := pid }],
          steps := w.steps ++
            [ { ID := nextID (w.steps.map (·.ID)), Name := "Creating vm",
                Description := "Initial creation step", Order := 1,
                PipelineID := nextID (w.pipelines.map (·.ID)), Status := "pending" },
              { ID := nextID (w.steps.map (·.ID)) + 1, Name := "Executing automation",
                Description := "Kubernetes installation", Order := 2,
                PipelineID := nextID (w.pipelines.map (·.ID)), Status := "pending" },
              { ID := nextID (w.steps.map (·.ID)) + 2, Name := "Executing helm",
                Description := "Running helm", Order := 3,
                PipelineID := nextID (w.pipelines.map (·.ID)), Status := "pending" } ],
          jobs := w.jobs ++ [a, b, c].enum.map (fun e =>
            { stampJob
                (if e.2.Stage = "terraform" then nextID (w.steps.map (·.ID))
                  else if e.2.Stage = "ansible" then nextID (w.steps.map (·.ID)) + 1
                  else nextID (w.steps.map (·.ID)) + 2) 0 e.2 with
              ID := nextID (w.jobs.map (·.ID)) + e.1 }) }
        (createPipelineAndJobs env snapshot w stand).1 := by
  have hfresh : ∀ q ∈ w.pipelines, q.ID ≠ nextID (w.pipelines.map (·.ID)) := by
    intro q hq
    exact Nat.ne_of_lt (lt_nextID _ _ (List.mem_map_of_mem _ hq))
  unfold createPipelineAndJobs
  -- the pipeline row
  obtain ⟨e1, t1⟩ := CreateStandPipeline_healthy env hdb w stand hst
  rcases hx : CreateStandPipeline env w stand.Name with ⟨w1, r1⟩
  rw [hx] at e1 t1
  simp only at e1 t1
  subst e1
  simp only [hrun]
  -- the provider's identifier and the three steps
  obtain ⟨e2, t2⟩ := UpdateStandPipeline_healthy env hdb
    (w1.provisioned (.runPipeline stand.Name)) stand.Name pid w.pipelines
    { ID := nextID (w.pipelines.map (·.ID)), Name := stand.Name, StandID := stand.ID,
      Status := "pending" } t1.pipelines rfl (fun q hq => ⟨(hnopl q hq).2, hfresh q hq⟩)
  rcases hy : UpdateStandPipeline env (w1.provisioned (.runPipeline stand.Name)) stand.Name pid
    with ⟨w3, r3⟩
  rw [hy] at e2 t2
  simp only at e2 t2
  subst e2
  simp only [hjobs]
  have hsteps1 : w1.steps = w.steps := t1.steps
  have hsteps3 : w3.steps = w.steps ++
      [ { ID := nextID (w.steps.map (·.ID)), Name := "Creating vm",
          Description := "Initial creation step", Order := 1,
          PipelineID := nextID (w.pipelines.map (·.ID)), Status := "pending" },
        { ID := nextID (w.steps.map (·.ID)) + 1, Name := "Executing automation",
          Description := "Kubernetes installation", Order := 2,
          PipelineID := nextID (w.pipelines.map (·.ID)), Status := "pending" },
        { ID := nextID (w.steps.map (·.ID)) + 2, Name := "Executing helm",
          Description := "Running helm", Order := 3,
          PipelineID := nextID (w.pipelines.map (·.ID)), Status := "pending" } ] := by
    rw [t2.steps]
    simp only [World.provisioned, hsteps1]
  have hpl3 : w3.pipelines = w.pipelines ++
      [{ ID := nextID (w.pipelines.map (·.ID)), Name := stand.Name, StandID := stand.ID,
         Status := "pending", GitlabPipelineID := pid }] := t2.pipelines
  have hst3 : w3.stands = w.stands := t2.stands.trans t1.stands
  have hjobs3 : w3.jobs = w.jobs := t2.jobs.trans t1.jobs
  -- the steps of the stand
  obtain ⟨e4, t4⟩ := GetStepByStandName_healthy env hdb
    (w3.provisioned (.getJobsFromPipeline pid)) stand w.steps _ w.pipelines _
    (by show w3.stands.filter _ = _; rw [hst3]; exact hst) hsteps3 hpl3 rfl (by simp) hfk
    (fun q hq => ⟨(hnopl q hq).1, hfresh q hq⟩)
  rcases hz : GetStepByStandName env (w3.provisioned (.getJobsFromPipeline pid)) stand.Name
    with ⟨w5, r5⟩
  rw [hz] at e4 t4
  simp only at e4 t4
  subst e4
  simp only []
  rw [ProcessJobs_one_per_stage a b c _ _ _ hj ⟨rfl, rfl, rfl⟩]
  simp only [List.map_cons, List.map_nil]
  -- the three jobs and the commit
  obtain ⟨e6, t6⟩ := CreateJob_healthy env hdb w5
    (stampJob (if a.Stage = "terraform" then nextID (w.steps.map (·.ID))
      else if a.Stage = "ansible" then nextID (w.steps.map (·.ID)) + 1
      else nextID (w.steps.map (·.ID)) + 2) 0 a)
    [stampJob (if b.Stage = "terraform" then nextID (w.steps.map (·.ID))
      else if b.Stage = "ansible" then nextID (w.steps.map (·.ID)) + 1
      else nextID (w.steps.map (·.ID)) + 2) 0 b,
     stampJob (if c.Stage = "terraform" then nextID (w.steps.map (·.ID))
      else if c.Stage = "ansible" then nextID (w.steps.map (·.ID)) + 1
      else nextID (w.steps.map (·.ID)) + 2) 0 c]
  generalize CreateJob env w5 _ = res at e6 t6 ⊢
  obtain ⟨w6, r6⟩ := res
  simp only at e6 t6
  have htx6 : w6.txFailed = false := by
    rw [t6.txFailed]
    show w5.txFailed = false
    rw [t4.txFailed]
    show w3.txFailed = false
    rw [t2.txFailed]
    show w1.txFailed = false
    rw [t1.txFailed]
    exact htx
  have t7 := commitDropped_healthy env hdb w6 snapshot htx6
  refine ⟨trivial, ⟨?_, ?_, ?_, ?_, ?_, ?_, ?_⟩⟩
  · exact t7.stands.trans (t6.stands.trans (t4.stands.trans hst3))
  · exact t7.pipelines.trans (t6.pipelines.trans (t4.pipelines.trans hpl3))
  · exact t7.steps.trans (t6.steps.trans (t4.steps.trans hsteps3))
  · rw [t7.jobs, t6.jobs]
    show w5.jobs ++ _ = w.jobs ++ _
    rw [show w5.jobs = w.jobs from t4.jobs.trans hjobs3]
    simp [List.enum, List.enumFrom, stampJob]
  · exact t7.stepStates.trans (t6.stepStates.trans (t4.stepStates.trans
      (t2.stepStates.trans t1.stepStates)))
  · exact t7.activeStands.trans (t6.activeStands.trans (t4.activeStands.trans
      (t2.activeStands.trans t1.activeStands)))
  · exact t7.txFailed.trans (htx6.trans htx.symm)

theorem ProcessCreatingStand_healthy (env : Env) (hdb : ∀ n, env.dbFails n = false)
    (w : World) (stand : Stand) (pid : Int) (a b c : Job) (products : List String)
    (hbranch : ∀ n name, ∃ b, env.checkBranchExist n name = .ok b)
    (hclone : ∀ n x y, env.cloneBranch n x y = none)
    (henv : ∀ n name, ∃ b, env.checkEnvironmentExist n name = .ok b)
    (hcreate : ∀ n x, env.createEnvironmentIntoRepository n x = none)
    (hvars : ∀ n name, ∃ b, env.checkVariablesIntoEnvironment n name = .ok b)
    (hcv : ∀ n x ps, env.createVariablesIntoEnvironment n x ps = none)
    (huv : ∀ n x ps, env.updateVariablesIntoEnvironment n x ps = none)
    (hrun : ∀ n, env.runPipeline n stand.Name = .ok pid)
    (hjobs : ∀ n, env.getJobsFromPipeline n pid = .ok [a, b, c])
    (hj : [a.Stage, b.Stage, c.Stage].Perm ["terraform", "ansible", "helm"])
    (hjson : env.unmarshal stand.Products = .ok products)
    (hst : w.stands.filter (fun s => s.Name == stand.Name) = [stand])
    (hnopl : ∀ q ∈ w.pipelines, q.StandID ≠ stand.ID ∧ q.Name ≠ stand.Name)
    (hfk : ∀ s ∈ w.steps, ∃ q ∈ w.pipelines, q.ID = s.PipelineID) :
    (ProcessCreatingStand env w stand).2 = .returned none ∧
      SameTables
        { w with
          txFailed := false,
          pipelines := w.pipelines ++
            [{ ID := nextID (w.pipelines.map (·.ID)), Name := stand.Name, StandID := stand.ID,
               Status := "pending", GitlabPipelineID := pid }],
          steps := w.steps ++
            [ { ID := nextID (w.steps.map (·.ID)), Name := "Creating vm",
                Description := "Initial creation step", Order := 1,
                PipelineID := nextID (w.pipelines.map (·.ID)), Status := "pending" },
              { ID := nextID (w.steps.map (·.ID)) + 1, Name := "Executing automation",
                Description := "Kubernetes installation", Order := 2,
                PipelineID := nextID (w.pipelines.map (·.ID)), Status := "pending" },
              { ID := nextID (w.steps.map (·.ID)) + 2, Name := "Executing helm",
                Description := "Running helm", Order := 3,
                PipelineID := nextID (w.pipelines.map (·.ID)), Status := "pending" } ],
          jobs := w.jobs ++ [a, b, c].enum.map (fun e =>
            { stampJob
                (if e.2.Stage = "terraform" then nextID (w.steps.map (·.ID))
                  else if e.2.Stage = "ansible" then nextID (w.steps.map (·.ID)) + 1
                  else nextID (w.steps.map (·.ID)) + 2) 0 e.2 with
              ID := nextID (w.jobs.map (·.ID)) + e.1 }) }
        (ProcessCreatingStand env w stand).1 := by
  unfold ProcessCreatingStand
  simp only []
  have t0 : SameTables { w with txFailed := false } w.begun := ⟨rfl, rfl, rfl, rfl, rfl, rfl, rfl⟩
  obtain ⟨e1, t1⟩ := ensureBranch_accepts env w.begun stand hbranch hclone
  rcases hx1 : ensureBranch env w.begun stand with ⟨w1, r1⟩
  rw [hx1] at e1 t1
  simp only at e1 t1
  subst e1
  simp only []
  obtain ⟨e2, t2⟩ := ensureEnvironment_accepts env w1 stand henv hcreate
  rcases hx2 : ensureEnvironment env w1 stand with ⟨w2, r2⟩
  rw [hx2] at e2 t2
  simp only at e2 t2
  subst e2
  simp only []
  have s2 : SameTables { w with txFailed := false } w2 := (t0.andAlso t1).andAlso t2
  obtain ⟨e3, t3⟩ := GetProductsFromStand_healthy env hdb w2 stand (by rw [s2.stands]; exact hst)
  rcases hx3 : GetProductsFromStand env w2 stand.Name with ⟨w3, r3⟩
  rw [hx3] at e3 t3
  simp only at e3 t3
  rw [hjson] at e3
  subst e3
  simp only []
  obtain ⟨e4, t4⟩ := ensureVariables_accepts env w3 stand products hvars hcv huv
  rcases hx4 : ensureVariables env w3 stand products with ⟨w4, r4⟩
  rw [hx4] at e4 t4
  simp only at e4 t4
  subst e4
  simp only []
  have s4 : SameTables { w with txFailed := false } w4 := (s2.andAlso t3).andAlso t4
  have hp4 : w4.pipelines = w.pipelines := s4.pipelines
  have hs4 : w4.steps = w.steps := s4.steps
  have hj4 : w4.jobs = w.jobs := s4.jobs
  obtain ⟨e5, t5⟩ := createPipelineAndJobs_healthy env hdb w.begun w4 stand pid a b c hrun hjobs hj
    (by rw [s4.stands]; exact hst) (by rw [hp4]; exact hnopl) (by rw [hp4, hs4]; exact hfk)
    s4.txFailed
  refine ⟨e5, ⟨?_, ?_, ?_, ?_, ?_, ?_, ?_⟩⟩
  · exact t5.stands.trans s4.stands
  · rw [t5.pipelines]
    simp only [hp4]
  · rw [t5.steps]
    simp only [hp4, hs4]
  · rw [t5.jobs]
    simp only [hs4, hj4]
  · exact t5.stepStates.trans s4.stepStates
  · exact t5.activeStands.trans s4.activeStands
  · exact t5.txFailed.trans s4.txFailed

theorem createdTask_advances (env : Env) (hdb : ∀ n, env.dbFails n = false) (w w1 : World)
    (stand : Stand)
    (h : ProcessCreatingStand env
      { w with activeStands := activeStore w.activeStands stand.Name } stand =
      (w1, .returned none))
    (htx : w1.txFailed = false) :
    (createdTask env w stand).2 = false ∧
    (createdTask env w stand).1.stands = setStandStatus stand.ID StatusPending w1.stands ∧
    (createdTask env w stand).1.pipelines = w1.pipelines ∧
    (createdTask env w stand).1.steps = w1.steps ∧
    (createdTask env w stand).1.jobs = w1.jobs := by
  unfold createdTask
  simp only [h, hdb, Bool.false_eq_true, if_false, World.commitDropped, World.issue, htx,
    Bool.or_self]
  refine ⟨?_, ?_, ?_, ?_, ?_⟩ <;> trivial

theorem CheckCreatedStands_single (env : Env) (hdb : ∀ n, env.dbFails n = false) (w : World)
    (stand : Stand)
    (hcreated : w.stands.filter (fun s => s.Status == "created") = [stand])
    (hactive : stand.Name ∉ w.activeStands)
    (h : (createdTask env (w.issue (.findStands "created")) stand).2 = false) :
    CheckCreatedStands env w =
      ((createdTask env (w.issue (.findStands "created")) stand).1, .returned none) := by
  unfold CheckCreatedStands
  have hc : (w.issue (.findStands "created")).stands.filter (fun s => s.Status == "created") =
      [stand] := hcreated
  have ha : stand.Name ∉ (w.issue (.findStands "created")).activeStands := hactive
  simp only [hdb, Bool.false_eq_true, if_false, hc, List.length_singleton, one_ne_zero,
    createdTasks, ha]
  rcases hx : createdTask env (w.issue (.findStands "created")) stand with ⟨w2, r2⟩
  rw [hx] at h
  simp only at h
  subst h
  rfl

/-- C16 (amended): the store performs every operation, every provider call
succeeds, the provider gives the pipeline run the identifier `pid` and reports
three jobs for it, one in each of the stages terraform, ansible and helm; the
stand is the only created stand, is not in the active set and has no pipeline
yet; every step row references a pipeline row and every job row a step row.
Then `CheckCreatedStands` returns and leaves the stand `pending` with exactly
one pipeline, which carries `pid`, exactly three pending steps of orders 1, 2
and 3 under that pipeline and exactly three jobs under those steps, the
provider's jobs, each with `Order` 1 and bound to the step of its stage. -/
theorem CheckCreatedStands_provisions (env : Env) (w : World) (stand : Stand) (pid : Int)
    (a b c : Job) (products : List String)
    (hdb : ∀ n, env.dbFails n = false)
    (hbranch : ∀ n name, ∃ b, env.checkBranchExist n name = .ok b)
    (hclone : ∀ n x y, env.cloneBranch n x y = none)
    (henv : ∀ n name, ∃ b, env.checkEnvironmentExist n name = .ok b)
    (hcreate : ∀ n x, env.createEnvironmentIntoRepository n x = none)
    (hvars : ∀ n name, ∃ b, env.checkVariablesIntoEnvironment n name = .ok b)
    (hcv : ∀ n x ps, env.createVariablesIntoEnvironment n x ps = none)
    (huv : ∀ n x ps, env.updateVariablesIntoEnvironment n x ps = none)
    (hrun : ∀ n, env.runPipeline n stand.Name = .ok pid)
    (hjobs : ∀ n, env.getJobsFromPipeline n pid = .ok [a, b, c])
    (hj : [a.Stage, b.Stage, c.Stage].Perm ["terraform", "ansible", "helm"])
    (hjson : env.unmarshal stand.Products = .ok products)
    (hcreated : w.stands.filter (fun s => s.Status == "created") = [stand])
    (hname : ∀ s ∈ w.stands, s.Name = stand.Name → s = stand)
    (hactive : stand.Name ∉ w.activeStands)
    (hnopl : ∀ q ∈ w.pipelines, q.StandID ≠ stand.ID ∧ q.Name ≠ stand.Name)
    (hfk : (∀ s ∈ w.steps, ∃ q ∈ w.pipelines, q.ID = s.PipelineID) ∧
      ∀ j ∈ w.jobs, ∃ s ∈ w.steps, s.ID = j.StepID) :
    ∃ w' P S1 S2 S3 R1 R2 R3, CheckCreatedStands env w = (w', .returned none) ∧
      (w'.stands = setStandStatus stand.ID StatusPending w.stands ∧
        { stand with Status := StatusPending } ∈ w'.stands) ∧
      (w'.pipelines = w.pipelines ++ [P] ∧
        w'.pipelines.filter (fun q => q.StandID == stand.ID) = [P] ∧
        P.Name = stand.Name ∧ P.StandID = stand.ID ∧ P.Status = StatusPending ∧
        P.GitlabPipelineID = pid) ∧
      (w'.steps = w.steps ++ [S1, S2, S3] ∧
        w'.steps.filter (fun s => s.PipelineID == P.ID) = [S1, S2, S3] ∧
        (S1.Order = 1 ∧ S2.Order = 2 ∧ S3.Order = 3) ∧
        ∀ s ∈ [S1, S2, S3], s.Status = StatusPending ∧ s.PipelineID = P.ID) ∧
      (w'.jobs = w.jobs ++ [R1, R2, R3] ∧
        w'.jobs.filter (fun j => j.StepID == S1.ID || j.StepID == S2.ID || j.StepID == S3.ID) =
          [R1, R2, R3] ∧
        [R1, R2, R3].map (fun r => (r.Name, r.Stage, r.GitlabJobID, r.Status)) =
          [a, b, c].map (fun j => (j.Name, j.Stage, toInt64 j.ID, j.Status)) ∧
        ∀ r ∈ [R1, R2, R3], r.Order = 1 ∧
          ∃ s ∈ [S1, S2, S3], r.StepID = s.ID ∧ s.Order = stageOrderMap r.Stage) := by
  obtain ⟨hfk1, hfk2⟩ := hfk
  have hmem : stand ∈ w.stands := by
    have : stand ∈ w.stands.filter (fun s => s.Status == "created") := by rw [hcreated]; simp
    exact (List.mem_filter.mp this).1
  have hstatus : stand.Status = "created" := by
    have : stand ∈ w.stands.filter (fun s => s.Status == "created") := by rw [hcreated]; simp
    simpa using (List.mem_filter.mp this).2
  have hst : w.stands.filter (fun s => s.Name == stand.Name) = [stand] := by
    rw [← hcreated]
    apply List.filter_congr
    intro s hs
    by_cases h1 : s.Name = stand.Name
    · rw [hname s hs h1]; simp [hstatus]
    · have h2 : s.Status ≠ "created" := by
        intro h
        have : s ∈ w.stands.filter (fun s => s.Status == "created") :=
          List.mem_filter.mpr ⟨hs, by simp [h]⟩
        rw [hcreated] at this
        exact h1 (by rw [List.mem_singleton.mp this])
      simp [h1, h2]
  -- the run of the one task
  obtain ⟨e1, t1⟩ := ProcessCreatingStand_healthy env hdb
    { w.issue (.findStands "created") with
      activeStands := activeStore (w.issue (.findStands "created")).activeStands stand.Name }
    stand pid a b c products hbranch hclone henv hcreate hvars hcv huv hrun hjobs hj hjson hst
    hnopl hfk1
  rcases hx : ProcessCreatingStand env
    { w.issue (.findStands "created") with
      activeStands := activeStore (w.issue (.findStands "created")).activeStands stand.Name }
    stand with ⟨w1, r1⟩
  rw [hx] at e1 t1
  simp only at e1 t1
  subst e1
  obtain ⟨e2, t2s, t2p, t2t, t2j⟩ := createdTask_advances env hdb
    (w.issue (.findStands "created")) w1 stand hx t1.txFailed
  have hrun1 := CheckCreatedStands_single env hdb w stand hcreated hactive e2
  generalize (createdTask env (w.issue (.findStands "created")) stand).1 = w4
    at hrun1 t2s t2p t2t t2j
  have hstands : w4.stands = setStandStatus stand.ID StatusPending w.stands := by
    rw [t2s, t1.stands]
    rfl
  have hfreshp : ∀ q ∈ w.pipelines, q.ID ≠ nextID (w.pipelines.map (·.ID)) := fun q hq =>
    Nat.ne_of_lt (lt_nextID _ _ (List.mem_map_of_mem _ hq))
  have hfreshs : ∀ s ∈ w.steps, s.ID < nextID (w.steps.map (·.ID)) := fun s hs =>
    lt_nextID _ _ (List.mem_map_of_mem _ hs)
  have hP : w4.pipelines = w.pipelines ++
      [{ ID := nextID (w.pipelines.map (·.ID)), Name := stand.Name, StandID := stand.ID,
         Status := "pending", GitlabPipelineID := pid }] := t2p.trans t1.pipelines
  have hS : w4.steps = w.steps ++
      [ { ID := nextID (w.steps.map (·.ID)), Name := "Creating vm",
          Description := "Initial creation step", Order := 1,
          PipelineID := nextID (w.pipelines.map (·.ID)), Status := "pending" },
        { ID := nextID (w.steps.map (·.ID)) + 1, Name := "Executing automation",
          Description := "Kubernetes installation", Order := 2,
          PipelineID := nextID (w.pipelines.map (·.ID)), Status := "pending" },
        { ID := nextID (w.steps.map (·.ID)) + 2, Name := "Executing helm",
          Description := "Running helm", Order := 3,
          PipelineID := nextID (w.pipelines.map (·.ID)), Status := "pending" } ] :=
    t2t.trans t1.steps
  have hR : w4.jobs = w.jobs ++
      [ { stampJob (if a.Stage = "terraform" then nextID (w.steps.map (·.ID))
            else if a.Stage = "ansible" then nextID (w.steps.map (·.ID)) + 1
            else nextID (w.steps.map (·.ID)) + 2) 0 a with ID := nextID (w.jobs.map (·.ID)) },
        { stampJob (if b.Stage = "terraform" then nextID (w.steps.map (·.ID))
            else if b.Stage = "ansible" then nextID (w.steps.map (·.ID)) + 1
            else nextID (w.steps.map (·.ID)) + 2) 0 b with
          ID := nextID (w.jobs.map (·.ID)) + 1 },
        { stampJob (if c.Stage = "terraform" then nextID (w.steps.map (·.ID))
            else if c.Stage = "ansible" then nextID (w.steps.map (·.ID)) + 1
            else nextID (w.steps.map (·.ID)) + 2) 0 c with
          ID := nextID (w.jobs.map (·.ID)) + 2 } ] := by
    rw [t2j.trans t1.jobs]
    simp [List.enum, List.enumFrom, World.issue]
  -- the stage of each provider job
  have hnd : [a.Stage, b.Stage, c.Stage].Nodup := hj.nodup_iff.mpr (by decide)
  have ha : a.Stage ∈ ["terraform", "ansible", "helm"] := hj.mem_iff.mp (by simp)
  have hb : b.Stage ∈ ["terraform", "ansible", "helm"] := hj.mem_iff.mp (by simp)
  have hc : c.Stage ∈ ["terraform", "ansible", "helm"] := hj.mem_iff.mp (by simp)
  simp only [List.mem_cons, List.mem_singleton, List.not_mem_nil, or_false] at ha hb hc
  refine ⟨w4, _, _, _, _, _, _, _, hrun1, ⟨hstands, ?_⟩, ⟨hP, ?_, rfl, rfl, rfl, rfl⟩,
    ⟨hS, ?_, ⟨rfl, rfl, rfl⟩, ?_⟩, ⟨hR, ?_, ?_, ?_⟩⟩
  · rw [hstands]
    refine List.mem_map.mpr ⟨stand, hmem, ?_⟩
    simp
  · rw [hP, List.filter_append]
    have : w.pipelines.filter (fun q => q.StandID == stand.ID) = [] := by
      rw [List.filter_eq_nil_iff]
      intro q hq
      simpa using (hnopl q hq).1
    rw [this]
    simp
  · rw [hS, List.filter_append]
    have : w.steps.filter (fun s => s.PipelineID == nextID (w.pipelines.map (·.ID))) = [] := by
      rw [List.filter_eq_nil_iff]
      intro s hs
      obtain ⟨q, hq, hqs⟩ := hfk1 s hs
      have := hfreshp q hq
      simpa [← hqs] using this
    rw [this]
    simp
  · intro s hs
    simp only [List.mem_cons, List.mem_singleton, List.not_mem_nil, or_false] at hs
    rcases hs with rfl | rfl | rfl <;> exact ⟨rfl, rfl⟩
  · rw [hR, List.filter_append]
    have : w.jobs.filter (fun j => j.StepID == nextID (w.steps.map (·.ID)) ||
        j.StepID == nextID (w.steps.map (·.ID)) + 1 ||
        j.StepID == nextID (w.steps.map (·.ID)) + 2) = [] := by
      rw [List.filter_eq_nil_iff]
      intro j hj'
      obtain ⟨s, hs, hsj⟩ := hfk2 j hj'
      have := hfreshs s hs
      simp only [Bool.or_eq_true, beq_iff_eq, not_or]
      omega
    rw [this]
    rcases ha with ha | ha | ha <;> rcases hb with hb | hb | hb <;>
      rcases hc with hc | hc | hc <;> simp [stampJob, ha, hb, hc]
  · simp [stampJob]
  · intro r hr
    simp only [List.mem_cons, List.mem_singleton, List.not_mem_nil, or_false] at hr
    rcases hr with rfl | rfl | rfl
    · rcases ha with ha | ha | ha <;> simp [stampJob, ha, stageOrderMap]
    · rcases hb with hb | hb | hb <;> simp [stampJob, hb, stageOrderMap]
    · rcases hc with hc | hc | hc <;> simp [stampJob, hc, stageOrderMap]

/-- C16, the witness: the created stand of the example, alone in the store,
with a provider that reports nothing to exist yet. -/
theorem CheckCreatedStands_provisions_witness :
    ∃ w' P S1 S2 S3 R1 R2 R3,
      CheckCreatedStands (provisioner false (fun _ => false)) createdStore =
        (w', .returned none) ∧
      (w'.stands = setStandStatus createdStand.ID StatusPending createdStore.stands ∧
        { createdStand with Status := StatusPending } ∈ w'.stands) ∧
      (w'.pipelines = createdStore.pipelines ++ [P] ∧
        w'.pipelines.filter (fun q => q.StandID == createdStand.ID) = [P] ∧
        P.Name = createdStand.Name ∧ P.StandID = createdStand.ID ∧ P.Status = StatusPending ∧
        P.GitlabPipelineID = 900) ∧
      (w'.steps = createdStore.steps ++ [S1, S2, S3] ∧
        w'.steps.filter (fun s => s.PipelineID == P.ID) = [S1, S2, S3] ∧
        (S1.Order = 1 ∧ S2.Order = 2 ∧ S3.Order = 3) ∧
        ∀ s ∈ [S1, S2, S3], s.Status = StatusPending ∧ s.PipelineID = P.ID) ∧
      (w'.jobs = createdStore.jobs ++ [R1, R2, R3] ∧
        w'.jobs.filter (fun j => j.StepID == S1.ID || j.StepID == S2.ID || j.StepID == S3.ID) =
          [R1, R2, R3] ∧
        [R1, R2, R3].map (fun r => (r.Name, r.Stage, r.GitlabJobID, r.Status)) =
          reportedJobs.map (fun j => (j.Name, j.Stage, toInt64 j.ID, j.Status)) ∧
        ∀ r ∈ [R1, R2, R3], r.Order = 1 ∧
          ∃ s ∈ [S1, S2, S3], r.StepID = s.ID ∧ s.Order = stageOrderMap r.Stage) :=
  CheckCreatedStands_provisions (provisioner false (fun _ => false)) createdStore createdStand 900
    { ID := 501, Name := "[1-1]-vm", Stage := "terraform", Status := "manual" }
    { ID := 502, Name := "[1-1]-k8s", Stage := "ansible", Status := "manual" }
    { ID := 503, Name := "[1-1]-release", Stage := "helm", Status := "manual" }
    ["A", "B"] (fun _ => rfl) (fun _ _ => ⟨false, rfl⟩) (fun _ _ _ => rfl)
    (fun _ _ => ⟨false, rfl⟩) (fun _ _ => rfl) (fun _ _ => ⟨false, rfl⟩) (fun _ _ _ => rfl)
    (fun _ _ _ => rfl) (fun _ => rfl) (fun _ => rfl) (List.Perm.refl _) rfl rfl
    (by decide) (by decide) (by decide) (by decide)

/-- C16 as stated fails: every provider call succeeds, the store rejects the
lookup of the stand's products, and `CheckCreatedStands` leaves the stand
`created` with no pipeline, step or job. -/
theorem CheckCreatedStands_store_rejects :
    (CheckCreatedStands (provisioner false (fun n => n == 1)) createdStore).2 = .returned none ∧
    (CheckCreatedStands (provisioner false (fun n => n == 1)) createdStore).1.stands.map
      (·.Status) = ["created"] ∧
    (CheckCreatedStands (provisioner false (fun n => n == 1)) createdStore).1.pipelines = [] ∧
    (CheckCreatedStands (provisioner false (fun n => n == 1)) createdStore).1.steps = [] ∧
    (CheckCreatedStands (provisioner false (fun n => n == 1)) createdStore).1.jobs = [] ∧
    (CheckCreatedStands (provisioner false (fun n => n == 1)) createdStore).1.provisioning =
      [.checkBranchExist "stand-a", .cloneBranch "stand-a" "master",
        .checkEnvironmentExist "stand-a", .createEnvironmentIntoRepository "stand-a"] := by
  decide

/-! ## An error the created lane drops -/

/-- C15 at the failing input: the created stand of the example; every
provider call succeeds and the store rejects the bulk insert of the resolved
jobs, its eleventh operation.  `ProcessCreatingStand` drops that error,
`CheckCreatedStands` returns and the stand is `pending`, with no job stored. -/
theorem CheckCreatedStands_advances_without_jobs :
    ((CheckCreatedStands (provisioner false (fun n => n == 10)) createdStore).1.log.get? 10).map
      (fun op => op == DbOp.createJobs
        [ { Name := "[1-1]-vm", StepID := 1, GitlabJobID := 501, Stage := "terraform",
            Status := "manual", Order := 1 },
          { Name := "[1-1]-k8s", StepID := 2, GitlabJobID := 502, Stage := "ansible",
            Status := "manual", Order := 1 },
          { Name := "[1-1]-release", StepID := 3, GitlabJobID := 503, Stage := "helm",
            Status := "manual", Order := 1 } ]) = some true ∧
    (CheckCreatedStands (provisioner false (fun n => n == 10)) createdStore).2 =
      .returned none ∧
    (CheckCreatedStands (provisioner false (fun n => n == 10)) createdStore).1.stands.map
      (·.Status) = ["pending"] ∧
    (CheckCreatedStands (provisioner false (fun n => n == 10)) createdStore).1.jobs = [] := by
  decide

/-! ## A pending stand without a pending pipeline -/

/-- C30 (amended): for a stand that has no pipeline in status `pending`,
`processPendingStand` issues the pipeline query and nothing else: no row of
any table is written, no provider call is made, the cache and the active set
are as before; it returns no error exactly when the store performs the query,
and the error of the query otherwise. -/
theorem processPendingStand_no_pending_pipeline (polls : Nat) (env : Env) (w : World)
    (stand : Stand) (hnone : pendingPipelines w stand.ID = []) :
    ∃ r, processPendingStand polls env w stand = some (w.issue (.findPipelines stand.ID), r) ∧
      (r = none ↔ env.dbFails w.log.length = false) ∧
      (w.issue (.findPipelines stand.ID)).stands = w.stands ∧
      (w.issue (.findPipelines stand.ID)).pipelines = w.pipelines ∧
      (w.issue (.findPipelines stand.ID)).steps = w.steps ∧
      (w.issue (.findPipelines stand.ID)).jobs = w.jobs ∧
      (w.issue (.findPipelines stand.ID)).stepStates = w.stepStates ∧
      (w.issue (.findPipelines stand.ID)).calls = w.calls ∧
      (w.issue (.findPipelines stand.ID)).log = w.log ++ [.findPipelines stand.ID] := by
  have hp : pendingPipelines (w.issue (.findPipelines stand.ID)) stand.ID = [] := by
    rw [pendingPipelines_congr w (w.issue (.findPipelines stand.ID)) _ rfl]; exact hnone
  by_cases hdb : env.dbFails w.log.length = true
  · refine ⟨some "pipeline query failed", ?_, ?_, rfl, rfl, rfl, rfl, rfl, rfl, rfl⟩
    · simp [processPendingStand, hdb]
    · simp [hdb]
  · refine ⟨none, ?_, ?_, rfl, rfl, rfl, rfl, rfl, rfl, rfl⟩
    · simp [processPendingStand, hdb, hp]
    · simpa using hdb

/-- C30, the witness: the stand of `idleStore`, whose only pipeline is
`success`, under a cooperative environment. -/
theorem processPendingStand_no_pending_pipeline_witness :
    pendingPipelines idleStore standA.ID = [] ∧
    ∃ r, processPendingStand 1 cooperative idleStore standA =
        some (idleStore.issue (.findPipelines standA.ID), r) ∧
      (r = none ↔ cooperative.dbFails idleStore.log.length = false) ∧
      (idleStore.issue (.findPipelines standA.ID)).stands = idleStore.stands ∧
      (idleStore.issue (.findPipelines standA.ID)).pipelines = idleStore.pipelines ∧
      (idleStore.issue (.findPipelines standA.ID)).steps = idleStore.steps ∧
      (idleStore.issue (.findPipelines standA.ID)).jobs = idleStore.jobs ∧
      (idleStore.issue (.findPipelines standA.ID)).stepStates = idleStore.stepStates ∧
      (idleStore.issue (.findPipelines standA.ID)).calls = idleStore.calls ∧
      (idleStore.issue (.findPipelines standA.ID)).log =
        idleStore.log ++ [.findPipelines standA.ID] :=
  ⟨by decide, processPendingStand_no_pending_pipeline 1 cooperative idleStore standA (by decide)⟩

/-- C30 as stated fails: the stand of `idleStore` has no pending pipeline, the
store rejects the pipeline query, and `processPendingStand` returns an error. -/
theorem processPendingStand_query_rejected :
    pendingPipelines idleStore standA.ID = [] ∧
    (processPendingStand 1 rejectsFirstOp idleStore standA).map
      (fun r => (r.2.isSome, r.1.stands.map (·.Status), r.1.calls)) =
      some (true, ["pending"], []) := by
  decide

/-! ## The store operations of a run -/

theorem Logged.nothing (P : DbOp → Prop) (w w' : World) (h : w'.log = w.log) : Logged P w w' :=
  ⟨[], by simp [h], fun _ h => by simp at h⟩

theorem Logged.thenAlso {P : DbOp → Prop} {w w' w'' : World} (h1 : Logged P w w')
    (h2 : Logged P w' w'') : Logged P w w'' := by
  obtain ⟨o1, e1, p1⟩ := h1
  obtain ⟨o2, e2, p2⟩ := h2
  refine ⟨o1 ++ o2, by rw [e2, e1, List.append_assoc], fun op hop => ?_⟩
  rcases List.mem_append.mp hop with h | h
  · exact p1 op h
  · exact p2 op h

theorem Logged.weaken {P Q : DbOp → Prop} {w w' : World} (h : Logged P w w')
    (hPQ : ∀ op, P op → Q op) : Logged Q w w' := by
  obtain ⟨o, e, p⟩ := h
  exact ⟨o, e, fun op hop => hPQ op (p op hop)⟩

theorem logged_issue (P : DbOp → Prop) (w w' : World) (op : DbOp) (hP : P op)
    (h : w'.log = (w.issue op).log) : Logged P w w' :=
  ⟨[op], by rw [h]; rfl, fun o ho => by
    rw [List.mem_singleton] at ho; rw [ho]; exact hP⟩

theorem UpdateJobStatus_logged (env : Env) (w : World) (status : String) (job : Job) :
    Logged (fun op => op.lower = true) w (UpdateJobStatus env w status job).1 := by
  refine logged_issue _ _ _ (.updateJobStatus job.ID status) rfl ?_
  unfold UpdateJobStatus
  by_cases h : env.dbFails w.log.length = true
  · rw [if_pos h]
  · rw [if_neg h]

theorem updateStartedAt_logged (env : Env) (w : World) (job : Job) :
    Logged (fun op => op.lower = true) w (updateStartedAt env w job).1 := by
  refine logged_issue _ _ _ (.updateJobStartedAt job.ID) rfl ?_
  unfold updateStartedAt
  by_cases h : env.dbFails w.log.length = true
  · rw [if_pos h]
  · rw [if_neg h]

theorem updateFinishedAt_logged (env : Env) (w : World) (job : Job) :
    Logged (fun op => op.lower = true) w (updateFinishedAt env w job).1 := by
  refine logged_issue _ _ _ (.updateJobFinishedAt job.ID) rfl ?_
  unfold updateFinishedAt
  by_cases h : env.dbFails w.log.length = true
  · rw [if_pos h]
  · rw [if_neg h]

theorem UpdateStepStatus_logged (env : Env) (w : World) (status : String) (step : Step) :
    Logged (fun op => op.lower = true) w (UpdateStepStatus env w status step).1 := by
  refine logged_issue _ _ _ (.updateStep step.ID status) rfl ?_
  unfold UpdateStepStatus
  by_cases h : env.dbFails w.log.length = true
  · rw [if_pos h]
  · rw [if_neg h]

theorem checkAndUpdateStatus_logged (env : Env) (w : World) (job : Job) (key : String) :
    Logged (fun op => op.lower = true) w (checkAndUpdateStatus env w job key).1 := by
  unfold checkAndUpdateStatus
  cases env.getJobStatus w.calls.length job.GitlabJobID with
  | error e => exact Logged.nothing _ _ _ rfl
  | ok status =>
    simp only
    by_cases hc : cacheLoad (w.called (.getJobStatus job.GitlabJobID)).jobStatuses key = some status
    · rw [if_pos hc]; exact Logged.nothing _ _ _ rfl
    · rw [if_neg hc]
      have hu := UpdateJobStatus_logged env (w.called (.getJobStatus job.GitlabJobID)) status job
      have h0 : Logged (fun op => op.lower = true) w (w.called (.getJobStatus job.GitlabJobID)) :=
        Logged.nothing _ _ _ rfl
      rcases hx : UpdateJobStatus env (w.called (.getJobStatus job.GitlabJobID)) status job
        with ⟨w2, r2⟩
      rw [hx] at hu
      cases r2 with
      | some e => exact h0.thenAlso hu
      | none =>
        simp only
        split
        · exact (h0.thenAlso hu).thenAlso (Logged.nothing _ _ _ rfl)
        · split
          · exact (h0.thenAlso hu).thenAlso (Logged.nothing _ _ _ rfl)
          · exact (h0.thenAlso hu).thenAlso (Logged.nothing _ _ _ rfl)

theorem monitorJobStatus_logged (env : Env) (job : Job) :
    ∀ (polls : Nat) (w w' : World) (r : Option String),
      monitorJobStatus polls env w job = some (w', r) →
      Logged (fun op => op.lower = true) w w' := by
  intro polls
  induction polls with
  | zero => intro w w' r h; simp [monitorJobStatus] at h
  | succ n ih =>
    intro w w' r h
    rw [monitorJobStatus] at h
    have hc := checkAndUpdateStatus_logged env w job (jobKey job)
    rcases hx : checkAndUpdateStatus env w job (jobKey job) with ⟨w1, fin, err⟩
    rw [hx] at h hc
    cases err with
    | some e =>
      simp only [Option.some.injEq, Prod.mk.injEq] at h
      rw [← h.1]; exact hc
    | none =>
      cases fin with
      | true =>
        simp only [Option.some.injEq, Prod.mk.injEq] at h
        rw [← h.1]; exact hc
      | false =>
        simp only at h
        exact hc.thenAlso (ih w1 w' r h)

theorem triggerJob_logged (env : Env) (w : World) (job : Job) :
    Logged (fun op => op.lower = true) w (triggerJob env w job).1 := by
  unfold triggerJob
  by_cases hs : job.StartedAt = none
  · rw [if_pos hs]
    simp only
    cases env.runJob w.calls.length job.GitlabJobID with
    | some e => exact Logged.nothing _ _ _ rfl
    | none =>
      exact (Logged.nothing _ w (w.called (.runJob job.GitlabJobID)) rfl).thenAlso
        (updateStartedAt_logged env _ job)
  · rw [if_neg hs]; exact Logged.nothing _ _ _ rfl

theorem processJob_logged (polls : Nat) (env : Env) (w w' : World) (job : Job)
    (r : Option String) (h : processJob polls env w job = some (w', r)) :
    Logged (fun op => op.lower = true) w w' := by
  unfold processJob at h
  have ht := triggerJob_logged env w job
  rcases hx : triggerJob env w job with ⟨w1, r1⟩
  rw [hx] at h ht
  cases r1 with
  | some e =>
    simp only [Option.some.injEq, Prod.mk.injEq] at h
    rw [← h.1]; exact ht
  | none =>
    simp only at h
    cases hm : monitorJobStatus polls env w1 job with
    | none => rw [hm] at h; simp at h
    | some res =>
      obtain ⟨w2, r2⟩ := res
      rw [hm] at h
      have h2 := monitorJobStatus_logged env job polls w1 w2 r2 hm
      cases r2 with
      | some e =>
        simp only [Option.some.injEq, Prod.mk.injEq] at h
        rw [← h.1]; exact ht.thenAlso h2
      | none =>
        simp only [Option.some.injEq] at h
        have h3 := updateFinishedAt_logged env w2 job
        rw [h] at h3
        exact (ht.thenAlso h2).thenAlso h3

theorem processManualJobs_logged (polls : Nat) (env : Env) (step : Step) :
    ∀ (jobs : List Job) (w w' : World) (r : Option String),
      processManualJobs polls env step w jobs = some (w', r) →
      Logged (fun op => op.lower = true) w w' := by
  intro jobs
  induction jobs with
  | nil =>
    intro w w' r h
    simp only [processManualJobs, Option.some.injEq, Prod.mk.injEq] at h
    rw [← h.1]; exact Logged.nothing _ _ _ rfl
  | cons j rest ih =>
    intro w w' r h
    rw [processManualJobs] at h
    by_cases hm : j.Status = StatusManual
    · rw [if_pos hm] at h
      cases hp : processJob polls env w j with
      | none => rw [hp] at h; simp at h
      | some res =>
        obtain ⟨w1, r1⟩ := res
        rw [hp] at h
        have h1 := processJob_logged polls env w w1 j r1 hp
        cases r1 with
        | some e =>
          simp only at h
          have h2 := UpdateStepStatus_logged env w1 StatusError step
          rcases hx : UpdateStepStatus env w1 StatusError step with ⟨w2, r2⟩
          rw [hx] at h h2
          cases r2 <;>
          · simp only [Option.some.injEq, Prod.mk.injEq] at h
            rw [← h.1]; exact h1.thenAlso h2
        | none => exact h1.thenAlso (ih w1 w' r h)
    · rw [if_neg hm] at h
      exact ih w w' r h

theorem processStep_logged (polls : Nat) (env : Env) (w w' : World) (step : Step)
    (r : Option String) (h : processStep polls env w step = some (w', r)) :
    Logged (fun op => op.lower = true) w w' := by
  have h0 : Logged (fun op => op.lower = true) w (w.issue (.findJobs step.ID)) :=
    logged_issue _ _ _ (.findJobs step.ID) rfl rfl
  rw [processStep] at h
  by_cases hdb : env.dbFails w.log.length = true
  · simp only [hdb, if_true, Option.some.injEq, Prod.mk.injEq] at h
    rw [← h.1]; exact h0
  · simp only [hdb, Bool.false_eq_true, if_false] at h
    split at h
    · have h2 := UpdateStepStatus_logged env (w.issue (.findJobs step.ID)) StatusError step
      rcases hx : UpdateStepStatus env (w.issue (.findJobs step.ID)) StatusError step
        with ⟨w2, r2⟩
      rw [hx] at h h2
      cases r2 <;>
      · simp only [Option.some.injEq, Prod.mk.injEq] at h
        rw [← h.1]; exact h0.thenAlso h2
    · have h2 := UpdateStepStatus_logged env (w.issue (.findJobs step.ID)) StatusRunning step
      rcases hx : UpdateStepStatus env (w.issue (.findJobs step.ID)) StatusRunning step
        with ⟨w2, r2⟩
      rw [hx] at h h2
      cases r2 with
      | some e =>
        simp only [Option.some.injEq, Prod.mk.injEq] at h
        rw [← h.1]; exact h0.thenAlso h2
      | none =>
        simp only at h
        have hloop : ∀ (res : Option (World × Option String)),
            (∀ w3 r3, res = some (w3, r3) → Logged (fun op => op.lower = true) w2 w3) →
            (match res with
              | none => none
              | some (w3, some e) => some (w3, some e)
              | some (w3, none) => some (UpdateStepStatus env w3 StatusSuccess step)) =
              some (w', r) →
            Logged (fun op => op.lower = true) w2 w' := by
          intro res hres hm
          cases res with
          | none => simp at hm
          | some p =>
            obtain ⟨w3, r3⟩ := p
            have h3 := hres w3 r3 rfl
            cases r3 with
            | some e =>
              simp only [Option.some.injEq, Prod.mk.injEq] at hm
              rw [← hm.1]; exact h3
            | none =>
              simp only [Option.some.injEq] at hm
              have h4 := UpdateStepStatus_logged env w3 StatusSuccess step
              rw [hm] at h4
              exact h3.thenAlso h4
        refine (h0.thenAlso h2).thenAlso (hloop _ ?_ h)
        intro w3 r3 hres
        split at hres
        · exact processManualJobs_logged polls env step _ w2 w3 r3 hres
        · simp only [Option.some.injEq, Prod.mk.injEq] at hres
          rw [← hres.1]; exact Logged.nothing _ _ _ rfl

theorem CreateStepNotify_logged (env : Env) (w : World) (step : Step) (status : String) :
    Logged (fun op => op.lower = true) w (CreateStepNotify env w step status).1 := by
  have h0 : Logged (fun op => op.lower = true) w (w.issue (.firstStep step.ID)) :=
    logged_issue _ _ _ (.firstStep step.ID) rfl rfl
  unfold CreateStepNotify
  by_cases hdb : env.dbFails w.log.length = true
  · simp only [hdb, if_true]; exact h0
  · simp only [hdb, Bool.false_eq_true, if_false]
    cases (w.issue (.firstStep step.ID)).steps.find? (fun s => s.ID == step.ID) with
    | none => exact h0
    | some row =>
      simp only
      refine h0.thenAlso ?_
      split
      · exact logged_issue _ _ _ (.createStepState _) rfl rfl
      · exact logged_issue _ _ _ (.createStepState _) rfl rfl

theorem UpdatePipelineStatus_logged (env : Env) (w : World) (status : String) (pl : Pipeline) :
    Logged (fun op => op.lower = true ∨ op.pipeline? = some pl.ID) w
      (UpdatePipelineStatus env w status pl).1 := by
  refine logged_issue _ _ _ (.updatePipeline pl.ID status) (Or.inr rfl) ?_
  unfold UpdatePipelineStatus
  by_cases h : env.dbFails w.log.length = true
  · rw [if_pos h]
  · rw [if_neg h]

theorem UpdatePipelineStatus_others (env : Env) (w : World) (status : String) (pl : Pipeline) :
    (UpdatePipelineStatus env w status pl).1.stands = w.stands ∧
    ∀ q ∈ w.pipelines, q.ID ≠ pl.ID → q ∈ (UpdatePipelineStatus env w status pl).1.pipelines := by
  unfold UpdatePipelineStatus
  by_cases h : env.dbFails w.log.length = true
  · rw [if_pos h]; exact ⟨rfl, fun q hq _ => hq⟩
  · rw [if_neg h]
    refine ⟨rfl, fun q hq hne => ?_⟩
    show q ∈ setPipelineStatus pl.ID status w.pipelines
    unfold setPipelineStatus
    exact List.mem_map.mpr ⟨q, hq, by rw [if_neg hne]⟩

theorem processSteps_logged (polls : Nat) (env : Env) (pl : Pipeline) :
    ∀ (steps : List Step) (w w' : World) (r : Option String),
      processSteps polls env pl w steps = some (w', r) →
      Logged (fun op => op.lower = true ∨ op.pipeline? = some pl.ID) w w' ∧
        w'.stands = w.stands ∧ ∀ q ∈ w.pipelines, q.ID ≠ pl.ID → q ∈ w'.pipelines := by
  intro steps
  induction steps with
  | nil =>
    intro w w' r h
    simp only [processSteps, Option.some.injEq, Prod.mk.injEq] at h
    rw [← h.1]; exact ⟨Logged.nothing _ _ _ rfl, rfl, fun q hq _ => hq⟩
  | cons s rest ih =>
    intro w w' r h
    rw [processSteps] at h
    cases hp : processStep polls env w s with
    | none => rw [hp] at h; simp at h
    | some res =>
      obtain ⟨w1, r1⟩ := res
      rw [hp] at h
      have h1 : Logged (fun op => op.lower = true ∨ op.pipeline? = some pl.ID) w w1 :=
        (processStep_logged polls env w w1 s r1 hp).weaken (fun _ h => Or.inl h)
      have hu1 := (processStep_within polls env w w1 s r1 hp).2
      cases r1 with
      | some e =>
        simp only at h
        have h2 := UpdatePipelineStatus_logged env w1 StatusError pl
        obtain ⟨hs2, hp2⟩ := UpdatePipelineStatus_others env w1 StatusError pl
        rcases hx : UpdatePipelineStatus env w1 StatusError pl with ⟨w2, r2⟩
        rw [hx] at h h2 hs2 hp2
        cases r2 with
        | some e2 =>
          simp only [Option.some.injEq, Prod.mk.injEq] at h
          rw [← h.1]
          exact ⟨h1.thenAlso h2, by rw [hs2, hu1.stands],
            fun q hq hne => hp2 q (by rw [hu1.pipelines]; exact hq) hne⟩
        | none =>
          simp only at h
          have h3 : Logged (fun op => op.lower = true ∨ op.pipeline? = some pl.ID) w2
              (CreateStepNotify env w2 s StatusError).1 :=
            (CreateStepNotify_logged env w2 s StatusError).weaken (fun _ h => Or.inl h)
          obtain ⟨-, hs3, hp3⟩ := CreateStepNotify_within (fun _ => True) (fun _ => True)
            (fun _ => True) env w2 s StatusError trivial
          rcases hy : CreateStepNotify env w2 s StatusError with ⟨w3, r3⟩
          rw [hy] at h h3 hs3 hp3
          have hfin : w' = w3 := by
            cases r3 <;>
            · simp only [Option.some.injEq, Prod.mk.injEq] at h
              exact h.1.symm
          rw [hfin]
          exact ⟨(h1.thenAlso h2).thenAlso h3, by rw [hs3, hs2, hu1.stands],
            fun q hq hne => by
              rw [hp3]; exact hp2 q (by rw [hu1.pipelines]; exact hq) hne⟩
      | none =>
        simp only at h
        have h3 : Logged (fun op => op.lower = true ∨ op.pipeline? = some pl.ID) w1
            (CreateStepNotify env w1 s StatusSuccess).1 :=
          (CreateStepNotify_logged env w1 s StatusSuccess).weaken (fun _ h => Or.inl h)
        obtain ⟨-, hs3, hp3⟩ := CreateStepNotify_within (fun _ => True) (fun _ => True)
          (fun _ => True) env w1 s StatusSuccess trivial
        rcases hy : CreateStepNotify env w1 s StatusSuccess with ⟨w3, r3⟩
        rw [hy] at h h3 hs3 hp3
        cases r3 with
        | some e3 =>
          simp only [Option.some.injEq, Prod.mk.injEq] at h
          rw [← h.1]
          exact ⟨h1.thenAlso h3, by rw [hs3, hu1.stands],
            fun q hq _ => by rw [hp3, hu1.pipelines]; exact hq⟩
        | none =>
          simp only at h
          obtain ⟨h4, hs4, hp4⟩ := ih w3 w' r h
          exact ⟨(h1.thenAlso h3).thenAlso h4, by rw [hs4, hs3, hu1.stands],
            fun q hq hne => hp4 q (by rw [hp3, hu1.pipelines]; exact hq) hne⟩

/-- The footprint of `processPendingPipeline` above the steps: whatever the
store and the provider answer, it leaves the stands alone, leaves the rows of
other pipelines as they are, and issues no operation on another pipeline. -/
theorem processPendingPipeline_footprint (polls : Nat) (env : Env) (w w' : World)
    (pl : Pipeline) (r : Option String)
    (h : processPendingPipeline polls env w pl = some (w', r)) :
    Logged (fun op => op.lower = true ∨ op.pipeline? = some pl.ID) w w' ∧
      w'.stands = w.stands ∧ ∀ q ∈ w.pipelines, q.ID ≠ pl.ID → q ∈ w'.pipelines := by
  have h0 : Logged (fun op => op.lower = true ∨ op.pipeline? = some pl.ID) w
      (w.issue (.findSteps pl.ID)) := logged_issue _ _ _ (.findSteps pl.ID) (Or.inr rfl) rfl
  rw [processPendingPipeline] at h
  by_cases hdb : env.dbFails w.log.length = true
  · simp only [hdb, if_true, Option.some.injEq, Prod.mk.injEq] at h
    rw [← h.1]; exact ⟨h0, rfl, fun q hq _ => hq⟩
  · simp only [hdb, Bool.false_eq_true, if_false] at h
    split at h
    · simp only [Option.some.injEq, Prod.mk.injEq] at h
      rw [← h.1]; exact ⟨h0, rfl, fun q hq _ => hq⟩
    · have h2 := UpdatePipelineStatus_logged env (w.issue (.findSteps pl.ID)) StatusRunning pl
      obtain ⟨hs2, hp2⟩ := UpdatePipelineStatus_others env (w.issue (.findSteps pl.ID))
        StatusRunning pl
      rcases hx : UpdatePipelineStatus env (w.issue (.findSteps pl.ID)) StatusRunning pl
        with ⟨w2, r2⟩
      rw [hx] at h h2 hs2 hp2
      cases r2 with
      | some e =>
        simp only [Option.some.injEq, Prod.mk.injEq] at h
        rw [← h.1]; exact ⟨h0.thenAlso h2, hs2, hp2⟩
      | none =>
        simp only at h
        cases hp : processSteps polls env pl w2 (pendingSteps (w.issue (.findSteps pl.ID)) pl.ID)
          with
        | none => rw [hp] at h; simp at h
        | some res =>
          obtain ⟨w3, r3⟩ := res
          rw [hp] at h
          obtain ⟨h3, hs3, hp3⟩ := processSteps_logged polls env pl _ w2 w3 r3 hp
          cases r3 with
          | some e =>
            simp only [Option.some.injEq, Prod.mk.injEq] at h
            rw [← h.1]
            exact ⟨(h0.thenAlso h2).thenAlso h3, by rw [hs3, hs2]; rfl,
              fun q hq hne => hp3 q (hp2 q hq hne) hne⟩
          | none =>
            simp only [Option.some.injEq] at h
            have h4 := UpdatePipelineStatus_logged env w3 StatusSuccess pl
            obtain ⟨hs4, hp4⟩ := UpdatePipelineStatus_others env w3 StatusSuccess pl
            rw [h] at h4 hs4 hp4
            exact ⟨((h0.thenAlso h2).thenAlso h3).thenAlso h4, by rw [hs4, hs3, hs2]; rfl,
              fun q hq hne => hp4 q (hp3 q (hp2 q hq hne) hne) hne⟩

/-! ## The outcome of a stand -/

theorem processPipelines_append (polls : Nat) (env : Env) (stand : Stand) :
    ∀ (pre rest : List Pipeline) (w : World),
      processPipelines polls env stand w (pre ++ rest) =
        match processPipelines polls env stand w pre with
        | some (wa, none) => processPipelines polls env stand wa rest
        | other => other := by
  intro pre
  induction pre with
  | nil => intro rest w; simp [processPipelines]
  | cons p pre ih =>
    intro rest w
    rw [List.cons_append, processPipelines, processPipelines]
    cases processPendingPipeline polls env w p with
    | none => rfl
    | some res =>
      obtain ⟨w1, r1⟩ := res
      cases r1 with
      | some e =>
        simp only
        rcases UpdateStandStatus env w1 StatusError stand with ⟨w2, r2⟩
        cases r2 <;> rfl
      | none => exact ih rest w1

theorem pendingPipelines_ids_nodup (w : World) (standID : Nat)
    (h : (w.pipelines.map (·.ID)).Nodup) : ((pendingPipelines w standID).map (·.ID)).Nodup :=
  h.sublist ((List.filter_sublist _).map _)

/-- The pipeline loop of `processPendingStand` with a store that performs
every operation: it ends without error when every pipeline did, and at the
first pipeline that failed otherwise, the stand then being set to `error`; it
leaves alone the pipelines it did not reach. -/
theorem processPipelines_outcome (polls : Nat) (env : Env) (hdb : ∀ n, env.dbFails n = false)
    (stand : Stand) :
    ∀ (l : List Pipeline) (w w' : World) (r : Option String),
      processPipelines polls env stand w l = some (w', r) →
      Logged (fun op => op.lower = true ∨ (∃ p ∈ l, op.pipeline? = some p.ID) ∨
        op = .updateStand stand.ID StatusError) w w' ∧
      (r = none → w'.stands = w.stands ∧
        ∀ pre p post, l = pre ++ p :: post →
          ∃ wa wb, processPipelines polls env stand w pre = some (wa, none) ∧
            processPendingPipeline polls env wa p = some (wb, none)) ∧
      (r ≠ none → w'.stands = setStandStatus stand.ID StatusError w.stands ∧
        ∃ pre p post wa wb e, l = pre ++ p :: post ∧
          processPipelines polls env stand w pre = some (wa, none) ∧
          processPendingPipeline polls env wa p = some (wb, some e) ∧
          Logged (fun op => op.lower = true ∨ (∃ p' ∈ pre ++ [p], op.pipeline? = some p'.ID) ∨
            op = .updateStand stand.ID StatusError) w w' ∧
          ∀ q ∈ w.pipelines, (∀ p' ∈ pre ++ [p], q.ID ≠ p'.ID) → q ∈ w'.pipelines) := by
  intro l
  induction l with
  | nil =>
    intro w w' r h
    simp only [processPipelines, Option.some.injEq, Prod.mk.injEq] at h
    obtain ⟨rfl, rfl⟩ := h
    refine ⟨Logged.nothing _ _ _ rfl, fun _ => ⟨rfl, ?_⟩, fun h => absurd rfl h⟩
    intro pre p post hl
    exact absurd hl (by simp)
  | cons p rest ih =>
    intro w w' r h
    rw [processPipelines] at h
    cases hp : processPendingPipeline polls env w p with
    | none => rw [hp] at h; simp at h
    | some res =>
      obtain ⟨w1, r1⟩ := res
      rw [hp] at h
      obtain ⟨hl1, hs1, hq1⟩ := processPendingPipeline_footprint polls env w w1 p r1 hp
      cases r1 with
      | some e =>
        simp only at h
        obtain ⟨he, hst, hpl, -⟩ := UpdateStandStatus_healthy env hdb w1 StatusError stand
        have hlog : Logged (fun op => op = DbOp.updateStand stand.ID StatusError) w1
            (UpdateStandStatus env w1 StatusError stand).1 := by
          refine logged_issue _ _ _ (.updateStand stand.ID StatusError) rfl ?_
          unfold UpdateStandStatus
          rw [hdb]; rfl
        rw [he] at h
        simp only [Option.some.injEq, Prod.mk.injEq] at h
        obtain ⟨rfl, rfl⟩ := h
        have hL : Logged (fun op => op.lower = true ∨ (∃ p' ∈ [] ++ [p], op.pipeline? = some p'.ID) ∨
            op = .updateStand stand.ID StatusError) w
            (UpdateStandStatus env w1 StatusError stand).1 :=
          (hl1.weaken (fun op ho => by
            rcases ho with ho | ho
            · exact Or.inl ho
            · exact Or.inr (Or.inl ⟨p, by simp, ho⟩))).thenAlso
            (hlog.weaken (fun op ho => Or.inr (Or.inr ho)))
        refine ⟨hL.weaken (fun op ho => ?_), fun h => by simp at h, fun _ => ⟨?_, ?_⟩⟩
        · rcases ho with ho | ⟨p', hp', ho⟩ | ho
          · exact Or.inl ho
          · simp only [List.nil_append, List.mem_singleton] at hp'
            exact Or.inr (Or.inl ⟨p, List.mem_cons_self _ _, by rw [← hp']; exact ho⟩)
          · exact Or.inr (Or.inr ho)
        · rw [hst, hs1]
        · refine ⟨[], p, rest, w, w1, e, rfl, by simp [processPipelines], hp, hL, ?_⟩
          intro q hq hne
          rw [hpl]
          exact hq1 q hq (hne p (by simp))
      | none =>
        simp only at h
        obtain ⟨hl2, hok, herr⟩ := ih w1 w' r h
        have hL1 : ∀ (m : List Pipeline), p ∈ m →
            Logged (fun op => op.lower = true ∨ (∃ p' ∈ m, op.pipeline? = some p'.ID) ∨
              op = .updateStand stand.ID StatusError) w w1 := fun m hm =>
          hl1.weaken (fun op ho => by
            rcases ho with ho | ho
            · exact Or.inl ho
            · exact Or.inr (Or.inl ⟨p, hm, ho⟩))
        refine ⟨(hL1 _ (List.mem_cons_self _ _)).thenAlso (hl2.weaken (fun op ho => ?_)),
          fun hr => ?_, fun hr => ?_⟩
        · rcases ho with ho | ⟨p', hp', ho⟩ | ho
          · exact Or.inl ho
          · exact Or.inr (Or.inl ⟨p', List.mem_cons_of_mem _ hp', ho⟩)
          · exact Or.inr (Or.inr ho)
        · obtain ⟨h3, h4⟩ := hok hr
          refine ⟨by rw [h3, hs1], ?_⟩
          intro pre p0 post hl
          cases pre with
          | nil =>
            simp only [List.nil_append, List.cons.injEq] at hl
            obtain ⟨rfl, -⟩ := hl
            exact ⟨w, w1, by simp [processPipelines], hp⟩
          | cons a pre' =>
            simp only [List.cons_append, List.cons.injEq] at hl
            obtain ⟨rfl, hl'⟩ := hl
            obtain ⟨wa, wb, h5, h6⟩ := h4 pre' p0 post hl'
            exact ⟨wa, wb, by rw [processPipelines, hp]; exact h5, h6⟩
        · obtain ⟨h3, pre, p0, post, wa, wb, e, h5, h6, h7, h8, h9⟩ := herr hr
          refine ⟨by rw [h3, hs1], p :: pre, p0, post, wa, wb, e, by rw [h5]; rfl,
            by rw [processPipelines, hp]; exact h6, h7, ?_, ?_⟩
          · refine (hL1 _ (List.mem_cons_self _ _)).thenAlso (h8.weaken (fun op ho => ?_))
            rcases ho with ho | ⟨p', hp', ho⟩ | ho
            · exact Or.inl ho
            · exact Or.inr (Or.inl ⟨p', List.mem_cons_of_mem _ hp', ho⟩)
            · exact Or.inr (Or.inr ho)
          · intro q hq hne
            exact h9 q (hq1 q hq (hne p (List.mem_cons_self _ _)))
              (fun p' hp' => hne p' (List.mem_cons_of_mem _ hp'))

/-- C21 (amended): a stand with at least one pending pipeline, a store that
performs every operation and primary keys that are unique.  When
`processPendingStand` returns, its first write was the stand's `running`
status.  If it returns no error, the processing of every pending pipeline
returned without error and the stand is `success`.  If it returns an error,
the pipelines before some pending pipeline returned without error, that
pipeline failed, the stand is `error`, and every later pending pipeline is the
same row as before, no store operation having addressed it. -/
theorem processPendingStand_outcome (polls : Nat) (env : Env) (w w' : World) (stand : Stand)
    (r : Option String) (hdb : ∀ n, env.dbFails n = false)
    (hkeys : (w.pipelines.map (·.ID)).Nodup)
    (hne : pendingPipelines w stand.ID ≠ [])
    (h : processPendingStand polls env w stand = some (w', r)) :
    ∃ w2 ops,
      UpdateStandStatus env (w.issue (.findPipelines stand.ID)) StatusRunning stand = (w2, none) ∧
      w2.stands = setStandStatus stand.ID StatusRunning w.stands ∧
      w'.log = w.log ++ [.findPipelines stand.ID, .updateStand stand.ID StatusRunning] ++ ops ∧
      (r = none →
        w'.stands = setStandStatus stand.ID StatusSuccess w.stands ∧
        ∀ pre p post, pendingPipelines w stand.ID = pre ++ p :: post →
          ∃ wa wb, processPipelines polls env stand w2 pre = some (wa, none) ∧
            processPendingPipeline polls env wa p = some (wb, none)) ∧
      (r ≠ none →
        w'.stands = setStandStatus stand.ID StatusError w.stands ∧
        ∃ pre p post wa wb e, pendingPipelines w stand.ID = pre ++ p :: post ∧
          processPipelines polls env stand w2 pre = some (wa, none) ∧
          processPendingPipeline polls env wa p = some (wb, some e) ∧
          ∀ q ∈ post, q ∈ w'.pipelines ∧ ∀ op ∈ ops, op.pipeline? ≠ some q.ID) := by
  rw [processPendingStand] at h
  simp only [hdb, Bool.false_eq_true, if_false] at h
  have hps : pendingPipelines (w.issue (.findPipelines stand.ID)) stand.ID =
      pendingPipelines w stand.ID := pendingPipelines_congr w _ _ rfl
  rw [hps] at h
  rw [if_neg (by simpa using hne)] at h
  obtain ⟨he, hst, hpl, -⟩ := UpdateStandStatus_healthy env hdb (w.issue (.findPipelines stand.ID))
    StatusRunning stand
  have hlog2 : (UpdateStandStatus env (w.issue (.findPipelines stand.ID)) StatusRunning stand).1.log =
      w.log ++ [.findPipelines stand.ID, .updateStand stand.ID StatusRunning] := by
    unfold UpdateStandStatus
    rw [hdb]
    simp [World.issue]
  rw [he] at h
  simp only at h
  generalize (UpdateStandStatus env (w.issue (.findPipelines stand.ID)) StatusRunning stand).1 = w2
    at h he hst hpl hlog2
  have hst2 : w2.stands = setStandStatus stand.ID StatusRunning w.stands := hst
  have hpl2 : w2.pipelines = w.pipelines := hpl
  have hnd := pendingPipelines_ids_nodup w stand.ID hkeys
  have hmem : ∀ q ∈ pendingPipelines w stand.ID, q ∈ w.pipelines := fun q hq =>
    (List.mem_filter.mp hq).1
  cases hp : processPipelines polls env stand w2 (pendingPipelines w stand.ID) with
  | none => rw [hp] at h; simp at h
  | some res =>
    obtain ⟨w3, r3⟩ := res
    rw [hp] at h
    obtain ⟨-, hok, herr⟩ := processPipelines_outcome polls env hdb stand _ w2 w3 r3 hp
    cases r3 with
    | some e =>
      simp only [Option.some.injEq, Prod.mk.injEq] at h
      obtain ⟨rfl, rfl⟩ := h
      obtain ⟨h3, pre, p, post, wa, wb, e', h5, h6, h7, ⟨ops, h8, h9⟩, h10⟩ := herr (by simp)
      refine ⟨w2, ops, he, hst2, by rw [h8, hlog2], fun hr => by simp at hr, fun _ => ⟨?_, ?_⟩⟩
      · rw [h3, hst2, setStandStatus_twice]
      · refine ⟨pre, p, post, wa, wb, e', h5, h6, h7, fun q hq => ?_⟩
        have hqne : ∀ p' ∈ pre ++ [p], q.ID ≠ p'.ID := by
          intro p' hp' heq
          rw [h5] at hnd
          have hnd' : ((pre ++ [p]).map (·.ID) ++ post.map (·.ID)).Nodup := by
            simpa [List.map_append] using hnd
          have hq' : p'.ID ∈ post.map (·.ID) := by
            rw [← heq]; exact List.mem_map_of_mem _ hq
          exact (List.nodup_append.mp hnd').2.2 (List.mem_map_of_mem _ hp') hq'
        refine ⟨h10 q ?_ hqne, fun op hop hcon => ?_⟩
        · rw [hpl2]
          exact hmem q (by rw [h5]; simp [hq])
        · rcases h9 op hop with ho | ⟨p', hp', ho⟩ | ho
          · cases op <;> simp [DbOp.lower, DbOp.pipeline?] at ho hcon
          · rw [ho] at hcon
            exact hqne p' hp' (Option.some.inj hcon).symm
          · rw [ho] at hcon
            simp [DbOp.pipeline?] at hcon
    | none =>
      simp only [Option.some.injEq] at h
      obtain ⟨he4, hst4, -, -⟩ := UpdateStandStatus_healthy env hdb w3 StatusSuccess stand
      have hlog4 : (UpdateStandStatus env w3 StatusSuccess stand).1.log =
          w3.log ++ [.updateStand stand.ID StatusSuccess] := by
        unfold UpdateStandStatus
        rw [hdb]
        simp [World.issue]
      obtain ⟨⟨ops, h8, -⟩, -, -⟩ := processPipelines_outcome polls env hdb stand _ w2 w3 none hp
      rw [he4] at h
      simp only [Prod.mk.injEq] at h
      obtain ⟨rfl, rfl⟩ := h
      obtain ⟨h3, h4⟩ := hok rfl
      refine ⟨w2, ops ++ [.updateStand stand.ID StatusSuccess], he, hst2, ?_,
        fun _ => ⟨?_, h4⟩, fun hr => absurd rfl hr⟩
      · rw [hlog4, h8, hlog2, List.append_assoc]
      · rw [hst4, h3, hst2, setStandStatus_twice]

/-- C21, the witness: the stand of `twoPipelines`; its first pipeline fails on
a job that has already failed, its second pipeline is not reached. -/
theorem processPendingStand_outcome_witness :
    pendingPipelines twoPipelines standA.ID ≠ [] ∧
    ∃ w' r, processPendingStand 1 cooperative twoPipelines standA = some (w', r) ∧ r ≠ none ∧
    ∃ w2 ops,
      UpdateStandStatus cooperative (twoPipelines.issue (.findPipelines standA.ID)) StatusRunning
        standA = (w2, none) ∧
      w2.stands = setStandStatus standA.ID StatusRunning twoPipelines.stands ∧
      w'.log = twoPipelines.log ++
        [.findPipelines standA.ID, .updateStand standA.ID StatusRunning] ++ ops ∧
      (r = none →
        w'.stands = setStandStatus standA.ID StatusSuccess twoPipelines.stands ∧
        ∀ pre p post, pendingPipelines twoPipelines standA.ID = pre ++ p :: post →
          ∃ wa wb, processPipelines 1 cooperative standA w2 pre = some (wa, none) ∧
            processPendingPipeline 1 cooperative wa p = some (wb, none)) ∧
      (r ≠ none →
        w'.stands = setStandStatus standA.ID StatusError twoPipelines.stands ∧
        ∃ pre p post wa wb e, pendingPipelines twoPipelines standA.ID = pre ++ p :: post ∧
          processPipelines 1 cooperative standA w2 pre = some (wa, none) ∧
          processPendingPipeline 1 cooperative wa p = some (wb, some e) ∧
          ∀ q ∈ post, q ∈ w'.pipelines ∧ ∀ op ∈ ops, op.pipeline? ≠ some q.ID) :=
  ⟨by decide, _, some "pipeline failed", rfl, by simp,
    processPendingStand_outcome 1 cooperative twoPipelines _ standA _ (fun _ => rfl) (by decide)
      (by decide) rfl⟩

/-- C21 as stated fails: the stand of `happyStore` has a pending pipeline, the
store rejects the write of the stand's `running` status, and
`processPendingStand` returns an error with the stand still `pending` and its
pipeline untouched. -/
theorem processPendingStand_running_write_rejected :
    pendingPipelines happyStore standA.ID = [pipelineA] ∧
    (processPendingStand 1 rejectsSecondOp happyStore standA).map
      (fun r => (r.2.isSome, r.1.stands.map (·.Status), r.1.pipelines.map (·.Status), r.1.log)) =
      some (true, ["pending"], ["pending"],
        [.findPipelines 1, .updateStand 1 "running"]) := by
  decide

/-! ## The order in which steps are started -/

theorem processSteps_append (polls : Nat) (env : Env) (pl : Pipeline) :
    ∀ (pre rest : List Step) (w : World),
      processSteps polls env pl w (pre ++ rest) =
        match processSteps polls env pl w pre with
        | some (ws, none) => processSteps polls env pl ws rest
        | other => other := by
  intro pre
  induction pre with
  | nil => intro rest w; simp [processSteps]
  | cons p pre ih =>
    intro rest w
    rw [List.cons_append, processSteps, processSteps]
    cases processStep polls env w p with
    | none => rfl
    | some res =>
      obtain ⟨w1, r1⟩ := res
      cases r1 with
      | some e =>
        simp only
        rcases UpdatePipelineStatus env w1 StatusError pl with ⟨w2, r2⟩
        cases r2 with
        | some e2 => rfl
        | none =>
          simp only
          rcases CreateStepNotify env w2 p StatusError with ⟨w3, r3⟩
          cases r3 <;> rfl
      | none =>
        simp only
        rcases CreateStepNotify env w1 p StatusSuccess with ⟨w2, r2⟩
        cases r2 with
        | some e2 => rfl
        | none => exact ih rest w2

theorem UpdateStepStatus_written (env : Env) (w w' : World) (status : String) (step : Step)
    (h : UpdateStepStatus env w status step = (w', none)) :
    w'.steps = setStepStatus step.ID status w.steps := by
  unfold UpdateStepStatus at h
  by_cases hdb : env.dbFails w.log.length = true
  · rw [if_pos hdb] at h; simp at h
  · rw [if_neg hdb] at h
    simp only [Prod.mk.injEq, and_true] at h
    rw [← h]; rfl

theorem processManualJobs_clean (polls : Nat) (env : Env) (step : Step) :
    ∀ (jobs : List Job) (w w' : World),
      processManualJobs polls env step w jobs = some (w', none) → w'.steps = w.steps := by
  intro jobs
  induction jobs with
  | nil =>
    intro w w' h
    simp only [processManualJobs, Option.some.injEq, Prod.mk.injEq, and_true] at h
    rw [h]
  | cons j rest ih =>
    intro w w' h
    rw [processManualJobs] at h
    by_cases hm : j.Status = StatusManual
    · rw [if_pos hm] at h
      cases hp : processJob polls env w j with
      | none => rw [hp] at h; simp at h
      | some res =>
        obtain ⟨w1, r1⟩ := res
        rw [hp] at h
        obtain ⟨hs1, -⟩ := processJob_steps polls env w w1 j r1 hp
        cases r1 with
        | some e =>
          simp only at h
          rcases hx : UpdateStepStatus env w1 StatusError step with ⟨w2, r2⟩
          rw [hx] at h
          cases r2 <;> simp at h
        | none => rw [ih w1 w' h, hs1]
    · rw [if_neg hm] at h
      exact ih w w' h

/-- A step that `processStep` closes without error is `success` afterwards,
whatever the store did with the other operations. -/
theorem processStep_clean (polls : Nat) (env : Env) (w w' : World) (step : Step)
    (h : processStep polls env w step = some (w', none)) :
    w'.steps = setStepStatus step.ID StatusSuccess w.steps := by
  rw [processStep] at h
  by_cases hdb : env.dbFails w.log.length = true
  · simp [hdb] at h
  · simp only [hdb, Bool.false_eq_true, if_false] at h
    split at h
    · rcases hx : UpdateStepStatus env (w.issue (.findJobs step.ID)) StatusError step
        with ⟨w2, r2⟩
      rw [hx] at h
      cases r2 <;> simp at h
    · rcases hx : UpdateStepStatus env (w.issue (.findJobs step.ID)) StatusRunning step
        with ⟨w2, r2⟩
      rw [hx] at h
      cases r2 with
      | some e => simp at h
      | none =>
        have h2 : w2.steps = setStepStatus step.ID StatusRunning w.steps :=
          UpdateStepStatus_written env (w.issue (.findJobs step.ID)) w2 StatusRunning step hx
        simp only at h
        have hloop : ∀ (res : Option (World × Option String)),
            (∀ w3, res = some (w3, none) → w3.steps = w2.steps) →
            (match res with
              | none => none
              | some (w3, some e) => some (w3, some e)
              | some (w3, none) => some (UpdateStepStatus env w3 StatusSuccess step)) =
              some (w', none) →
            w'.steps = setStepStatus step.ID StatusSuccess w.steps := by
          intro res hres hm
          cases res with
          | none => simp at hm
          | some p =>
            obtain ⟨w3, r3⟩ := p
            cases r3 with
            | some e => simp at hm
            | none =>
              simp only [Option.some.injEq] at hm
              rw [UpdateStepStatus_written env w3 w' StatusSuccess step hm, hres w3 rfl, h2,
                setStepStatus_twice]
        apply hloop _ _ h
        intro w3 hres
        split at hres
        · exact processManualJobs_clean polls env step _ w2 w3 hres
        · simp only [Option.some.injEq, Prod.mk.injEq, and_true] at hres
          rw [hres]

/-- The steps the loop has passed without error are `success`. -/
theorem processSteps_clean (polls : Nat) (env : Env) (pl : Pipeline) :
    ∀ (pre : List Step) (w ws : World),
      processSteps polls env pl w pre = some (ws, none) →
      ws.steps = pre.foldl (fun rows s => setStepStatus s.ID StatusSuccess rows) w.steps := by
  intro pre
  induction pre with
  | nil =>
    intro w ws h
    simp only [processSteps, Option.some.injEq, Prod.mk.injEq, and_true] at h
    rw [h]; rfl
  | cons p pre ih =>
    intro w ws h
    rw [processSteps] at h
    cases hp : processStep polls env w p with
    | none => rw [hp] at h; simp at h
    | some res =>
      obtain ⟨w1, r1⟩ := res
      rw [hp] at h
      cases r1 with
      | some e =>
        simp only at h
        rcases hx : UpdatePipelineStatus env w1 StatusError pl with ⟨w2, r2⟩
        rw [hx] at h
        cases r2 with
        | some e2 => simp at h
        | none =>
          simp only at h
          rcases hy : CreateStepNotify env w2 p StatusError with ⟨w3, r3⟩
          rw [hy] at h
          cases r3 <;> simp at h
      | none =>
        simp only at h
        have h1 := processStep_clean polls env w w1 p hp
        obtain ⟨hns, -, -⟩ := CreateStepNotify_tables env w1 p StatusSuccess
        rcases hy : CreateStepNotify env w1 p StatusSuccess with ⟨w2, r2⟩
        rw [hy] at h hns
        cases r2 with
        | some e2 => simp at h
        | none =>
          simp only at h
          rw [ih w2 ws h, List.foldl_cons]
          have : w2.steps = setStepStatus p.ID StatusSuccess w.steps := by rw [hns, h1]
          rw [this]

theorem pendingSteps_ascending (w : World) (pipelineID : Nat) :
    (pendingSteps w pipelineID).Pairwise (fun a b => a.Order ≤ b.Order) := by
  haveI : IsTotal Step (fun a b => a.Order ≤ b.Order) := ⟨fun a b => le_total a.Order b.Order⟩
  haveI : IsTrans Step (fun a b => a.Order ≤ b.Order) := ⟨fun a b c hab hbc => le_trans hab hbc⟩
  exact List.sorted_insertionSort (fun a b : Step => a.Order ≤ b.Order) _

/-- C22 (amended): `processPendingPipeline` takes the pending steps of the
pipeline in ascending ordinal; the step loop reaches a step only after it has
closed every step before it without error, and in the world in which the step
is then set to `running` every step that was pending with a smaller ordinal
has status `success`. -/
theorem processPendingPipeline_ascending (polls : Nat) (env : Env) (w w2 : World)
    (pl : Pipeline) :
    (pendingSteps w pl.ID).Pairwise (fun a b => a.Order ≤ b.Order) ∧
    ∀ pre s post, pendingSteps w pl.ID = pre ++ s :: post →
      (processSteps polls env pl w2 (pendingSteps w pl.ID) =
        match processSteps polls env pl w2 pre with
        | some (ws, none) => processSteps polls env pl ws (s :: post)
        | other => other) ∧
      ∀ ws, processSteps polls env pl w2 pre = some (ws, none) →
        ∀ t ∈ pendingSteps w pl.ID, t.Order < s.Order →
          ∀ a ∈ (ws.issue (.findJobs s.ID)).steps, a.ID = t.ID → a.Status = StatusSuccess := by
  refine ⟨pendingSteps_ascending w pl.ID, fun pre s post hl => ⟨?_, ?_⟩⟩
  · rw [hl]; exact processSteps_append polls env pl pre (s :: post) w2
  · intro ws hws t ht hlt a ha hid
    have hsorted := pendingSteps_ascending w pl.ID
    rw [hl] at hsorted ht
    have htpre : t ∈ pre := by
      rcases List.mem_append.mp ht with h | h
      · exact h
      · rcases List.mem_cons.mp h with h | h
        · rw [h] at hlt; exact absurd hlt (lt_irrefl _)
        · have := (List.pairwise_cons.mp (List.pairwise_append.mp hsorted).2.1).1 t h
          exact absurd (lt_of_le_of_lt this hlt) (lt_irrefl _)
    have hsteps := processSteps_clean polls env pl pre w2 ws hws
    rw [foldl_setStepStatus] at hsteps
    have ha' : a ∈ ws.steps := ha
    rw [hsteps] at ha'
    obtain ⟨a0, -, rfl⟩ := List.mem_map.mp ha'
    by_cases hm : a0.ID ∈ pre.map (·.ID)
    · rw [if_pos hm]
    · rw [if_neg hm] at hid
      exact absurd (List.mem_map.mpr ⟨t, htpre, hid.symm⟩) hm

/-- C22, the witness: the pipeline of `happyStore`; its second step is reached
after the first has been closed. -/
theorem processPendingPipeline_ascending_witness :
    pendingSteps happyStore pipelineA.ID = [infraStep] ++
      { ID := 2, Name := "Executing automation", Order := 2, PipelineID := 1,
        Status := "pending" } ::
      [{ ID := 3, Name := "Executing helm", Order := 3, PipelineID := 1, Status := "pending" }] ∧
    ∃ ws, processSteps 1 cooperative pipelineA (enterStepLoop cooperative happyStore standA pipelineA)
        [infraStep] = some (ws, none) ∧
      ∀ t ∈ pendingSteps happyStore pipelineA.ID, t.Order < 2 →
        ∀ a ∈ (ws.issue (.findJobs 2)).steps, a.ID = t.ID → a.Status = StatusSuccess :=
  ⟨by decide, _, rfl,
    ((processPendingPipeline_ascending 1 cooperative happyStore
      (enterStepLoop cooperative happyStore standA pipelineA) pipelineA).2 [infraStep]
      { ID := 2, Name := "Executing automation", Order := 2, PipelineID := 1,
        Status := "pending" }
      [{ ID := 3, Name := "Executing helm", Order := 3, PipelineID := 1, Status := "pending" }]
      (by decide)).2 _ rfl⟩

/-- C22 as stated fails: in `mixedStore` the first step of the pipeline is
`error` and is not among the pending steps; `processPendingPipeline` sets the
second step to `running` with its fourth store operation, and at that moment
the first step, of a smaller ordinal, is `error`. -/
theorem processPendingPipeline_starts_after_error_step :
    (pendingSteps mixedStore pipelineA.ID).map (·.ID) = [2, 3] ∧
    mixedStoreSecondStepStarted.log =
      [.findSteps 1, .updatePipeline 1 "running", .findJobs 2, .updateStep 2 "running"] ∧
    (processPendingPipeline 1 cooperative mixedStore pipelineA).map
      (fun r => (r.2, r.1.log.take 4)) = some (none, mixedStoreSecondStepStarted.log) ∧
    mixedStoreSecondStepStarted.steps.map (fun s => (s.PipelineID, s.Order, s.Status)) =
      [(1, 1, "error"), (1, 2, "running"), (1, 3, "pending")] := by
  decide

/-! ## The notifications of a pipeline run -/

theorem find?_map_kept {α : Type} (key : α → Nat) (g : α → α) (hg : ∀ a, key (g a) = key a)
    (k : Nat) (l : List α) :
    (l.map g).find? (fun x => key x == k) = (l.find? (fun x => key x == k)).map g := by
  rw [List.find?_map]
  have : ((fun x => key x == k) ∘ g) = (fun x => key x == k) := by
    funext a; simp [hg]
  rw [this]

theorem find?_of_nodup {α : Type} (key : α → Nat) :
    ∀ (l : List α), (l.map key).Nodup → ∀ a ∈ l, l.find? (fun x => key x == key a) = some a := by
  intro l
  induction l with
  | nil => intro _ a ha; simp at ha
  | cons b rest ih =>
    intro hnd a ha
    rw [List.map_cons, List.nodup_cons] at hnd
    rcases List.mem_cons.mp ha with rfl | h
    · simp [List.find?]
    · have hne : key b ≠ key a := fun heq => hnd.1 (heq ▸ List.mem_map_of_mem key h)
      rw [List.find?_cons_of_neg _ (by simpa using hne)]
      exact ih hnd.2 a h

theorem Notifiable.carried {pl : Pipeline} {stand : Stand} {S : List Step} {wk wk' : World}
    (h : Notifiable pl stand S wk) (gs : Step → Step) (gp : Pipeline → Pipeline)
    (hgs : ∀ a, (gs a).ID = a.ID ∧ (gs a).Name = a.Name ∧ (gs a).Order = a.Order ∧
      (gs a).PipelineID = a.PipelineID)
    (hgp : ∀ p, (gp p).ID = p.ID ∧ (gp p).StandID = p.StandID)
    (h1 : wk'.steps = wk.steps.map gs) (h2 : wk'.pipelines = wk.pipelines.map gp)
    (h3 : wk'.stands = wk.stands) : Notifiable pl stand S wk' := by
  refine ⟨fun s hs => ?_, ?_, ?_⟩
  · obtain ⟨row, hr, hn, ho, hp⟩ := h.steps s hs
    refine ⟨gs row, ?_, ?_, ?_, ?_⟩
    · rw [h1, find?_map_kept (fun x : Step => x.ID) gs (fun a => (hgs a).1), hr]; rfl
    · rw [(hgs row).2.1, hn]
    · rw [(hgs row).2.2.1, ho]
    · rw [(hgs row).2.2.2, hp]
  · obtain ⟨q, hq, hs⟩ := h.pipeline
    refine ⟨gp q, ?_, ?_⟩
    · rw [h2, find?_map_kept (fun x : Pipeline => x.ID) gp (fun a => (hgp a).1), hq]; rfl
    · rw [(hgp q).2, hs]
  · rw [h3]; exact h.stand

theorem Notifiable.sameTables {pl : Pipeline} {stand : Stand} {S : List Step} {wk wk' : World}
    (h : Notifiable pl stand S wk) (h1 : wk'.steps = wk.steps)
    (h2 : wk'.pipelines = wk.pipelines) (h3 : wk'.stands = wk.stands) :
    Notifiable pl stand S wk' :=
  h.carried id id (fun _ => ⟨rfl, rfl, rfl, rfl⟩) (fun _ => ⟨rfl, rfl⟩) (by simp [h1])
    (by simp [h2]) h3

theorem Notifiable.stepWritten {pl : Pipeline} {stand : Stand} {S : List Step} {wk wk' : World}
    (h : Notifiable pl stand S wk) (id : Nat) (status : String)
    (h1 : wk'.steps = setStepStatus id status wk.steps)
    (h2 : wk'.pipelines = wk.pipelines) (h3 : wk'.stands = wk.stands) :
    Notifiable pl stand S wk' :=
  h.carried (fun s => if s.ID = id then { s with Status := status } else s) (fun p => p)
    (fun a => by by_cases ha : a.ID = id <;> simp [ha]) (fun _ => ⟨rfl, rfl⟩) h1
    (by simp [h2]) h3

theorem Notifiable.pipelineWritten {pl : Pipeline} {stand : Stand} {S : List Step}
    {wk wk' : World} (h : Notifiable pl stand S wk) (id : Nat) (status : String)
    (h1 : wk'.steps = wk.steps)
    (h2 : wk'.pipelines = setPipelineStatus id status wk.pipelines)
    (h3 : wk'.stands = wk.stands) : Notifiable pl stand S wk' :=
  h.carried (fun s => s) (fun p => if p.ID = id then { p with Status := status } else p)
    (fun _ => ⟨rfl, rfl, rfl, rfl⟩) (fun a => by by_cases ha : a.ID = id <;> simp [ha])
    (by simp [h1]) h2 h3

/-- The row `CreateStepNotify` appends when the store performs its two
operations and its lookups succeed. -/
theorem CreateStepNotify_row (env : Env) (hdb : ∀ n, env.dbFails n = false) (w : World)
    (step : Step) (status : String) (row : Step) (pipeline : Pipeline) (stand : Stand)
    (h1 : w.steps.find? (fun s => s.ID == step.ID) = some row)
    (h2 : w.pipelines.find? (fun p => p.ID == row.PipelineID) = some pipeline)
    (h3 : w.stands.find? (fun s => s.ID == pipeline.StandID) = some stand) :
    CreateStepNotify env w step status = ((CreateStepNotify env w step status).1, none) ∧
    (CreateStepNotify env w step status).1.stepStates = w.stepStates ++
      [{ ID := nextStepStateID w.stepStates, StandName := stand.Name, StepName := row.Name,
         UserID := stand.UserID, Status := status, Send := false, Order := row.Order }] := by
  have e1 : (w.issue (.firstStep step.ID)).steps = w.steps := rfl
  have e2 : (w.issue (.firstStep step.ID)).pipelines = w.pipelines := rfl
  have e3 : (w.issue (.firstStep step.ID)).stands = w.stands := rfl
  unfold CreateStepNotify
  simp only [hdb, Bool.false_eq_true, if_false, e1, e2, e3, h1, h2, h3, Option.getD_some]
  exact ⟨trivial, rfl⟩

theorem CreateStepNotify_appends (env : Env) (w : World) (step : Step) (status : String) :
    ∃ rows, (CreateStepNotify env w step status).1.stepStates = w.stepStates ++ rows := by
  unfold CreateStepNotify
  by_cases hdb : env.dbFails w.log.length = true
  · simp only [hdb, if_true]; exact ⟨[], by simp [World.issue]⟩
  · simp only [hdb, Bool.false_eq_true, if_false]
    cases (w.issue (.firstStep step.ID)).steps.find? (fun s => s.ID == step.ID) with
    | none => exact ⟨[], by simp [World.issue]⟩
    | some row =>
      simp only
      split
      · exact ⟨[], by simp [World.issue]⟩
      · exact ⟨_, rfl⟩

theorem UpdatePipelineStatus_stepStates (env : Env) (w : World) (status : String)
    (pl : Pipeline) : (UpdatePipelineStatus env w status pl).1.stepStates = w.stepStates := by
  unfold UpdatePipelineStatus
  by_cases hdb : env.dbFails w.log.length = true
  · rw [if_pos hdb]; rfl
  · rw [if_neg hdb]; rfl

theorem processSteps_appends (polls : Nat) (env : Env) (pl : Pipeline) :
    ∀ (steps : List Step) (w w' : World) (r : Option String),
      processSteps polls env pl w steps = some (w', r) →
      ∃ rows, w'.stepStates = w.stepStates ++ rows := by
  intro steps
  induction steps with
  | nil =>
    intro w w' r h
    simp only [processSteps, Option.some.injEq, Prod.mk.injEq] at h
    exact ⟨[], by rw [← h.1]; simp⟩
  | cons s rest ih =>
    intro w w' r h
    rw [processSteps] at h
    cases hp : processStep polls env w s with
    | none => rw [hp] at h; simp at h
    | some res =>
      obtain ⟨w1, r1⟩ := res
      rw [hp] at h
      have hu1 := (processStep_within polls env w w1 s r1 hp).2
      cases r1 with
      | some e =>
        simp only at h
        have hs2 := UpdatePipelineStatus_stepStates env w1 StatusError pl
        rcases hx : UpdatePipelineStatus env w1 StatusError pl with ⟨w2, r2⟩
        rw [hx] at h hs2
        cases r2 with
        | some e2 =>
          simp only [Option.some.injEq, Prod.mk.injEq] at h
          exact ⟨[], by rw [← h.1, hs2, hu1.stepStates]; simp⟩
        | none =>
          simp only at h
          obtain ⟨rows, hrows⟩ := CreateStepNotify_appends env w2 s StatusError
          rcases hy : CreateStepNotify env w2 s StatusError with ⟨w3, r3⟩
          rw [hy] at h hrows
          have hfin : w' = w3 := by
            cases r3 <;>
            · simp only [Option.some.injEq, Prod.mk.injEq] at h
              exact h.1.symm
          exact ⟨rows, by rw [hfin, hrows, hs2, hu1.stepStates]⟩
      | none =>
        simp only at h
        obtain ⟨rows, hrows⟩ := CreateStepNotify_appends env w1 s StatusSuccess
        rcases hy : CreateStepNotify env w1 s StatusSuccess with ⟨w3, r3⟩
        rw [hy] at h hrows
        cases r3 with
        | some e3 =>
          simp only [Option.some.injEq, Prod.mk.injEq] at h
          exact ⟨rows, by rw [← h.1, hrows, hu1.stepStates]⟩
        | none =>
          simp only at h
          obtain ⟨rows2, hrows2⟩ := ih w3 w' r h
          exact ⟨rows ++ rows2, by
            rw [hrows2, hrows, hu1.stepStates, List.append_assoc]⟩

/-- The notifications of the step loop with a store that performs every
operation: one `success` row for each step closed without error and one
`error` row for the step that failed. -/
theorem processSteps_notifies (polls : Nat) (env : Env) (hdb : ∀ n, env.dbFails n = false)
    (pl : Pipeline) (stand : Stand) (S : List Step) :
    ∀ (steps : List Step) (wk w' : World) (r : Option String),
      (∀ s ∈ steps, s ∈ S) → Notifiable pl stand S wk →
      processSteps polls env pl wk steps = some (w', r) →
      ∃ rows, w'.stepStates = wk.stepStates ++ rows ∧
        (r = none → rows.map StepState.view = steps.map (fun s =>
          (stand.Name, stand.UserID, s.Name, s.Order, StatusSuccess, false))) ∧
        (r ≠ none → ∃ pre s post wa wb e, steps = pre ++ s :: post ∧
          processSteps polls env pl wk pre = some (wa, none) ∧
          processStep polls env wa s = some (wb, some e) ∧
          rows.map StepState.view = pre.map (fun s =>
            (stand.Name, stand.UserID, s.Name, s.Order, StatusSuccess, false)) ++
            [(stand.Name, stand.UserID, s.Name, s.Order, StatusError, false)]) := by
  intro steps
  induction steps with
  | nil =>
    intro wk w' r _ _ h
    simp only [processSteps, Option.some.injEq, Prod.mk.injEq] at h
    obtain ⟨rfl, rfl⟩ := h
    exact ⟨[], by simp, fun _ => rfl, fun h => absurd rfl h⟩
  | cons s rest ih =>
    intro wk w' r hS hN h
    rw [processSteps] at h
    cases hp : processStep polls env wk s with
    | none => rw [hp] at h; simp at h
    | some res =>
      obtain ⟨w1, r1⟩ := res
      rw [hp] at h
      obtain ⟨hs1, hu1⟩ := processStep_steps polls env hdb wk w1 s r1 hp
      have hN1 : Notifiable pl stand S w1 := hN.stepWritten _ _ hs1 hu1.pipelines hu1.stands
      cases r1 with
      | some e =>
        simp only at h
        obtain ⟨he, hpl, hst, hss⟩ := UpdatePipelineStatus_healthy env hdb w1 StatusError pl
        have hsteps := UpdatePipelineStatus_steps env w1 StatusError pl
        rw [he] at h
        simp only at h
        generalize (UpdatePipelineStatus env w1 StatusError pl).1 = w2 at h hpl hst hss hsteps
        have hN2 : Notifiable pl stand S w2 := hN1.pipelineWritten _ _ hsteps hpl hst
        obtain ⟨row, hr, hn, ho, hpid⟩ := hN2.steps s (hS s (List.mem_cons_self _ _))
        obtain ⟨q, hq, hqs⟩ := hN2.pipeline
        obtain ⟨st, hst2, hsn, hsu⟩ := hN2.stand
        obtain ⟨hc, hrow⟩ := CreateStepNotify_row env hdb w2 s StatusError row q st hr
          (by rw [hpid]; exact hq) (by rw [hqs]; exact hst2)
        rw [hc] at h
        simp only [Option.some.injEq, Prod.mk.injEq] at h
        obtain ⟨rfl, rfl⟩ := h
        refine ⟨_, by rw [hrow, hss, hu1.stepStates], fun h => by simp at h, fun _ => ?_⟩
        refine ⟨[], s, rest, wk, w1, e, rfl, by simp [processSteps], hp, ?_⟩
        simp [StepState.view, hn, ho, hsn, hsu]
      | none =>
        simp only at h
        obtain ⟨row, hr, hn, ho, hpid⟩ := hN1.steps s (hS s (List.mem_cons_self _ _))
        obtain ⟨q, hq, hqs⟩ := hN1.pipeline
        obtain ⟨st, hst2, hsn, hsu⟩ := hN1.stand
        obtain ⟨hc, hrow⟩ := CreateStepNotify_row env hdb w1 s StatusSuccess row q st hr
          (by rw [hpid]; exact hq) (by rw [hqs]; exact hst2)
        obtain ⟨hns, -, -⟩ := CreateStepNotify_tables env w1 s StatusSuccess
        obtain ⟨-, hnst, hnp⟩ := CreateStepNotify_within (fun _ => True) (fun _ => True)
          (fun _ => True) env w1 s StatusSuccess trivial
        rcases hx : CreateStepNotify env w1 s StatusSuccess with ⟨w2, r2⟩
        rw [hx] at h hc hrow hns hnst hnp
        have hr2 : r2 = none := (Prod.mk.inj hc).2
        subst hr2
        simp only at h hrow hns hnst hnp
        have hN2 : Notifiable pl stand S w2 := hN1.sameTables hns hnp hnst
        obtain ⟨rows, hrows, hok, herr⟩ := ih w2 w' r
          (fun x hx => hS x (List.mem_cons_of_mem _ hx)) hN2 h
        obtain ⟨st0, hst0, hview⟩ : ∃ st0 : StepState, w2.stepStates = w1.stepStates ++ [st0] ∧
            st0.view = (stand.Name, stand.UserID, s.Name, s.Order, StatusSuccess, false) :=
          ⟨_, hrow, by simp [StepState.view, hn, ho, hsn, hsu]⟩
        refine ⟨st0 :: rows, by rw [hrows, hst0, hu1.stepStates, List.append_assoc]; rfl,
          fun hr0 => ?_, fun hr0 => ?_⟩
        · rw [List.map_cons, List.map_cons, hok hr0, hview]
        · obtain ⟨pre, s', post, wa, wb, e, h5, h6, h7, h8⟩ := herr hr0
          refine ⟨s :: pre, s', post, wa, wb, e, by rw [h5]; rfl, ?_, h7, ?_⟩
          · rw [processSteps, hp]
            simp only
            rw [hx]
            exact h6
          · rw [List.map_cons, List.map_cons, h8, hview]
            rfl

/-- C25 (amended): `processPendingPipeline` only appends to the `StepState`
table, whatever the store and the provider do.  With a store that performs
every operation, primary keys that are unique and the pipeline stored under
its stand, it appends exactly one row for every step it processes, in the
order of processing: a `success` row for each step closed without error and an
`error` row for the step that failed, each carrying the step's name and order,
the stand's name and owning user and the delivered flag false. -/
theorem processPendingPipeline_notifies (polls : Nat) (env : Env) (w w' : World) (pl : Pipeline)
    (stand : Stand) (r : Option String)
    (h : processPendingPipeline polls env w pl = some (w', r)) :
    (∃ rows, w'.stepStates = w.stepStates ++ rows) ∧
    ((∀ n, env.dbFails n = false) →
      (w.steps.map (·.ID)).Nodup ∧ (w.pipelines.map (·.ID)).Nodup ∧ (w.stands.map (·.ID)).Nodup →
      pl ∈ w.pipelines ∧ stand ∈ w.stands ∧ pl.StandID = stand.ID →
      ∃ w2 rows, (UpdatePipelineStatus env (w.issue (.findSteps pl.ID)) StatusRunning pl).1 = w2 ∧
        w'.stepStates = w.stepStates ++ rows ∧
        (r = none → rows.map StepState.view = (pendingSteps w pl.ID).map (fun s =>
          (stand.Name, stand.UserID, s.Name, s.Order, StatusSuccess, false))) ∧
        (r ≠ none → ∃ pre s post wa wb e, pendingSteps w pl.ID = pre ++ s :: post ∧
          processSteps polls env pl w2 pre = some (wa, none) ∧
          processStep polls env wa s = some (wb, some e) ∧
          rows.map StepState.view = pre.map (fun s =>
            (stand.Name, stand.UserID, s.Name, s.Order, StatusSuccess, false)) ++
            [(stand.Name, stand.UserID, s.Name, s.Order, StatusError, false)])) := by
  have hps : pendingSteps (w.issue (.findSteps pl.ID)) pl.ID = pendingSteps w pl.ID :=
    pendingSteps_congr w _ _ rfl
  constructor
  · rw [processPendingPipeline] at h
    by_cases hdb : env.dbFails w.log.length = true
    · simp only [hdb, if_true, Option.some.injEq, Prod.mk.injEq] at h
      exact ⟨[], by rw [← h.1]; simp [World.issue]⟩
    · simp only [hdb, Bool.false_eq_true, if_false] at h
      split at h
      · simp only [Option.some.injEq, Prod.mk.injEq] at h
        exact ⟨[], by rw [← h.1]; simp [World.issue]⟩
      · have hs2 := UpdatePipelineStatus_stepStates env (w.issue (.findSteps pl.ID))
          StatusRunning pl
        rcases hx : UpdatePipelineStatus env (w.issue (.findSteps pl.ID)) StatusRunning pl
          with ⟨w2, r2⟩
        rw [hx] at h hs2
        have hs2' : w2.stepStates = w.stepStates := hs2
        cases r2 with
        | some e =>
          simp only [Option.some.injEq, Prod.mk.injEq] at h
          exact ⟨[], by rw [← h.1, hs2']; simp⟩
        | none =>
          simp only at h
          cases hp : processSteps polls env pl w2 (pendingSteps (w.issue (.findSteps pl.ID)) pl.ID)
            with
          | none => rw [hp] at h; simp at h
          | some res =>
            obtain ⟨w3, r3⟩ := res
            rw [hp] at h
            obtain ⟨rows, hrows⟩ := processSteps_appends polls env pl _ w2 w3 r3 hp
            cases r3 with
            | some e =>
              simp only [Option.some.injEq, Prod.mk.injEq] at h
              exact ⟨rows, by rw [← h.1, hrows, hs2']⟩
            | none =>
              simp only [Option.some.injEq] at h
              have hs4 := UpdatePipelineStatus_stepStates env w3 StatusSuccess pl
              rw [h] at hs4
              exact ⟨rows, by rw [hs4, hrows, hs2']⟩
  · intro hdb hkeys hrows
    obtain ⟨hk1, hk2, hk3⟩ := hkeys
    obtain ⟨hpl, hstand, hfk⟩ := hrows
    rw [processPendingPipeline] at h
    simp only [hdb, Bool.false_eq_true, if_false] at h
    rw [hps] at h
    obtain ⟨he, hpl2, hst2, hss2⟩ := UpdatePipelineStatus_healthy env hdb
      (w.issue (.findSteps pl.ID)) StatusRunning pl
    have hsteps2 := UpdatePipelineStatus_steps env (w.issue (.findSteps pl.ID)) StatusRunning pl
    have hN0 : Notifiable pl stand (pendingSteps w pl.ID) w := by
      refine ⟨fun s hs => ?_, ⟨pl, ?_, hfk⟩, ⟨stand, ?_, rfl, rfl⟩⟩
      · obtain ⟨hm, hp, -⟩ := mem_pendingSteps w pl.ID s hs
        exact ⟨s, find?_of_nodup (fun x : Step => x.ID) _ hk1 s hm, rfl, rfl, hp⟩
      · exact find?_of_nodup (fun x : Pipeline => x.ID) _ hk2 pl hpl
      · exact find?_of_nodup (fun x : Stand => x.ID) _ hk3 stand hstand
    refine ⟨(UpdatePipelineStatus env (w.issue (.findSteps pl.ID)) StatusRunning pl).1, ?_⟩
    generalize (UpdatePipelineStatus env (w.issue (.findSteps pl.ID)) StatusRunning pl).1 = w2
      at h he hpl2 hst2 hss2 hsteps2 ⊢
    have hN2 : Notifiable pl stand (pendingSteps w pl.ID) w2 :=
      hN0.pipelineWritten _ _ hsteps2 hpl2 hst2
    by_cases hemp : (pendingSteps w pl.ID).length = 0
    · rw [if_pos hemp] at h
      simp only [Option.some.injEq, Prod.mk.injEq] at h
      obtain ⟨rfl, rfl⟩ := h
      have hnil : pendingSteps w pl.ID = [] := List.length_eq_zero.mp hemp
      refine ⟨[], rfl, by simp [World.issue], fun _ => by rw [hnil]; rfl, fun hr => absurd rfl hr⟩
    · rw [if_neg hemp, he] at h
      simp only at h
      cases hp : processSteps polls env pl w2 (pendingSteps w pl.ID) with
      | none => rw [hp] at h; simp at h
      | some res =>
        obtain ⟨w3, r3⟩ := res
        rw [hp] at h
        obtain ⟨rows, hrows, hok, herr⟩ := processSteps_notifies polls env hdb pl stand
          (pendingSteps w pl.ID) _ w2 w3 r3 (fun _ hs => hs) hN2 hp
        have hss2' : w2.stepStates = w.stepStates := hss2
        cases r3 with
        | some e =>
          simp only [Option.some.injEq, Prod.mk.injEq] at h
          obtain ⟨rfl, rfl⟩ := h
          exact ⟨rows, rfl, by rw [hrows, hss2'], fun hr => by simp at hr,
            fun _ => herr (by simp)⟩
        | none =>
          simp only [Option.some.injEq] at h
          have hs4 := UpdatePipelineStatus_stepStates env w3 StatusSuccess pl
          obtain ⟨he4, -⟩ := UpdatePipelineStatus_healthy env hdb w3 StatusSuccess pl
          rw [he4] at h
          simp only [Prod.mk.injEq] at h
          obtain ⟨rfl, rfl⟩ := h
          exact ⟨rows, rfl, by rw [hs4, hrows, hss2'], fun _ => hok rfl,
            fun hr => absurd rfl hr⟩

/-- C25, the witness: the pipeline of `happyStore` under a cooperative
environment; three `success` rows are appended. -/
theorem processPendingPipeline_notifies_witness :
    ∃ w', processPendingPipeline 1 cooperative happyStore pipelineA = some (w', none) ∧
      (∃ rows, w'.stepStates = happyStore.stepStates ++ rows) ∧
      ∃ w2 rows,
        (UpdatePipelineStatus cooperative (happyStore.issue (.findSteps pipelineA.ID))
          StatusRunning pipelineA).1 = w2 ∧
        w'.stepStates = happyStore.stepStates ++ rows ∧
        ((none : Option String) = none →
          rows.map StepState.view = (pendingSteps happyStore pipelineA.ID).map (fun s =>
            (standA.Name, standA.UserID, s.Name, s.Order, StatusSuccess, false))) ∧
        ((none : Option String) ≠ none →
          ∃ pre s post wa wb e, pendingSteps happyStore pipelineA.ID = pre ++ s :: post ∧
            processSteps 1 cooperative pipelineA w2 pre = some (wa, none) ∧
            processStep 1 cooperative wa s = some (wb, some e) ∧
            rows.map StepState.view = pre.map (fun s =>
              (standA.Name, standA.UserID, s.Name, s.Order, StatusSuccess, false)) ++
              [(standA.Name, standA.UserID, s.Name, s.Order, StatusError, false)]) :=
  ⟨_, rfl,
    (processPendingPipeline_notifies 1 cooperative happyStore _ pipelineA standA none rfl).1,
    (processPendingPipeline_notifies 1 cooperative happyStore _ pipelineA standA none rfl).2
      (fun _ => rfl) (by decide) (by decide)⟩

/-- C25 as stated fails: the first step of `happyStore` is processed and
closed as `success`, the store rejects the insert of its notification, and
`processPendingPipeline` returns with no `StepState` row appended. -/
theorem processPendingPipeline_notification_rejected :
    (processPendingPipeline 1 (reporting "success" (fun n => n == 9)) happyStore pipelineA).map
      (fun r => (r.2.isSome, r.1.steps.map (·.Status), r.1.stepStates,
        (r.1.log.get? 9).map (fun op => op == DbOp.createStepState
          { StandName := "stand-a", StepName := "Creating vm", UserID := 7, Status := "success",
            Order := 1 }))) =
      some (true, ["success", "pending", "pending"], [], some true) := by
  decide

/-! ## The status cache never holds a terminal status -/

theorem NoTerminalCached.afterDelete {m : List (String × String)} (h : NoTerminalCached m)
    (k : String) : NoTerminalCached (cacheDelete m k) :=
  fun e he => h e (mem_cacheDelete m k e he).1

theorem checkAndUpdateStatus_keeps_cache_clean (env : Env) (w : World) (job : Job) (key : String)
    (h : NoTerminalCached w.jobStatuses) :
    NoTerminalCached (checkAndUpdateStatus env w job key).1.jobStatuses := by
  unfold checkAndUpdateStatus
  cases env.getJobStatus w.calls.length job.GitlabJobID with
  | error e => exact h.afterDelete key
  | ok status =>
    simp only
    by_cases hc : cacheLoad (w.called (.getJobStatus job.GitlabJobID)).jobStatuses key = some status
    · rw [if_pos hc]; exact h
    · rw [if_neg hc]
      have hu : (UpdateJobStatus env (w.called (.getJobStatus job.GitlabJobID)) status job).1.jobStatuses
          = w.jobStatuses := by
        unfold UpdateJobStatus
        by_cases hdb : env.dbFails (w.called (.getJobStatus job.GitlabJobID)).log.length = true
        · rw [if_pos hdb]; rfl
        · rw [if_neg hdb]; rfl
      rcases hx : UpdateJobStatus env (w.called (.getJobStatus job.GitlabJobID)) status job
        with ⟨w2, r2⟩
      rw [hx] at hu
      have hu' : w2.jobStatuses = w.jobStatuses := hu
      cases r2 with
      | some e => simp only; rw [hu']; exact h
      | none =>
        simp only
        have hstore : ∀ e ∈ cacheDelete (cacheStore w2.jobStatuses key status) key,
            ¬ Terminal e.2 := by
          intro e he
          obtain ⟨he1, he2⟩ := mem_cacheDelete _ key e he
          rcases List.mem_cons.mp he1 with rfl | he3
          · exact absurd rfl he2
          · rw [hu'] at he3
            exact h e (mem_cacheDelete _ key e he3).1
        by_cases hf : status = StatusFailed ∨ status = StatusCanceled
        · rw [if_pos hf]; exact hstore
        · rw [if_neg hf]
          by_cases hs : status = StatusSuccess
          · rw [if_pos hs]; exact hstore
          · rw [if_neg hs]
            intro e he
            rcases List.mem_cons.mp he with rfl | he3
            · rintro (h1 | h1 | h1)
              · exact hs h1
              · exact hf (Or.inl h1)
              · exact hf (Or.inr h1)
            · rw [hu'] at he3
              exact h e (mem_cacheDelete _ key e he3).1

theorem cacheLoad_not_terminal (m : List (String × String)) (h : NoTerminalCached m)
    (k status : String) (ht : Terminal status) : cacheLoad m k ≠ some status :=
  fun hc => h (k, status) (mem_of_cacheLoad m k status hc) ht

/-- C29: a cache that holds no terminal status holds none after one call of
`checkAndUpdateStatus`, and none after any sequence of calls, for any jobs and
keys and whatever the provider answers and the store does; and with such a
cache a poll that finds a terminal status issues the status write, and
`monitorJobStatus` returns after that poll, without error exactly when the
status is `success` and the store performed the write. -/
theorem checkAndUpdateStatus_no_terminal_cached :
    (∀ (env : Env) (w : World) (job : Job) (key : String), NoTerminalCached w.jobStatuses →
      NoTerminalCached (checkAndUpdateStatus env w job key).1.jobStatuses) ∧
    (∀ (calls : List (Env × Job × String)) (w : World), NoTerminalCached w.jobStatuses →
      NoTerminalCached (checkAll w calls).jobStatuses) ∧
    (∀ (polls : Nat) (env : Env) (w : World) (job : Job) (status : String),
      NoTerminalCached w.jobStatuses →
      env.getJobStatus w.calls.length job.GitlabJobID = .ok status → Terminal status →
      ∃ w' r, monitorJobStatus (polls + 1) env w job = some (w', r) ∧
        w'.calls = w.calls ++ [.getJobStatus job.GitlabJobID] ∧
        w'.log = w.log ++ [.updateJobStatus job.ID status] ∧
        (r = none ↔ status = StatusSuccess ∧ env.dbFails w.log.length = false)) := by
  refine ⟨checkAndUpdateStatus_keeps_cache_clean, ?_, ?_⟩
  · intro calls
    induction calls with
    | nil => intro w h; exact h
    | cons c rest ih =>
      intro w h
      exact ih _ (checkAndUpdateStatus_keeps_cache_clean c.1 w c.2.1 c.2.2 h)
  · intro polls env w job status hclean hget ht
    have hc : cacheLoad (w.called (.getJobStatus job.GitlabJobID)).jobStatuses (jobKey job) ≠
        some status := cacheLoad_not_terminal _ hclean _ _ ht
    rw [monitorJobStatus]
    unfold checkAndUpdateStatus
    rw [hget]
    simp only
    rw [if_neg hc]
    unfold UpdateJobStatus
    by_cases hdb : env.dbFails w.log.length = true
    · have hdb' : env.dbFails (w.called (.getJobStatus job.GitlabJobID)).log.length = true := hdb
      rw [if_pos hdb']
      exact ⟨_, _, rfl, rfl, rfl, by simp [hdb]⟩
    · have hdb' : ¬ env.dbFails (w.called (.getJobStatus job.GitlabJobID)).log.length = true := hdb
      rw [if_neg hdb']
      simp only
      by_cases hf : status = StatusFailed ∨ status = StatusCanceled
      · rw [if_pos hf]
        refine ⟨_, _, rfl, rfl, rfl, ?_⟩
        have : status ≠ StatusSuccess := by
          rcases hf with rfl | rfl <;> decide
        simp [this]
      · rw [if_neg hf]
        have hs : status = StatusSuccess := by
          rcases ht with h1 | h1 | h1
          · exact h1
          · exact absurd (Or.inl h1) hf
          · exact absurd (Or.inr h1) hf
        rw [if_pos hs]
        refine ⟨_, _, rfl, rfl, rfl, ?_⟩
        simp [hs]
        simpa using hdb

/-- C29, the witness: the job of `cachedStore "running"`, for which the cache
holds `running`, is reported `failed`; the poll is not suppressed and ends the
monitoring with an error. -/
theorem checkAndUpdateStatus_no_terminal_cached_witness :
    NoTerminalCached (cachedStore "running").jobStatuses ∧ Terminal "failed" ∧
    ∃ w' r, monitorJobStatus 1 (reporting "failed" (fun _ => false)) (cachedStore "running")
        { ID := 1, StepID := 1, GitlabJobID := 11 } = some (w', r) ∧
      w'.calls = (cachedStore "running").calls ++ [.getJobStatus 11] ∧
      w'.log = (cachedStore "running").log ++ [.updateJobStatus 1 "failed"] ∧
      (r = none ↔ "failed" = StatusSuccess ∧
        (reporting "failed" (fun _ => false)).dbFails (cachedStore "running").log.length = false) :=
  ⟨by intro e he; simp [cachedStore] at he; subst he; simp [Terminal, StatusSuccess,
      StatusFailed, StatusCanceled],
    Or.inr (Or.inl rfl),
    checkAndUpdateStatus_no_terminal_cached.2.2 0 (reporting "failed" (fun _ => false))
      (cachedStore "running") { ID := 1, StepID := 1, GitlabJobID := 11 } "failed"
      (by intro e he; simp [cachedStore] at he; subst he; simp [Terminal, StatusSuccess,
        StatusFailed, StatusCanceled])
      rfl (Or.inr (Or.inl rfl))⟩

/-! ## Stand names stay unique -/

theorem firstByID_none {α : Type} (id : α → Nat) (l : List α) (h : firstByID id l = none) :
    l = [] := by
  cases l with
  | nil => rfl
  | cons a rest =>
    rw [firstByID] at h
    cases hr : firstByID id rest with
    | none => rw [hr] at h; simp at h
    | some b =>
      rw [hr] at h
      simp only at h
      split at h <;> simp at h

theorem firstByID_mem {α : Type} (id : α → Nat) :
    ∀ (l : List α) (a : α), firstByID id l = some a → a ∈ l := by
  intro l
  induction l with
  | nil => intro a h; simp [firstByID] at h
  | cons b rest ih =>
    intro a h
    rw [firstByID] at h
    cases hr : firstByID id rest with
    | none =>
      rw [hr] at h
      simp only [Option.some.injEq] at h
      rw [← h]; exact List.mem_cons_self _ _
    | some c =>
      rw [hr] at h
      simp only at h
      split at h
      · simp only [Option.some.injEq] at h
        rw [← h]; exact List.mem_cons_of_mem _ (ih c hr)
      · simp only [Option.some.injEq] at h
        rw [← h]; exact List.mem_cons_self _ _

theorem name_lookup_none (rows : List Stand) (name : String) :
    firstByID (·.ID) (rows.filter (fun s => s.Name == name)) = none ↔
      ∀ s ∈ rows, s.Name ≠ name := by
  constructor
  · intro h s hs hn
    have := firstByID_none _ _ h
    have hm : s ∈ rows.filter (fun s => s.Name == name) :=
      List.mem_filter.mpr ⟨hs, by simpa using hn⟩
    rw [this] at hm
    exact absurd hm (List.not_mem_nil _)
  · intro h
    have : rows.filter (fun s => s.Name == name) = [] := by
      rw [List.filter_eq_nil_iff]
      intro s hs
      simpa using h s hs
    rw [this]; rfl

/-- C26 (amended): `CreateStand` leaves the `stands` table as it is or appends
one row of the requested name under a name no stored stand had, so names that
were unique stay unique.  When a stand of the name is stored nothing is
inserted, and the error is "stand with this name already exists" when the
store performs the lookup.  When no stand has the name and the store performs
the lookup and the insert (the key of the row being new), the stand is
inserted as requested and no error is returned. -/
theorem CreateStand_keeps_names_unique (env : Env) (w : World) (stand : Stand) :
    ((CreateStand env w stand).1.stands = w.stands ∨
      ∃ row, row.Name = stand.Name ∧ (CreateStand env w stand).1.stands = w.stands ++ [row] ∧
        ∀ s ∈ w.stands, s.Name ≠ stand.Name) ∧
    ((w.stands.map (·.Name)).Nodup → ((CreateStand env w stand).1.stands.map (·.Name)).Nodup) ∧
    ((∃ s ∈ w.stands, s.Name = stand.Name) →
      (CreateStand env w stand).1.stands = w.stands ∧
      (env.dbFails w.log.length = false →
        (CreateStand env w stand).2 = some "stand with this name already exists")) ∧
    ((∀ s ∈ w.stands, s.Name ≠ stand.Name) →
      env.dbFails w.log.length = false → env.dbFails (w.log.length + 1) = false →
      (stand.ID = 0 ∨ ∀ s ∈ w.stands, s.ID ≠ stand.ID) →
      (CreateStand env w stand).2 = none ∧
      ∃ id, (stand.ID ≠ 0 → id = stand.ID) ∧ (∀ s ∈ w.stands, s.ID ≠ id) ∧
        (CreateStand env w stand).1.stands = w.stands ++ [{ stand with ID := id }]) := by
  have hframe : (CreateStand env w stand).1.stands = w.stands ∨
      ∃ row, row.Name = stand.Name ∧ (CreateStand env w stand).1.stands = w.stands ++ [row] ∧
        ∀ s ∈ w.stands, s.Name ≠ stand.Name := by
    unfold CreateStand
    by_cases hdb : env.dbFails w.log.length = true
    · simp only [hdb, if_true]; exact Or.inl rfl
    · simp only [hdb, Bool.false_eq_true, if_false]
      cases hl : firstByID (·.ID)
          ((w.issue (.firstStandByName stand.Name)).stands.filter
            (fun s => s.Name == stand.Name)) with
      | some x => exact Or.inl rfl
      | none =>
        simp only
        split
        · exact Or.inl rfl
        · refine Or.inr ⟨_, ?_, rfl, (name_lookup_none w.stands stand.Name).mp hl⟩
          split <;> rfl
  refine ⟨hframe, ?_, ?_, ?_⟩
  · intro hnd
    rcases hframe with h | ⟨row, hn, h, hfresh⟩
    · rw [h]; exact hnd
    · rw [h, List.map_append, List.nodup_append]
      refine ⟨hnd, by simp, ?_⟩
      intro a ha hb
      simp only [List.map_cons, List.map_nil, List.mem_singleton] at hb
      obtain ⟨s, hs, hsa⟩ := List.mem_map.mp ha
      exact hfresh s hs (by rw [hsa, hb, hn])
  · rintro ⟨s, hs, hn⟩
    have hl : firstByID (·.ID) (w.stands.filter (fun s => s.Name == stand.Name)) ≠ none :=
      fun h => (name_lookup_none w.stands stand.Name).mp h s hs hn
    obtain ⟨x, hx⟩ := Option.ne_none_iff_exists'.mp hl
    have hx' : firstByID (·.ID)
        ((w.issue (.firstStandByName stand.Name)).stands.filter
          (fun s => s.Name == stand.Name)) = some x := hx
    constructor
    · rcases hframe with h | ⟨row, -, -, hfresh⟩
      · exact h
      · exact absurd hn (hfresh s hs)
    · intro hdb
      unfold CreateStand
      simp only [hdb, Bool.false_eq_true, if_false, hx']
  · intro hfresh hdb0 hdb1 hkey
    have hl : firstByID (·.ID)
        ((w.issue (.firstStandByName stand.Name)).stands.filter
          (fun s => s.Name == stand.Name)) = none :=
      (name_lookup_none w.stands stand.Name).mpr hfresh
    have hdb1' : env.dbFails (w.issue (.firstStandByName stand.Name)).log.length = false := by
      rw [issue_log_length]; exact hdb1
    have hany : (stand.ID != 0 &&
        ((w.issue (.firstStandByName stand.Name)).issue (.createStand stand)).stands.any
          (fun s => s.ID == stand.ID)) = false := by
      rcases hkey with h0 | hk
      · simp [h0]
      · have : w.stands.any (fun s => s.ID == stand.ID) = false := by
          rw [List.any_eq_false]
          intro s hs
          simpa using hk s hs
        simp [World.issue, this]
    unfold CreateStand
    simp only [hdb0, Bool.false_eq_true, if_false, hl, hdb1', hany, Bool.or_self]
    refine ⟨trivial, ?_⟩
    by_cases h0 : stand.ID = 0
    · refine ⟨nextID (w.stands.map (·.ID)), fun h => absurd h0 h, ?_, ?_⟩
      · intro s hs heq
        have := lt_nextID (w.stands.map (·.ID)) s.ID (List.mem_map_of_mem _ hs)
        omega
      · simp only [h0, if_true]; rfl
    · refine ⟨stand.ID, fun _ => rfl, ?_, ?_⟩
      · rcases hkey with h | h
        · exact absurd h h0
        · exact h
      · simp only [h0, if_false]; rfl

/-- C26, the witness: a stand named `stand-b` is requested while the store
holds one named `stand-a`, under a cooperative environment; it is inserted
under a new key. -/
theorem CreateStand_keeps_names_unique_witness :
    (∀ s ∈ createdStore.stands, s.Name ≠ secondStand.Name) ∧
    (CreateStand cooperative createdStore secondStand).2 = none ∧
    ∃ id, (secondStand.ID ≠ 0 → id = secondStand.ID) ∧ (∀ s ∈ createdStore.stands, s.ID ≠ id) ∧
      (CreateStand cooperative createdStore secondStand).1.stands =
        createdStore.stands ++ [{ secondStand with ID := id }] :=
  ⟨by decide,
    (CreateStand_keeps_names_unique cooperative createdStore secondStand).2.2.2 (by decide) rfl rfl
      (Or.inl rfl)⟩

/-- C26 as stated fails.  `createdStore` holds a stand named `stand-a`; when
the store rejects the lookup, `CreateStand` for that name returns another
error than "stand with this name already exists".  No stand is named
`stand-b`; when the store rejects the insert, `CreateStand` for that name
returns an error and the stand is not inserted. -/
theorem CreateStand_store_rejects :
    ((CreateStand rejectsFirstOp createdStore createdStand).2 ≠
        some "stand with this name already exists" ∧
      (CreateStand rejectsFirstOp createdStore createdStand).2 ≠ none) ∧
    ((∀ s ∈ createdStore.stands, s.Name ≠ secondStand.Name) ∧
      (CreateStand rejectsSecondOp createdStore secondStand).2 ≠ none ∧
      (CreateStand rejectsSecondOp createdStore secondStand).1.stands = createdStore.stands ∧
      (CreateStand rejectsSecondOp createdStore secondStand).1.log =
        [.firstStandByName "stand-b", .createStand secondStand]) := by
  decide

/-! ## The value of the PRODUCTS variable -/

theorem intercalate_go (sep : String) :
    ∀ (rest : List String) (acc b : String),
      String.intercalate.go acc sep (b :: rest) = acc ++ sep ++ stringsJoin sep (b :: rest) := by
  intro rest
  induction rest with
  | nil => intro acc b; simp [String.intercalate.go, stringsJoin]
  | cons c rest ih =>
    intro acc b
    rw [String.intercalate.go, ih, stringsJoin]
    simp [String.append_assoc]

/-- `strings.Join` with a comma gives the product codes joined by commas. -/
theorem stringsJoin_comma (xs : List String) : stringsJoin "," xs = joinedByCommas xs := by
  unfold joinedByCommas
  cases xs with
  | nil => rfl
  | cons a rest =>
    cases rest with
    | nil => simp [String.intercalate, String.intercalate.go, stringsJoin]
    | cons b rest =>
      rw [String.intercalate, intercalate_go, stringsJoin]

theorem stringsJoin_length (sep sep' : String) (h : sep.length = sep'.length) :
    ∀ xs : List String, (stringsJoin sep xs).length = (stringsJoin sep' xs).length
  | [] => rfl
  | [_] => rfl
  | a :: b :: rest => by
    rw [stringsJoin, stringsJoin, String.length_append, String.length_append,
      String.length_append, String.length_append, h, stringsJoin_length sep sep' h (b :: rest)]

/-- C27 at the failing input and beyond: `UpdateVariablesIntoEnvironment`
sends the product codes joined by commas; `CreateVariablesIntoEnvironment`
sends, for every product list, another text, the list as `%s` prints a slice.
For the products `["A","B"]` the two bodies carry `A,B` and `[A B]`. -/
theorem createVariablesValue_not_joined_by_commas :
    (∀ vars, updateVariablesValue vars = joinedByCommas vars) ∧
    (∀ vars, createVariablesValue vars ≠ joinedByCommas vars) ∧
    (∀ vars, createVariablesValue vars ≠ updateVariablesValue vars) ∧
    joinedByCommas ["A", "B"] = "A,B" ∧
    updateVariablesBody ["A", "B"] = "value=A,B" ∧
    createVariablesBody "stand-a" ["A", "B"] =
      "key=PRODUCTS&value=[A B]&environment_scope=stand-a" ∧
    formField "value" (updateVariablesBody ["A", "B"]) = some "A,B" ∧
    formField "value" (createVariablesBody "stand-a" ["A", "B"]) = some "[A B]" := by
  have hne : ∀ vars, createVariablesValue vars ≠ updateVariablesValue vars := by
    intro vars heq
    have hl := congrArg String.length heq
    unfold createVariablesValue sprintStrings updateVariablesValue at hl
    rw [String.length_append, String.length_append,
      stringsJoin_length " " "," rfl vars] at hl
    have h1 : ("[" : String).length = 1 := rfl
    have h2 : ("]" : String).length = 1 := rfl
    omega
  refine ⟨stringsJoin_comma, fun vars h => hne vars (h.trans (stringsJoin_comma vars).symm), hne,
    ?_, ?_, ?_, ?_, ?_⟩
  · rw [← stringsJoin_comma]; decide
  · decide
  · decide
  · decide
  · decide

/-! ## The product list survives the products column -/

theorem hexValue_hexDigit (d : Nat) (h : d < 16) : hexValue (hexDigit d) = some d := by
  interval_cases d <;> rfl

theorem hex4_byte (n : Nat) (h : n < 256) :
    hex4 '0' '0' (hexDigit (n / 16)) (hexDigit (n % 16)) = some n := by
  have h1 : hexValue (hexDigit (n / 16)) = some (n / 16) := hexValue_hexDigit _ (by omega)
  have h2 : hexValue (hexDigit (n % 16)) = some (n % 16) := hexValue_hexDigit _ (by omega)
  have h0 : hexValue '0' = some 0 := rfl
  unfold hex4
  rw [h0, h1, h2]
  simp only [Option.some.injEq]
  omega

theorem unescapeUnit_low (v : Nat) (rest : List Char) (h : v < 0xD800) :
    unescapeUnit v rest = (Char.ofNat v, rest) := by
  unfold unescapeUnit
  rw [if_neg (by omega)]

theorem unquoteRest_short (e ch : Char) (k : List Char) (fuel : Nat)
    (h : shortEscape e = some ch) (hu : e ≠ 'u') :
    unquoteRest (fuel + 1) ('\\' :: e :: k) =
      (unquoteRest fuel k).map (fun p => (ch :: p.1, p.2)) := by
  simp only [unquoteRest, if_neg hu, h, if_true]
  rw [if_neg (by decide)]

theorem unquoteRest_unit (a b x d : Char) (v : Nat) (k : List Char) (fuel : Nat)
    (h : hex4 a b x d = some v) (hv : v < 0xD800) :
    unquoteRest (fuel + 1) ('\\' :: 'u' :: a :: b :: x :: d :: k) =
      (unquoteRest fuel k).map (fun p => (Char.ofNat v :: p.1, p.2)) := by
  rw [unquoteRest, if_neg (by decide), if_pos rfl]
  simp only [if_true, h, unescapeUnit_low v k hv]

theorem unquoteRest_plain (c : Char) (k : List Char) (fuel : Nat)
    (h1 : c ≠ '"') (h2 : c ≠ '\\') (h3 : ¬ c.toNat < 0x20) :
    unquoteRest (fuel + 1) (c :: k) =
      (unquoteRest fuel k).map (fun p => (c :: p.1, p.2)) := by
  simp only [unquoteRest, if_neg h1, if_neg h2, if_neg h3]

/-- Reading back what `json.Marshal` wrote for one character. -/
theorem unquoteRest_escapeChar (c : Char) (k : List Char) (fuel : Nat) :
    unquoteRest (fuel + 1) (escapeChar c ++ k) =
      (unquoteRest fuel k).map (fun p => (c :: p.1, p.2)) := by
  unfold escapeChar
  by_cases h1 : c = '"'
  · rw [if_pos h1, h1]
    exact unquoteRest_short '"' '"' k fuel rfl (by decide)
  rw [if_neg h1]
  by_cases h2 : c = '\\'
  · rw [if_pos h2, h2]
    exact unquoteRest_short '\\' '\\' k fuel rfl (by decide)
  rw [if_neg h2]
  by_cases h3 : c = '\x08'
  · rw [if_pos h3, h3]
    exact unquoteRest_short 'b' '\x08' k fuel rfl (by decide)
  rw [if_neg h3]
  by_cases h4 : c = '\x0c'
  · rw [if_pos h4, h4]
    exact unquoteRest_short 'f' '\x0c' k fuel rfl (by decide)
  rw [if_neg h4]
  by_cases h5 : c = '\n'
  · rw [if_pos h5, h5]
    exact unquoteRest_short 'n' '\n' k fuel rfl (by decide)
  rw [if_neg h5]
  by_cases h6 : c = '\r'
  · rw [if_pos h6, h6]
    exact unquoteRest_short 'r' '\r' k fuel rfl (by decide)
  rw [if_neg h6]
  by_cases h7 : c = '\t'
  · rw [if_pos h7, h7]
    exact unquoteRest_short 't' '\t' k fuel rfl (by decide)
  rw [if_neg h7]
  by_cases h8 : c.toNat < 0x20 ∨ c = '<' ∨ c = '>' ∨ c = '&'
  · rw [if_pos h8]
    have hn : c.toNat < 256 := by
      rcases h8 with h | h | h | h
      · omega
      · rw [h]; decide
      · rw [h]; decide
      · rw [h]; decide
    have := unquoteRest_unit '0' '0' (hexDigit (c.toNat / 16)) (hexDigit (c.toNat % 16))
      c.toNat k fuel (hex4_byte c.toNat hn) (by omega)
    rw [Char.ofNat_toNat] at this
    exact this
  rw [if_neg h8]
  by_cases h9 : c = '\u2028'
  · rw [if_pos h9, h9]
    exact unquoteRest_unit '2' '0' '2' '8' 0x2028 k fuel rfl (by omega)
  rw [if_neg h9]
  by_cases h10 : c = '\u2029'
  · rw [if_pos h10, h10]
    exact unquoteRest_unit '2' '0' '2' '9' 0x2029 k fuel rfl (by omega)
  rw [if_neg h10]
  exact unquoteRest_plain c k fuel h1 h2 (fun h => h8 (Or.inl h))

theorem escapeChar_length_pos (c : Char) : 0 < (escapeChar c).length := by
  unfold escapeChar
  repeat' split
  all_goals exact Nat.succ_pos _

theorem unquoteRest_escaped :
    ∀ (s tail : List Char) (fuel : Nat), s.length < fuel →
      unquoteRest fuel (s.flatMap escapeChar ++ '"' :: tail) = some (s, tail) := by
  intro s
  induction s with
  | nil =>
    intro tail fuel hf
    obtain ⟨n, rfl⟩ : ∃ n, fuel = n + 1 := ⟨fuel - 1, by simp at hf; omega⟩
    simp [unquoteRest]
  | cons c s ih =>
    intro tail fuel hf
    obtain ⟨n, rfl⟩ : ∃ n, fuel = n + 1 := ⟨fuel - 1, by simp at hf; omega⟩
    rw [List.flatMap_cons, List.append_assoc, unquoteRest_escapeChar,
      ih tail n (by simp at hf; omega)]
    rfl

theorem length_le_escaped (s : List Char) : s.length ≤ (s.flatMap escapeChar).length := by
  induction s with
  | nil => simp
  | cons c s ih =>
    rw [List.flatMap_cons, List.length_append, List.length_cons]
    have := escapeChar_length_pos c
    omega

/-- Reading back a string literal that `json.Marshal` wrote. -/
theorem unmarshalElem_quoted (x : String) (tail : List Char) :
    unmarshalElem (quoteString x ++ tail) = some (x, tail) := by
  unfold quoteString
  rw [List.cons_append, List.append_assoc]
  simp only [unmarshalElem, List.singleton_append, if_true]
  rw [unquoteRest_escaped x.toList tail _ (by
    rw [List.length_append, List.length_cons]
    have := length_le_escaped x.toList
    omega)]
  rfl

theorem dropWhile_space_quoted (x : String) (tail : List Char) :
    (quoteString x ++ tail).dropWhile isJSONSpace = quoteString x ++ tail := by
  unfold quoteString
  rw [List.cons_append, List.dropWhile_cons_of_neg (by decide)]

theorem length_le_marshalElems : ∀ xs : List String, xs.length ≤ (marshalElems xs).length
  | [] => by simp
  | [a] => by
    show 1 ≤ ('"' :: (a.toList.flatMap escapeChar ++ ['"'])).length
    rw [List.length_cons]
    omega
  | a :: b :: rest => by
    have := length_le_marshalElems (b :: rest)
    simp only [marshalElems, quoteString, List.length_cons, List.length_append] at this ⊢
    omega

/-- Reading back the elements of an array that `json.Marshal` wrote. -/
theorem unmarshalElems_marshalElems :
    ∀ (xs : List String) (x : String) (tail : List Char) (fuel : Nat),
      (x :: xs).length ≤ fuel →
      unmarshalElems fuel (marshalElems (x :: xs) ++ ']' :: tail) = some (x :: xs, tail) := by
  intro xs
  induction xs with
  | nil =>
    intro x tail fuel hf
    obtain ⟨n, rfl⟩ : ∃ n, fuel = n + 1 := ⟨fuel - 1, by simp at hf; omega⟩
    rw [marshalElems, unmarshalElems, dropWhile_space_quoted, unmarshalElem_quoted]
    simp only
    rw [List.dropWhile_cons_of_neg (by decide)]
    simp only
    rw [if_neg (by decide), if_pos trivial]
  | cons y rest ih =>
    intro x tail fuel hf
    obtain ⟨n, rfl⟩ : ∃ n, fuel = n + 1 := ⟨fuel - 1, by simp at hf; omega⟩
    rw [marshalElems, List.append_assoc, unmarshalElems, dropWhile_space_quoted,
      unmarshalElem_quoted]
    simp only [List.cons_append]
    rw [List.dropWhile_cons_of_neg (by decide)]
    simp only
    rw [if_pos trivial, ih y tail n (by simp at hf ⊢; omega)]
    rfl

/-- Reading back a product list that `json.Marshal` wrote: `json.Unmarshal`
gives the list, the empty list for the nil slice. -/
theorem unmarshalStrings_marshalStrings (products : Option (List String)) :
    unmarshalStrings (marshalStrings products) = .ok (products.getD []) := by
  cases products with
  | none => rfl
  | some xs =>
    cases xs with
    | nil => rfl
    | cons x rest =>
      have hq : marshalElems (x :: rest) ++ [']'] =
          quoteString x ++ ((marshalElems (x :: rest)).drop (quoteString x).length ++ [']']) := by
        cases rest with
        | nil => simp [marshalElems]
        | cons y rest => simp [marshalElems]
      unfold unmarshalStrings marshalStrings
      simp only [String.toList,
        List.dropWhile_cons_of_neg (show ¬ isJSONSpace '[' = true by decide), if_true]
      rw [hq, dropWhile_space_quoted]
      have hhead : quoteString x ++ ((marshalElems (x :: rest)).drop (quoteString x).length ++
          [']']) = '"' :: ((x.toList.flatMap escapeChar ++ ['"']) ++
            ((marshalElems (x :: rest)).drop (quoteString x).length ++ [']'])) := rfl
      rw [hhead]
      simp only
      rw [if_neg (by decide), ← hhead, ← hq,
        unmarshalElems_marshalElems rest x [] _ (by
          rw [List.length_append]
          have := length_le_marshalElems (x :: rest)
          omega)]
      rfl

/-- C28: for every create-stand request `PopulateStand` returns a stand with
status `created`, the requested name and ref, and a `Products` text that
`json.Unmarshal` turns back into the requested product list, element by
element and in order (the empty list for a request without products); so
`GetProductsFromStand` returns that list for a stored stand that carries this
text, when the store performs the lookup. -/
theorem PopulateStand_products_roundtrip (req : CreateStandRequest) :
    (PopulateStand req).Status = "created" ∧
    (PopulateStand req).Name = req.NameStand ∧
    (PopulateStand req).Ref = req.Ref ∧
    unmarshalStrings (PopulateStand req).Products = .ok (req.Products.getD []) ∧
    ∀ (env : Env) (w : World) (row : Stand), env.unmarshal = unmarshalStrings →
      env.dbFails w.log.length = false →
      firstByID (·.ID) (w.stands.filter (fun s => s.Name == req.NameStand)) = some row →
      row.Products = (PopulateStand req).Products →
      (GetProductsFromStand env w req.NameStand).2 = .ok (req.Products.getD []) := by
  refine ⟨rfl, rfl, rfl, unmarshalStrings_marshalStrings req.Products, ?_⟩
  intro env w row henv hdb hrow hprod
  have hrow' : firstByID (·.ID)
      ((w.issue (.firstStandByName req.NameStand)).stands.filter
        (fun s => s.Name == req.NameStand)) = some row := hrow
  unfold GetProductsFromStand
  simp only [hdb, Bool.false_eq_true, if_false, hrow', henv, hprod]
  exact unmarshalStrings_marshalStrings req.Products

/-- C28, the witness: the request of the example; the products column holds
`["A","B"]` as JSON text and is read back as the two products. -/
theorem PopulateStand_products_roundtrip_witness :
    (PopulateStand standRequest).Products = "[\"A\",\"B\"]" ∧
    PopulateStand standRequest = { createdStand with ID := 0 } ∧
    (GetProductsFromStand decoding createdStore standRequest.NameStand).2 =
      .ok (standRequest.Products.getD []) ∧
    standRequest.Products.getD [] = ["A", "B"] :=
  ⟨by decide, by decide,
    (PopulateStand_products_roundtrip standRequest).2.2.2.2 decoding createdStore createdStand
      rfl rfl (by decide) (by decide),
    rfl⟩

/-! ## The executors leave the active set alone -/

theorem UpdateJobStatus_active (env : Env) (w : World) (status : String) (job : Job) :
    (UpdateJobStatus env w status job).1.activeStands = w.activeStands := by
  unfold UpdateJobStatus
  split <;> rfl

theorem updateStartedAt_active (env : Env) (w : World) (job : Job) :
    (updateStartedAt env w job).1.activeStands = w.activeStands := by
  unfold updateStartedAt
  split <;> rfl

theorem updateFinishedAt_active (env : Env) (w : World) (job : Job) :
    (updateFinishedAt env w job).1.activeStands = w.activeStands := by
  unfold updateFinishedAt
  split <;> rfl

theorem UpdateStepStatus_active (env : Env) (w : World) (status : String) (step : Step) :
    (UpdateStepStatus env w status step).1.activeStands = w.activeStands := by
  unfold UpdateStepStatus
  split <;> rfl

theorem UpdatePipelineStatus_active (env : Env) (w : World) (status : String) (pl : Pipeline) :
    (UpdatePipelineStatus env w status pl).1.activeStands = w.activeStands := by
  unfold UpdatePipelineStatus
  split <;> rfl

theorem UpdateStandStatus_active (env : Env) (w : World) (status : String) (stand : Stand) :
    (UpdateStandStatus env w status stand).1.activeStands = w.activeStands := by
  unfold UpdateStandStatus
  split <;> rfl

theorem CreateStepNotify_active (env : Env) (w : World) (step : Step) (status : String) :
    (CreateStepNotify env w step status).1.activeStands = w.activeStands := by
  unfold CreateStepNotify
  dsimp only
  split
  · rfl
  · split
    · rfl
    · split <;> rfl

theorem checkAndUpdateStatus_active (env : Env) (w : World) (job : Job) (key : String) :
    (checkAndUpdateStatus env w job key).1.activeStands = w.activeStands := by
  unfold checkAndUpdateStatus
  cases env.getJobStatus w.calls.length job.GitlabJobID with
  | error e => rfl
  | ok status =>
    simp only
    split
    · rfl
    · have hu := UpdateJobStatus_active env (w.called (.getJobStatus job.GitlabJobID)) status job
      rcases hx : UpdateJobStatus env (w.called (.getJobStatus job.GitlabJobID)) status job
        with ⟨w2, r2⟩
      rw [hx] at hu
      have hu' : w2.activeStands = w.activeStands := hu
      cases r2 with
      | some e => exact hu'
      | none =>
        simp only
        split
        · exact hu'
        · split <;> exact hu'

theorem monitorJobStatus_active (env : Env) (job : Job) :
    ∀ (polls : Nat) (w w' : World) (r : Option String),
      monitorJobStatus polls env w job = some (w', r) → w'.activeStands = w.activeStands := by
  intro polls
  induction polls with
  | zero => intro w w' r h; simp [monitorJobStatus] at h
  | succ n ih =>
    intro w w' r h
    rw [monitorJobStatus] at h
    have hc := checkAndUpdateStatus_active env w job (jobKey job)
    rcases hx : checkAndUpdateStatus env w job (jobKey job) with ⟨w1, fin, err⟩
    rw [hx] at h hc
    cases err with
    | some e =>
      simp only [Option.some.injEq, Prod.mk.injEq] at h
      rw [← h.1]; exact hc
    | none =>
      cases fin with
      | true =>
        simp only [Option.some.injEq, Prod.mk.injEq] at h
        rw [← h.1]; exact hc
      | false =>
        simp only at h
        exact (ih w1 w' r h).trans hc

theorem triggerJob_active (env : Env) (w : World) (job : Job) :
    (triggerJob env w job).1.activeStands = w.activeStands := by
  unfold triggerJob
  split
  · simp only
    cases env.runJob w.calls.length job.GitlabJobID with
    | some e => rfl
    | none => exact updateStartedAt_active env _ job
  · rfl

theorem processJob_active (polls : Nat) (env : Env) (w w' : World) (job : Job)
    (r : Option String) (h : processJob polls env w job = some (w', r)) :
    w'.activeStands = w.activeStands := by
  unfold processJob at h
  have ht := triggerJob_active env w job
  rcases hx : triggerJob env w job with ⟨w1, r1⟩
  rw [hx] at h ht
  cases r1 with
  | some e =>
    simp only [Option.some.injEq, Prod.mk.injEq] at h
    rw [← h.1]; exact ht
  | none =>
    simp only at h
    cases hm : monitorJobStatus polls env w1 job with
    | none => rw [hm] at h; simp at h
    | some res =>
      obtain ⟨w2, r2⟩ := res
      rw [hm] at h
      have h2 := monitorJobStatus_active env job polls w1 w2 r2 hm
      cases r2 with
      | some e =>
        simp only [Option.some.injEq, Prod.mk.injEq] at h
        rw [← h.1]; exact h2.trans ht
      | none =>
        simp only [Option.some.injEq] at h
        have h3 := updateFinishedAt_active env w2 job
        rw [h] at h3
        exact h3.trans (h2.trans ht)

theorem processManualJobs_active (polls : Nat) (env : Env) (step : Step) :
    ∀ (jobs : List Job) (w w' : World) (r : Option String),
      processManualJobs polls env step w jobs = some (w', r) →
      w'.activeStands = w.activeStands := by
  intro jobs
  induction jobs with
  | nil =>
    intro w w' r h
    simp only [processManualJobs, Option.some.injEq, Prod.mk.injEq] at h
    rw [← h.1]
  | cons j rest ih =>
    intro w w' r h
    rw [processManualJobs] at h
    by_cases hm : j.Status = StatusManual
    · rw [if_pos hm] at h
      cases hp : processJob polls env w j with
      | none => rw [hp] at h; simp at h
      | some res =>
        obtain ⟨w1, r1⟩ := res
        rw [hp] at h
        have h1 := processJob_active polls env w w1 j r1 hp
        cases r1 with
        | some e =>
          simp only at h
          have h2 := UpdateStepStatus_active env w1 StatusError step
          rcases hx : UpdateStepStatus env w1 StatusError step with ⟨w2, r2⟩
          rw [hx] at h h2
          cases r2 <;>
          · simp only [Option.some.injEq, Prod.mk.injEq] at h
            rw [← h.1]; exact h2.trans h1
        | none => exact (ih w1 w' r h).trans h1
    · rw [if_neg hm] at h
      exact ih w w' r h

theorem processStep_active (polls : Nat) (env : Env) (w w' : World) (step : Step)
    (r : Option String) (h : processStep polls env w step = some (w', r)) :
    w'.activeStands = w.activeStands := by
  rw [processStep] at h
  by_cases hdb : env.dbFails w.log.length = true
  · simp only [hdb, if_true, Option.some.injEq, Prod.mk.injEq] at h
    rw [← h.1]; rfl
  · simp only [hdb, Bool.false_eq_true, if_false] at h
    split at h
    · have h2 := UpdateStepStatus_active env (w.issue (.findJobs step.ID)) StatusError step
      rcases hx : UpdateStepStatus env (w.issue (.findJobs step.ID)) StatusError step
        with ⟨w2, r2⟩
      rw [hx] at h h2
      cases r2 <;>
      · simp only [Option.some.injEq, Prod.mk.injEq] at h
        rw [← h.1]; exact h2
    · have h2 := UpdateStepStatus_active env (w.issue (.findJobs step.ID)) StatusRunning step
      rcases hx : UpdateStepStatus env (w.issue (.findJobs step.ID)) StatusRunning step
        with ⟨w2, r2⟩
      rw [hx] at h h2
      have h2' : w2.activeStands = w.activeStands := h2
      cases r2 with
      | some e =>
        simp only [Option.some.injEq, Prod.mk.injEq] at h
        rw [← h.1]; exact h2'
      | none =>
        simp only at h
        have hloop : ∀ (res : Option (World × Option String)),
            (∀ w3 r3, res = some (w3, r3) → w3.activeStands = w2.activeStands) →
            (match res with
              | none => none
              | some (w3, some e) => some (w3, some e)
              | some (w3, none) => some (UpdateStepStatus env w3 StatusSuccess step)) =
              some (w', r) →
            w'.activeStands = w2.activeStands := by
          intro res hres hm
          cases res with
          | none => simp at hm
          | some p =>
            obtain ⟨w3, r3⟩ := p
            have h3 := hres w3 r3 rfl
            cases r3 with
            | some e =>
              simp only [Option.some.injEq, Prod.mk.injEq] at hm
              rw [← hm.1]; exact h3
            | none =>
              simp only [Option.some.injEq] at hm
              have h4 := UpdateStepStatus_active env w3 StatusSuccess step
              rw [hm] at h4
              exact h4.trans h3
        refine (hloop _ ?_ h).trans h2'
        intro w3 r3 hres
        split at hres
        · exact processManualJobs_active polls env step _ w2 w3 r3 hres
        · simp only [Option.some.injEq, Prod.mk.injEq] at hres
          rw [← hres.1]

theorem processSteps_active (polls : Nat) (env : Env) (pl : Pipeline) :
    ∀ (steps : List Step) (w w' : World) (r : Option String),
      processSteps polls env pl w steps = some (w', r) → w'.activeStands = w.activeStands := by
  intro steps
  induction steps with
  | nil =>
    intro w w' r h
    simp only [processSteps, Option.some.injEq, Prod.mk.injEq] at h
    rw [← h.1]
  | cons s rest ih =>
    intro w w' r h
    rw [processSteps] at h
    cases hp : processStep polls env w s with
    | none => rw [hp] at h; simp at h
    | some res =>
      obtain ⟨w1, r1⟩ := res
      rw [hp] at h
      have h1 := processStep_active polls env w w1 s r1 hp
      cases r1 with
      | some e =>
        simp only at h
        have h2 := UpdatePipelineStatus_active env w1 StatusError pl
        rcases hx : UpdatePipelineStatus env w1 StatusError pl with ⟨w2, r2⟩
        rw [hx] at h h2
        cases r2 with
        | some e2 =>
          simp only [Option.some.injEq, Prod.mk.injEq] at h
          rw [← h.1]; exact h2.trans h1
        | none =>
          simp only at h
          have h3 := CreateStepNotify_active env w2 s StatusError
          rcases hy : CreateStepNotify env w2 s StatusError with ⟨w3, r3⟩
          rw [hy] at h h3
          have hfin : w' = w3 := by
            cases r3 <;>
            · simp only [Option.some.injEq, Prod.mk.injEq] at h
              exact h.1.symm
          rw [hfin]; exact h3.trans (h2.trans h1)
      | none =>
        simp only at h
        have h3 := CreateStepNotify_active env w1 s StatusSuccess
        rcases hy : CreateStepNotify env w1 s StatusSuccess with ⟨w3, r3⟩
        rw [hy] at h h3
        cases r3 with
        | some e3 =>
          simp only [Option.some.injEq, Prod.mk.injEq] at h
          rw [← h.1]; exact h3.trans h1
        | none =>
          simp only at h
          exact (ih w3 w' r h).trans (h3.trans h1)

theorem processPendingPipeline_active (polls : Nat) (env : Env) (w w' : World) (pl : Pipeline)
    (r : Option String) (h : processPendingPipeline polls env w pl = some (w', r)) :
    w'.activeStands = w.activeStands := by
  rw [processPendingPipeline] at h
  by_cases hdb : env.dbFails w.log.length = true
  · simp only [hdb, if_true, Option.some.injEq, Prod.mk.injEq] at h
    rw [← h.1]; rfl
  · simp only [hdb, Bool.false_eq_true, if_false] at h
    split at h
    · simp only [Option.some.injEq, Prod.mk.injEq] at h
      rw [← h.1]; rfl
    · have h2 := UpdatePipelineStatus_active env (w.issue (.findSteps pl.ID)) StatusRunning pl
      rcases hx : UpdatePipelineStatus env (w.issue (.findSteps pl.ID)) StatusRunning pl
        with ⟨w2, r2⟩
      rw [hx] at h h2
      have h2' : w2.activeStands = w.activeStands := h2
      cases r2 with
      | some e =>
        simp only [Option.some.injEq, Prod.mk.injEq] at h
        rw [← h.1]; exact h2'
      | none =>
        simp only at h
        cases hp : processSteps polls env pl w2 (pendingSteps (w.issue (.findSteps pl.ID)) pl.ID)
          with
        | none => rw [hp] at h; simp at h
        | some res =>
          obtain ⟨w3, r3⟩ := res
          rw [hp] at h
          have h3 := processSteps_active polls env pl _ w2 w3 r3 hp
          cases r3 with
          | some e =>
            simp only [Option.some.injEq, Prod.mk.injEq] at h
            rw [← h.1]; exact h3.trans h2'
          | none =>
            simp only [Option.some.injEq] at h
            have h4 := UpdatePipelineStatus_active env w3 StatusSuccess pl
            rw [h] at h4
            exact h4.trans (h3.trans h2')

theorem processPipelines_active (polls : Nat) (env : Env) (stand : Stand) :
    ∀ (l : List Pipeline) (w w' : World) (r : Option String),
      processPipelines polls env stand w l = some (w', r) → w'.activeStands = w.activeStands := by
  intro l
  induction l with
  | nil =>
    intro w w' r h
    simp only [processPipelines, Option.some.injEq, Prod.mk.injEq] at h
    rw [← h.1]
  | cons p rest ih =>
    intro w w' r h
    rw [processPipelines] at h
    cases hp : processPendingPipeline polls env w p with
    | none => rw [hp] at h; simp at h
    | some res =>
      obtain ⟨w1, r1⟩ := res
      rw [hp] at h
      have h1 := processPendingPipeline_active polls env w w1 p r1 hp
      cases r1 with
      | some e =>
        simp only at h
        have h2 := UpdateStandStatus_active env w1 StatusError stand
        rcases hx : UpdateStandStatus env w1 StatusError stand with ⟨w2, r2⟩
        rw [hx] at h h2
        cases r2 <;>
        · simp only [Option.some.injEq, Prod.mk.injEq] at h
          rw [← h.1]; exact h2.trans h1
      | none => exact (ih w1 w' r h).trans h1

/-- `processPendingStand` neither registers nor removes a name. -/
theorem processPendingStand_active (polls : Nat) (env : Env) (w w' : World) (stand : Stand)
    (r : Option String) (h : processPendingStand polls env w stand = some (w', r)) :
    w'.activeStands = w.activeStands := by
  rw [processPendingStand] at h
  by_cases hdb : env.dbFails w.log.length = true
  · simp only [hdb, if_true, Option.some.injEq, Prod.mk.injEq] at h
    rw [← h.1]; rfl
  · simp only [hdb, Bool.false_eq_true, if_false] at h
    split at h
    · simp only [Option.some.injEq, Prod.mk.injEq] at h
      rw [← h.1]; rfl
    · have h2 := UpdateStandStatus_active env (w.issue (.findPipelines stand.ID)) StatusRunning
        stand
      rcases hx : UpdateStandStatus env (w.issue (.findPipelines stand.ID)) StatusRunning stand
        with ⟨w2, r2⟩
      rw [hx] at h h2
      have h2' : w2.activeStands = w.activeStands := h2
      cases r2 with
      | some e =>
        simp only [Option.some.injEq, Prod.mk.injEq] at h
        rw [← h.1]; exact h2'
      | none =>
        simp only at h
        cases hp : processPipelines polls env stand w2
            (pendingPipelines (w.issue (.findPipelines stand.ID)) stand.ID) with
        | none => rw [hp] at h; simp at h
        | some res =>
          obtain ⟨w3, r3⟩ := res
          rw [hp] at h
          have h3 := processPipelines_active polls env stand _ w2 w3 r3 hp
          cases r3 with
          | some e =>
            simp only [Option.some.injEq, Prod.mk.injEq] at h
            rw [← h.1]; exact h3.trans h2'
          | none =>
            simp only [Option.some.injEq] at h
            have h4 := UpdateStandStatus_active env w3 StatusSuccess stand
            rw [h] at h4
            exact h4.trans (h3.trans h2')

theorem ensureBranch_active (env : Env) (w : World) (stand : Stand) :
    (ensureBranch env w stand).1.activeStands = w.activeStands := by
  unfold ensureBranch
  cases env.checkBranchExist w.provisioning.length stand.Name with
  | error e => rfl
  | ok b => cases b <;> rfl

theorem ensureEnvironment_active (env : Env) (w : World) (stand : Stand) :
    (ensureEnvironment env w stand).1.activeStands = w.activeStands := by
  unfold ensureEnvironment
  cases env.checkEnvironmentExist w.provisioning.length stand.Name with
  | error e => rfl
  | ok b => cases b <;> rfl

theorem ensureVariables_active (env : Env) (w : World) (stand : Stand) (products : List String) :
    (ensureVariables env w stand products).1.activeStands = w.activeStands := by
  unfold ensureVariables
  cases env.checkVariablesIntoEnvironment w.provisioning.length stand.Name with
  | error e => rfl
  | ok b => cases b <;> rfl

theorem GetProductsFromStand_active (env : Env) (w : World) (name : String) :
    (GetProductsFromStand env w name).1.activeStands = w.activeStands := by
  unfold GetProductsFromStand
  dsimp only
  split
  · rfl
  · split <;> rfl

theorem GetStandByName_active (env : Env) (w : World) (name : String) :
    (GetStandByName env w name).1.activeStands = w.activeStands := by
  unfold GetStandByName
  dsimp only
  split
  · rfl
  · split <;> rfl

theorem CreatePipeline_active (env : Env) (w : World) (p : Pipeline) :
    (CreatePipeline env w p).1.activeStands = w.activeStands := by
  unfold CreatePipeline
  split <;> rfl

theorem CreateStandPipeline_active (env : Env) (w : World) (name : String) :
    (CreateStandPipeline env w name).1.activeStands = w.activeStands := by
  unfold CreateStandPipeline
  have h1 := GetStandByName_active env w name
  rcases hx : GetStandByName env w name with ⟨w1, r1⟩
  rw [hx] at h1
  cases r1 with
  | error e => exact h1
  | ok st =>
    simp only
    have h2 := CreatePipeline_active env w1
      { Name := st.Name, StandID := st.ID, Status := "pending" }
    rcases hy : CreatePipeline env w1 { Name := st.Name, StandID := st.ID, Status := "pending" }
      with ⟨w2, r2⟩
    rw [hy] at h2
    cases r2 with
    | error e => exact h2.trans h1
    | ok p => exact h2.trans h1

theorem CreateStep_active (env : Env) (w : World) (s : Step) :
    (CreateStep env w s).1.activeStands = w.activeStands := by
  unfold CreateStep
  split <;> rfl

theorem createSteps_active (env : Env) :
    ∀ (steps : List Step) (w : World),
      (createSteps env w steps).1.activeStands = w.activeStands := by
  intro steps
  induction steps with
  | nil => intro w; rfl
  | cons s rest ih =>
    intro w
    rw [createSteps]
    have h1 := CreateStep_active env w s
    rcases hx : CreateStep env w s with ⟨w1, r1⟩
    rw [hx] at h1
    cases r1 with
    | some e => exact h1
    | none => exact (ih w1).trans h1

theorem UpdateStandPipeline_active (env : Env) (w : World) (name : String) (id : Int) :
    (UpdateStandPipeline env w name id).1.activeStands = w.activeStands := by
  unfold UpdateStandPipeline
  dsimp only
  split
  · rfl
  · split
    · rfl
    · split
      · rfl
      · rw [createSteps_active]; rfl

theorem GetStepByStandName_active (env : Env) (w : World) (name : String) :
    (GetStepByStandName env w name).1.activeStands = w.activeStands := by
  unfold GetStepByStandName
  split <;> rfl

theorem CreateJob_active (env : Env) (w : World) (jobs : List Job) :
    (CreateJob env w jobs).1.activeStands = w.activeStands := by
  unfold CreateJob
  split
  · rfl
  · split <;> rfl

theorem commitDropped_active (env : Env) (w snapshot : World) :
    (w.commitDropped env snapshot).activeStands = w.activeStands := by
  unfold World.commitDropped
  split <;> rfl

theorem createPipelineAndJobs_active (env : Env) (snapshot w : World) (stand : Stand) :
    (createPipelineAndJobs env snapshot w stand).1.activeStands = w.activeStands := by
  unfold createPipelineAndJobs
  have h1 := CreateStandPipeline_active env w stand.Name
  rcases hx : CreateStandPipeline env w stand.Name with ⟨w1, r1⟩
  rw [hx] at h1
  have h1' : w1.activeStands = w.activeStands := h1
  cases r1 with
  | some e => exact h1'
  | none =>
    simp only
    cases env.runPipeline w1.provisioning.length stand.Name with
    | error e => exact h1'
    | ok pid =>
      simp only
      have h2 := UpdateStandPipeline_active env (w1.provisioned (.runPipeline stand.Name))
        stand.Name pid
      rcases hy : UpdateStandPipeline env (w1.provisioned (.runPipeline stand.Name)) stand.Name
        pid with ⟨w3, r3⟩
      rw [hy] at h2
      have h3 : w3.activeStands = w.activeStands := h2.trans h1'
      cases r3 with
      | some e => exact h3
      | none =>
        simp only
        cases env.getJobsFromPipeline w3.provisioning.length pid with
        | error e => exact h3
        | ok jobs =>
          simp only
          have h4 := GetStepByStandName_active env
            (w3.provisioned (.getJobsFromPipeline pid)) stand.Name
          rcases hz : GetStepByStandName env (w3.provisioned (.getJobsFromPipeline pid))
            stand.Name with ⟨w5, r5⟩
          rw [hz] at h4
          have h5 : w5.activeStands = w.activeStands := h4.trans h3
          cases r5 with
          | error e => exact h5
          | ok steps =>
            simp only
            rw [commitDropped_active, CreateJob_active]
            exact h5

/-- `ProcessCreatingStand` neither registers nor removes a name. -/
theorem ProcessCreatingStand_active (env : Env) (w : World) (stand : Stand) :
    (ProcessCreatingStand env w stand).1.activeStands = w.activeStands := by
  unfold ProcessCreatingStand
  simp only
  have h1 := ensureBranch_active env w.begun stand
  rcases hx : ensureBranch env w.begun stand with ⟨w1, r1⟩
  rw [hx] at h1
  have h1' : w1.activeStands = w.activeStands := h1
  cases r1 with
  | some e => exact h1'
  | none =>
    simp only
    have h2 := ensureEnvironment_active env w1 stand
    rcases hy : ensureEnvironment env w1 stand with ⟨w2, r2⟩
    rw [hy] at h2
    have h2' : w2.activeStands = w.activeStands := h2.trans h1'
    cases r2 with
    | some e => exact h2'
    | none =>
      simp only
      have h3 := GetProductsFromStand_active env w2 stand.Name
      rcases hz : GetProductsFromStand env w2 stand.Name with ⟨w3, r3⟩
      rw [hz] at h3
      have h3' : w3.activeStands = w.activeStands := h3.trans h2'
      cases r3 with
      | error e => exact h3'
      | ok products =>
        simp only
        have h4 := ensureVariables_active env w3 stand products
        rcases hu : ensureVariables env w3 stand products with ⟨w4, r4⟩
        rw [hu] at h4
        have h4' : w4.activeStands = w.activeStands := h4.trans h3'
        cases r4 with
        | some e => exact h4'
        | none =>
          simp only
          rw [createPipelineAndJobs_active]
          exact h4'

/-! ## The active set under the schedules of a lane -/

theorem mem_activeStore (m : List String) (x n : String) :
    n ∈ activeStore m x ↔ n = x ∨ n ∈ m := by
  unfold activeStore
  by_cases h : n = x
  · simp [h]
  · simp [h]

theorem mem_activeDelete (m : List String) (x n : String) :
    n ∈ activeDelete m x ↔ n ∈ m ∧ n ≠ x := by
  unfold activeDelete
  simp

theorem lt_length_of_getElem? {α : Type} {l : List α} {i : Nat} {a : α} (h : l[i]? = some a) :
    i < l.length := by
  by_contra hlt
  rw [List.getElem?_eq_none (Nat.le_of_not_lt hlt)] at h
  cases h

theorem getElem?_restaged {l : List (Stand × Stage)} {i j : Nat} {stand s : Stand}
    {st1 st : Stage} (h : (l.set i (stand, st1))[j]? = some (s, st)) :
    (j = i ∧ s = stand ∧ st = st1) ∨ (j ≠ i ∧ l[j]? = some (s, st)) := by
  rw [List.getElem?_set] at h
  by_cases hij : i = j
  · rw [if_pos hij] at h
    split at h
    · cases h
      exact Or.inl ⟨hij.symm, rfl, rfl⟩
    · cases h
  · rw [if_neg hij] at h
    exact Or.inr ⟨fun e => hij e.symm, h⟩

theorem getElem?_restaged_self {l : List (Stand × Stage)} {i : Nat} {x y : Stand × Stage}
    (hi : l[i]? = some x) : (l.set i y)[i]? = some y := by
  rw [List.getElem?_set, if_pos rfl, if_pos (lt_length_of_getElem? hi)]

theorem set_ne_nil {l : List (Stand × Stage)} {i : Nat} {x y : Stand × Stage}
    (hi : l[i]? = some x) : l.set i y ≠ [] := by
  intro h
  have := lt_length_of_getElem? hi
  have hl : (l.set i y).length = l.length := List.length_set ..
  rw [h] at hl
  simp at hl
  omega

/-- A move of the goroutine of the lane keeps the lane sound. -/
theorem Lane.loop_sound (w : World) (stands : List Stand) (L L1 : Lane)
    (hs : Lane.Sound w stands L) (h : L.loop = some L1) : Lane.Sound w stands L1 := by
  unfold Lane.loop at h
  split at h
  · cases h
  · split at h
    · rename_i stand hw
      split at h
      · cases h
        refine ⟨hs.kept, ?_, ?_, hs.ahead, ?_, ?_⟩
        · intro j s st hj
          simp only at hj
          rw [List.getElem?_append] at hj
          split at hj
          · exact hs.fresh j s st hj
          · have hmem := List.getElem?_mem hj
            simp only [List.mem_singleton, Prod.mk.injEq] at hmem
            rw [hmem.1]
            exact hs.held stand hw
        · intro s h'
          cases h'
        · intro n hn
          rcases hs.owned n hn with h0 | ⟨j, s, st, hj, hrest⟩
          · exact Or.inl h0
          · refine Or.inr ⟨j, s, st, ?_, hrest⟩
            simp only
            rw [List.getElem?_append, if_pos (lt_length_of_getElem? hj)]
            exact hj
        · intro h'
          simp at h'
      · cases h
    · rename_i hw
      split at h
      · rename_i stand rest htodo
        split at h
        · cases h
          refine ⟨hs.kept, hs.fresh, hs.held, ?_, hs.owned, hs.idle⟩
          intro s hmem
          exact hs.ahead s (by rw [htodo]; exact List.mem_cons_of_mem _ hmem)
        · rename_i hact
          cases h
          refine ⟨hs.kept, hs.fresh, ?_, ?_, hs.owned, hs.idle⟩
          · intro s h'
            simp only [Option.some.injEq] at h'
            subst h'
            exact ⟨hs.ahead _ (by rw [htodo]; exact List.mem_cons_self _ _),
              fun hin => hact (hs.kept _ hin)⟩
          · intro s hmem
            exact hs.ahead s (by rw [htodo]; exact List.mem_cons_of_mem _ hmem)
      · split at h
        · cases h
          exact ⟨hs.kept, hs.fresh, hs.held, hs.ahead, hs.owned, hs.idle⟩
        · cases h

/-- A change of the stage of a task that leaves the active set as it is keeps
the lane sound. -/
theorem Lane.Sound.restaged {w : World} {stands : List Stand} {L L1 : Lane} {i : Nat}
    {stand : Stand} {st0 st1 : Stage} (hs : Lane.Sound w stands L)
    (hi : L.tasks[i]? = some (stand, st0))
    (h1 : st1 ≠ .started) (h1e : st1 ≠ .ended)
    (hworld : L1.world.activeStands = L.world.activeStands)
    (htasks : L1.tasks = L.tasks.set i (stand, st1))
    (hwait : L1.waiting = L.waiting) (htodo : L1.todo = L.todo) : Lane.Sound w stands L1 := by
  refine ⟨?_, ?_, ?_, ?_, ?_, ?_⟩
  · rw [hworld]; exact hs.kept
  · intro j s st hj
    rw [htasks] at hj
    rcases getElem?_restaged hj with ⟨_, hsj, _⟩ | ⟨_, hj'⟩
    · rw [hsj]; exact hs.fresh i stand st0 hi
    · exact hs.fresh j s st hj'
  · rw [hwait]; exact hs.held
  · rw [htodo]; exact hs.ahead
  · intro n hn
    rw [hworld] at hn
    rcases hs.owned n hn with hw | ⟨j, s, st, hj, hname, hst⟩
    · exact Or.inl hw
    · by_cases hji : j = i
      · subst hji
        rw [hi] at hj
        cases hj
        exact Or.inr ⟨j, stand, st1, by rw [htasks]; exact getElem?_restaged_self hi, hname, h1, h1e⟩
      · refine Or.inr ⟨j, s, st, ?_, hname, hst⟩
        rw [htasks, List.getElem?_set_ne (fun e => hji e.symm)]
        exact hj
  · intro hnil
    rw [htasks] at hnil
    exact absurd hnil (set_ne_nil hi)

/-- A move of a task keeps the lane sound, when the function body of the task
leaves the active set alone. -/
theorem Lane.act_sound (body : World → Stand → Option (World × Bool))
    (hbody : ∀ (w w1 : World) (s : Stand) (b : Bool),
      body w s = some (w1, b) → w1.activeStands = w.activeStands)
    (w : World) (stands : List Stand) (L L1 : Lane) (i : Nat)
    (hs : Lane.Sound w stands L) (h : L.act body i = some L1) : Lane.Sound w stands L1 := by
  unfold Lane.act at h
  split at h
  · cases h
  · rename_i stand hi
    cases h
    refine ⟨?_, ?_, hs.held, hs.ahead, ?_, ?_⟩
    · intro n hn
      exact (mem_activeStore _ _ _).2 (Or.inr (hs.kept n hn))
    · intro j s st hj
      rcases getElem?_restaged hj with ⟨_, hsj, _⟩ | ⟨_, hj'⟩
      · rw [hsj]; exact hs.fresh i stand _ hi
      · exact hs.fresh j s st hj'
    · intro n hn
      rcases (mem_activeStore _ _ _).1 hn with hn | hn
      · exact Or.inr ⟨i, stand, .registered, getElem?_restaged_self hi, hn.symm,
          by decide, by decide⟩
      · rcases hs.owned n hn with hw | ⟨j, s, st, hj, hname, hst⟩
        · exact Or.inl hw
        · have hji : j ≠ i := by
            intro e
            subst e
            rw [hi] at hj
            cases hj
            exact hst.1 rfl
          refine Or.inr ⟨j, s, st, ?_, hname, hst⟩
          show (L.tasks.set i (stand, Stage.registered))[j]? = some (s, st)
          rw [List.getElem?_set_ne (fun e => hji e.symm)]
          exact hj
    · intro hnil
      exact absurd hnil (set_ne_nil hi)
  · rename_i stand hi
    split at h
    · cases h
    · rename_i w1 hb
      cases h
      have hact := hbody _ _ _ _ hb
      refine ⟨?_, hs.fresh, hs.held, hs.ahead, ?_, ?_⟩
      · intro n hn
        show n ∈ w1.activeStands
        rw [hact]; exact hs.kept n hn
      · intro n hn
        have hn' : n ∈ w1.activeStands := hn
        rw [hact] at hn'
        exact hs.owned n hn'
      · intro hnil
        have hnil' : L.tasks = [] := hnil
        rw [hnil'] at hi
        cases hi
    · rename_i w1 hb
      cases h
      exact hs.restaged hi (by decide) (by decide) (hbody _ _ _ _ hb) rfl rfl rfl
  · rename_i stand hi
    cases h
    exact hs.restaged hi (by decide) (by decide) rfl rfl rfl rfl
  · rename_i stand hi
    cases h
    exact hs.restaged hi (by decide) (by decide) rfl rfl rfl rfl
  · rename_i stand hi
    cases h
    have hfresh := hs.fresh i stand _ hi
    refine ⟨?_, ?_, hs.held, hs.ahead, ?_, ?_⟩
    · intro n hn
      refine (mem_activeDelete _ _ _).2 ⟨hs.kept n hn, ?_⟩
      intro e
      rw [e] at hn
      exact hfresh.2 hn
    · intro j s st hj
      rcases getElem?_restaged hj with ⟨_, hsj, _⟩ | ⟨_, hj'⟩
      · rw [hsj]; exact hfresh
      · exact hs.fresh j s st hj'
    · intro n hn
      rcases (mem_activeDelete _ _ _).1 hn with ⟨hn, hne⟩
      rcases hs.owned n hn with hw | ⟨j, s, st, hj, hname, hst⟩
      · exact Or.inl hw
      · have hji : j ≠ i := by
          intro e
          subst e
          rw [hi] at hj
          cases hj
          exact hne hname.symm
        refine Or.inr ⟨j, s, st, ?_, hname, hst⟩
        show (L.tasks.set i (stand, Stage.ended))[j]? = some (s, st)
        rw [List.getElem?_set_ne (fun e => hji e.symm)]
        exact hj
    · intro hnil
      exact absurd hnil (set_ne_nil hi)
  · cases h

/-- Every move keeps the lane sound. -/
theorem Lane.step_sound (body : World → Stand → Option (World × Bool))
    (hbody : ∀ (w w1 : World) (s : Stand) (b : Bool),
      body w s = some (w1, b) → w1.activeStands = w.activeStands)
    (w : World) (stands : List Stand) (L L1 : Lane) (m : Move)
    (hs : Lane.Sound w stands L) (h : L.step body m = some L1) : Lane.Sound w stands L1 := by
  cases m with
  | lane =>
    simp only [Lane.step] at h
    split at h
    · cases h
    · exact Lane.loop_sound w stands L L1 hs h
  | task i =>
    simp only [Lane.step] at h
    split at h
    · cases h
    · exact Lane.act_sound body hbody w stands L L1 i hs h

/-- Every schedule keeps the lane sound. -/
theorem Lane.run_sound (body : World → Stand → Option (World × Bool))
    (hbody : ∀ (w w1 : World) (s : Stand) (b : Bool),
      body w s = some (w1, b) → w1.activeStands = w.activeStands)
    (w : World) (stands : List Stand) :
    ∀ (moves : List Move) (L L1 : Lane), Lane.Sound w stands L →
      Lane.run body L moves = some L1 → Lane.Sound w stands L1 := by
  intro moves
  induction moves with
  | nil =>
    intro L L1 hs h
    simp only [Lane.run, Option.some.injEq] at h
    rw [← h]; exact hs
  | cons m rest ih =>
    intro L L1 hs h
    rw [Lane.run] at h
    split at h
    · cases h
    · rename_i L2 hstep
      exact ih L2 L1 (Lane.step_sound body hbody w stands L L2 m hs hstep) h

/-- The lane is sound when its loop starts. -/
theorem Lane.start_sound (capacity : Nat) (w : World) (stands : List Stand) :
    Lane.Sound w stands (Lane.start capacity w stands) := by
  refine ⟨fun n hn => hn, ?_, ?_, fun s hs => hs, fun n hn => Or.inl hn, fun _ => rfl⟩
  · intro j s st hj
    simp [Lane.start] at hj
  · intro s h
    simp [Lane.start] at h

/-- In a sound lane all of whose tasks have ended, the only names registered
are those registered at the start, and none of them is the name of a task. -/
theorem Lane.Sound.settled {w : World} {stands : List Stand} {L : Lane}
    (hs : Lane.Sound w stands L)
    (hended : ∀ (j : Nat) (s : Stand) (st : Stage), L.tasks[j]? = some (s, st) → st = .ended) :
    (∀ n ∈ L.world.activeStands, n ∈ w.activeStands) ∧
      ∀ (j : Nat) (s : Stand) (st : Stage), L.tasks[j]? = some (s, st) →
        s.Name ∉ L.world.activeStands := by
  have h1 : ∀ n ∈ L.world.activeStands, n ∈ w.activeStands := by
    intro n hn
    rcases hs.owned n hn with hw | ⟨j, s, st, hj, _, _, hne⟩
    · exact hw
    · exact absurd (hended j s st hj) hne
  exact ⟨h1, fun j s st hj hin => (hs.fresh j s st hj).2 (h1 _ hin)⟩

theorem pendingBody_active (polls : Nat) (env : Env) (w w1 : World) (s : Stand) (b : Bool)
    (h : pendingBody polls env w s = some (w1, b)) : w1.activeStands = w.activeStands := by
  unfold pendingBody at h
  split at h
  · cases h
  · rename_i w2 r hp
    cases h
    exact processPendingStand_active polls env w w1 s r hp

theorem createdBody_active (env : Env) (w w1 : World) (s : Stand) (b : Bool)
    (h : createdBody env w s = some (w1, b)) : w1.activeStands = w.activeStands := by
  unfold createdBody at h
  have hp := ProcessCreatingStand_active env w s
  split at h
  · rename_i w2 hx
    rw [hx] at hp
    cases h
    exact hp
  · rename_i w2 e hx
    rw [hx] at hp
    cases h
    exact hp
  · rename_i w2 hx
    rw [hx] at hp
    simp only at h
    split at h
    · cases h
      exact hp
    · cases h
      rw [commitDropped_active]
      exact hp

/-- The task of the sequential reading of the created lane is the task of
the scheduled one, run from its start to its end without a break. -/
theorem createdTask_eq_body (env : Env) (w : World) (stand : Stand) :
    createdTask env w stand =
      match createdBody env { w with activeStands := activeStore w.activeStands stand.Name }
        stand with
      | none => (w, false)
      | some (w1, true) => (w1, true)
      | some (w1, false) =>
        ({ w1 with activeStands := activeDelete w1.activeStands stand.Name }, false) := by
  unfold createdTask createdBody
  simp only
  rcases ProcessCreatingStand env { w with activeStands := activeStore w.activeStands stand.Name }
    stand with ⟨w1, e⟩
  cases e with
  | exited => rfl
  | returned err =>
    cases err with
    | some e => rfl
    | none =>
      simp only
      split <;> rfl

/-- The loop passes over a stand whose name it finds in the active set: the
world, the tasks, the semaphore and the wait group stay as they are. -/
theorem Lane.loop_passes_over (L : Lane) (stand : Stand) (rest : List Stand)
    (hending : L.ending = none) (hwait : L.waiting = none) (htodo : L.todo = stand :: rest)
    (hact : stand.Name ∈ L.world.activeStands) : L.loop = some { L with todo := rest } := by
  unfold Lane.loop
  rw [hending, hwait, htodo]
  simp only [Option.isSome_none, Bool.false_eq_true, if_false]
  rw [if_pos hact]

theorem returned_sound (capacity : Nat) (w : World) (stands : List Stand)
    (e : Option Ending) :
    Lane.Sound w stands { Lane.start capacity w [] with ending := e } :=
  ⟨fun _ hn => hn, fun j s st hj => by simp [Lane.start] at hj,
    fun s h => by simp [Lane.start] at h, fun s h => by simp [Lane.start] at h,
    fun _ hn => Or.inl hn, fun _ => rfl⟩

theorem pendingLane_sound (env : Env) (w : World) :
    Lane.Sound (w.issue (.findStands StatusPending))
      (w.stands.filter (fun s => s.Status == StatusPending)) (pendingLane env w) := by
  unfold pendingLane
  simp only
  split
  · exact returned_sound _ _ _ _
  · split
    · exact returned_sound _ _ _ _
    · exact Lane.start_sound _ _ _

theorem createdLane_sound (env : Env) (w : World) :
    Lane.Sound (w.issue (.findStands "created"))
      (w.stands.filter (fun s => s.Status == "created")) (createdLane env w) := by
  unfold createdLane
  simp only
  split
  · exact returned_sound _ _ _ _
  · split
    · exact returned_sound _ _ _ _
    · exact Lane.start_sound _ _ _

/-- What a sound lane gives for the stands of status `status` it found in the
world `w`, `w1` being `w` after the query. -/
theorem Lane.Sound.reading {w w1 : World} {status : String} {L : Lane}
    (hactive : w1.activeStands = w.activeStands)
    (hs : Lane.Sound w1 (w.stands.filter (fun s => s.Status == status)) L) :
    (∀ (j : Nat) (s : Stand) (st : Stage), L.tasks[j]? = some (s, st) →
      s ∈ w.stands ∧ s.Status = status ∧ s.Name ∉ w.activeStands) ∧
    ((∀ s ∈ w.stands, s.Status = status → s.Name ∈ w.activeStands) → L.world = w1) ∧
    (∀ n ∈ w.activeStands, n ∈ L.world.activeStands) ∧
    ((∀ (j : Nat) (s : Stand) (st : Stage), L.tasks[j]? = some (s, st) → st = .ended) →
      (∀ n ∈ L.world.activeStands, n ∈ w.activeStands) ∧
      ∀ (j : Nat) (s : Stand) (st : Stage), L.tasks[j]? = some (s, st) →
        s.Name ∉ L.world.activeStands) := by
  have hfresh : ∀ (j : Nat) (s : Stand) (st : Stage), L.tasks[j]? = some (s, st) →
      s ∈ w.stands ∧ s.Status = status ∧ s.Name ∉ w.activeStands := by
    intro j s st hj
    obtain ⟨hmem, hname⟩ := hs.fresh j s st hj
    rw [hactive] at hname
    rw [List.mem_filter] at hmem
    exact ⟨hmem.1, by simpa using hmem.2, hname⟩
  refine ⟨hfresh, ?_, ?_, ?_⟩
  · intro hall
    apply hs.idle
    cases htasks : L.tasks with
    | nil => rfl
    | cons t rest =>
      obtain ⟨s, st⟩ := t
      have h0 : L.tasks[0]? = some (s, st) := by rw [htasks]; simp
      obtain ⟨hmem, hstatus, hname⟩ := hfresh 0 s st h0
      exact absurd (hall s hmem hstatus) hname
  · intro n hn
    exact hs.kept n (by rw [hactive]; exact hn)
  · intro hended
    obtain ⟨h1, h2⟩ := hs.settled hended
    rw [hactive] at h1
    exact ⟨h1, h2⟩

/-- C23 (amended): under every schedule of the goroutines of
`CheckPendingStands` (`status` is `pending`) and of `CheckCreatedStands`
(`status` is `created`), a task is started only for a stand of that status
whose name is not in the active set when the lane runs; when the name of every
such stand is in the active set the lane does nothing but its query; the names
that were in the active set stay there; and once every task the lane started
has ended, whether its executor succeeded or failed, the active set holds only
names it held before the lane ran, none of them the name of a stand the lane
processed. -/
theorem lanes_keep_active_set (polls : Nat) (env : Env) (w : World) (moves : List Move)
    (L : Lane) (status : String)
    (h : (status = StatusPending ∧ CheckPendingStands polls env w moves = some L) ∨
      (status = "created" ∧ CheckCreatedStands.scheduled env w moves = some L)) :
    (∀ (j : Nat) (s : Stand) (st : Stage), L.tasks[j]? = some (s, st) →
      s ∈ w.stands ∧ s.Status = status ∧ s.Name ∉ w.activeStands) ∧
    ((∀ s ∈ w.stands, s.Status = status → s.Name ∈ w.activeStands) →
      L.world = w.issue (.findStands status)) ∧
    (∀ n ∈ w.activeStands, n ∈ L.world.activeStands) ∧
    ((∀ (j : Nat) (s : Stand) (st : Stage), L.tasks[j]? = some (s, st) → st = .ended) →
      (∀ n ∈ L.world.activeStands, n ∈ w.activeStands) ∧
      ∀ (j : Nat) (s : Stand) (st : Stage), L.tasks[j]? = some (s, st) →
        s.Name ∉ L.world.activeStands) := by
  rcases h with ⟨hstatus, h⟩ | ⟨hstatus, h⟩
  · subst hstatus
    exact (Lane.run_sound (pendingBody polls env) (pendingBody_active polls env) _ _
      moves _ L (pendingLane_sound env w) h).reading rfl
  · subst hstatus
    exact (Lane.run_sound (createdBody env) (createdBody_active env) _ _
      moves _ L (createdLane_sound env w) h).reading rfl

/-- The pending lane of the example under the schedule that lets the task end
before the lane returns: the task ran for `stand-a`, and no name is left in
the active set. -/
theorem lanes_keep_active_set_witness :
    ∃ L, CheckPendingStands 1 cooperative idleStore oneTask = some L ∧
      L.ending = some (.returned none) ∧ L.tasks = [(standA, .ended)] ∧
      L.world.activeStands = [] ∧
      ((∀ (j : Nat) (s : Stand) (st : Stage), L.tasks[j]? = some (s, st) → st = .ended) →
        (∀ n ∈ L.world.activeStands, n ∈ idleStore.activeStands) ∧
        ∀ (j : Nat) (s : Stand) (st : Stage), L.tasks[j]? = some (s, st) →
          s.Name ∉ L.world.activeStands) :=
  ⟨_, rfl, rfl, rfl, rfl,
    (lanes_keep_active_set 1 cooperative idleStore oneTask _ StatusPending
      (Or.inl ⟨rfl, rfl⟩)).2.2.2⟩

/-- C23 fails as stated: the deferred function of a task calls `wg.Done()`
before `r.activeStands.Delete(stand.Name)` (scheduler.go:201-205, 256-260).
Under the schedule in which the goroutine of the lane passes `wg.Wait()`
between the two, either lane has returned while the name of the stand it
processed is still in the active set. -/
theorem lanes_return_before_delete :
    (∃ L, CheckPendingStands 1 cooperative idleStore earlyReturn = some L ∧
      L.ending = some (.returned none) ∧ L.tasks = [(standA, .signalled)] ∧
      standA.Name ∈ L.world.activeStands) ∧
    (∃ L, CheckCreatedStands.scheduled (provisioner false (fun _ => false)) createdStore
        earlyReturn = some L ∧
      L.ending = some (.returned none) ∧ L.tasks = [(createdStand, .signalled)] ∧
      createdStand.Name ∈ L.world.activeStands) :=
  ⟨⟨_, rfl, rfl, rfl, by decide⟩, ⟨_, rfl, rfl, rfl, by decide⟩⟩

end Orchestrator
